import Mathlib

/-!
The build planner of minicargo (`tools/minicargo/build.cpp`).

A shallow embedding of the build planner of minicargo: the graph builder
(`BuildList::BuildList`), the depfile reader (`load_depfile`), the staleness
oracle (`RunState::outfile_needs_rebuild`), the job planner
(`BuildList::build`), the `start` functions of the jobs and the POSIX branch of
`spawn_process`, followed by theorems about them. The scheduler
(`JobList::run_all`) is defined outside `build.cpp` and is modelled from the
specification.

Conventions of the embedding:
* a `PackageManifest` reference is a package identifier (`PkgId`), resolved
  through a `World`; pointer equality of manifests is equality of identifiers;
* `helpers::path` is the string it holds;
* the recursion `add_package` / `add_dependencies` is bounded by a fuel
  argument and returns `none` when the fuel runs out;
* `unsigned level` is a natural number: a level equals the depth of the
  recursion that produced it (plus one for development dependencies).
-/

namespace Minicargo

/-! ## Data model -/

/-- Identity of a `PackageManifest` object (its address in the source). -/
abbrev PkgId := Nat

/-- Semver triple of a package. -/
structure PackageVersion where
  major : Nat
  minor : Nat
  patch : Nat
deriving DecidableEq, Repr

/-- Enumeration `PackageTarget::Type`. -/
inductive TargetType where
  | Lib
  | Bin
  | Test
  | Example
deriving DecidableEq, Repr

/-- Enumeration `PackageTarget::CrateType`; `other` stands for every enumerator
that `get_crate_path` does not name. -/
inductive CrateType where
  | proc_macro
  | dylib
  | rlib
  | other
deriving DecidableEq, Repr

/-- Enumeration `Edition`. -/
inductive Edition where
  | Unspec
  | Rust2015
  | Rust2018
deriving DecidableEq, Repr

/-- A target of a package (`PackageTarget`). -/
structure PackageTarget where
  m_name : String
  m_path : String
  m_type : TargetType
  m_crate_types : List CrateType
  m_is_proc_macro : Bool
  m_edition : Edition
deriving DecidableEq, Repr

/-- A dependency edge (`PackageRef`). -/
structure PackageRef where
  key : String
  is_disabled : Bool
  get_package : PkgId
deriving DecidableEq, Repr

/-- The queryable attributes of a `PackageManifest` used by the planner. -/
structure PackageManifest where
  name : String
  version : PackageVersion
  directory : String
  manifest_path : String
  edition : Edition
  build_script : String
  active_features : List String
  all_features : List String
  targets : List PackageTarget
  main_dependencies : List PackageRef
  build_dependencies : List PackageRef
  dev_dependencies : List PackageRef
deriving Repr

/-- The manifests reachable from the root, by identity. -/
abbrev World := PkgId → PackageManifest

/-- Modelled from the spec: `PackageManifest::get_library` is declared in
`manifest.h`, which is not part of the sources; it is the first target of type
`Lib`, when there is one. -/
def PackageManifest.library? (p : PackageManifest) : Option PackageTarget :=
  p.targets.find? (fun t => t.m_type == TargetType.Lib)

/-- Modelled from the spec: `PackageManifest::has_library`. -/
def PackageManifest.has_library (p : PackageManifest) : Bool :=
  p.library?.isSome

/-- The test `p.has_library() && p.get_library().m_is_proc_macro`. -/
def PackageManifest.is_proc_lib (p : PackageManifest) : Bool :=
  match p.library? with
  | some t => t.m_is_proc_macro
  | none => false

/-- Enumeration `BuildOptions::Mode`. -/
inductive Mode where
  | Normal
  | Test
  | Examples
deriving DecidableEq, Repr

/-- The fields of `BuildOptions`; an optional path is `none` when it is not
valid, `target_name` is `none` for the null pointer. -/
structure BuildOptions where
  output_dir : String
  target_name : Option String
  emit_mmir : Bool
  enable_debug : Bool
  lib_search_dirs : List String
  build_script_overrides : Option String
  mode : Mode
deriving DecidableEq, Repr

/-! ## Graph builder: `BuildList::BuildList` -/

/-- Entry of `ListBuilder::m_list`. -/
structure Ent where
  package : PkgId
  native : Bool
  level : Nat
deriving DecidableEq, Repr

/-- Entry of `BuildList::m_list`. -/
structure GraphEntry where
  package : PkgId
  is_host : Bool
deriving DecidableEq, Repr

/-- The "already loaded" test of `add_package`. -/
def Ent.covers (ent : Ent) (p : PkgId) (is_native : Bool) (level : Nat) : Bool :=
  ent.package == p && ent.native == is_native && decide (level ≤ ent.level)

/-- One pass of `iter_*_dependencies` with the callback of `add_dependencies`:
every non-disabled edge calls `add_package` at `level+1`. -/
def add_each (addp : PkgId → Nat → Bool → Bool → List Ent → Option (List Ent))
    (level : Nat) (include_build is_native : Bool) :
    List PackageRef → List Ent → Option (List Ent)
  | [], m_list => some m_list
  | dep :: rest, m_list =>
    if dep.is_disabled then add_each addp level include_build is_native rest m_list
    else
      match addp dep.get_package (level + 1) include_build is_native m_list with
      | none => none
      | some m_list1 => add_each addp level include_build is_native rest m_list1

/-- Body of `ListBuilder::add_dependencies`, with `add_package` as a parameter. -/
def add_dependencies_with (addp : PkgId → Nat → Bool → Bool → List Ent → Option (List Ent))
    (p : PackageManifest) (level : Nat) (include_build is_native : Bool)
    (m_list : List Ent) : Option (List Ent) :=
  match add_each addp level include_build is_native p.main_dependencies m_list with
  | none => none
  | some m_list1 =>
    if p.build_script != "" && include_build then
      add_each addp level true true p.build_dependencies m_list1
    else some m_list1

/-- Function `ListBuilder::add_package`; the first argument bounds the depth of
the recursion. -/
def add_package (w : World) : Nat → PkgId → Nat → Bool → Bool → List Ent → Option (List Ent)
  | 0, _, _, _, _, _ => none
  | fuel + 1, p, level, include_build, is_native, m_list =>
    let is_native := if (w p).is_proc_lib then true else is_native
    if m_list.any (fun ent => ent.covers p is_native level) then some m_list
    else
      add_dependencies_with (add_package w fuel) (w p) level include_build is_native
        (m_list ++ [⟨p, is_native, level⟩])

/-- Function `ListBuilder::add_dependencies`. -/
def add_dependencies (w : World) (fuel : Nat) (p : PkgId) (level : Nat)
    (include_build is_native : Bool) (m_list : List Ent) : Option (List Ent) :=
  add_dependencies_with (add_package w fuel) (w p) level include_build is_native m_list

/-- The list of `BuildList::BuildList` before `sort_list` is called. -/
def BuildList.collect (w : World) (fuel : Nat) (root : PkgId) (opts : BuildOptions) :
    Option (List Ent) :=
  let cross_compiling := opts.target_name.isSome
  let include_build := !opts.build_script_overrides.isSome
  match add_dependencies w fuel root 0 include_build (!cross_compiling) [] with
  | none => none
  | some l1 =>
    let l2 := if (w root).has_library then l1 ++ [⟨root, !cross_compiling, 0⟩] else l1
    if opts.mode != Mode.Normal then
      add_each (add_package w fuel) 0 include_build (!cross_compiling)
        (w root).dev_dependencies l2
    else some l2

/-- Postcondition of `std::sort` with the comparator `a.level > b.level`: the
result is a rearrangement of the input in which no later element compares
before an earlier one. The order of entries of equal level is not determined. -/
def std_sort_post (input output : List Ent) : Prop :=
  output.Perm input ∧ output.Pairwise (fun a b => b.level ≤ a.level)

/-- One admissible outcome of the `std::sort` call (a stable insertion sort). -/
def sort_by_level (l : List Ent) : List Ent :=
  l.insertionSort (fun a b => b.level ≤ a.level)

/-- The deduplication loop of `sort_list`: `kept` is the range before `it`,
the second argument the range from `it` on. -/
def dedup_loop : List Ent → List Ent → List Ent
  | kept, [] => kept
  | kept, e :: rest =>
    if kept.any (fun x => x.package == e.package && x.native == e.native) then
      dedup_loop kept rest
    else dedup_loop (kept ++ [e]) rest

/-- The copy loop at the end of the constructor. -/
def to_graph (l : List Ent) : List GraphEntry :=
  l.map (fun e => ⟨e.package, e.native⟩)

/-- Function `ListBuilder::sort_list`, for the stable outcome of the sort. -/
def sort_list (m_list : List Ent) : List Ent :=
  dedup_loop [] (sort_by_level m_list)

/-- Constructor `BuildList::BuildList`, for the stable outcome of the sort. -/
def BuildList.new (w : World) (fuel : Nat) (root : PkgId) (opts : BuildOptions) :
    Option (List GraphEntry) :=
  (BuildList.collect w fuel root opts).map (fun l => to_graph (sort_list l))

/-- The lists that `BuildList::BuildList` can produce: the collected list,
sorted in any way `std::sort` allows, deduplicated and copied. -/
def BuildList.produces (w : World) (root : PkgId) (opts : BuildOptions)
    (final : List GraphEntry) : Prop :=
  ∃ fuel pre sorted, BuildList.collect w fuel root opts = some pre ∧
    std_sort_post pre sorted ∧ final = to_graph (dedup_loop [] sorted)

/-! ## Properties of the graph builder's list -/

/-- Every non-disabled main dependency of `e` has an entry in `l`, of strictly
greater level, with the host flag `add_package` gives it. -/
def DepsIn (w : World) (e : Ent) (l : List Ent) : Prop :=
  ∀ dep ∈ (w e.package).main_dependencies, dep.is_disabled = false →
    ∃ e' ∈ l, e'.package = dep.get_package ∧
      e'.native = (e.native || (w dep.get_package).is_proc_lib) ∧ e.level < e'.level

/-- All entries of level at least `n` have their dependencies in the list. -/
def ClosedAbove (w : World) (n : Nat) (l : List Ent) : Prop :=
  ∀ e ∈ l, n ≤ e.level → DepsIn w e l

/-- What a returning call `add_package p level _ is_native` does to the list. -/
def AddOk (w : World) (p : PkgId) (level : Nat) (is_native : Bool) (l l' : List Ent) : Prop :=
  ∃ ext, l' = l ++ ext ∧ (∀ e ∈ ext, level ≤ e.level) ∧
    (ClosedAbove w level l → ClosedAbove w level l') ∧
    ∃ e ∈ l', e.package = p ∧ e.native = (is_native || (w p).is_proc_lib) ∧ level ≤ e.level

/-- What a returning pass over dependency edges does to the list. -/
def EachOk (w : World) (deps : List PackageRef) (level : Nat) (is_native : Bool)
    (l l' : List Ent) : Prop :=
  ∃ ext, l' = l ++ ext ∧ (∀ e ∈ ext, level + 1 ≤ e.level) ∧
    (ClosedAbove w (level + 1) l → ClosedAbove w (level + 1) l') ∧
    ∀ dep ∈ deps, dep.is_disabled = false →
      ∃ e ∈ l', e.package = dep.get_package ∧
        e.native = (is_native || (w dep.get_package).is_proc_lib) ∧ level + 1 ≤ e.level

/-- The dependency relation is well-founded: `rank` decreases along every
non-disabled main or build dependency edge. -/
def Acyclic (w : World) (rank : PkgId → Nat) : Prop :=
  ∀ p, ∀ dep ∈ (w p).main_dependencies ++ (w p).build_dependencies,
    dep.is_disabled = false → rank dep.get_package < rank p

/-- Enough fuel for the whole constructor. -/
def BuildList.fuel_for (w : World) (rank : PkgId → Nat) (root : PkgId) : Nat :=
  rank root + ((w root).dev_dependencies.map (fun d => rank d.get_package)).sum + 1

/-- The pair an entry is deduplicated by, which is also what the constructor
copies into `BuildList::m_list`. -/
def Ent.key (e : Ent) : GraphEntry := ⟨e.package, e.native⟩

/-- Topological order of a final list: every entry `x` is preceded, strictly
earlier in the list, by the entry of each of its non-disabled main dependencies,
under the host flag `x.is_host || (dependency is a proc-macro library)`. -/
def Topological (w : World) (l : List GraphEntry) : Prop :=
  ∀ A x B, l = A ++ x :: B →
    ∀ dep ∈ (w x.package).main_dependencies, dep.is_disabled = false →
      (⟨dep.get_package, x.is_host || (w dep.get_package).is_proc_lib⟩ : GraphEntry) ∈ A

/-! ## Timestamps and the file system -/

/-- Modelled from the spec: `Timestamp` is declared in `file_timestamp.h`, which
is not part of the sources. A timestamp is either the infinite-past sentinel (the
file is missing or cannot be examined) or a finite time; the sentinel compares
less than every finite time. -/
inductive Timestamp where
  | infinite_past
  | time (t : Nat)
deriving DecidableEq, Repr

/-- Modelled from the spec: `Timestamp::operator<`, a strict total order with
the sentinel at the bottom. -/
def Timestamp.lt : Timestamp → Timestamp → Bool
  | _, Timestamp.infinite_past => false
  | Timestamp.infinite_past, Timestamp.time _ => true
  | Timestamp.time a, Timestamp.time b => decide (a < b)

/-- What the planner reads from its surroundings: file times
(`Timestamp::for_file`), file contents as byte sequences (`none` when the file
cannot be opened), the two environment switches and the compiler path. The
planner does not modify any file it reads back. -/
structure Sys where
  for_file : String → Timestamp
  read_file : String → Option (List Char)
  igntools : Bool
  dylib : Bool
  mrustc_path : String

/-- Failures of the planner: exceptions and the `abort()` of `handle_dep`. -/
inductive BuildError where
  | malformed_depfile
  | unknown_target
  | unknown_crate_type
  | no_library
  | assertion_failed
  | out_of_fuel
deriving DecidableEq, Repr

/-- Equality of results is decidable. -/
instance instDecidableEqExcept {ε α : Type} [DecidableEq ε] [DecidableEq α] :
    DecidableEq (Except ε α)
  | Except.ok a, Except.ok b =>
    if h : a = b then isTrue (by rw [h]) else isFalse (fun h' => h (Except.ok.inj h'))
  | Except.error a, Except.error b =>
    if h : a = b then isTrue (by rw [h]) else isFalse (fun h' => h (Except.error.inj h'))
  | Except.ok _, Except.error _ => isFalse (fun h => Except.noConfusion h)
  | Except.error _, Except.ok _ => isFalse (fun h => Except.noConfusion h)

/-! ## Depfile reader: `load_depfile` -/

/-- State of the local `Lexer`: the unread bytes of the stream, its end-of-file
flag and the current character `m_c`. -/
structure Lexer where
  ifp : List Char
  eof : Bool
  m_c : Char
deriving DecidableEq, Repr

/-- Function `Lexer::nextc`. -/
def Lexer.nextc (lx : Lexer) : Bool × Lexer :=
  match lx.ifp with
  | [] => (false, ⟨[], true, '\x00'⟩)
  | c :: rest => (true, ⟨rest, lx.eof, c⟩)

/-- Constructor of `Lexer`: `m_c` starts as 0 and the first character is read. -/
def Lexer.new (content : List Char) : Lexer :=
  (Lexer.nextc ⟨content, false, '\x00'⟩).2

/-- The loop `while( m_c == ' ' ) if( !nextc() ) return "";` of `get_token_int`,
on the unread bytes, the end-of-file flag and `m_c`; the flag returned is false
when `nextc` failed. -/
def skip_spaces : List Char → Bool → Char → Bool × Lexer
  | [], eof, m_c =>
    if m_c == ' ' then (false, ⟨[], true, '\x00'⟩) else (true, ⟨[], eof, m_c⟩)
  | c :: rest, eof, m_c =>
    if m_c == ' ' then skip_spaces rest eof c else (true, ⟨c :: rest, eof, m_c⟩)

/-- The condition `m_c != ' ' && m_c != ':' && m_c != '\n'` of the token loop. -/
def continues_token (c : Char) : Bool :=
  c != ' ' && c != ':' && c != '\n'

/-- What one round of the token loop appends for the character after a backslash. -/
def escaped (c : Char) : List Char :=
  if c == ' ' then [c] else if c == ':' then [c] else ['\\', c]

/-- The `do ... while( nextc() && ... )` loop of `get_token_int`, on the unread
bytes, the end-of-file flag, `m_c` and the token built so far. -/
def token_loop : List Char → Bool → Char → List Char → List Char × Lexer
  | [], _, m_c, rv =>
    if m_c == '\\' then (rv ++ escaped '\x00', ⟨[], true, '\x00'⟩)
    else (rv ++ [m_c], ⟨[], true, '\x00'⟩)
  | c :: rest, eof, m_c, rv =>
    if m_c == '\\' then
      match rest with
      | [] => (rv ++ escaped c, ⟨[], true, '\x00'⟩)
      | c2 :: rest2 =>
        if continues_token c2 then token_loop rest2 eof c2 (rv ++ escaped c)
        else (rv ++ escaped c, ⟨rest2, eof, c2⟩)
    else
      if continues_token c then token_loop rest eof c (rv ++ [m_c])
      else (rv ++ [m_c], ⟨rest, eof, c⟩)

/-- Function `Lexer::get_token_int` (and `get_token`, which only forwards). -/
def Lexer.get_token (lx : Lexer) : String × Lexer :=
  if lx.eof && lx.m_c == '\x00' then ("", lx)
  else
    match skip_spaces lx.ifp lx.eof lx.m_c with
    | (false, lx1) => ("", lx1)
    | (true, lx1) =>
      if lx1.m_c == '\n' then ("\n", lx1.nextc.2)
      else if lx1.m_c == '\t' then ("\t", lx1.nextc.2)
      else
        let r := token_loop lx1.ifp lx1.eof lx1.m_c []
        (String.mk r.1, r.2)

/-- The result of `load_depfile`: a `std::map` from target to paths, kept as an
association list with distinct keys; the planner only looks keys up. -/
abbrev DepMap := List (String × List String)

/-- Lookup `std::map::find`. -/
def DepMap.find (m : DepMap) (k : String) : Option (List String) :=
  match m with
  | [] => none
  | (k', v) :: rest => if k' == k then some v else DepMap.find rest k

/-- The call `rv.insert(make_pair(t, vector()))`: nothing changes when the key
is present. -/
def DepMap.insert_empty (m : DepMap) (k : String) : DepMap :=
  if (DepMap.find m k).isSome then m else m ++ [(k, [])]

/-- The call `list.push_back(t)` on the list stored under `k`. -/
def DepMap.push_back (m : DepMap) (k : String) (t : String) : DepMap :=
  m.map (fun kv => if kv.1 == k then (kv.1, kv.2 ++ [t]) else kv)

/-- The inner loop of `load_depfile`, which reads the paths of one line. -/
def read_paths : Nat → Lexer → DepMap → String → Option (Lexer × DepMap)
  | 0, _, _, _ => none
  | fuel + 1, lexer, rv, target =>
    let t := lexer.get_token
    if t.1 == "\n" || t.1 == "" then some (t.2, rv)
    else read_paths fuel t.2 (DepMap.push_back rv target t.1) target

/-- The outer loop of `load_depfile`; `none` when the fuel runs out. -/
def read_lines : Nat → Lexer → DepMap → Option (Except BuildError DepMap)
  | 0, _, _ => none
  | fuel + 1, lexer, rv =>
    let t := lexer.get_token
    if t.1 == "" then some (Except.ok rv)
    else if t.1 == "\n" then read_lines fuel t.2 rv
    else
      let rv1 := DepMap.insert_empty rv t.1
      let t2 := t.2.get_token
      if t2.1 != ":" then some (Except.error BuildError.malformed_depfile)
      else
        match read_paths fuel t2.2 rv1 t.1 with
        | none => none
        | some (lexer3, rv3) => read_lines fuel lexer3 rv3

/-- The body of `load_depfile` for a file that could be opened. Every token
consumes a byte, so `length + 2` rounds are enough. -/
def parse_depfile (content : List Char) : Except BuildError DepMap :=
  match read_lines (content.length + 2) (Lexer.new content) [] with
  | some r => r
  | none => Except.error BuildError.out_of_fuel

/-- Function `load_depfile`: the empty map when the file cannot be opened. -/
def load_depfile (sys : Sys) (depfile_path : String) : Except BuildError DepMap :=
  match sys.read_file depfile_path with
  | none => Except.ok []
  | some content => parse_depfile content

/-- The number of `nextc` calls the lexer can still make before its tokens are
all empty: the unread bytes, and one more unless the end of file has been seen. -/
def Lexer.measure (lx : Lexer) : Nat :=
  lx.ifp.length + (if lx.eof && lx.m_c == '\x00' then 0 else 1)

/-! ## Naming policy and staleness oracle: `RunState` -/

/-- Suffix `EXESUF` of executables (build for a system other than Windows). -/
def EXESUF : String := ""

/-- Suffix `DLLSUF` of dynamic libraries (build for a system other than Windows). -/
def DLLSUF : String := ".so"

/-- Modelled from the spec: `helpers::path::operator/` is declared in `path.h`,
which is not part of the sources; it joins two components with a separator. -/
def path_join (a b : String) : String := a ++ "/" ++ b

/-- Modelled from the spec: the stream output of a `PackageVersion`
(`manifest.h` is not part of the sources), `MAJOR.MINOR.PATCH`. -/
def PackageVersion.format (v : PackageVersion) : String :=
  toString v.major ++ "." ++ toString v.minor ++ "." ++ toString v.patch

/-- Modelled from the spec: the default-constructed `PackageVersion`, the zero
version. -/
def PackageVersion.zero : PackageVersion := ⟨0, 0, 0⟩

/-- State shared by the jobs (`struct RunState`). -/
structure RunState where
  m_opts : BuildOptions
  m_compiler_path : String
  m_is_cross_compiling : Bool
deriving Repr

/-- Function `RunState::get_key`. -/
def RunState.get_key (rs : RunState) (p : PackageManifest) (build is_host : Bool) : String :=
  let rv := p.name ++ " v" ++ p.version.format
  let is_host := if p.is_proc_lib then true else is_host
  if build then rv ++ " (build)"
  else if is_host && rs.m_is_cross_compiling then rv ++ " (host)"
  else rv

/-- Function `RunState::get_output_dir`. -/
def RunState.get_output_dir (rs : RunState) (is_for_host : Bool) : String :=
  if is_for_host && (rs.m_opts.target_name.isSome && !rs.m_opts.emit_mmir) then
    path_join rs.m_opts.output_dir "host"
  else rs.m_opts.output_dir

/-- The loop of `get_crate_suffix` that computes the feature mask: bit `i` is set
when the `i`-th entry of `all_features` occurs in `active_features`; the loop
stops after index 63. -/
def feature_mask (active : List String) : List String → Nat → Nat → Nat
  | [], _, mask => mask
  | f :: rest, i, mask =>
    let mask1 := if active.count f != 0 then mask ||| (1 <<< i) else mask
    if i == 63 then mask1 else feature_mask active rest (i + 1) mask1

/-- Function `RunState::get_crate_suffix`. -/
def RunState.get_crate_suffix (_rs : RunState) (manifest : PackageManifest) : String :=
  let crate_suffix := String.mk
    (("-" ++ manifest.version.format).toList.map (fun v => if v == '.' then '_' else v))
  if manifest.active_features.length > 0 then
    let mask := feature_mask manifest.active_features manifest.all_features 0 0
    crate_suffix ++ "_H" ++ String.mk (Nat.toDigits 16 mask)
  else crate_suffix

/-- Function `RunState::get_build_script_out`. -/
def RunState.get_build_script_out (rs : RunState) (manifest : PackageManifest) : String :=
  "build_" ++ manifest.name ++
    (if manifest.version == PackageVersion.zero then "" else rs.get_crate_suffix manifest)

/-- Function `RunState::get_build_script_exe`. -/
def RunState.get_build_script_exe (rs : RunState) (manifest : PackageManifest) : String :=
  path_join (rs.get_output_dir true) (rs.get_build_script_out manifest) ++ "_run" ++ EXESUF

/-- What `get_crate_path` yields: the path returned and the two values written
through `crate_type` and `out_crate_suffix`. -/
structure CratePath where
  outfile : String
  crate_type : String
  out_crate_suffix : String
deriving DecidableEq, Repr

/-- Function `RunState::get_crate_path`. -/
def RunState.get_crate_path (rs : RunState) (sys : Sys) (manifest : PackageManifest)
    (target : PackageTarget) (is_for_host : Bool) : Except BuildError CratePath :=
  let outfile := rs.get_output_dir is_for_host
  let out_crate_suffix := rs.get_crate_suffix manifest
  let crate_suffix :=
    if manifest.version == PackageVersion.zero then "" else out_crate_suffix
  let rlib : CratePath :=
    ⟨path_join outfile ("lib" ++ target.m_name ++ crate_suffix ++ ".rlib"), "rlib",
      out_crate_suffix⟩
  match target.m_type with
  | TargetType.Lib =>
    match (match target.m_crate_types with
      | t :: _ => t
      | [] => if target.m_is_proc_macro then CrateType.proc_macro else CrateType.rlib) with
    | CrateType.proc_macro =>
      Except.ok ⟨path_join outfile ("lib" ++ target.m_name ++ crate_suffix ++ "-plugin" ++ EXESUF),
        "proc-macro", out_crate_suffix⟩
    | CrateType.dylib =>
      if sys.dylib then
        Except.ok ⟨path_join outfile ("lib" ++ target.m_name ++ crate_suffix ++ DLLSUF),
          "dylib", out_crate_suffix⟩
      else Except.ok rlib
    | CrateType.rlib => Except.ok rlib
    | CrateType.other => Except.error BuildError.unknown_crate_type
  | TargetType.Bin =>
    Except.ok ⟨path_join outfile (target.m_name ++ EXESUF), "bin", out_crate_suffix⟩
  | TargetType.Test =>
    Except.ok ⟨path_join outfile (target.m_name ++ EXESUF), "bin", out_crate_suffix⟩
  | TargetType.Example => Except.error BuildError.unknown_target

/-- The loop of `outfile_needs_rebuild` over the inputs listed in the depfile:
true when some input is newer than the output. -/
def has_new_file (sys : Sys) (ts_result : Timestamp) : List String → Bool
  | [] => false
  | f :: rest =>
    if ts_result.lt (sys.for_file f) then true else has_new_file sys ts_result rest

/-- Function `RunState::outfile_needs_rebuild`. -/
def RunState.outfile_needs_rebuild (rs : RunState) (sys : Sys) (outfile : String) :
    Except BuildError Bool :=
  let ts_result := sys.for_file outfile
  if ts_result == Timestamp.infinite_past then Except.ok true
  else if !sys.igntools && ts_result.lt (sys.for_file rs.m_compiler_path) then Except.ok true
  else
    match load_depfile sys (outfile ++ ".d") with
    | Except.error e => Except.error e
    | Except.ok depfile_ents =>
      match DepMap.find depfile_ents outfile with
      | some files => Except.ok (has_new_file sys ts_result files)
      | none => Except.ok false

/-- Modelled from the spec: `helpers::path::basename` is declared in `path.h`,
which is not part of the sources; it is the last component of the path. -/
def basename (path : String) : String :=
  String.mk ((path.toList.reverse.takeWhile (fun c => c != '/')).reverse)

/-- Function `RunState::is_rustc`. -/
def RunState.is_rustc (rs : RunState) : Bool :=
  basename rs.m_compiler_path == "rustc" || basename rs.m_compiler_path == "rustc.exe"

/-- The test `s.find(pat) != std::string::npos`. -/
def contains_substr (s pat : List Char) : Bool :=
  (List.range (s.length + 1)).any (fun i => pat.isPrefixOf (s.drop i))

/-- The block of `Job_BuildTarget::start` that passes the metadata tag, for the
crate suffix and the output path that `get_crate_path` yielded. -/
def crate_tag_args (rs : RunState) (crate_suffix outfile : String) : List String :=
  if !(crate_suffix == "") then
    if !rs.is_rustc then ["--crate-tag", String.mk (crate_suffix.toList.drop 1)]
    else
      ["-C", "metadata=" ++ String.mk (crate_suffix.toList.drop 1)] ++
        (if contains_substr outfile.toList crate_suffix.toList then
          ["-C", "extra-filename=" ++ crate_suffix]
        else [])
  else []

/-! ## Job planner: `BuildList::build` -/

/-- The three classes of jobs. -/
inductive JobKind where
  | BuildTarget (target : PackageTarget) (is_for_host : Bool)
  | BuildScript
  | RunScript
deriving DecidableEq, Repr

/-- A job as the planner leaves it: its class, its manifest, its name, the
dependency names pushed so far and, for a target job, `m_build_script` (empty
while it has not been assigned). -/
structure Job where
  kind : JobKind
  package : PkgId
  name : String
  m_dependencies : List String
  m_build_script : String
deriving DecidableEq, Repr

/-- Constructor `Job_BuildTarget::Job_BuildTarget`. -/
def Job_BuildTarget (rs : RunState) (w : World) (p : PkgId) (target : PackageTarget)
    (is_host : Bool) : Job :=
  ⟨JobKind.BuildTarget target is_host, p, rs.get_key (w p) false is_host, [], ""⟩

/-- Constructor `Job_BuildScript::Job_BuildScript`. -/
def Job_BuildScript (rs : RunState) (w : World) (p : PkgId) : Job :=
  ⟨JobKind.BuildScript, p, rs.get_key (w p) true false, [], ""⟩

/-- Constructor `Job_RunScript::Job_RunScript`. -/
def Job_RunScript (rs : RunState) (w : World) (p : PkgId) : Job :=
  ⟨JobKind.RunScript, p, rs.get_key (w p) false false ++ " (script run)", [], ""⟩

/-- Function `Job_RunScript::get_outfile`. -/
def Job_RunScript.get_outfile (rs : RunState) (manifest : PackageManifest) : String :=
  path_join (rs.get_output_dir true) (rs.get_build_script_out manifest) ++ ".txt"

/-- The local `ConvertState` of `build`, with the effects of planning recorded:
`joblist` holds the jobs handed to `JobList::add_job` in order, `loaded` the
calls of `load_build_script` (package and file), `copied` the files copied by
the MMIR fallback (source and destination). -/
structure ConvertState where
  joblist : List Job
  items_built : List String
  items_notbuilt : List (String × Timestamp)
  loaded : List (PkgId × String)
  copied : List (String × String)
deriving DecidableEq, Repr

/-- Lookup `items_notbuilt.find(k)`. -/
def find_notbuilt : List (String × Timestamp) → String → Option Timestamp
  | [], _ => none
  | (k', ts) :: rest, k => if k' == k then some ts else find_notbuilt rest k

/-- Function `ConvertState::handle_dep`; yields the flag returned and the
dependency list of the job. -/
def ConvertState.handle_dep (st : ConvertState) (job_deps : List String)
    (output_ts : Timestamp) (k : String) : Except BuildError (Bool × List String) :=
  if st.items_built.contains k then Except.ok (true, job_deps ++ [k])
  else
    match find_notbuilt st.items_notbuilt k with
    | none => Except.error BuildError.assertion_failed
    | some ts => Except.ok (output_ts.lt ts, job_deps)

/-- Function `ConvertState::add_job`; both maps keep an existing key. -/
def ConvertState.add_job (st : ConvertState) (job : Job) (ts : Timestamp)
    (is_needed : Bool) : ConvertState :=
  if is_needed then
    { st with
      items_built := if st.items_built.contains job.name then st.items_built
        else st.items_built ++ [job.name]
      joblist := st.joblist ++ [job] }
  else
    { st with
      items_notbuilt := if (find_notbuilt st.items_notbuilt job.name).isSome
        then st.items_notbuilt else st.items_notbuilt ++ [(job.name, ts)] }

/-- The call `load_build_script(file)` on the manifest `p`. -/
def ConvertState.load_build_script (st : ConvertState) (p : PkgId) (file : String) :
    ConvertState :=
  { st with loaded := st.loaded ++ [(p, file)] }

/-- One pass of `iter_*_dependencies` with the callback
`dirty |= handle_dep(deps, ts, get_key(dep, false, is_host))`. -/
def handle_deps (rs : RunState) (w : World) (st : ConvertState) (output_ts : Timestamp)
    (is_host : Bool) : List PackageRef → Bool → List String →
    Except BuildError (Bool × List String)
  | [], dirty, job_deps => Except.ok (dirty, job_deps)
  | dep :: rest, dirty, job_deps =>
    if dep.is_disabled then handle_deps rs w st output_ts is_host rest dirty job_deps
    else
      match st.handle_dep job_deps output_ts (rs.get_key (w dep.get_package) false is_host) with
      | Except.error e => Except.error e
      | Except.ok (r, job_deps1) =>
        handle_deps rs w st output_ts is_host rest (dirty || r) job_deps1

/-- Position found by `std::string::rfind`: the last index at which `pat` occurs. -/
def rfind (s pat : List Char) : Option Nat :=
  ((List.range (s.length + 1)).reverse).find? (fun i => pat.isPrefixOf (s.drop i))

/-- The test of the MMIR fallback in `handle_build_script`: when `emit_mmir` is
set, the last `-mmir/` of the run-output path is replaced by `/`, and the file
so named is used if it can be opened. -/
def mmir_fallback (rs : RunState) (sys : Sys) (build_script : String) : Option String :=
  if rs.m_opts.emit_mmir then
    match rfind build_script.toList "-mmir/".toList with
    | some mmir_pos =>
      let src := String.mk (build_script.toList.take mmir_pos ++
        build_script.toList.drop (mmir_pos + 5))
      if (sys.read_file src).isSome then some src else none
    | none => none
  else none

/-- What `handle_build_script` yields: the job name returned, the path written
to `build_script` (`none` when it is left as it was) and the new state. -/
structure ScriptResult where
  job_name : String
  build_script : Option String
  state : ConvertState
deriving DecidableEq, Repr

/-- First half of the normal branch of `handle_build_script`: the job that
compiles the build script. Yields `bs_is_dirty` and the state after `add_job`. -/
def ConvertState.plan_script_build (st : ConvertState) (rs : RunState) (sys : Sys)
    (w : World) (p : PkgId) : Except BuildError (Bool × ConvertState) :=
  let job_bs_build := Job_BuildScript rs w p
  let script_exe := rs.get_build_script_exe (w p)
  let script_ts := sys.for_file script_exe
  match rs.outfile_needs_rebuild sys script_exe with
  | Except.error e => Except.error e
  | Except.ok bs_is_dirty0 =>
    match handle_deps rs w st script_ts true (w p).build_dependencies bs_is_dirty0 [] with
    | Except.error e => Except.error e
    | Except.ok (bs_is_dirty, build_deps) =>
      Except.ok (bs_is_dirty,
        st.add_job { job_bs_build with m_dependencies := build_deps } script_ts bs_is_dirty)

/-- Second half of the normal branch of `handle_build_script`: the job that
runs the build script, from the output time of the run on. -/
def ConvertState.plan_script_run (st1 : ConvertState) (rs : RunState) (sys : Sys)
    (w : World) (p : PkgId) (is_host : Bool) (bs_is_dirty : Bool) :
    Except BuildError ScriptResult :=
  let name_bs_build := (Job_BuildScript rs w p).name
  let script_ts := sys.for_file (rs.get_build_script_exe (w p))
  let job_bs_run := Job_RunScript rs w p
  let build_script := Job_RunScript.get_outfile rs (w p)
  let output_ts := sys.for_file build_script
  match st1.handle_dep [] output_ts name_bs_build with
  | Except.error e => Except.error e
  | Except.ok (_, run_deps0) =>
    match handle_deps rs w st1 output_ts is_host (w p).main_dependencies bs_is_dirty
        run_deps0 with
    | Except.error e => Except.error e
    | Except.ok (bs_is_dirty2, run_deps) =>
      let bs_needs_run := bs_is_dirty2 || output_ts.lt script_ts
      let rv := if bs_needs_run then job_bs_run.name else ""
      let st2 := st1.add_job { job_bs_run with m_dependencies := run_deps } output_ts
        bs_needs_run
      let st3 := if !bs_needs_run then st2.load_build_script p build_script else st2
      Except.ok ⟨rv, some build_script, st3⟩

/-- Function `ConvertState::handle_build_script`. -/
def ConvertState.handle_build_script (st : ConvertState) (rs : RunState) (sys : Sys)
    (w : World) (p : PkgId) (build_script_overrides : Option String) (is_host : Bool) :
    Except BuildError ScriptResult :=
  if (w p).build_script != "" then
    match build_script_overrides with
    | some overrides =>
      let override_file := path_join overrides "build_" ++ (w p).name ++ ".txt"
      Except.ok ⟨"", some override_file, st.load_build_script p override_file⟩
    | none =>
      match st.plan_script_build rs sys w p with
      | Except.error e => Except.error e
      | Except.ok (bs_is_dirty, st1) =>
        let name_bs_build := (Job_BuildScript rs w p).name
        let build_script := Job_RunScript.get_outfile rs (w p)
        match mmir_fallback rs sys build_script with
        | some src =>
          let st2 := { st1 with copied := st1.copied ++ [(src, build_script)] }
          Except.ok ⟨name_bs_build, some build_script, st2.load_build_script p build_script⟩
        | none => st1.plan_script_run rs sys w p is_host bs_is_dirty
  else Except.ok ⟨"", none, st⟩

/-- Modelled from the spec: `PackageManifest::get_library` fails for a package
without a library (`manifest.h` is not part of the sources). -/
def PackageManifest.get_library (p : PackageManifest) : Except BuildError PackageTarget :=
  match p.library? with
  | some t => Except.ok t
  | none => Except.error BuildError.no_library

/-- Facts the planner computed for one list entry, kept for reference: the
output time, the verdict of the staleness oracle, the name returned by
`handle_build_script` and the flag handed to `add_job`. -/
structure EntryTrace where
  output_ts : Timestamp
  stale : Bool
  bs_job_name : String
  is_dirty : Bool
deriving DecidableEq, Repr

/-- Body of the loop of `build` over `m_list`, for the entry `e`. -/
def build_entry (rs : RunState) (sys : Sys) (w : World) (opts : BuildOptions)
    (st : ConvertState) (e : GraphEntry) : Except BuildError (EntryTrace × ConvertState) :=
  match (w e.package).get_library with
  | Except.error err => Except.error err
  | Except.ok lib =>
  let job := Job_BuildTarget rs w e.package lib e.is_host
  match rs.get_crate_path sys (w e.package) lib e.is_host with
  | Except.error err => Except.error err
  | Except.ok cp =>
  let output_ts := sys.for_file cp.outfile
  match rs.outfile_needs_rebuild sys cp.outfile with
  | Except.error err => Except.error err
  | Except.ok stale =>
  match st.handle_build_script rs sys w e.package opts.build_script_overrides e.is_host with
  | Except.error err => Except.error err
  | Except.ok bs =>
  let deps0 := if bs.job_name != "" then [bs.job_name] else []
  let is_dirty0 := if bs.job_name != "" then true else stale
  match handle_deps rs w bs.state output_ts e.is_host (w e.package).main_dependencies
      is_dirty0 deps0 with
  | Except.error err => Except.error err
  | Except.ok (is_dirty, deps) =>
  Except.ok (⟨output_ts, stale, bs.job_name, is_dirty⟩,
    bs.state.add_job
      { job with m_dependencies := deps, m_build_script := bs.build_script.getD "" }
      output_ts is_dirty)

/-- The loop of `build` over `m_list`. -/
def build_entries (rs : RunState) (sys : Sys) (w : World) (opts : BuildOptions) :
    ConvertState → List GraphEntry → Except BuildError ConvertState
  | st, [] => Except.ok st
  | st, e :: rest =>
    match build_entry rs sys w opts st e with
    | Except.error err => Except.error err
    | Except.ok (_, st1) => build_entries rs sys w opts st1 rest

/-- The lambda `push_root_target` of `build`. -/
def push_root_target (rs : RunState) (sys : Sys) (w : World) (root : PkgId)
    (cross_compiling : Bool) (st : ConvertState) (target : PackageTarget) :
    Except BuildError ConvertState :=
  let is_host := !cross_compiling
  let job := Job_BuildTarget rs w root target is_host
  match rs.get_crate_path sys (w root) target is_host with
  | Except.error err => Except.error err
  | Except.ok cp =>
  let output_ts := sys.for_file cp.outfile
  match rs.outfile_needs_rebuild sys cp.outfile with
  | Except.error err => Except.error err
  | Except.ok stale =>
  match (if (w root).has_library then
      (match st.handle_dep [] output_ts (rs.get_key (w root) false is_host) with
        | Except.error err => Except.error err
        | Except.ok (r, deps) => Except.ok (stale || r, deps))
    else handle_deps rs w st output_ts is_host (w root).main_dependencies stale []) with
  | Except.error err => Except.error err
  | Except.ok (is_dirty, deps) =>
  Except.ok (st.add_job { job with m_dependencies := deps } output_ts is_dirty)

/-- The iteration of `push_root_target` over the targets of one type. -/
def push_root_targets (rs : RunState) (sys : Sys) (w : World) (root : PkgId)
    (cross_compiling : Bool) : ConvertState → List PackageTarget →
    Except BuildError ConvertState
  | st, [] => Except.ok st
  | st, t :: rest =>
    match push_root_target rs sys w root cross_compiling st t with
    | Except.error err => Except.error err
    | Except.ok st1 => push_root_targets rs sys w root cross_compiling st1 rest

/-- Modelled from the spec: `foreach_ty(type)` and `foreach_binaries` visit the
targets of the given type in declaration order (`manifest.h` is not part of the
sources). -/
def PackageManifest.targets_of (p : PackageManifest) (ty : TargetType) : List PackageTarget :=
  p.targets.filter (fun t => t.m_type == ty)

/-- The state in which planning starts. -/
def ConvertState.init : ConvertState := ⟨[], [], [], [], []⟩

/-- Function `BuildList::build` up to the call of `run_all`: the plan handed to
the scheduler, for the list `m_list` of the root manifest `root`. -/
def BuildList.build (sys : Sys) (w : World) (root : PkgId) (m_list : List GraphEntry)
    (opts : BuildOptions) : Except BuildError ConvertState :=
  let cross_compiling := opts.target_name.isSome && !opts.emit_mmir
  let rs : RunState := ⟨opts, sys.mrustc_path, cross_compiling⟩
  match build_entries rs sys w opts ConvertState.init m_list with
  | Except.error err => Except.error err
  | Except.ok st1 =>
  match (if !(w root).has_library then
      (match st1.handle_build_script rs sys w root opts.build_script_overrides
          (!cross_compiling) with
        | Except.error err => Except.error err
        | Except.ok bs => Except.ok bs.state)
    else Except.ok st1) with
  | Except.error err => Except.error err
  | Except.ok st2 =>
  match opts.mode with
  | Mode.Normal =>
    push_root_targets rs sys w root cross_compiling st2 ((w root).targets_of TargetType.Bin)
  | Mode.Test =>
    push_root_targets rs sys w root cross_compiling st2 ((w root).targets_of TargetType.Test)
  | Mode.Examples => Except.ok st2

/-! ## Example manifests -/

/-- A library target; `pm` says whether it is a proc-macro library. -/
def lib_target (name : String) (pm : Bool) : PackageTarget :=
  ⟨name, "src/lib.rs", TargetType.Lib, [], pm, Edition.Unspec⟩

/-- A binary target. -/
def bin_target (name : String) : PackageTarget :=
  ⟨name, "src/main.rs", TargetType.Bin, [], false, Edition.Unspec⟩

/-- A manifest of version 0.1.0 with the given targets and dependencies. -/
def simple_manifest (name build_script : String) (targets : List PackageTarget)
    (main build dev : List PackageRef) : PackageManifest :=
  ⟨name, ⟨0, 1, 0⟩, name, name ++ "/Cargo.toml", Edition.Unspec, build_script, [], [],
    targets, main, build, dev⟩

/-- A non-disabled dependency edge. -/
def dep_on (key : String) (p : PkgId) : PackageRef := ⟨key, false, p⟩

/-- Options of a plain host build into `out`. -/
def host_opts : BuildOptions := ⟨"out", none, false, false, [], none, Mode.Normal⟩

/-- Options of a cross build for target `t` into `out`. -/
def cross_opts : BuildOptions := ⟨"out", some "t", false, false, [], none, Mode.Normal⟩

/-- Chain `a → b → c` with a direct edge `a → c` as well. -/
def chain_world : World
  | 0 => simple_manifest "a" "" [lib_target "a" false] [dep_on "c" 2, dep_on "b" 1] [] []
  | 1 => simple_manifest "b" "" [lib_target "b" false] [dep_on "c" 2] [] []
  | _ => simple_manifest "c" "" [lib_target "c" false] [] [] []

/-- Rank function of `chain_world`. -/
def chain_rank : PkgId → Nat
  | 0 => 2
  | 1 => 1
  | _ => 0

/-- A root package whose library is a proc-macro, without dependencies. -/
def proc_root_world : World :=
  fun _ => simple_manifest "pm" "" [lib_target "pm" true] [] [] []

/-- A root package with a library and a binary, without dependencies. -/
def lib_bin_world : World :=
  fun _ => simple_manifest "r" "" [lib_target "r" false, bin_target "r"] [] [] []

/-- A file system without any file, with the compiler at `mrustc`. -/
def empty_sys : Sys := ⟨fun _ => Timestamp.infinite_past, fun _ => none, false, false, "mrustc"⟩

/-- A file system in which `out.rlib` exists (time 5) beside a depfile
`out.rlib.d` that lacks the colon after its target; the compiler check is
switched off. -/
def malformed_sys : Sys :=
  ⟨fun f => if f == "out.rlib" then Timestamp.time 5 else Timestamp.infinite_past,
    fun f => if f == "out.rlib.d" then some "a b\n".toList else none, true, false, "mrustc"⟩

/-- A run state for a host build. -/
def host_rs : RunState := ⟨host_opts, "mrustc", false⟩

/-- A file system given by the times of its files and the contents of its
readable files; every other file is missing. The compiler is `mrustc`. -/
def files_sys (times : List (String × Nat)) (texts : List (String × String))
    (igntools : Bool) : Sys :=
  ⟨fun f => match times.lookup f with
      | some t => Timestamp.time t
      | none => Timestamp.infinite_past,
    fun f => (texts.lookup f).map String.toList, igntools, false, "mrustc"⟩

/-- A package `p` with a library and a build script, without dependencies. -/
def script_world : World :=
  fun _ => simple_manifest "p" "build.rs" [lib_target "p" false] [] [] []

/-- Everything of `script_world` is built and newer than the compiler. -/
def script_clean_sys : Sys :=
  files_sys [("mrustc", 1), ("out/build_p-0_1_0_run", 10), ("out/build_p-0_1_0.txt", 12),
    ("out/libp-0_1_0.rlib", 14)] [] false

/-- Options of a host build with `emit_mmir` into `out-mmir`. -/
def mmir_opts : BuildOptions := ⟨"out-mmir", none, true, false, [], none, Mode.Normal⟩

/-- The run state of a build with `mmir_opts`. -/
def mmir_rs : RunState := ⟨mmir_opts, "mrustc", false⟩

/-- Everything of `script_world` is built in `out-mmir`, and the output of an
earlier run of the script without `emit_mmir` lies in `out`. -/
def mmir_sys : Sys :=
  files_sys [("mrustc", 1), ("out-mmir/build_p-0_1_0_run", 10),
    ("out-mmir/libp-0_1_0.rlib", 14)] [("out/build_p-0_1_0.txt", "")] false

/-- A root with two dependencies that are distinct packages of the same name
and version `x v0.1.0`, with libraries `x1` and `x2`. -/
def two_x_world : World
  | 0 => simple_manifest "r" "" [lib_target "r" false] [dep_on "x1" 1, dep_on "x2" 2] [] []
  | 1 => simple_manifest "x" "" [lib_target "x1" false] [] [] []
  | _ => simple_manifest "x" "" [lib_target "x2" false] [] [] []

/-- Both libraries of `two_x_world` are built, at different times. -/
def two_x_sys : Sys :=
  files_sys [("mrustc", 1), ("out/libx1-0_1_0.rlib", 5), ("out/libx2-0_1_0.rlib", 7)] [] false

/-- The state after `handle_build_script` for `script_world` under
`script_clean_sys`: both script jobs are recorded as clean and the run output
has been loaded. -/
def script_clean_state : ConvertState :=
  ⟨[], [], [("p v0.1.0 (build)", Timestamp.time 10), ("p v0.1.0 (script run)", Timestamp.time 12)],
    [(0, "out/build_p-0_1_0.txt")], []⟩

/-- The state after `handle_build_script` for `script_world` under `mmir_sys`:
the compile of the script is recorded as clean, the earlier run output has been
copied and loaded. -/
def mmir_script_state : ConvertState :=
  ⟨[], [], [("p v0.1.0 (build)", Timestamp.time 10)], [(0, "out-mmir/build_p-0_1_0.txt")],
    [("out/build_p-0_1_0.txt", "out-mmir/build_p-0_1_0.txt")]⟩

/-- The library job of `script_world` as planned under `mmir_sys`. -/
def mmir_lib_job : Job :=
  ⟨JobKind.BuildTarget (lib_target "p" false) true, 0, "p v0.1.0", ["p v0.1.0 (build)"],
    "out-mmir/build_p-0_1_0.txt"⟩

/-- Everything of `script_world` is built, and the compiler is newer than all
of it. -/
def touched_sys : Sys :=
  files_sys [("mrustc", 20), ("out/build_p-0_1_0_run", 10), ("out/build_p-0_1_0.txt", 12),
    ("out/libp-0_1_0.rlib", 14)] [] false

/-- A package `c` with a library only. -/
def leaf_world : World :=
  fun _ => simple_manifest "c" "" [lib_target "c" false] [] [] []

/-- The library of `leaf_world` is built at time 5 from a source of time 1,
which its depfile lists; the compiler has the given time. -/
def leaf_sys (compiler : Nat) : Sys :=
  files_sys [("mrustc", compiler), ("out/libc-0_1_0.rlib", 5), ("src/lib.rs", 1)]
    [("out/libc-0_1_0.rlib.d", "out/libc-0_1_0.rlib: src/lib.rs\n")] false

/-- The plan of `script_world` under `touched_sys`: the script is compiled and
run and the library is compiled. -/
def touched_plan : ConvertState :=
  ⟨[⟨JobKind.BuildScript, 0, "p v0.1.0 (build)", [], ""⟩,
    ⟨JobKind.RunScript, 0, "p v0.1.0 (script run)", ["p v0.1.0 (build)"], ""⟩,
    ⟨JobKind.BuildTarget (lib_target "p" false) true, 0, "p v0.1.0", ["p v0.1.0 (script run)"],
      "out/build_p-0_1_0.txt"⟩],
    ["p v0.1.0 (build)", "p v0.1.0 (script run)", "p v0.1.0"], [], [], []⟩

/-- The library job of `leaf_world`. -/
def leaf_lib_job : Job :=
  ⟨JobKind.BuildTarget (lib_target "c" false) true, 0, "c v0.1.0", [], ""⟩

/-- The plan of `lib_bin_world` with nothing built: the library job and the
binary job. -/
def lib_bin_plan : ConvertState :=
  ⟨[⟨JobKind.BuildTarget (lib_target "r" false) true, 0, "r v0.1.0", [], ""⟩,
    ⟨JobKind.BuildTarget (bin_target "r") true, 0, "r v0.1.0", ["r v0.1.0"], ""⟩],
    ["r v0.1.0"], [], [], []⟩

/-- The list entry of the package of `script_world`. -/
def script_entry : GraphEntry := ⟨0, true⟩

/-- The state after the loop body of `build` for `script_world` under
`script_clean_sys`: the library is recorded as clean as well. -/
def script_clean_plan : ConvertState :=
  ⟨[], [], [("p v0.1.0 (build)", Timestamp.time 10), ("p v0.1.0 (script run)", Timestamp.time 12),
    ("p v0.1.0", Timestamp.time 14)], [(0, "out/build_p-0_1_0.txt")], []⟩

/-- What `handle_build_script` yields for `script_world` under
`script_clean_sys`. -/
def script_clean_result : ScriptResult :=
  ⟨"", some "out/build_p-0_1_0.txt", script_clean_state⟩

/-- A library target whose only crate type is none of those `get_crate_path`
names. -/
def odd_lib_target : PackageTarget :=
  ⟨"odd", "src/lib.rs", TargetType.Lib, [CrateType.other], false, Edition.Unspec⟩

/-- An example target. -/
def example_target : PackageTarget :=
  ⟨"demo", "examples/demo.rs", TargetType.Example, [], false, Edition.Unspec⟩

/-- A manifest of version 1.2.3 with the declared features `alpha`, `beta`,
`gamma` and the given active features. -/
def feature_manifest (active : List String) : PackageManifest :=
  ⟨"f", ⟨1, 2, 3⟩, "f", "f/Cargo.toml", Edition.Unspec, "", active, ["alpha", "beta", "gamma"],
    [lib_target "f" false], [], [], []⟩

/-- A manifest of the zero version with a library. -/
def zero_manifest : PackageManifest :=
  ⟨"z", ⟨0, 0, 0⟩, "z", "z/Cargo.toml", Edition.Unspec, "", [], [], [lib_target "z" false],
    [], [], []⟩

/-- The library of `leaf_world` is built (time 5, compiler of time 3), but its
depfile lacks the colon after the target. -/
def leaf_malformed_sys : Sys :=
  files_sys [("mrustc", 3), ("out/libc-0_1_0.rlib", 5)]
    [("out/libc-0_1_0.rlib.d", "out/libc-0_1_0.rlib src/lib.rs\n")] false

/-! ## Conditions of the staleness oracle and the planner -/

/-- Condition (1) or (2) of the oracle: the output is missing, or the compiler
check is on and the output is older than the compiler. -/
def stale_by_age (rs : RunState) (sys : Sys) (outfile : String) : Prop :=
  sys.for_file outfile = Timestamp.infinite_past ∨
    (sys.igntools = false ∧
      (sys.for_file outfile).lt (sys.for_file rs.m_compiler_path) = true)

/-- Condition (3) of the oracle on a loaded depfile: the entry keyed by the
output lists an input that is newer than the output. -/
def newer_input (sys : Sys) (m : DepMap) (outfile : String) : Prop :=
  ∃ files, DepMap.find m outfile = some files ∧
    ∃ f ∈ files, (sys.for_file outfile).lt (sys.for_file f) = true

/-- A unit of the text of a depfile token: a plain character, or a backslash
followed by a character. -/
inductive Piece where
  | plain (c : Char)
  | esc (c : Char)
deriving DecidableEq, Repr

/-- The bytes a piece occupies in the file. -/
def Piece.source : Piece → List Char
  | Piece.plain c => [c]
  | Piece.esc c => ['\\', c]

/-- The characters a piece stands for: an escaped space or colon stands for
itself, any other escaped character for the backslash and the character. -/
def Piece.value : Piece → List Char
  | Piece.plain c => [c]
  | Piece.esc c => if c = ' ' ∨ c = ':' then [c] else ['\\', c]

/-- A plain character of a token is no backslash and none of the characters
that end a token. -/
def Piece.well_formed : Piece → Prop
  | Piece.plain c => c ≠ '\\' ∧ c ≠ ' ' ∧ c ≠ ':' ∧ c ≠ '\n'
  | Piece.esc _ => True

/-- Well-formedness of a piece is decidable. -/
instance Piece.decidable_well_formed (p : Piece) : Decidable p.well_formed :=
  match p with
  | Piece.plain c => inferInstanceAs (Decidable (c ≠ '\\' ∧ c ≠ ' ' ∧ c ≠ ':' ∧ c ≠ '\n'))
  | Piece.esc _ => isTrue trivial

/-- The first piece of a token, which the lexer takes without a test of its
own once spaces have been skipped and the character is no newline and no tab:
a backslash pair, or a plain character that is no backslash; a colon is among
them. -/
def Piece.starts_token : Piece → Prop
  | Piece.plain c => c ≠ '\\' ∧ c ≠ ' ' ∧ c ≠ '\n' ∧ c ≠ '\t'
  | Piece.esc _ => True

/-- Whether a piece can start a token is decidable. -/
instance Piece.decidable_starts_token (p : Piece) : Decidable p.starts_token :=
  match p with
  | Piece.plain c => inferInstanceAs (Decidable (c ≠ '\\' ∧ c ≠ ' ' ∧ c ≠ '\n' ∧ c ≠ '\t'))
  | Piece.esc _ => isTrue trivial

/-- The bytes of a sequence of pieces. -/
def source_of : List Piece → List Char
  | [] => []
  | p :: ps => p.source ++ source_of ps

/-- The characters a sequence of pieces stands for. -/
def value_of : List Piece → List Char
  | [] => []
  | p :: ps => p.value ++ value_of ps

/-- The characters that end a token when they are not escaped. -/
def is_terminator (c : Char) : Prop := c = ' ' ∨ c = ':' ∨ c = '\n'

/-- Being a terminator is decidable. -/
instance is_terminator.decidable (c : Char) : Decidable (is_terminator c) :=
  inferInstanceAs (Decidable (c = ' ' ∨ c = ':' ∨ c = '\n'))

/-- The name under which the planner looks a dependency up. -/
def dep_key (rs : RunState) (w : World) (is_host : Bool) (dep : PackageRef) : String :=
  rs.get_key (w dep.get_package) false is_host

/-- A dependency forces a rebuild of a unit whose output time is `output_ts`:
its job is scheduled, or it is recorded as clean with an output time strictly
greater than `output_ts`. -/
def dep_forces (rs : RunState) (w : World) (st : ConvertState) (output_ts : Timestamp)
    (is_host : Bool) (dep : PackageRef) : Prop :=
  dep_key rs w is_host dep ∈ st.items_built ∨
    ∃ ts, find_notbuilt st.items_notbuilt (dep_key rs w is_host dep) = some ts ∧
      output_ts.lt ts = true

/-- The names of the non-disabled dependencies whose job is scheduled, in
iteration order. -/
def scheduled_deps (rs : RunState) (w : World) (st : ConvertState) (is_host : Bool)
    (deps : List PackageRef) : List String :=
  (deps.filter (fun d => !d.is_disabled && st.items_built.contains (dep_key rs w is_host d))).map
    (dep_key rs w is_host)

/-- The three reasons for which the planner schedules the library job of a list
entry: (a) the staleness oracle says so, (b) `handle_build_script` returned the
name of a scheduled job, (c) a non-disabled main dependency forces it. Here `st`
is the state after `handle_build_script`, `bs_job_name` the name it returned
and `outfile` the output of the unit. -/
def unit_dirty (rs : RunState) (sys : Sys) (w : World) (st : ConvertState)
    (bs_job_name : String) (outfile : String) (is_host : Bool) (p : PkgId) : Prop :=
  rs.outfile_needs_rebuild sys outfile = Except.ok true ∨
    (bs_job_name ≠ "" ∧ bs_job_name ∈ st.items_built) ∨
    ∃ dep ∈ (w p).main_dependencies, dep.is_disabled = false ∧
      dep_forces rs w st (sys.for_file outfile) is_host dep

/-- The reasons for which the planner schedules the run of a build script: the
compile of the script is dirty, the run output is older than the script
binary, or a non-disabled main dependency forces it. Here `st1` is the state
after the compile job has been handled. -/
def run_needed (rs : RunState) (sys : Sys) (w : World) (st1 : ConvertState)
    (bs_is_dirty : Bool) (is_host : Bool) (p : PkgId) : Prop :=
  bs_is_dirty = true ∨
    (sys.for_file (Job_RunScript.get_outfile rs (w p))).lt
      (sys.for_file (rs.get_build_script_exe (w p))) = true ∨
    ∃ dep ∈ (w p).main_dependencies, dep.is_disabled = false ∧
      dep_forces rs w st1 (sys.for_file (Job_RunScript.get_outfile rs (w p))) is_host dep

/-- The plan holds a job of the given class for the package. -/
def has_job (st : ConvertState) (p : PkgId) (kind : JobKind) : Prop :=
  ∃ job ∈ st.joblist, job.package = p ∧ job.kind = kind

/-- The root targets that `build` plans in the given mode. -/
def mode_targets (mode : Mode) (root : PackageManifest) : List PackageTarget :=
  match mode with
  | Mode.Normal => root.targets_of TargetType.Bin
  | Mode.Test => root.targets_of TargetType.Test
  | Mode.Examples => []

/-- The compiler binary is strictly later than every existing output artifact
of the plan: the libraries of the list entries, the build-script binaries of
the list entries and of the root, and the targets of the root. -/
def compiler_later (rs : RunState) (sys : Sys) (w : World) (root : PkgId)
    (m_list : List GraphEntry) : Prop :=
  (∀ e ∈ m_list, ∀ lib cp, (w e.package).get_library = Except.ok lib →
    rs.get_crate_path sys (w e.package) lib e.is_host = Except.ok cp →
    sys.for_file cp.outfile ≠ Timestamp.infinite_past →
    (sys.for_file cp.outfile).lt (sys.for_file rs.m_compiler_path) = true) ∧
  (∀ e ∈ m_list,
    sys.for_file (rs.get_build_script_exe (w e.package)) ≠ Timestamp.infinite_past →
    (sys.for_file (rs.get_build_script_exe (w e.package))).lt
      (sys.for_file rs.m_compiler_path) = true) ∧
  (sys.for_file (rs.get_build_script_exe (w root)) ≠ Timestamp.infinite_past →
    (sys.for_file (rs.get_build_script_exe (w root))).lt
      (sys.for_file rs.m_compiler_path) = true) ∧
  (∀ t ∈ (w root).targets, ∀ cp,
    rs.get_crate_path sys (w root) t (!rs.m_is_cross_compiling) = Except.ok cp →
    sys.for_file cp.outfile ≠ Timestamp.infinite_past →
    (sys.for_file cp.outfile).lt (sys.for_file rs.m_compiler_path) = true)

/-- The run state that `build` sets up. -/
def BuildList.run_state (sys : Sys) (opts : BuildOptions) : RunState :=
  ⟨opts, sys.mrustc_path, opts.target_name.isSome && !opts.emit_mmir⟩

/-- The name a job gets from its class, its package and its host flag alone. -/
def Job.derived_name (rs : RunState) (w : World) (j : Job) : String :=
  match j.kind with
  | JobKind.BuildTarget _ is_for_host => rs.get_key (w j.package) false is_for_host
  | JobKind.BuildScript => rs.get_key (w j.package) true false
  | JobKind.RunScript => rs.get_key (w j.package) false false ++ " (script run)"

/-- Every job of the plan carries its derived name. -/
def names_derived (rs : RunState) (w : World) (st : ConvertState) : Prop :=
  ∀ j ∈ st.joblist, j.name = j.derived_name rs w

/-- The crate type `get_crate_path` switches on for a library target: the first
entry of `m_crate_types`, or, when there is none, proc-macro for a proc-macro
target and rlib otherwise. -/
def selected_crate_type (target : PackageTarget) : CrateType :=
  match target.m_crate_types with
  | t :: _ => t
  | [] => if target.m_is_proc_macro then CrateType.proc_macro else CrateType.rlib

/-- The suffix `get_crate_path` puts into file names: the crate suffix, or
nothing for the zero version. -/
def file_suffix (rs : RunState) (manifest : PackageManifest) : String :=
  if manifest.version = PackageVersion.zero then "" else rs.get_crate_suffix manifest

/-- The version part of a crate suffix, `-MAJOR_MINOR_PATCH` in decimal. -/
def version_tag (v : PackageVersion) : String :=
  "-" ++ toString v.major ++ "_" ++ toString v.minor ++ "_" ++ toString v.patch

/-- The rendering of a mask by a stream in `std::hex` mode: lowercase
hexadecimal digits without prefix. -/
def hex (mask : Nat) : String := String.mk (Nat.toDigits 16 mask)

/-- The tokens the lexer yields up to the first empty token, at most `fuel` of
them. -/
def tokens_fuel : Nat → Lexer → List String
  | 0, _ => []
  | fuel + 1, lx =>
    if lx.get_token.1 == "" then [] else lx.get_token.1 :: tokens_fuel fuel lx.get_token.2

/-- The tokens of the rest of the file, as the lexer yields them. -/
def Lexer.tokens (lx : Lexer) : List String :=
  tokens_fuel (lx.measure + 1) lx

/-- Where in a line of the depfile the reader stands. -/
inductive LinePos where
  | line_start
  | after_target
  | in_paths
deriving DecidableEq, Repr

/-- On some line, the token that follows the target token is not the token
`:`. A line starts after a newline token; its first token that is no newline is
its target; the tokens after the colon up to the next newline are its paths. -/
def colon_missing : LinePos → List String → Bool
  | LinePos.line_start, [] => false
  | LinePos.line_start, t :: rest =>
    if t == "\n" then colon_missing LinePos.line_start rest
    else colon_missing LinePos.after_target rest
  | LinePos.after_target, [] => true
  | LinePos.after_target, t :: rest =>
    if t == ":" then colon_missing LinePos.in_paths rest else true
  | LinePos.in_paths, [] => false
  | LinePos.in_paths, t :: rest =>
    if t == "\n" then colon_missing LinePos.line_start rest
    else colon_missing LinePos.in_paths rest


/-! ## Writing a depfile line -/

/-- Modelled from the spec: the escaping of a path in a depfile, which is done
by the compiler and not by this program. Each space and each colon gets a
backslash in front of it; every other character, the backslash included, is
written as it is. -/
def esc : List Char → List Char
  | [] => []
  | c :: cs => if c = ' ' ∨ c = ':' then '\\' :: c :: esc cs else c :: esc cs

/-- Modelled from the spec: the line `<esc(target)>: <esc(p1)> ... <esc(pn)>`
with its newline. -/
def depfile_line (target : String) (paths : List String) : List Char :=
  esc target.toList ++ ':' :: (paths.flatMap (fun p => ' ' :: esc p.toList) ++ ['\n'])

/-- Reading from the left and taking each backslash together with the character
after it, every backslash has such a character and it is neither a space nor a
colon; `pending` tells that a backslash waits for its character. In other
words, no run of an odd number of backslashes stands directly before a space,
a colon or the end. -/
def backslashes_paired (pending : Bool) : List Char → Bool
  | [] => !pending
  | c :: cs =>
    if pending then c != ' ' && c != ':' && backslashes_paired false cs
    else if c == '\\' then backslashes_paired true cs
    else backslashes_paired false cs

/-- The strings the reader gives back as they were written: non-empty, without
a newline, not starting with a tab, and with paired backslashes. -/
def reads_back (s : String) : Bool :=
  !s.toList.isEmpty && !s.toList.contains '\n' && s.toList.head? != some '\t' &&
    backslashes_paired false s.toList

/-- The pieces the reader sees in the escaped form of a string. -/
def to_pieces (pending : Bool) : List Char → List Piece
  | [] => []
  | c :: cs =>
    if pending then Piece.esc c :: to_pieces false cs
    else if c == '\\' then to_pieces true cs
    else if c == ' ' || c == ':' then Piece.esc c :: to_pieces false cs
    else Piece.plain c :: to_pieces false cs

/-- Three depfiles: a line whose target and paths read back, a line whose path
has a single backslash before a space, and a line with the empty target. -/
def round_trip_sys : Sys :=
  { empty_sys with
    read_file := fun f =>
      if f == "good.d" then some (depfile_line "out dir/libc.rlib" ["src/a b.rs", "C:\\src\\x.rs"])
      else if f == "odd.d" then some (depfile_line "out" ["a\\ b"])
      else if f == "empty.d" then some (depfile_line "" ["p"])
      else none }

/-! ## Reachability in the dependency graph -/

/-- A non-disabled main-dependency edge from `p` to `q`. -/
def MainEdge (w : World) (p q : PkgId) : Prop :=
  ∃ dep ∈ (w p).main_dependencies, dep.is_disabled = false ∧ dep.get_package = q

/-- A non-disabled build-dependency edge from `p` to `q`. -/
def BuildEdge (w : World) (p q : PkgId) : Prop :=
  ∃ dep ∈ (w p).build_dependencies, dep.is_disabled = false ∧ dep.get_package = q

/-- A non-disabled dev-dependency edge from `p` to `q`. -/
def DevEdge (w : World) (p q : PkgId) : Prop :=
  ∃ dep ∈ (w p).dev_dependencies, dep.is_disabled = false ∧ dep.get_package = q

/-- A non-disabled main- or build-dependency edge. -/
def WalkEdge (w : World) (p q : PkgId) : Prop := MainEdge w p q ∨ BuildEdge w p q

/-- A non-disabled dependency edge of any of the three kinds. -/
def AnyEdge (w : World) (p q : PkgId) : Prop := WalkEdge w p q ∨ DevEdge w p q

/-- The package `p` appears in the list under some host flag. -/
def appears (final : List GraphEntry) (p : PkgId) : Prop :=
  ∃ is_host, (⟨p, is_host⟩ : GraphEntry) ∈ final

/-- A root `r` with the main dependency `a` (which depends on `b`), a disabled
main dependency on `off` and the dev-dependency `d` (which depends on `e`). -/
def reach_world : World
  | 0 => simple_manifest "r" "" [lib_target "r" false] [dep_on "a" 1, ⟨"off", true, 3⟩] []
      [dep_on "d" 4]
  | 1 => simple_manifest "a" "" [lib_target "a" false] [dep_on "b" 2] [] []
  | 2 => simple_manifest "b" "" [lib_target "b" false] [] [] []
  | 3 => simple_manifest "off" "" [lib_target "off" false] [] [] []
  | 4 => simple_manifest "d" "" [lib_target "d" false] [dep_on "e" 5] [] []
  | _ => simple_manifest "e" "" [lib_target "e" false] [] [] []

/-- Rank function of `reach_world`. -/
def reach_rank : PkgId → Nat
  | 0 => 2
  | 1 => 1
  | 4 => 1
  | _ => 0

/-- Options of a host build of the tests into `out`. -/
def test_opts : BuildOptions := ⟨"out", none, false, false, [], none, Mode.Test⟩

/-! ## Scenario: a root with a build script, a dependency and a build-dependency -/

/-- Package `A` with a library and a build script, the main dependency `B` and
the build-dependency `C`. -/
def scenario_world : World
  | 0 => simple_manifest "A" "build.rs" [lib_target "A" false] [dep_on "B" 1] [dep_on "C" 2] []
  | 1 => simple_manifest "B" "" [lib_target "B" false] [] [] []
  | _ => simple_manifest "C" "" [lib_target "C" false] [] [] []

/-- The job compile(B, target) of the scenario. -/
def scenario_job_b : Job :=
  ⟨JobKind.BuildTarget (lib_target "B" false) false, 1, "B v0.1.0", [], ""⟩

/-- The job compile(C, host) of the scenario. -/
def scenario_job_c : Job :=
  ⟨JobKind.BuildTarget (lib_target "C" false) true, 2, "C v0.1.0 (host)", [], ""⟩

/-- The jobs of `A` in the scenario: the compile of its build script, the run of
the script and the compile of its library for the target. -/
def scenario_jobs_a : List Job :=
  [⟨JobKind.BuildScript, 0, "A v0.1.0 (build)", ["C v0.1.0 (host)"], ""⟩,
    ⟨JobKind.RunScript, 0, "A v0.1.0 (script run)", ["A v0.1.0 (build)", "B v0.1.0"], ""⟩,
    ⟨JobKind.BuildTarget (lib_target "A" false) false, 0, "A v0.1.0",
      ["A v0.1.0 (script run)", "B v0.1.0"], "out/host/build_A-0_1_0.txt"⟩]

/-- The jobs handed to the scheduler, in order, or nothing when planning fails. -/
def planned_jobs (r : Except BuildError ConvertState) : List Job :=
  match r with
  | Except.ok st => st.joblist
  | Except.error _ => []

/-! ## Loading the output of build scripts -/

/-- Function `Job_RunScript::complete`, as the calls of `load_build_script` it
makes: one for the run-output file after a success, none after a failure (the
renaming of the output of a failed run is not part of the plan). -/
def Job_RunScript.complete (rs : RunState) (w : World) (p : PkgId) (was_success : Bool) :
    List (PkgId × String) :=
  if was_success then [(p, Job_RunScript.get_outfile rs (w p))] else []

/-- The run-script jobs among the jobs handed to the scheduler. -/
def run_jobs (st : ConvertState) : List Job :=
  st.joblist.filter (fun j => j.kind == JobKind.RunScript)

/-- The calls of `load_build_script` of a plan: those made while planning,
followed by those of an execution in which every script run succeeds. -/
def load_requests (rs : RunState) (w : World) (st : ConvertState) : List (PkgId × String) :=
  st.loaded ++ (run_jobs st).flatMap (fun j => Job_RunScript.complete rs w j.package true)

/-- How often `load_build_script` is called on the manifest `p`. -/
def requests_for (rs : RunState) (w : World) (st : ConvertState) (p : PkgId) : Nat :=
  (load_requests rs w st).countP (fun r => r.1 == p)

/-- The calls of `handle_build_script` that `build` makes for the package `p`:
one per list entry of `p`, and one for a root without library. -/
def script_calls (w : World) (root : PkgId) (m_list : List GraphEntry) (p : PkgId) : Nat :=
  m_list.countP (fun e => e.package == p) +
    (if !(w root).has_library && root == p then 1 else 0)

/-- Options of a cross build for target `t` into `out` with the build script
overrides in `/ov`. -/
def override_opts : BuildOptions :=
  ⟨"out", some "t", false, false, [], some "/ov", Mode.Normal⟩

/-- A package `foo` with a library and a build script. -/
def foo_world : World :=
  fun _ => simple_manifest "foo" "build.rs" [lib_target "foo" false] [] [] []

/-- The library of `foo_world` is built for the target and newer than the
compiler. -/
def foo_built_sys : Sys :=
  files_sys [("mrustc", 1), ("out/libfoo-0_1_0.rlib", 5)] [] false

/-- A root `r` that depends on the proc-macro package `pm` and on the package
`x`, which has a build script and on which `pm` depends as well. -/
def shared_world : World
  | 0 => simple_manifest "r" "" [lib_target "r" false] [dep_on "pm" 1, dep_on "x" 2] [] []
  | 1 => simple_manifest "pm" "" [lib_target "pm" true] [dep_on "x" 2] [] []
  | _ => simple_manifest "x" "build.rs" [lib_target "x" false] [] [] []

/-- A root `r` with a build script whose main dependency and build-dependency
are the same package `x`, which has a build script. -/
def both_world : World
  | 0 => simple_manifest "r" "build.rs" [lib_target "r" false] [dep_on "x" 1] [dep_on "x" 1] []
  | _ => simple_manifest "x" "build.rs" [lib_target "x" false] [] [] []

/-- Everything of the package `x` of `both_world` is built for a cross build and
up to date: its script binary, the output of its script, and its library for
the host and for the target. -/
def both_built_sys : Sys :=
  files_sys [("mrustc", 1), ("out/host/build_x-0_1_0_run", 10),
    ("out/host/build_x-0_1_0.txt", 12), ("out/libx-0_1_0.rlib", 14),
    ("out/host/libx-0_1_0.rlib", 14)] [] false

/-! ## Starting the jobs: command lines and environments -/

/-- Modelled from the spec: the fields of `BuildScriptOutput` that the jobs
read (`manifest.h` is not part of the sources). Link search directories and
link libraries are pairs of a kind and a value. -/
structure BuildScriptOutput where
  rustc_link_search : List (String × String)
  rustc_link_lib : List (String × String)
  rustc_cfg : List String
  rustc_flags : List String
  rustc_env : List (String × String)
  downstream_env : List (String × String)
deriving DecidableEq, Repr

/-- Modelled from the spec: what a job reads from its surroundings when it is
started: the working directory (for `to_absolute`), the build-script output
each manifest holds at that moment, the host triple `HOST_TARGET` and the
variables `Cfg_ToEnvironment` appends (`path.h`, `manifest.h`,
`target_detect.h` and `cfg.hpp` are not part of the sources). -/
structure Surroundings where
  cwd : String
  build_script_output : PkgId → BuildScriptOutput
  host_target : String
  cfg_environment : List (String × String)

/-- Modelled from the spec: `RunnableJob` is declared in `jobs.hpp`, which is
not part of the sources; its constructor takes the executable, the arguments,
the environment, the log file and optionally the working directory. -/
structure RunnableJob where
  exe : String
  args : List String
  env : List (String × String)
  logfile : String
  working_directory : String
deriving DecidableEq, Repr

/-- Modelled from the spec: `helpers::path::to_absolute` is declared in
`path.h`, which is not part of the sources; a path that does not start at the
root is put below the working directory. -/
def to_absolute (cwd path : String) : String :=
  if path.toList.head? == some '/' then path else path_join cwd path

/-- Modelled from the spec: `helpers::path::parent` is declared in `path.h`,
which is not part of the sources; it drops the last component of the path. -/
def parent_dir (path : String) : String :=
  String.mk (((path.toList.reverse.dropWhile (fun c => c != '/')).drop 1).reverse)

/-- Function `escape_dashes`. -/
def escape_dashes (s : String) : String :=
  String.mk (s.toList.map (fun c => if c == '-' then '_' else c))

/-- The loop of `push_env_common` over the main dependencies: every pair of
`downstream_env` of a non-disabled dependency is pushed. -/
def push_downstream_env (sr : Surroundings) :
    List PackageRef → List (String × String) → List (String × String)
  | [], env => env
  | dep :: rest, env =>
    if !dep.is_disabled then
      push_downstream_env sr rest (env ++ (sr.build_script_output dep.get_package).downstream_env)
    else push_downstream_env sr rest env

/-- Function `push_env_common`. -/
def push_env_common (sr : Surroundings) (env : List (String × String))
    (manifest : PackageManifest) : List (String × String) :=
  let env := env ++ [("CARGO_MANIFEST_DIR", to_absolute sr.cwd manifest.directory)]
  let env := env ++ [("CARGO_PKG_NAME", manifest.name)]
  let env := env ++ [("CARGO_PKG_VERSION", manifest.version.format)]
  let env := env ++ [("CARGO_PKG_VERSION_MAJOR", toString manifest.version.major)]
  let env := env ++ [("CARGO_PKG_VERSION_MINOR", toString manifest.version.minor)]
  let env := env ++ [("CARGO_PKG_VERSION_PATCH", toString manifest.version.patch)]
  push_downstream_env sr manifest.main_dependencies env

/-- Function `push_args_edition`. -/
def push_args_edition (args : List String) (edition : Edition) : List String :=
  match edition with
  | Edition.Unspec => args
  | Edition.Rust2015 => args ++ ["--edition"] ++ ["2015"]
  | Edition.Rust2018 => args ++ ["--edition"] ++ ["2018"]

/-- The value pushed for a library search directory of a host unit of a cross
build: the text from the position found by `rfind` on, in the length of the
needle `tp`, is cut out; the directory is kept when the needle does not occur. -/
def erase_target (tp d : String) : String :=
  match rfind d.toList tp.toList with
  | some needle_pos =>
    String.mk (d.toList.take needle_pos ++ d.toList.drop (needle_pos + tp.length))
  | none => d

/-- The loop of `push_args_common` over `lib_search_dirs`. -/
def push_lib_search_dirs (rs : RunState) (is_for_host : Bool) :
    List String → List String → List String
  | [], args => args
  | d :: rest, args =>
    let args := args ++ ["-L"]
    let args :=
      match rs.m_opts.target_name with
      | some target_name =>
        if is_for_host && !rs.m_opts.emit_mmir then
          args ++ [erase_target ("-" ++ target_name) d]
        else args ++ [d]
      | none => args ++ [d]
    push_lib_search_dirs rs is_for_host rest args

/-- The loop of `push_args_common` over the active features. -/
def push_features : List String → List String → List String
  | [], args => args
  | feat :: rest, args =>
    push_features rest (args ++ ["--cfg"] ++ ["feature=\"" ++ feat ++ "\""])

/-- Function `Job_Build::push_args_common`. -/
def push_args_common (rs : RunState) (manifest : PackageManifest) (args : List String)
    (outfile : String) (is_for_host : Bool) : List String :=
  let args := args ++ ["-o"] ++ [outfile]
  let args :=
    if !rs.is_rustc then args ++ ["-C"] ++ ["emit-depfile=" ++ outfile ++ ".d"]
    else args ++ ["--emit"] ++ ["link,dep-info"]
  let args := if rs.m_opts.enable_debug then args ++ ["-g"] else args
  let args := args ++ ["--cfg"] ++ ["debug_assertions"]
  let args := args ++ ["-O"]
  let args := if rs.m_opts.emit_mmir then args ++ ["-C"] ++ ["codegen-type=monomir"] else args
  let args := push_lib_search_dirs rs is_for_host rs.m_opts.lib_search_dirs args
  let args := args ++ ["-L"] ++ [rs.get_output_dir is_for_host]
  let args :=
    if !is_for_host then
      if rs.m_opts.target_name.isSome && !rs.m_opts.emit_mmir then
        args ++ ["-L"] ++ [rs.get_output_dir true]
      else args
    else args
  push_features manifest.active_features args

/-- The block of `Job_BuildTarget::start` guarded by `parent.m_opts.target_name`. -/
def push_target_args (rs : RunState) (args : List String) (outfile : String)
    (m_is_for_host : Bool) : List String :=
  match rs.m_opts.target_name with
  | some target_name =>
    if m_is_for_host then args
    else args ++ ["--target"] ++ [target_name] ++ ["-C"] ++
      ["emit-build-command=" ++ outfile ++ ".sh"]
  | none => args

/-- The loop of `Job_BuildTarget::start` over `rustc_link_search`. -/
def push_link_search : List (String × String) → List String → List String
  | [], args => args
  | dir :: rest, args => push_link_search rest (args ++ ["-L"] ++ [dir.2])

/-- The loop of `Job_BuildTarget::start` over `rustc_link_lib`. -/
def push_link_lib : List (String × String) → List String → List String
  | [], args => args
  | lib :: rest, args =>
    if lib.1 == "framework" then push_link_lib rest (args ++ ["-l"] ++ ["framework=" ++ lib.2])
    else push_link_lib rest (args ++ ["-l"] ++ [lib.2])

/-- The loop of `Job_BuildTarget::start` over `rustc_cfg`. -/
def push_cfg : List String → List String → List String
  | [], args => args
  | cfg :: rest, args => push_cfg rest (args ++ ["--cfg"] ++ [cfg])

/-- The loop of `Job_BuildTarget::start` over `rustc_flags`. -/
def push_flags : List String → List String → List String
  | [], args => args
  | flag :: rest, args => push_flags rest (args ++ [flag])

/-- The arguments `Job_BuildTarget::start` has pushed when it reaches the
`--extern` of the package's own library: the source file, the common
arguments, crate name, type and tag, the target block and what the build
script asked for. -/
def target_args_head (rs : RunState) (sr : Surroundings) (w : World) (p : PkgId)
    (m_target : PackageTarget) (m_is_for_host : Bool) (cp : CratePath) : List String :=
  let m_manifest := w p
  let outfile := cp.outfile
  let args := [path_join (parent_dir m_manifest.manifest_path) m_target.m_path]
  let args := push_args_common rs m_manifest args outfile m_is_for_host
  let args := args ++ ["--crate-name"] ++ [m_target.m_name]
  let args := args ++ ["--crate-type"] ++ [cp.crate_type]
  let args := args ++ crate_tag_args rs cp.out_crate_suffix outfile
  let args := push_target_args rs args outfile m_is_for_host
  let args := push_link_search (sr.build_script_output p).rustc_link_search args
  let args := push_link_lib (sr.build_script_output p).rustc_link_lib args
  let args := push_cfg (sr.build_script_output p).rustc_cfg args
  push_flags (sr.build_script_output p).rustc_flags args

/-- The block of `Job_BuildTarget::start` that adds the `--extern` of the
package's own library to a target that is no library. -/
def push_self_extern (rs : RunState) (sys : Sys) (m_manifest : PackageManifest)
    (m_target : PackageTarget) (m_is_for_host : Bool) (args : List String) :
    Except BuildError (List String) :=
  if m_target.m_type != TargetType.Lib && m_manifest.has_library then
    match m_manifest.get_library with
    | Except.error e => Except.error e
    | Except.ok lib =>
      match rs.get_crate_path sys m_manifest lib m_is_for_host with
      | Except.error e => Except.error e
      | Except.ok path =>
        Except.ok (args ++ ["--extern"] ++ [lib.m_name ++ "=" ++ path.outfile])
  else Except.ok args

/-- The loop of `Job_BuildTarget::start` over the main dependencies. -/
def push_main_externs (rs : RunState) (sys : Sys) (w : World) (m_is_for_host : Bool) :
    List PackageRef → List String → Except BuildError (List String)
  | [], args => Except.ok args
  | dep :: rest, args =>
    if !dep.is_disabled then
      let m := w dep.get_package
      match m.get_library with
      | Except.error e => Except.error e
      | Except.ok lib =>
        match rs.get_crate_path sys m lib (m_is_for_host || m.is_proc_lib) with
        | Except.error e => Except.error e
        | Except.ok path =>
          let args := args ++ ["--extern"]
          let args :=
            if dep.key != m.name then args ++ [escape_dashes dep.key ++ "=" ++ path.outfile]
            else args ++ [lib.m_name ++ "=" ++ path.outfile]
          push_main_externs rs sys w m_is_for_host rest args
    else push_main_externs rs sys w m_is_for_host rest args

/-- The loop of `Job_BuildTarget::start` over the dev-dependencies. -/
def push_dev_externs (rs : RunState) (sys : Sys) (w : World) (m_is_for_host : Bool) :
    List PackageRef → List String → Except BuildError (List String)
  | [], args => Except.ok args
  | dep :: rest, args =>
    if !dep.is_disabled then
      let m := w dep.get_package
      match m.get_library with
      | Except.error e => Except.error e
      | Except.ok lib =>
        match rs.get_crate_path sys m lib m_is_for_host with
        | Except.error e => Except.error e
        | Except.ok path =>
          push_dev_externs rs sys w m_is_for_host rest
            (args ++ ["--extern"] ++ [escape_dashes dep.key ++ "=" ++ path.outfile])
    else push_dev_externs rs sys w m_is_for_host rest args

/-- The environment of `Job_BuildTarget::start`. -/
def target_env (rs : RunState) (sr : Surroundings) (w : World) (p : PkgId)
    (m_is_for_host : Bool) : List (String × String) :=
  let m_manifest := w p
  let out_dir := path_join (to_absolute sr.cwd (rs.get_output_dir m_is_for_host))
    (rs.get_build_script_out m_manifest)
  let env := [("OUT_DIR", out_dir)]
  let env := env ++ (sr.build_script_output p).rustc_env
  push_env_common sr env m_manifest

/-- Function `Job_BuildTarget::start`, for the job of the target `m_target` of
the package `p`. -/
def Job_BuildTarget.start (rs : RunState) (sys : Sys) (sr : Surroundings) (w : World)
    (p : PkgId) (m_target : PackageTarget) (m_is_for_host : Bool) :
    Except BuildError RunnableJob :=
  let m_manifest := w p
  match rs.get_crate_path sys m_manifest m_target m_is_for_host with
  | Except.error e => Except.error e
  | Except.ok cp =>
  let outfile := cp.outfile
  let args := target_args_head rs sr w p m_target m_is_for_host cp
  match push_self_extern rs sys m_manifest m_target m_is_for_host args with
  | Except.error e => Except.error e
  | Except.ok args =>
  let args := push_args_edition args m_target.m_edition
  let args := if m_target.m_type == TargetType.Test then args ++ ["--test"] else args
  match push_main_externs rs sys w m_is_for_host m_manifest.main_dependencies args with
  | Except.error e => Except.error e
  | Except.ok args =>
  match (if m_target.m_type == TargetType.Test then
      push_dev_externs rs sys w m_is_for_host m_manifest.dev_dependencies args
    else Except.ok args) with
  | Except.error e => Except.error e
  | Except.ok args =>
  Except.ok ⟨rs.m_compiler_path, args, target_env rs sr w p m_is_for_host,
    outfile ++ "_dbg.txt", ""⟩

/-- The loop of `Job_BuildScript::start` over the build-dependencies. -/
def push_build_externs (rs : RunState) (sys : Sys) (w : World) :
    List PackageRef → List String → Except BuildError (List String)
  | [], args => Except.ok args
  | dep :: rest, args =>
    if !dep.is_disabled then
      let m := w dep.get_package
      match m.get_library with
      | Except.error e => Except.error e
      | Except.ok lib =>
        match rs.get_crate_path sys m lib true with
        | Except.error e => Except.error e
        | Except.ok path =>
          push_build_externs rs sys w rest
            (args ++ ["--extern"] ++ [lib.m_name ++ "=" ++ path.outfile])
    else push_build_externs rs sys w rest args

/-- Function `Job_BuildScript::start`, for the build script of the package `p`. -/
def Job_BuildScript.start (rs : RunState) (sys : Sys) (sr : Surroundings) (w : World)
    (p : PkgId) : Except BuildError RunnableJob :=
  let m_manifest := w p
  let outfile := rs.get_build_script_exe m_manifest
  let args := [path_join (parent_dir m_manifest.manifest_path) m_manifest.build_script]
  let args := push_args_common rs m_manifest args outfile true
  let args := args ++ ["--crate-name"] ++ ["build"]
  let args := args ++ ["--crate-type"] ++ ["bin"]
  let args := push_args_edition args m_manifest.edition
  match push_build_externs rs sys w m_manifest.build_dependencies args with
  | Except.error e => Except.error e
  | Except.ok args =>
  Except.ok ⟨rs.m_compiler_path, args, push_env_common sr [] m_manifest,
    outfile ++ "_dbg.txt", ""⟩

/-- The loop of `Job_RunScript::start` over the active features: the name of
the variable is `CARGO_FEATURE_` followed by the feature in upper case with
dashes replaced. -/
def push_feature_env : List String → List (String × String) → List (String × String)
  | [], env => env
  | feat :: rest, env =>
    let fn := "CARGO_FEATURE_" ++
      String.mk (feat.toList.map (fun c => if c == '-' then '_' else c.toUpper))
    push_feature_env rest (env ++ [(fn, "1")])

/-- The environment of `Job_RunScript::start`. -/
def script_env (rs : RunState) (sr : Surroundings) (w : World) (p : PkgId) :
    List (String × String) :=
  let m_manifest := w p
  let out_dir := path_join (rs.get_output_dir true) (rs.get_build_script_out m_manifest)
  let env := push_feature_env m_manifest.active_features []
  let env := env ++ [("OUT_DIR", to_absolute sr.cwd out_dir)]
  let env := push_env_common sr env m_manifest
  let env := env ++ [("TARGET",
    match rs.m_opts.target_name with
    | some target_name => target_name
    | none => sr.host_target)]
  let env := env ++ [("HOST", sr.host_target)]
  let env := env ++ [("NUM_JOBS", "1")]
  let env := env ++ [("OPT_LEVEL", "2")]
  let env := env ++ [("DEBUG", "0")]
  let env := env ++ [("PROFILE", "release")]
  let env := env ++ [("RUSTC", rs.m_compiler_path)]
  let env :=
    match rs.m_opts.lib_search_dirs with
    | front :: _ => env ++ [("MRUSTC_LIBDIR", to_absolute sr.cwd front)]
    | [] => env
  env ++ sr.cfg_environment

/-- Function `Job_RunScript::start`, for the build script of the package `p`. -/
def Job_RunScript.start (rs : RunState) (sr : Surroundings) (w : World) (p : PkgId) :
    RunnableJob :=
  let m_manifest := w p
  let out_file := Job_RunScript.get_outfile rs m_manifest
  let script_exe := rs.get_build_script_exe m_manifest
  let script_exe_abs := to_absolute sr.cwd script_exe
  let env := script_env rs sr w p
  if rs.m_opts.emit_mmir then
    ⟨"/home/tpg/Projects/mrustc/bin/standalone_miri",
      [script_exe_abs ++ ".mir", "--logfile", to_absolute sr.cwd out_file ++ "-smiri.log"],
      env, to_absolute sr.cwd out_file, m_manifest.directory⟩
  else ⟨script_exe_abs, [], env, to_absolute sr.cwd out_file, m_manifest.directory⟩

/-- The value the environment gives to a variable: the first pair of that name. -/
def env_value (env : List (String × String)) (name : String) : Option String :=
  (env.find? (fun kv => kv.1 == name)).map (fun kv => kv.2)

/-! ## The command lines and environments in the words of the specification -/

/-- The value of `-L` for a configured search directory: for a host unit of a
cross build (a target is set and `emit_mmir` is off) the last occurrence of
`-<target_name>` is removed. -/
def search_dir (rs : RunState) (is_for_host : Bool) (d : String) : String :=
  match rs.m_opts.target_name with
  | some target_name =>
    if is_for_host = true ∧ rs.m_opts.emit_mmir = false then
      erase_target ("-" ++ target_name) d
    else d
  | none => d

/-- The common arguments as the specification lists them. -/
def common_args (rs : RunState) (manifest : PackageManifest) (outfile : String)
    (is_for_host : Bool) : List String :=
  ["-o", outfile] ++
  (if rs.is_rustc = true then ["--emit", "link,dep-info"]
    else ["-C", "emit-depfile=" ++ outfile ++ ".d"]) ++
  (if rs.m_opts.enable_debug = true then ["-g"] else []) ++
  ["--cfg", "debug_assertions", "-O"] ++
  (if rs.m_opts.emit_mmir = true then ["-C", "codegen-type=monomir"] else []) ++
  rs.m_opts.lib_search_dirs.flatMap (fun d => ["-L", search_dir rs is_for_host d]) ++
  ["-L", rs.get_output_dir is_for_host] ++
  (if is_for_host = false ∧ rs.m_opts.target_name.isSome = true ∧ rs.m_opts.emit_mmir = false
    then ["-L", rs.get_output_dir true] else []) ++
  manifest.active_features.flatMap (fun f => ["--cfg", "feature=\"" ++ f ++ "\""])

/-- The common environment as the specification lists it. -/
def common_env (sr : Surroundings) (manifest : PackageManifest) : List (String × String) :=
  [("CARGO_MANIFEST_DIR", to_absolute sr.cwd manifest.directory),
    ("CARGO_PKG_NAME", manifest.name),
    ("CARGO_PKG_VERSION", manifest.version.format),
    ("CARGO_PKG_VERSION_MAJOR", toString manifest.version.major),
    ("CARGO_PKG_VERSION_MINOR", toString manifest.version.minor),
    ("CARGO_PKG_VERSION_PATCH", toString manifest.version.patch)] ++
  (manifest.main_dependencies.filter (fun dep => !dep.is_disabled)).flatMap
    (fun dep => (sr.build_script_output dep.get_package).downstream_env)

/-- The library of a dependency and the path of its crate file, when both can
be determined. -/
def dep_library (rs : RunState) (sys : Sys) (w : World) (is_host : Bool) (dep : PackageRef) :
    Option (PackageTarget × String) :=
  match (w dep.get_package).get_library with
  | Except.error _ => none
  | Except.ok lib =>
    match rs.get_crate_path sys (w dep.get_package) lib is_host with
    | Except.error _ => none
    | Except.ok path => some (lib, path.outfile)

/-- The alias of a main dependency: its key with every dash replaced by an
underscore when the key differs from the name of the package, the name of the
library target of the package otherwise. -/
def main_alias (w : World) (dep : PackageRef) (lib : PackageTarget) : String :=
  if dep.key ≠ (w dep.get_package).name then escape_dashes dep.key else lib.m_name

/-- The `--extern` pairs of the non-disabled main dependencies, in order. -/
def main_extern_args (rs : RunState) (sys : Sys) (w : World) (is_host : Bool)
    (deps : List PackageRef) : List String :=
  (deps.filter (fun dep => !dep.is_disabled)).flatMap (fun dep =>
    match dep_library rs sys w (is_host || (w dep.get_package).is_proc_lib) dep with
    | some (lib, path) => ["--extern", main_alias w dep lib ++ "=" ++ path]
    | none => [])

/-- The `--extern` pairs of the non-disabled dev-dependencies, in order. -/
def dev_extern_args (rs : RunState) (sys : Sys) (w : World) (is_host : Bool)
    (deps : List PackageRef) : List String :=
  (deps.filter (fun dep => !dep.is_disabled)).flatMap (fun dep =>
    match dep_library rs sys w is_host dep with
    | some (_, path) => ["--extern", escape_dashes dep.key ++ "=" ++ path]
    | none => [])

/-- The `--extern` pair of the package's own library, for a target that is no
library of a package that has one. -/
def self_extern_args (rs : RunState) (sys : Sys) (w : World) (p : PkgId)
    (target : PackageTarget) (is_host : Bool) : List String :=
  if target.m_type ≠ TargetType.Lib ∧ (w p).has_library = true then
    match dep_library rs sys w is_host ⟨"", false, p⟩ with
    | some (lib, path) => ["--extern", lib.m_name ++ "=" ++ path]
    | none => []
  else []

/-- The target block of a target job: `--target <target_name>` followed by
`-C emit-build-command=<outfile>.sh` when a target name is set and the unit is
no host unit, nothing otherwise. -/
def target_option (rs : RunState) (outfile : String) (is_host : Bool) : List String :=
  match rs.m_opts.target_name with
  | some target_name =>
    if is_host = false then
      ["--target", target_name, "-C", "emit-build-command=" ++ outfile ++ ".sh"]
    else []
  | none => []

/-- The values that a target job passes on as they are given to it: the
directory values of `-L`, the output directory, the name of the target and
what the build script asked for. -/
def verbatim_values (rs : RunState) (sr : Surroundings) (p : PkgId) (target : PackageTarget)
    (is_host : Bool) : List String :=
  rs.m_opts.lib_search_dirs.map (search_dir rs is_host) ++ [rs.m_opts.output_dir] ++
  [target.m_name] ++
  (sr.build_script_output p).rustc_link_search.map (fun d => d.2) ++
  (sr.build_script_output p).rustc_link_lib.map (fun l => l.2) ++
  (sr.build_script_output p).rustc_cfg ++ (sr.build_script_output p).rustc_flags

/-! ## Examples of started jobs -/

/-- Surroundings with the working directory `/w`, in which no build script has
produced anything. -/
def plain_surroundings : Surroundings :=
  ⟨"/w", fun _ => ⟨[], [], [], [], [], []⟩, "x86_64-unknown-linux-gnu", []⟩

/-- The run state of a cross build with `cross_opts`. -/
def cross_rs : RunState := ⟨cross_opts, "mrustc", true⟩

/-- A test target. -/
def test_target (name : String) : PackageTarget :=
  ⟨name, "tests/" ++ name ++ ".rs", TargetType.Test, [], false, Edition.Rust2018⟩

/-- A package `app` with a library, a binary and a test; its main dependencies
are `dep-pkg` under the key `my-dep`, a disabled dependency and `plain` under
its own name; its dev-dependency is `dev-pkg`. -/
def extern_world : World
  | 0 => simple_manifest "app" "" [lib_target "app_lib" false, bin_target "app", test_target "t1"]
      [⟨"my-dep", false, 1⟩, ⟨"skipped", true, 3⟩, dep_on "plain" 2] [] [dep_on "dev-pkg" 3]
  | 1 => simple_manifest "dep-pkg" "" [lib_target "dep_lib" false] [] [] []
  | 2 => simple_manifest "plain" "" [lib_target "plain_lib" false] [] [] []
  | _ => simple_manifest "dev-pkg" "" [lib_target "dev_lib" false] [] [] []

/-- Surroundings with the working directory `/w` in which the build script of
every package has asked for the flags `--target` and `x`. -/
def flag_surroundings : Surroundings :=
  ⟨"/w", fun _ => ⟨[], [], [], ["--target", "x"], [], []⟩, "x86_64-unknown-linux-gnu", []⟩
/-! ## Process spawner: `spawn_process` (POSIX branch) -/

/-- The part of the process state that the POSIX branch of `spawn_process`
reads and writes: the current directory of the process, the directories that
can be entered, and what `posix_spawn` followed by `waitpid` does for an
executable started from a directory (`none` when `posix_spawn` returns
non-zero, the wait status of the child otherwise). -/
structure Posix where
  cwd : String
  is_dir : String → Bool
  run : String → String → Option Int

/-- The directory a path names when it is resolved from `cwd`. -/
def Posix.resolve (os : Posix) (path : String) : String :=
  if path == "." then os.cwd else to_absolute os.cwd path

/-- The call `open(path, O_DIRECTORY)`: the descriptor is the directory it
refers to, `none` stands for the error value. -/
def Posix.open_directory (os : Posix) (path : String) : Option String :=
  if os.is_dir (os.resolve path) then some (os.resolve path) else none

/-- The call `chdir(path)`; the current directory is kept when it fails. -/
def Posix.chdir (os : Posix) (path : String) : Posix :=
  if os.is_dir (os.resolve path) then { os with cwd := os.resolve path } else os

/-- The call `fchdir(fd)`; the current directory is kept when it fails. -/
def Posix.fchdir (os : Posix) (fd : Option String) : Posix :=
  match fd with
  | some dir => { os with cwd := dir }
  | none => os

/-- Function `spawn_process`, POSIX branch, from the block that holds
`s_chdir_mutex` on: the value returned and the process state on return. An
empty `working_directory` is the default-constructed path. -/
def spawn_process (os : Posix) (exe_name : String) (working_directory : String) :
    Bool × Posix :=
  let fd_cwd := os.open_directory "."
  let os1 := if working_directory != "" then os.chdir working_directory else os
  match os1.run os1.cwd exe_name with
  | none => (false, os1)
  | some status =>
    let os2 := if working_directory != "" then os1.fchdir fd_cwd else os1
    if status != 0 then (false, os2) else (true, os2)

/-- A process in the directory `/w` in which every directory can be entered
and only the executable `/w/out/build_p_run` can be spawned; it exits with
status zero. -/
def spawn_os : Posix :=
  ⟨"/w", fun _ => true, fun _ exe => if exe == "/w/out/build_p_run" then some 0 else none⟩
/-! ## Output paths of planned jobs -/

/-- Function `get_outfile` of the three job classes. -/
def Job.get_outfile (rs : RunState) (sys : Sys) (w : World) (job : Job) :
    Except BuildError String :=
  match job.kind with
  | JobKind.BuildTarget target is_for_host =>
    match rs.get_crate_path sys (w job.package) target is_for_host with
    | Except.error e => Except.error e
    | Except.ok cp => Except.ok cp.outfile
  | JobKind.BuildScript => Except.ok (rs.get_build_script_exe (w job.package))
  | JobKind.RunScript => Except.ok (Job_RunScript.get_outfile rs (w job.package))

/-- The job that the loop of `build` constructs for the list entry `e`. -/
def entry_job (rs : RunState) (w : World) (e : GraphEntry) : Except BuildError Job :=
  match (w e.package).get_library with
  | Except.error err => Except.error err
  | Except.ok lib => Except.ok (Job_BuildTarget rs w e.package lib e.is_host)

/-- Options of a build of the tests for the target `t` into `out`. -/
def cross_test_opts : BuildOptions := ⟨"out", some "t", false, false, [], none, Mode.Test⟩

/-- A package `app` with a library and the test `t1`, whose only
dev-dependency is the proc-macro package `pm`. -/
def dev_proc_world : World
  | 0 => simple_manifest "app" "" [lib_target "app_lib" false, test_target "t1"] [] []
      [dep_on "pm" 1]
  | _ => simple_manifest "pm" "" [lib_target "pm_lib" true] [] [] []

/-- A package `app` with a library whose main dependencies are the proc-macro
package `pm` and the package `plain`. -/
def plugin_dep_world : World
  | 0 => simple_manifest "app" "" [lib_target "app_lib" false] [dep_on "pm" 1, dep_on "plain" 2]
      [] []
  | 1 => simple_manifest "pm" "" [lib_target "pm_lib" true] [] [] []
  | _ => simple_manifest "plain" "" [lib_target "plain_lib" false] [] [] []

/-- The started job of the library of `app` in `plugin_dep_world`, built for
the target `t` from the directory `/w`. -/
def plugin_dep_job : RunnableJob :=
  ⟨"mrustc",
    ["app/src/lib.rs", "-o", "out/libapp_lib-0_1_0.rlib", "-C",
      "emit-depfile=out/libapp_lib-0_1_0.rlib.d", "--cfg", "debug_assertions", "-O", "-L", "out",
      "-L", "out/host", "--crate-name", "app_lib", "--crate-type", "rlib", "--crate-tag", "0_1_0",
      "--target", "t", "-C", "emit-build-command=out/libapp_lib-0_1_0.rlib.sh",
      "--extern", "pm_lib=out/host/libpm_lib-0_1_0-plugin",
      "--extern", "plain_lib=out/libplain_lib-0_1_0.rlib"],
    [("OUT_DIR", "/w/out/build_app-0_1_0"), ("CARGO_MANIFEST_DIR", "/w/app"),
      ("CARGO_PKG_NAME", "app"), ("CARGO_PKG_VERSION", "0.1.0"),
      ("CARGO_PKG_VERSION_MAJOR", "0"), ("CARGO_PKG_VERSION_MINOR", "1"),
      ("CARGO_PKG_VERSION_PATCH", "0")],
    "out/libapp_lib-0_1_0.rlib_dbg.txt", ""⟩
/-! ## Packages the constructor comes to -/

/-- The packages that `BuildList::BuildList` can come to: those reached from
the root through non-disabled main- and build-dependency edges and, in the
modes in which the constructor walks the dev-dependencies of the root, those
reached in the same way from a non-disabled dev-dependency of the root. -/
def Walked (w : World) (opts : BuildOptions) (root p : PkgId) : Prop :=
  Relation.ReflTransGen (WalkEdge w) root p ∨
  (opts.mode ≠ Mode.Normal ∧
    ∃ d, DevEdge w root d ∧ Relation.ReflTransGen (WalkEdge w) d p)

/-- A root `r` with a library and no main or build dependency, whose
dev-dependency `d` lists itself as a main dependency. -/
def dev_cycle_world : World
  | 0 => simple_manifest "r" "" [lib_target "r" false] [] [] [dep_on "d" 1]
  | _ => simple_manifest "d" "" [lib_target "d" false] [dep_on "d" 1] [] []
/-! ## Build-dependencies in the graph builder's list -/

/-- Every non-disabled build-dependency of `e` has a host entry in `l`, of
strictly greater level, when the package of `e` has a build script and build
dependencies are included. -/
def BuildDepsIn (w : World) (include_build : Bool) (e : Ent) (l : List Ent) : Prop :=
  (w e.package).build_script ≠ "" → include_build = true →
    ∀ dep ∈ (w e.package).build_dependencies, dep.is_disabled = false →
      ∃ e' ∈ l, e'.package = dep.get_package ∧ e'.native = true ∧ e.level < e'.level

/-- All entries of level at least `n` have their build-dependencies in the list. -/
def BuildClosedAbove (w : World) (include_build : Bool) (n : Nat) (l : List Ent) : Prop :=
  ∀ e ∈ l, n ≤ e.level → BuildDepsIn w include_build e l

/-- The world that `add_dependencies` sees: the build-dependencies it does not
iterate, those of a package without a build script and, when build
dependencies are not included, those of every package, are left out. -/
def without_build_deps (w : World) (include_build : Bool) : World :=
  fun p =>
    if (w p).build_script != "" && include_build then w p
    else { w p with build_dependencies := [] }

/-- An edge that the graph builder follows: a non-disabled main-dependency
edge, or a non-disabled build-dependency edge of a package with a build script
when build dependencies are included. -/
def FollowedEdge (w : World) (include_build : Bool) (p q : PkgId) : Prop :=
  MainEdge w p q ∨ ((w p).build_script ≠ "" ∧ include_build = true ∧ BuildEdge w p q)
/-! ## Order of the final list -/

/-- In the list `l` every entry is preceded, strictly earlier, by each entry
it requires. -/
def Precedes (req : GraphEntry → GraphEntry → Prop) (l : List GraphEntry) : Prop :=
  ∀ A x B, l = A ++ x :: B → ∀ g, req x g → g ∈ A

/-- The host entry of a non-disabled build-dependency of the package of `x`,
when that package has a build script. -/
def build_requires (w : World) (x g : GraphEntry) : Prop :=
  (w x.package).build_script ≠ "" ∧
    ∃ dep ∈ (w x.package).build_dependencies, dep.is_disabled = false ∧
      g = ⟨dep.get_package, true⟩
/-! ## Keys known to the planner -/

/-- The key `k` is a key of `items_built` or of `items_notbuilt`. -/
def ConvertState.registered (st : ConvertState) (k : String) : Prop :=
  k ∈ st.items_built ∨ (find_notbuilt st.items_notbuilt k).isSome = true

/-- The name under which the job of a list entry is recorded. -/
def entry_key (rs : RunState) (w : World) (g : GraphEntry) : String :=
  rs.get_key (w g.package) false g.is_host

/-- The result is a value with the property `P`, or a failure other than the
`abort()` of `handle_dep`. -/
def Safe {α : Type} (P : α → Prop) : Except BuildError α → Prop
  | Except.ok a => P a
  | Except.error e => e ≠ BuildError.assertion_failed

/-- The entries whose keys the planner looks up while it handles the entry
`x`: the one of each non-disabled main dependency, under the host flag of `x`
(forced for a proc-macro library), and, when `x` has a build script and no
overrides are configured, the host entry of each non-disabled
build-dependency. -/
def entry_requires (w : World) (overrides : Option String) (x g : GraphEntry) : Prop :=
  (∃ dep ∈ (w x.package).main_dependencies, dep.is_disabled = false ∧
    g = ⟨dep.get_package, x.is_host || (w dep.get_package).is_proc_lib⟩) ∨
  (overrides = none ∧ build_requires w x g)

/-- Rank function of `scenario_world`. -/
def scenario_rank : PkgId → Nat
  | 0 => 1
  | _ => 0
/-! ## Job scheduler: `JobList::run_all` -/

/-- Modelled from the spec: what the scheduler `JobList::run_all` (defined in
`jobs.cpp`, which is not part of the sources) does with a job, in the order in
which it does it: the call of the job's `start`, and the call of its
`complete` hook with the outcome of the child. -/
inductive SchedEvent where
  | start (job : Job)
  | complete (job : Job) (was_success : Bool)
deriving DecidableEq, Repr

/-- Modelled from the spec: the state of the scheduler `JobList::run_all`
(`jobs.cpp` is not part of the sources): the pending jobs, the jobs that are
running, the names of the jobs that are done with success and with failure,
and the events so far. -/
structure SchedState where
  pending : List Job
  running : List Job
  done_success : List String
  done_fail : List String
  events : List SchedEvent
deriving DecidableEq, Repr

/-- Modelled from the spec: the scheduler of `jobs.cpp` is not part of the
sources; a job is ready when all names in its `dependencies` list are in
done-success. -/
def SchedState.ready (st : SchedState) (job : Job) : Bool :=
  job.m_dependencies.all (fun d => st.done_success.contains d)

/-- Modelled from the spec: the two things that can happen next in the
scheduler of `jobs.cpp` (not part of the sources): it selects a pending job
and starts it, or the child of a running job ends with success or failure. -/
inductive SchedStep where
  | launch (job : Job)
  | finish (job : Job) (was_success : Bool)
deriving DecidableEq, Repr

/-- Modelled from the spec: one transition of the scheduler of `jobs.cpp` (not
part of the sources), `none` when the scheduler cannot make it. A pending job
is started when it is ready and one of the `num_jobs` worker slots is free: it
becomes running and its `start` is invoked. When the child of a running job
ends, the job's `complete` hook runs with the outcome and the job is
done-success or done-fail. -/
def SchedState.step (num_jobs : Nat) (st : SchedState) : SchedStep → Option SchedState
  | SchedStep.launch job =>
    if st.pending.contains job && st.ready job && decide (st.running.length < num_jobs) then
      some { st with
        pending := st.pending.erase job
        running := st.running ++ [job]
        events := st.events ++ [SchedEvent.start job] }
    else none
  | SchedStep.finish job was_success =>
    if st.running.contains job then
      some { st with
        running := st.running.erase job
        done_success := if was_success then st.done_success ++ [job.name] else st.done_success
        done_fail := if was_success then st.done_fail else st.done_fail ++ [job.name]
        events := st.events ++ [SchedEvent.complete job was_success] }
    else none

/-- Modelled from the spec: a run of the scheduler of `jobs.cpp` (not part of
the sources) along a sequence of transitions. -/
def SchedState.run (num_jobs : Nat) : SchedState → List SchedStep → Option SchedState
  | st, [] => some st
  | st, s :: rest =>
    match st.step num_jobs s with
    | none => none
    | some st1 => st1.run num_jobs rest

/-- Modelled from the spec: the state in which `JobList::run_all` (`jobs.cpp`,
not part of the sources) starts: every job added to the list is pending. -/
def SchedState.init (jobs : List Job) : SchedState := ⟨jobs, [], [], [], []⟩

theorem DepsIn.mono {w : World} {e : Ent} {l : List Ent} (h : DepsIn w e l) (ext : List Ent) :
    DepsIn w e (l ++ ext) := by
  intro dep hd hdis
  obtain ⟨e', he', h1, h2, h3⟩ := h dep hd hdis
  exact ⟨e', List.mem_append_left _ he', h1, h2, h3⟩

theorem add_each_ok (w : World)
    (addp : PkgId → Nat → Bool → Bool → List Ent → Option (List Ent))
    (haddp : ∀ p level ib nat l l', addp p level ib nat l = some l' → AddOk w p level nat l l')
    (level : Nat) (ib nat : Bool) (deps : List PackageRef) :
    ∀ l l', add_each addp level ib nat deps l = some l' → EachOk w deps level nat l l' := by
  induction deps with
  | nil =>
    intro l l' h
    simp only [add_each, Option.some.injEq] at h
    subst h
    exact ⟨[], by simp, by simp, fun h => h, by simp⟩
  | cons dep rest ih =>
    intro l l' h
    simp only [add_each] at h
    by_cases hdis : dep.is_disabled = true
    · simp only [hdis, if_true] at h
      obtain ⟨ext, h1, h2, h3, h4⟩ := ih l l' h
      refine ⟨ext, h1, h2, h3, ?_⟩
      intro d hd hd'
      rcases List.mem_cons.mp hd with rfl | hd
      · simp [hdis] at hd'
      · exact h4 d hd hd'
    · simp only [hdis] at h
      cases hcall : addp dep.get_package (level + 1) ib nat l with
      | none => simp [hcall] at h
      | some l1 =>
        simp only [hcall] at h
        obtain ⟨ext1, e1, e2, e3, e', he', e4⟩ := haddp _ _ _ _ _ _ hcall
        obtain ⟨ext, h1, h2, h3, h4⟩ := ih l1 l' h
        refine ⟨ext1 ++ ext, by rw [h1, e1, List.append_assoc], ?_, fun hc => h3 (e3 hc), ?_⟩
        · intro e he
          rcases List.mem_append.mp he with he | he
          · exact e2 e he
          · exact h2 e he
        · intro d hd hd'
          rcases List.mem_cons.mp hd with rfl | hd
          · exact ⟨e', by rw [h1]; exact List.mem_append_left _ he', e4⟩
          · exact h4 d hd hd'

theorem add_dependencies_with_ok (w : World)
    (addp : PkgId → Nat → Bool → Bool → List Ent → Option (List Ent))
    (haddp : ∀ p level ib nat l l', addp p level ib nat l = some l' → AddOk w p level nat l l')
    (p : PackageManifest) (level : Nat) (ib nat : Bool) (l l' : List Ent)
    (h : add_dependencies_with addp p level ib nat l = some l') :
    EachOk w p.main_dependencies level nat l l' := by
  unfold add_dependencies_with at h
  cases hmain : add_each addp level ib nat p.main_dependencies l with
  | none => simp [hmain] at h
  | some l1 =>
    simp only [hmain] at h
    have hm := add_each_ok w addp haddp level ib nat _ _ _ hmain
    split at h
    · obtain ⟨ext1, e1, e2, e3, e4⟩ := hm
      obtain ⟨ext, h1, h2, h3, _⟩ := add_each_ok w addp haddp level true true _ _ _ h
      refine ⟨ext1 ++ ext, by rw [h1, e1, List.append_assoc], ?_, fun hc => h3 (e3 hc), ?_⟩
      · intro e he
        rcases List.mem_append.mp he with he | he
        · exact e2 e he
        · exact h2 e he
      · intro d hd hd'
        obtain ⟨e', he', r⟩ := e4 d hd hd'
        exact ⟨e', by rw [h1]; exact List.mem_append_left _ he', r⟩
    · simp only [Option.some.injEq] at h
      subst h
      exact hm

theorem add_package_ok (w : World) :
    ∀ fuel p level ib nat l l', add_package w fuel p level ib nat l = some l' →
      AddOk w p level nat l l' := by
  intro fuel
  induction fuel with
  | zero => intro p level ib nat l l' h; simp [add_package] at h
  | succ fuel ih =>
    intro p level ib nat l l' h
    have hnat : (if (w p).is_proc_lib then true else nat) = (nat || (w p).is_proc_lib) := by
      cases nat <;> cases (w p).is_proc_lib <;> rfl
    simp only [add_package, hnat] at h
    split at h
    · rename_i hany
      simp only [Option.some.injEq] at h
      subst h
      obtain ⟨e, he, hc⟩ := List.any_eq_true.mp hany
      simp only [Ent.covers, Bool.and_eq_true, beq_iff_eq, decide_eq_true_eq] at hc
      exact ⟨[], by simp, by simp, fun h => h, e, he, hc.1.1, hc.1.2, hc.2⟩
    · obtain ⟨ext, h1, h2, h3, h4⟩ := add_dependencies_with_ok w _ ih _ _ _ _ _ _ h
      refine ⟨⟨p, nat || (w p).is_proc_lib, level⟩ :: ext, by rw [h1]; simp, ?_, ?_, ?_⟩
      · intro e he
        rcases List.mem_cons.mp he with rfl | he
        · exact Nat.le_refl _
        · exact Nat.le_of_succ_le (h2 e he)
      · intro hc
        have hc1 : ClosedAbove w (level + 1) (l ++ [⟨p, nat || (w p).is_proc_lib, level⟩]) := by
          intro e he hle
          rcases List.mem_append.mp he with he | he
          · exact (hc e he (Nat.le_of_succ_le hle)).mono _
          · simp only [List.mem_singleton] at he
            subst he
            simp at hle
        have hc2 := h3 hc1
        intro e he hle
        rw [h1] at he
        rcases List.mem_append.mp he with he | he
        · rcases List.mem_append.mp he with he | he
          · have := ((hc e he hle).mono [⟨p, nat || (w p).is_proc_lib, level⟩]).mono ext
            rw [h1]; exact this
          · simp only [List.mem_singleton] at he
            subst he
            intro dep hd hdis
            obtain ⟨e', he', r1, r2, r3⟩ := h4 dep hd hdis
            exact ⟨e', he', r1, r2, r3⟩
        · exact hc2 e (by rw [h1]; exact List.mem_append_right _ he) (h2 e he)
      · exact ⟨⟨p, nat || (w p).is_proc_lib, level⟩, by rw [h1]; simp, rfl, rfl, Nat.le_refl _⟩

theorem add_dependencies_ok (w : World) (fuel : Nat) (p : PkgId) (level : Nat) (ib nat : Bool)
    (l l' : List Ent) (h : add_dependencies w fuel p level ib nat l = some l') :
    EachOk w (w p).main_dependencies level nat l l' :=
  add_dependencies_with_ok w _ (add_package_ok w fuel) _ _ _ _ _ _ h

/-- After the constructor has collected the list, every entry has all its
non-disabled main dependencies in the list at a strictly greater level. -/
theorem collect_closed (w : World) (fuel : Nat) (root : PkgId) (opts : BuildOptions)
    (pre : List Ent) (h : BuildList.collect w fuel root opts = some pre) :
    ∀ e ∈ pre, DepsIn w e pre := by
  unfold BuildList.collect at h
  dsimp only at h
  cases hroot : add_dependencies w fuel root 0 (!opts.build_script_overrides.isSome)
      (!opts.target_name.isSome) [] with
  | none => rw [hroot] at h; exact absurd h (by simp)
  | some l1 =>
    rw [hroot] at h
    dsimp only at h
    obtain ⟨ext1, e1, e2, _, e4⟩ := add_dependencies_ok w _ _ _ _ _ _ _ hroot
    simp only [List.nil_append] at e1
    subst e1
    have hc1 : ClosedAbove w 1 l1 := by
      have := add_dependencies_ok w _ _ _ _ _ _ _ hroot
      obtain ⟨_, _, _, e3, _⟩ := this
      exact e3 (by intro e he; simp at he)
    -- the list after the root has been appended
    have hc2 : ∀ l2, l2 = (if (w root).has_library then
        l1 ++ [(⟨root, !opts.target_name.isSome, 0⟩ : Ent)] else l1) → ClosedAbove w 0 l2 := by
      intro l2 hl2
      split at hl2
      · subst hl2
        intro e he _
        rcases List.mem_append.mp he with he | he
        · exact (hc1 e he (e2 e he)).mono _
        · simp only [List.mem_singleton] at he
          subst he
          intro dep hd hdis
          obtain ⟨e', he', r1, r2, r3⟩ := e4 dep hd hdis
          exact ⟨e', List.mem_append_left _ he', r1, r2, r3⟩
      · subst hl2
        intro e he _
        exact hc1 e he (e2 e he)
    split at h
    · obtain ⟨ext, h1, h2, h3, _⟩ := add_each_ok w _ (add_package_ok w fuel) _ _ _ _ _ _ h
      have hc0 := hc2 _ rfl
      have hc3 := h3 (fun e he _ => hc0 e he (Nat.zero_le _))
      intro e he
      rw [h1] at he
      rcases List.mem_append.mp he with he | he
      · rw [h1]; exact (hc0 e he (Nat.zero_le _)).mono _
      · exact hc3 e (by rw [h1]; exact List.mem_append_right _ he) (h2 e he)
    · simp only [Option.some.injEq] at h
      intro e he
      exact hc2 _ h.symm e he (Nat.zero_le _)

theorem add_each_isSome
    (addp : PkgId → Nat → Bool → Bool → List Ent → Option (List Ent))
    (level : Nat) (ib nat : Bool) (deps : List PackageRef)
    (h : ∀ dep ∈ deps, dep.is_disabled = false →
      ∀ lv ib nat l, (addp dep.get_package lv ib nat l).isSome = true) :
    ∀ l, (add_each addp level ib nat deps l).isSome = true := by
  induction deps with
  | nil => intro l; simp [add_each]
  | cons dep rest ih =>
    intro l
    simp only [add_each]
    have ih' := ih (fun d hd => h d (List.mem_cons_of_mem _ hd))
    by_cases hdis : dep.is_disabled = true
    · simp only [hdis, if_true]; exact ih' l
    · simp only [hdis]
      have hdis' : dep.is_disabled = false := by simpa using hdis
      have hs := h dep (List.mem_cons_self _ _) hdis' (level + 1) ib nat l
      cases hcall : addp dep.get_package (level + 1) ib nat l with
      | none => simp [hcall] at hs
      | some l1 => simpa using ih' l1

theorem add_dependencies_with_isSome
    (addp : PkgId → Nat → Bool → Bool → List Ent → Option (List Ent))
    (p : PackageManifest) (level : Nat) (ib nat : Bool)
    (h : ∀ dep ∈ p.main_dependencies ++ p.build_dependencies, dep.is_disabled = false →
      ∀ lv ib nat l, (addp dep.get_package lv ib nat l).isSome = true) :
    ∀ l, (add_dependencies_with addp p level ib nat l).isSome = true := by
  intro l
  unfold add_dependencies_with
  have hm := add_each_isSome addp level ib nat p.main_dependencies
    (fun d hd => h d (List.mem_append_left _ hd)) l
  cases hmain : add_each addp level ib nat p.main_dependencies l with
  | none => simp [hmain] at hm
  | some l1 =>
    simp only
    split
    · exact add_each_isSome addp level true true p.build_dependencies
        (fun d hd => h d (List.mem_append_right _ hd)) l1
    · rfl

/-- With fuel above the rank of the package, `add_package` returns. -/
theorem add_package_isSome (w : World) (rank : PkgId → Nat) (hacyc : Acyclic w rank) :
    ∀ fuel p, rank p < fuel → ∀ level ib nat l,
      (add_package w fuel p level ib nat l).isSome = true := by
  intro fuel
  induction fuel with
  | zero => intro p hp; exact absurd hp (Nat.not_lt_zero _)
  | succ fuel ih =>
    intro p hp level ib nat l
    simp only [add_package]
    generalize (if (w p).is_proc_lib = true then true else nat) = nat'
    split
    · rfl
    · apply add_dependencies_with_isSome
      intro dep hd hdis
      exact ih dep.get_package (by have := hacyc p dep hd hdis; omega)

theorem collect_isSome (w : World) (rank : PkgId → Nat) (hacyc : Acyclic w rank)
    (root : PkgId) (opts : BuildOptions) :
    (BuildList.collect w (BuildList.fuel_for w rank root) root opts).isSome = true := by
  unfold BuildList.collect add_dependencies
  dsimp only
  have hroot := add_dependencies_with_isSome
    (add_package w (BuildList.fuel_for w rank root)) (w root) 0
    (!opts.build_script_overrides.isSome) (!opts.target_name.isSome)
    (fun dep hd hdis => add_package_isSome w rank hacyc _ dep.get_package
      (by have := hacyc root dep hd hdis; unfold BuildList.fuel_for; omega)) []
  cases hr : add_dependencies_with (add_package w (BuildList.fuel_for w rank root)) (w root) 0
      (!opts.build_script_overrides.isSome) (!opts.target_name.isSome) [] with
  | none => rw [hr] at hroot; exact absurd hroot (by simp)
  | some l1 =>
    dsimp only
    split
    · apply add_each_isSome
      intro dep hd _
      apply add_package_isSome w rank hacyc
      have : rank dep.get_package ≤
          ((w root).dev_dependencies.map (fun d => rank d.get_package)).sum :=
        List.single_le_sum (by intro x _; exact Nat.zero_le x) _
          (List.mem_map.mpr ⟨dep, hd, rfl⟩)
      unfold BuildList.fuel_for
      omega
    · rfl

/-! ## Lemmas on `sort_list` -/

theorem to_graph_eq_map_key (l : List Ent) : to_graph l = l.map Ent.key := rfl

theorem any_key_iff (kept : List Ent) (e : Ent) :
    kept.any (fun x => x.package == e.package && x.native == e.native) = true ↔
      e.key ∈ to_graph kept := by
  rw [to_graph_eq_map_key, List.any_eq_true, List.mem_map]
  constructor
  · rintro ⟨x, hx, h⟩
    simp only [Bool.and_eq_true, beq_iff_eq] at h
    exact ⟨x, hx, by simp [Ent.key, h.1, h.2]⟩
  · rintro ⟨x, hx, h⟩
    simp only [Ent.key, GraphEntry.mk.injEq] at h
    exact ⟨x, hx, by simp [h.1, h.2]⟩

theorem sort_by_level_post (l : List Ent) : std_sort_post l (sort_by_level l) := by
  refine ⟨List.perm_insertionSort _ l, ?_⟩
  unfold sort_by_level
  induction l with
  | nil => simp
  | cons a t ih =>
    simp only [List.insertionSort]
    have key : ∀ (s : List Ent), s.Pairwise (fun a b => b.level ≤ a.level) →
        (s.orderedInsert (fun a b => b.level ≤ a.level) a).Pairwise
          (fun a b => b.level ≤ a.level) := by
      intro s hs
      induction s with
      | nil => simp
      | cons b s ihs =>
        simp only [List.orderedInsert]
        rw [List.pairwise_cons] at hs
        split
        · rename_i hle
          refine List.pairwise_cons.mpr ⟨?_, List.pairwise_cons.mpr hs⟩
          intro c hc
          rcases List.mem_cons.mp hc with rfl | hc
          · exact hle
          · exact Nat.le_trans (hs.1 c hc) hle
        · rename_i hle
          refine List.pairwise_cons.mpr ⟨?_, ihs hs.2⟩
          intro c hc
          rcases (List.mem_orderedInsert _).mp hc with rfl | hc
          · omega
          · exact hs.1 c hc
    exact key _ ih

theorem dedup_loop_nodup : ∀ rest kept, (to_graph kept).Nodup →
    (to_graph (dedup_loop kept rest)).Nodup := by
  intro rest
  induction rest with
  | nil => intro kept h; exact h
  | cons e r ih =>
    intro kept h
    simp only [dedup_loop]
    split
    · exact ih kept h
    · rename_i hany
      apply ih
      rw [to_graph_eq_map_key, List.map_append, List.nodup_append]
      refine ⟨h, by simp, ?_⟩
      intro a ha hb
      simp only [List.map_cons, List.map_nil, List.mem_singleton] at hb
      subst hb
      exact hany ((any_key_iff kept e).mpr ha)

theorem dedup_loop_keeps : ∀ rest kept (e : Ent), e ∈ kept ++ rest →
    e.key ∈ to_graph (dedup_loop kept rest) := by
  intro rest
  induction rest with
  | nil =>
    intro kept e he
    simp only [List.append_nil] at he
    exact List.mem_map.mpr ⟨e, he, rfl⟩
  | cons x r ih =>
    intro kept e he
    simp only [dedup_loop]
    split
    · rename_i hany
      rcases List.mem_append.mp he with he | he
      · exact ih kept e (List.mem_append_left _ he)
      · rcases List.mem_cons.mp he with rfl | he
        · have hk := (any_key_iff kept e).mp hany
          obtain ⟨y, hy, hye⟩ := List.mem_map.mp hk
          have := ih kept y (List.mem_append_left _ hy)
          rw [← hye]; exact this
        · exact ih kept e (List.mem_append_right _ he)
    · apply ih
      rcases List.mem_append.mp he with he | he
      · exact List.mem_append_left _ (List.mem_append_left _ he)
      · rcases List.mem_cons.mp he with rfl | he
        · exact List.mem_append_left _ (List.mem_append_right _ (List.mem_singleton_self _))
        · exact List.mem_append_right _ he

theorem dedup_loop_mem : ∀ rest kept (g : GraphEntry), g ∈ to_graph (dedup_loop kept rest) →
    g ∈ to_graph (kept ++ rest) := by
  intro rest
  induction rest with
  | nil => intro kept g h; simpa [dedup_loop] using h
  | cons x r ih =>
    intro kept g h
    simp only [dedup_loop] at h
    split at h
    · have := ih kept g h
      simp only [to_graph_eq_map_key, List.map_append, List.mem_append, List.map_cons,
        List.mem_cons] at this ⊢
      tauto
    · have := ih _ g h
      simpa [to_graph_eq_map_key, List.append_assoc] using this

theorem Topological.snoc {w : World} {l : List GraphEntry} (hl : Topological w l)
    (x : GraphEntry)
    (hx : ∀ dep ∈ (w x.package).main_dependencies, dep.is_disabled = false →
      (⟨dep.get_package, x.is_host || (w dep.get_package).is_proc_lib⟩ : GraphEntry) ∈ l) :
    Topological w (l ++ [x]) := by
  intro A y B hAB dep hd hdis
  rcases List.eq_nil_or_concat B with rfl | ⟨B', z, rfl⟩
  · have h1 : l ++ [x] = A ++ [y] := hAB
    obtain ⟨h2, h3⟩ := List.append_inj' h1 rfl
    simp only [List.cons.injEq, and_true] at h3
    subst h2 h3
    exact hx dep hd hdis
  · have h1 : l ++ [x] = (A ++ y :: B') ++ [z] := by
      rw [hAB]; simp [List.concat_eq_append]
    obtain ⟨h2, _⟩ := List.append_inj' h1 rfl
    exact hl A y B' h2 dep hd hdis

/-- The deduplication of a list sorted by descending level, in which every
entry has its dependencies at a greater level, is in topological order. -/
theorem dedup_loop_topological (w : World) : ∀ rest kept done,
    (∀ x ∈ done, x.key ∈ to_graph kept) → Topological w (to_graph kept) →
    (done ++ rest).Pairwise (fun a b => b.level ≤ a.level) →
    (∀ e ∈ rest, DepsIn w e (done ++ rest)) →
    Topological w (to_graph (dedup_loop kept rest)) := by
  intro rest
  induction rest with
  | nil => intro kept done _ h _ _; exact h
  | cons e r ih =>
    intro kept done hdone htopo hsorted hdeps
    have hassoc : done ++ e :: r = (done ++ [e]) ++ r := by simp
    simp only [dedup_loop]
    split
    · rename_i hany
      apply ih kept (done ++ [e])
      · intro x hx
        rcases List.mem_append.mp hx with hx | hx
        · exact hdone x hx
        · simp only [List.mem_singleton] at hx
          subst hx
          exact (any_key_iff kept x).mp hany
      · exact htopo
      · rw [← hassoc]; exact hsorted
      · intro e' he'
        rw [← hassoc]
        exact hdeps e' (List.mem_cons_of_mem _ he')
    · apply ih (kept ++ [e]) (done ++ [e])
      · intro x hx
        rw [to_graph_eq_map_key, List.map_append]
        rcases List.mem_append.mp hx with hx | hx
        · exact List.mem_append_left _ (hdone x hx)
        · simp only [List.mem_singleton] at hx
          subst hx
          exact List.mem_append_right _ (by simp)
      · rw [to_graph_eq_map_key, List.map_append]
        apply Topological.snoc htopo
        intro dep hd hdis
        obtain ⟨e', he', r1, r2, r3⟩ := hdeps e (List.mem_cons_self _ _) dep hd hdis
        have hin : e' ∈ done := by
          rcases List.mem_append.mp he' with h | h
          · exact h
          · rw [List.pairwise_append, List.pairwise_cons] at hsorted
            rcases List.mem_cons.mp h with rfl | h
            · omega
            · have := hsorted.2.1.1 e' h
              omega
        have := hdone e' hin
        simp only [Ent.key, r1, r2] at this
        exact this
      · rw [← hassoc]; exact hsorted
      · intro e' he'
        rw [← hassoc]
        exact hdeps e' (List.mem_cons_of_mem _ he')

theorem new_produces (w : World) (fuel : Nat) (root : PkgId) (opts : BuildOptions)
    (final : List GraphEntry) (h : BuildList.new w fuel root opts = some final) :
    BuildList.produces w root opts final := by
  unfold BuildList.new at h
  cases hc : BuildList.collect w fuel root opts with
  | none => rw [hc] at h; exact absurd h (by simp)
  | some pre =>
    rw [hc] at h
    simp only [Option.map_some', Option.some.injEq] at h
    exact ⟨fuel, pre, sort_by_level pre, hc, sort_by_level_post pre, h.symm⟩

/-! ## The depfile reader never runs out of fuel -/

theorem Lexer.measure_le (ifp : List Char) (eof : Bool) (c : Char) :
    (Lexer.mk ifp eof c).measure ≤ ifp.length + 1 := by
  unfold Lexer.measure
  dsimp only
  split <;> omega

theorem Lexer.measure_eof : (Lexer.mk [] true '\x00').measure = 0 := by decide

theorem skip_spaces_measure : ∀ (ifp : List Char) (eof : Bool) (c : Char),
    ((skip_spaces ifp eof c).1 = false → (skip_spaces ifp eof c).2 = ⟨[], true, '\x00'⟩) ∧
    ((skip_spaces ifp eof c).2.ifp.length ≤ ifp.length) := by
  intro ifp
  induction ifp with
  | nil =>
    intro eof c
    simp only [skip_spaces]
    split <;> simp
  | cons a rest ih =>
    intro eof c
    simp only [skip_spaces]
    split
    · obtain ⟨h1, h2⟩ := ih eof a
      exact ⟨h1, Nat.le_succ_of_le h2⟩
    · simp

theorem token_loop_measure : ∀ (n : Nat) (ifp : List Char), ifp.length ≤ n →
    ∀ (eof : Bool) (c : Char) (rv : List Char),
      (token_loop ifp eof c rv).2.measure ≤ ifp.length := by
  intro n
  induction n with
  | zero =>
    intro ifp hlen eof c rv
    have : ifp = [] := List.length_eq_zero.mp (Nat.le_zero.mp hlen)
    subst this
    rw [token_loop.eq_1]
    split <;> exact Nat.le_of_eq Lexer.measure_eof
  | succ n ih =>
    intro ifp hlen eof c rv
    match ifp, hlen with
    | [], _ =>
      rw [token_loop.eq_1]
      split <;> exact Nat.le_of_eq Lexer.measure_eof
    | [c1], _ =>
      rw [token_loop.eq_2]
      split
      · rw [Lexer.measure_eof]; exact Nat.zero_le _
      · split
        · exact Nat.le_trans (ih [] (Nat.zero_le _) eof c1 _) (Nat.zero_le _)
        · exact Lexer.measure_le [] eof c1
    | c1 :: c2 :: rest2, hlen =>
      rw [token_loop.eq_3]
      simp only [List.length_cons] at hlen ⊢
      split
      · split
        · exact Nat.le_trans (ih rest2 (by omega) eof c2 _) (by omega)
        · exact Nat.le_trans (Lexer.measure_le rest2 eof c2) (by omega)
      · split
        · exact Nat.le_trans (ih (c2 :: rest2) (by simp only [List.length_cons]; omega) eof c1 _)
            (by simp only [List.length_cons]; omega)
        · exact Nat.le_trans (Lexer.measure_le (c2 :: rest2) eof c1)
            (by simp only [List.length_cons]; omega)

theorem nextc_measure (lx : Lexer) : lx.nextc.2.measure ≤ lx.ifp.length := by
  unfold Lexer.nextc
  split
  · rename_i h; rw [h]; exact Nat.le_of_eq Lexer.measure_eof
  · rename_i c rest h
    rw [h]
    exact Lexer.measure_le rest lx.eof c

/-- A token that is not empty costs the lexer at least one step; no token
gives steps back. -/
theorem get_token_measure (lx : Lexer) :
    lx.get_token.2.measure ≤ lx.measure ∧
    (lx.get_token.1 ≠ "" → lx.get_token.2.measure < lx.measure) := by
  unfold Lexer.get_token
  split
  · exact ⟨Nat.le_refl _, fun h => absurd rfl h⟩
  · rename_i hfirst
    have hm : lx.measure = lx.ifp.length + 1 := by
      unfold Lexer.measure
      rw [if_neg hfirst]
    obtain ⟨hs1, hs2⟩ := skip_spaces_measure lx.ifp lx.eof lx.m_c
    split
    · rename_i lx1 hskip
      rw [hskip] at hs1
      have := hs1 rfl
      dsimp only at this
      subst this
      refine ⟨?_, fun h => absurd rfl h⟩
      rw [Lexer.measure_eof]; exact Nat.zero_le _
    · rename_i lx1 hskip
      rw [hskip] at hs2
      dsimp only at hs2
      have key : ∀ (t : String) (lx2 : Lexer), lx2.measure ≤ lx1.ifp.length →
          (t, lx2).2.measure ≤ lx.measure ∧ ((t, lx2).1 ≠ "" → (t, lx2).2.measure < lx.measure) := by
        intro t lx2 h2
        dsimp only
        rw [hm]
        exact ⟨by omega, fun _ => by omega⟩
      split
      · exact key _ _ (nextc_measure lx1)
      · split
        · exact key _ _ (nextc_measure lx1)
        · exact key _ _ (token_loop_measure _ lx1.ifp (Nat.le_refl _) lx1.eof lx1.m_c [])

theorem read_paths_some : ∀ (fuel : Nat) (lx : Lexer) (rv : DepMap) (target : String),
    lx.measure < fuel →
    ∃ lx' rv', read_paths fuel lx rv target = some (lx', rv') ∧ lx'.measure ≤ lx.measure := by
  intro fuel
  induction fuel with
  | zero => intro lx rv target h; exact absurd h (Nat.not_lt_zero _)
  | succ fuel ih =>
    intro lx rv target h
    obtain ⟨g1, g2⟩ := get_token_measure lx
    simp only [read_paths]
    split
    · exact ⟨_, _, rfl, g1⟩
    · rename_i hne
      have hne' : lx.get_token.1 ≠ "" := by
        intro hc
        rw [hc] at hne
        exact hne (by decide)
      have hlt := g2 hne'
      obtain ⟨lx', rv', h1, h2⟩ := ih lx.get_token.2
        (DepMap.push_back rv target lx.get_token.1) target (by omega)
      exact ⟨lx', rv', h1, by omega⟩

theorem read_lines_some : ∀ (fuel : Nat) (lx : Lexer) (rv : DepMap), lx.measure < fuel →
    ∃ r, read_lines fuel lx rv = some r ∧ r ≠ Except.error BuildError.out_of_fuel := by
  intro fuel
  induction fuel with
  | zero => intro lx rv h; exact absurd h (Nat.not_lt_zero _)
  | succ fuel ih =>
    intro lx rv h
    obtain ⟨g1, g2⟩ := get_token_measure lx
    simp only [read_lines]
    split
    · exact ⟨_, rfl, by simp⟩
    · rename_i hne
      have hlt := g2 (by simpa using hne)
      split
      · exact ih _ _ (by omega)
      · split
        · exact ⟨_, rfl, by simp⟩
        · obtain ⟨t1, t2⟩ := get_token_measure lx.get_token.2
          obtain ⟨lx', rv', h1, h2⟩ := read_paths_some fuel lx.get_token.2.get_token.2
            (DepMap.insert_empty rv lx.get_token.1) lx.get_token.1 (by omega)
          rw [h1]
          exact ih lx' rv' (by omega)

/-- The fuel given by `parse_depfile` always suffices: the reader returns a map
or fails with the malformed-depfile error. -/
theorem parse_depfile_total (content : List Char) :
    parse_depfile content ≠ Except.error BuildError.out_of_fuel := by
  unfold parse_depfile
  have hm : (Lexer.new content).measure < content.length + 2 := by
    unfold Lexer.new
    have := nextc_measure ⟨content, false, '\x00'⟩
    dsimp only at this
    omega
  obtain ⟨r, h1, h2⟩ := read_lines_some _ _ [] hm
  rw [h1]
  exact h2

/-! ## The graph builder: order, deduplication, host promotion -/

theorem chain_world_acyclic : Acyclic chain_world chain_rank := by
  intro p dep hd hdis
  match p with
  | 0 =>
    simp only [chain_world, simple_manifest, dep_on, List.append_nil, List.mem_cons,
      List.mem_singleton, List.not_mem_nil, or_false] at hd
    rcases hd with rfl | rfl <;> simp [chain_rank]
  | 1 =>
    simp only [chain_world, simple_manifest, dep_on, List.append_nil, List.mem_cons,
      List.mem_singleton, List.not_mem_nil, or_false] at hd
    subst hd
    simp [chain_rank]
  | n + 2 => simp [chain_world, simple_manifest] at hd

/-- C1: when the non-disabled main/build dependency relation is acyclic, the
constructor returns a list, and in every list it can return each entry
`(P, is_host)` is preceded, strictly earlier, by the entry
`(D, is_host || D is a proc-macro library)` of each non-disabled main
dependency `D` of `P`. -/
theorem build_list_topological (w : World) (root : PkgId) (opts : BuildOptions)
    (rank : PkgId → Nat) (hacyc : Acyclic w rank) :
    (∃ fuel final, BuildList.new w fuel root opts = some final ∧
      BuildList.produces w root opts final) ∧
    ∀ final, BuildList.produces w root opts final → Topological w final := by
  constructor
  · have hs := collect_isSome w rank hacyc root opts
    cases hc : BuildList.collect w (BuildList.fuel_for w rank root) root opts with
    | none => rw [hc] at hs; exact absurd hs (by simp)
    | some pre =>
      have hn : BuildList.new w (BuildList.fuel_for w rank root) root opts =
          some (to_graph (sort_list pre)) := by
        unfold BuildList.new; rw [hc]; rfl
      exact ⟨_, _, hn, new_produces _ _ _ _ _ hn⟩
  · rintro final ⟨fuel, pre, sorted, hpre, ⟨hperm, hsorted⟩, rfl⟩
    apply dedup_loop_topological w sorted [] []
    · intro x hx; simp at hx
    · intro A x B h; simp [to_graph] at h
    · simpa using hsorted
    · intro e he
      have he' : e ∈ pre := hperm.mem_iff.mp he
      intro dep hd hdis
      obtain ⟨e', h1, h2⟩ := collect_closed w fuel root opts pre hpre e he' dep hd hdis
      exact ⟨e', by simpa using hperm.mem_iff.mpr h1, h2⟩

/-- Witness of C1 on the chain `a → b → c`, `a → c`. -/
theorem build_list_topological_witness :
    Acyclic chain_world chain_rank ∧
    BuildList.new chain_world 3 0 host_opts = some [⟨2, true⟩, ⟨1, true⟩, ⟨0, true⟩] ∧
    Topological chain_world [⟨2, true⟩, ⟨1, true⟩, ⟨0, true⟩] :=
  ⟨chain_world_acyclic, by decide,
    (build_list_topological chain_world 0 host_opts chain_rank chain_world_acyclic).2 _
      (new_produces chain_world 3 0 host_opts _ (by decide))⟩

/-- C2: whatever order `std::sort` leaves the collected list in, the final list
has no two entries with the same `(package, is_host)` pair, and every pair
present before `sort_list` is present in the final list. -/
theorem sort_list_dedup (w : World) (fuel : Nat) (root : PkgId) (opts : BuildOptions)
    (pre sorted : List Ent) (hpre : BuildList.collect w fuel root opts = some pre)
    (hsort : std_sort_post pre sorted) :
    BuildList.produces w root opts (to_graph (dedup_loop [] sorted)) ∧
    (to_graph (dedup_loop [] sorted)).Nodup ∧
    ∀ e ∈ pre, (⟨e.package, e.native⟩ : GraphEntry) ∈ to_graph (dedup_loop [] sorted) := by
  refine ⟨⟨fuel, pre, sorted, hpre, hsort, rfl⟩, ?_, ?_⟩
  · exact dedup_loop_nodup sorted [] (by simp [to_graph])
  · intro e he
    exact dedup_loop_keeps sorted [] e (by simpa using hsort.1.mem_iff.mpr he)

/-- Witness of C2: in `chain_world` the package `c` is collected twice (levels 1
and 2) and kept once. -/
theorem sort_list_dedup_witness :
    BuildList.collect chain_world 3 0 host_opts =
      some [⟨2, true, 1⟩, ⟨1, true, 1⟩, ⟨2, true, 2⟩, ⟨0, true, 0⟩] ∧
    to_graph (dedup_loop [] (sort_by_level
      [⟨2, true, 1⟩, ⟨1, true, 1⟩, ⟨2, true, 2⟩, ⟨0, true, 0⟩])) =
      [⟨2, true⟩, ⟨1, true⟩, ⟨0, true⟩] ∧
    (to_graph (dedup_loop [] (sort_by_level
      [⟨2, true, 1⟩, ⟨1, true, 1⟩, ⟨2, true, 2⟩, ⟨0, true, 0⟩]))).Nodup :=
  ⟨by decide, by decide,
    (sort_list_dedup chain_world 3 0 host_opts _ _ (by decide) (sort_by_level_post _)).2.1⟩

/-- C3 (violated): when a target is set and the root's library is a proc-macro,
the constructor appends the root with `is_host = false`. -/
theorem root_proc_lib_not_host :
    BuildList.new proc_root_world 1 0 cross_opts = some [⟨0, false⟩] ∧
    (proc_root_world 0).is_proc_lib = true ∧
    ¬ ∀ e ∈ [(⟨0, false⟩ : GraphEntry)],
      (proc_root_world e.package).is_proc_lib = true → e.is_host = true := by
  refine ⟨by decide, by decide, ?_⟩
  intro h
  exact absurd (h ⟨0, false⟩ (by simp) (by decide)) (by decide)

/-! ## Job names -/

/-- Counterexample to C4: for a root package with a library and a binary and
nothing built yet, the plan holds two jobs, the library and the binary, both
named `r v0.1.0`; the binary's job lists its own name as its dependency. -/
theorem root_lib_and_bin_share_name :
    BuildList.new lib_bin_world 1 0 host_opts = some [⟨0, true⟩] ∧
    (BuildList.build empty_sys lib_bin_world 0 [⟨0, true⟩] host_opts).map
      (fun st => st.joblist.map (fun j => (j.name, j.m_dependencies))) =
      Except.ok [("r v0.1.0", []), ("r v0.1.0", ["r v0.1.0"])] ∧
    ¬ (["r v0.1.0", "r v0.1.0"] : List String).Nodup := by
  refine ⟨by decide, by decide, by decide⟩

/-! ## The staleness oracle -/

theorem Timestamp.lt_irrefl (a : Timestamp) : a.lt a = false := by
  cases a <;> simp [Timestamp.lt]

theorem Timestamp.lt_asymm {a b : Timestamp} (h : a.lt b = true) : b.lt a = false := by
  cases a <;> cases b <;> simp_all [Timestamp.lt]
  omega

theorem Timestamp.not_lt_infinite_past (a : Timestamp) :
    a.lt Timestamp.infinite_past = false := by
  cases a <;> rfl

theorem has_new_file_iff (sys : Sys) (ts : Timestamp) (files : List String) :
    has_new_file sys ts files = true ↔ ∃ f ∈ files, ts.lt (sys.for_file f) = true := by
  induction files with
  | nil => simp [has_new_file]
  | cons f rest ih =>
    simp only [has_new_file, List.mem_cons, exists_eq_or_imp]
    split
    · rename_i h; simp [h]
    · rename_i h; simp [h, ih]

theorem outfile_needs_rebuild_of_age (rs : RunState) (sys : Sys) (outfile : String)
    (h : stale_by_age rs sys outfile) :
    rs.outfile_needs_rebuild sys outfile = Except.ok true := by
  unfold RunState.outfile_needs_rebuild
  dsimp only
  rcases h with h | ⟨h1, h2⟩
  · rw [if_pos (by rw [h]; rfl)]
  · split
    · rfl
    · rw [if_pos (by rw [h1, h2]; rfl)]

theorem outfile_needs_rebuild_of_not_age (rs : RunState) (sys : Sys) (outfile : String)
    (h : ¬ stale_by_age rs sys outfile) :
    rs.outfile_needs_rebuild sys outfile =
      match load_depfile sys (outfile ++ ".d") with
      | Except.error e => Except.error e
      | Except.ok depfile_ents =>
        match DepMap.find depfile_ents outfile with
        | some files => Except.ok (has_new_file sys (sys.for_file outfile) files)
        | none => Except.ok false := by
  unfold stale_by_age at h
  rw [not_or] at h
  unfold RunState.outfile_needs_rebuild
  dsimp only
  rw [if_neg (by simpa using h.1)]
  rw [if_neg]
  intro hc
  simp only [Bool.and_eq_true, Bool.not_eq_true'] at hc
  exact h.2 hc

/-- C5 (amended): `outfile_needs_rebuild` returns true exactly when (1) the
output is missing, or (2) `MINICARGO_IGNTOOLS` is unset and the output is older
than the compiler, or (3) the depfile loads and its entry keyed by the output
lists an input strictly newer than the output; it returns false exactly when
none of (1), (2) holds and the depfile loads (as the empty map when it is
missing) without such an input. -/
theorem outfile_needs_rebuild_iff (rs : RunState) (sys : Sys) (outfile : String) :
    (rs.outfile_needs_rebuild sys outfile = Except.ok true ↔
      stale_by_age rs sys outfile ∨
      ∃ m, load_depfile sys (outfile ++ ".d") = Except.ok m ∧ newer_input sys m outfile) ∧
    (rs.outfile_needs_rebuild sys outfile = Except.ok false ↔
      ¬ stale_by_age rs sys outfile ∧
      ∃ m, load_depfile sys (outfile ++ ".d") = Except.ok m ∧ ¬ newer_input sys m outfile) := by
  by_cases hage : stale_by_age rs sys outfile
  · rw [outfile_needs_rebuild_of_age rs sys outfile hage]
    simp [hage]
  · rw [outfile_needs_rebuild_of_not_age rs sys outfile hage]
    cases hload : load_depfile sys (outfile ++ ".d") with
    | error e => simp [hage]
    | ok m =>
      simp only [hage, false_or, not_false_eq_true, true_and, Except.ok.injEq, exists_eq_left']
      unfold newer_input
      cases hfind : DepMap.find m outfile with
      | none => simp
      | some files =>
        simp only [Except.ok.injEq, Option.some.injEq, exists_eq_left']
        rw [has_new_file_iff]
        constructor
        · exact Iff.rfl
        · rw [← Bool.not_eq_true, has_new_file_iff]

/-- Counterexample to C5: the output exists, the compiler check is off, no input
is newer, and yet the oracle does not return false: the malformed depfile makes
it fail. -/
theorem outfile_needs_rebuild_malformed :
    malformed_sys.for_file "out.rlib" ≠ Timestamp.infinite_past ∧
    malformed_sys.igntools = true ∧
    load_depfile malformed_sys "out.rlib.d" = Except.error BuildError.malformed_depfile ∧
    host_rs.outfile_needs_rebuild malformed_sys "out.rlib" ≠ Except.ok true ∧
    host_rs.outfile_needs_rebuild malformed_sys "out.rlib" ≠ Except.ok false ∧
    host_rs.outfile_needs_rebuild malformed_sys "out.rlib" =
      Except.error BuildError.malformed_depfile := by
  refine ⟨by decide, by decide, by decide, by decide, by decide, by decide⟩

/-! ## The depfile reader -/

theorem escaped_eq_value (c : Char) : escaped c = (Piece.esc c).value := by
  unfold escaped Piece.value
  by_cases h1 : c = ' '
  · simp [h1]
  · by_cases h2 : c = ':'
    · simp [h2]
    · simp [h1, h2]

theorem continues_token_of_terminator {c : Char} (h : is_terminator c) :
    continues_token c = false := by
  rcases h with rfl | rfl | rfl <;> decide

theorem source_of_head (p : Piece) (ps : List Piece) (hp : p.well_formed) (suffix : List Char) :
    ∃ c t, source_of (p :: ps) ++ suffix = c :: t ∧ continues_token c = true := by
  cases p with
  | plain c =>
    refine ⟨c, source_of ps ++ suffix, by simp [source_of, Piece.source], ?_⟩
    obtain ⟨_, h2, h3, h4⟩ := hp
    simp [continues_token, h2, h3, h4]
  | esc c =>
    exact ⟨'\\', c :: (source_of ps ++ suffix), by simp [source_of, Piece.source], by decide⟩

theorem token_loop_plain (c : Char) (rest : List Char) (eof : Bool) (m_c : Char)
    (rv : List Char) (h : (m_c == '\\') = false) :
    token_loop (c :: rest) eof m_c rv =
      if continues_token c then token_loop rest eof c (rv ++ [m_c])
      else (rv ++ [m_c], ⟨rest, eof, c⟩) := by
  rw [token_loop.eq_def]; simp [h]

theorem token_loop_esc (c c2 : Char) (rest2 : List Char) (eof : Bool) (rv : List Char) :
    token_loop (c :: c2 :: rest2) eof '\\' rv =
      if continues_token c2 then token_loop rest2 eof c2 (rv ++ escaped c)
      else (rv ++ escaped c, ⟨rest2, eof, c2⟩) := by
  rw [token_loop.eq_def]; simp

/-- The token loop on a sequence of well-formed pieces followed by a
terminator: it yields the characters the pieces stand for and stops with the
terminator as current character. -/
theorem token_loop_pieces : ∀ (ps : List Piece) (p : Piece) (rv : List Char)
    (stop : Char) (rest : List Char) (eof : Bool),
    (∀ q ∈ p :: ps, q.well_formed) → is_terminator stop →
    ∀ c0 tail, c0 :: tail = source_of (p :: ps) ++ stop :: rest →
      token_loop tail eof c0 rv = (rv ++ value_of (p :: ps), ⟨rest, eof, stop⟩) := by
  intro ps
  induction ps with
  | nil =>
    intro p rv stop rest eof hwf hstop c0 tail hsrc
    have hstop' := continues_token_of_terminator hstop
    cases p with
    | plain c =>
      simp only [source_of, Piece.source, List.append_nil, List.singleton_append,
        List.cons.injEq] at hsrc
      obtain ⟨rfl, rfl⟩ := hsrc
      have hc : (c0 == '\\') = false := by
        have := (hwf _ (List.mem_cons_self _ _)).1
        simpa using this
      rw [token_loop_plain _ _ _ _ _ hc]
      simp [hstop', value_of, Piece.value]
    | esc c =>
      simp only [source_of, Piece.source, List.append_nil, List.cons_append,
        List.nil_append, List.cons.injEq] at hsrc
      obtain ⟨rfl, rfl⟩ := hsrc
      rw [token_loop_esc]
      simp [hstop', value_of, escaped_eq_value]
  | cons q qs ih =>
    intro p rv stop rest eof hwf hstop c0 tail hsrc
    have hwf' : ∀ x ∈ q :: qs, x.well_formed := fun x hx => hwf x (List.mem_cons_of_mem _ hx)
    obtain ⟨c1, t1, h1, hcont⟩ := source_of_head q qs (hwf q (by simp)) (stop :: rest)
    have ih' := fun rv' => ih q rv' stop rest eof hwf' hstop c1 t1 h1.symm
    cases p with
    | plain c =>
      have hsrc' : c0 :: tail = c :: (source_of (q :: qs) ++ stop :: rest) := by
        rw [hsrc]; simp [source_of, Piece.source]
      rw [h1] at hsrc'
      simp only [List.cons.injEq] at hsrc'
      obtain ⟨rfl, rfl⟩ := hsrc'
      have hc : (c0 == '\\') = false := by
        have := (hwf _ (List.mem_cons_self _ _)).1
        simpa using this
      rw [token_loop_plain _ _ _ _ _ hc]
      simp only [hcont, if_true]
      rw [ih']
      simp [value_of, Piece.value]
    | esc c =>
      have hsrc' : c0 :: tail = '\\' :: c :: (source_of (q :: qs) ++ stop :: rest) := by
        rw [hsrc]; simp [source_of, Piece.source]
      rw [h1] at hsrc'
      simp only [List.cons.injEq] at hsrc'
      obtain ⟨rfl, rfl⟩ := hsrc'
      rw [token_loop_esc]
      simp only [hcont, if_true]
      rw [ih']
      simp [value_of, escaped_eq_value]

theorem skip_spaces_replicate : ∀ (n : Nat) (c : Char) (t : List Char) (eof : Bool),
    c ≠ ' ' → ∀ c0 tail, c0 :: tail = List.replicate n ' ' ++ c :: t →
      skip_spaces tail eof c0 = (true, ⟨t, eof, c⟩) := by
  intro n
  induction n with
  | zero =>
    intro c t eof hc c0 tail h
    simp only [List.replicate, List.nil_append, List.cons.injEq] at h
    obtain ⟨rfl, rfl⟩ := h
    have : (c0 == ' ') = false := by simpa using hc
    cases tail <;> simp [skip_spaces, this]
  | succ n ih =>
    intro c t eof hc c0 tail h
    simp only [List.replicate, List.cons_append, List.cons.injEq] at h
    obtain ⟨rfl, rfl⟩ := h
    obtain ⟨c1, t1, h1⟩ : ∃ c1 t1, c1 :: t1 = List.replicate n ' ' ++ c :: t := by
      cases n with
      | zero => exact ⟨c, t, by simp⟩
      | succ m => exact ⟨' ', List.replicate m ' ' ++ c :: t, by simp [List.replicate]⟩
    rw [← h1]
    simp only [skip_spaces, beq_self_eq_true, if_true]
    exact ih c t eof hc c1 t1 h1

theorem piece_head (p : Piece) (ps : List Piece) (hp : p.starts_token) (suffix : List Char) :
    ∃ c t, source_of (p :: ps) ++ suffix = c :: t ∧ c ≠ ' ' ∧ (c == '\n') = false ∧
      (c == '\t') = false := by
  cases p with
  | plain c =>
    obtain ⟨_, h2, h3, h4⟩ := hp
    exact ⟨c, source_of ps ++ suffix, by simp [source_of, Piece.source], h2, by simpa using h3,
      by simpa using h4⟩
  | esc c =>
    exact ⟨'\\', c :: (source_of ps ++ suffix), by simp [source_of, Piece.source], by decide,
      by decide, by decide⟩

/-- The token loop takes its first piece as it is, a colon too, and goes on
over well-formed pieces up to the terminator. -/
theorem token_loop_first (ps : List Piece) (p : Piece) (rv : List Char) (stop : Char)
    (rest : List Char) (eof : Bool) (hp : p.starts_token) (hwf : ∀ q ∈ ps, q.well_formed)
    (hstop : is_terminator stop) :
    ∀ c0 tail, c0 :: tail = source_of (p :: ps) ++ stop :: rest →
      token_loop tail eof c0 rv = (rv ++ value_of (p :: ps), ⟨rest, eof, stop⟩) := by
  intro c0 tail hsrc
  have hstop' := continues_token_of_terminator hstop
  cases ps with
  | nil =>
    cases p with
    | plain c =>
      simp only [source_of, Piece.source, List.append_nil, List.singleton_append,
        List.cons.injEq] at hsrc
      obtain ⟨rfl, rfl⟩ := hsrc
      have hc : (c0 == '\\') = false := by simpa using hp.1
      rw [token_loop_plain _ _ _ _ _ hc]
      simp [hstop', value_of, Piece.value]
    | esc c =>
      simp only [source_of, Piece.source, List.append_nil, List.cons_append,
        List.nil_append, List.cons.injEq] at hsrc
      obtain ⟨rfl, rfl⟩ := hsrc
      rw [token_loop_esc]
      simp [hstop', value_of, escaped_eq_value]
  | cons q qs =>
    obtain ⟨c1, t1, h1, hcont⟩ := source_of_head q qs (hwf q (by simp)) (stop :: rest)
    have ih' := fun rv' => token_loop_pieces qs q rv' stop rest eof hwf hstop c1 t1 h1.symm
    cases p with
    | plain c =>
      have hsrc' : c0 :: tail = c :: (source_of (q :: qs) ++ stop :: rest) := by
        rw [hsrc]; simp [source_of, Piece.source]
      rw [h1] at hsrc'
      simp only [List.cons.injEq] at hsrc'
      obtain ⟨rfl, rfl⟩ := hsrc'
      have hc : (c0 == '\\') = false := by simpa using hp.1
      rw [token_loop_plain _ _ _ _ _ hc]
      simp only [hcont, if_true]
      rw [ih']
      simp [value_of, Piece.value]
    | esc c =>
      have hsrc' : c0 :: tail = '\\' :: c :: (source_of (q :: qs) ++ stop :: rest) := by
        rw [hsrc]; simp [source_of, Piece.source]
      rw [h1] at hsrc'
      simp only [List.cons.injEq] at hsrc'
      obtain ⟨rfl, rfl⟩ := hsrc'
      rw [token_loop_esc]
      simp only [hcont, if_true]
      rw [ih']
      simp [value_of, escaped_eq_value]

theorem token_loop_last_plain (eof : Bool) (m_c : Char) (rv : List Char)
    (h : (m_c == '\\') = false) :
    token_loop [] eof m_c rv = (rv ++ [m_c], ⟨[], true, '\x00'⟩) := by
  rw [token_loop.eq_def]; simp [h]

theorem token_loop_last_esc (c : Char) (eof : Bool) (rv : List Char) :
    token_loop [c] eof '\\' rv = (rv ++ escaped c, ⟨[], true, '\x00'⟩) := by
  rw [token_loop.eq_def]; simp

/-- The token loop on a sequence of well-formed pieces that the end of the
file follows. -/
theorem token_loop_pieces_eof : ∀ (ps : List Piece) (p : Piece) (rv : List Char) (eof : Bool),
    (∀ q ∈ p :: ps, q.well_formed) →
    ∀ c0 tail, c0 :: tail = source_of (p :: ps) →
      token_loop tail eof c0 rv = (rv ++ value_of (p :: ps), ⟨[], true, '\x00'⟩) := by
  intro ps
  induction ps with
  | nil =>
    intro p rv eof hwf c0 tail hsrc
    cases p with
    | plain c =>
      simp only [source_of, Piece.source, List.append_nil, List.cons.injEq] at hsrc
      obtain ⟨rfl, rfl⟩ := hsrc
      have hc : (c0 == '\\') = false := by
        have := (hwf _ (List.mem_cons_self _ _)).1
        simpa using this
      rw [token_loop_last_plain _ _ _ hc]
      simp [value_of, Piece.value]
    | esc c =>
      simp only [source_of, Piece.source, List.append_nil, List.cons.injEq] at hsrc
      obtain ⟨rfl, rfl⟩ := hsrc
      rw [token_loop_last_esc]
      simp [value_of, escaped_eq_value]
  | cons q qs ih =>
    intro p rv eof hwf c0 tail hsrc
    have hwf' : ∀ x ∈ q :: qs, x.well_formed := fun x hx => hwf x (List.mem_cons_of_mem _ hx)
    obtain ⟨c1, t1, h1, hcont⟩ := source_of_head q qs (hwf q (by simp)) []
    rw [List.append_nil] at h1
    have ih' := fun rv' => ih q rv' eof hwf' c1 t1 h1.symm
    cases p with
    | plain c =>
      have hsrc' : c0 :: tail = c :: source_of (q :: qs) := by
        rw [hsrc]; simp [source_of, Piece.source]
      rw [h1] at hsrc'
      simp only [List.cons.injEq] at hsrc'
      obtain ⟨rfl, rfl⟩ := hsrc'
      have hc : (c0 == '\\') = false := by
        have := (hwf _ (List.mem_cons_self _ _)).1
        simpa using this
      rw [token_loop_plain _ _ _ _ _ hc]
      simp only [hcont, if_true]
      rw [ih']
      simp [value_of, Piece.value]
    | esc c =>
      have hsrc' : c0 :: tail = '\\' :: c :: source_of (q :: qs) := by
        rw [hsrc]; simp [source_of, Piece.source]
      rw [h1] at hsrc'
      simp only [List.cons.injEq] at hsrc'
      obtain ⟨rfl, rfl⟩ := hsrc'
      rw [token_loop_esc]
      simp only [hcont, if_true]
      rw [ih']
      simp [value_of, escaped_eq_value]

/-- The token loop takes its first piece as it is and goes on over well-formed
pieces up to the end of the file. -/
theorem token_loop_first_eof (ps : List Piece) (p : Piece) (rv : List Char) (eof : Bool)
    (hp : p.starts_token) (hwf : ∀ q ∈ ps, q.well_formed) :
    ∀ c0 tail, c0 :: tail = source_of (p :: ps) →
      token_loop tail eof c0 rv = (rv ++ value_of (p :: ps), ⟨[], true, '\x00'⟩) := by
  intro c0 tail hsrc
  cases ps with
  | nil =>
    cases p with
    | plain c =>
      simp only [source_of, Piece.source, List.append_nil, List.cons.injEq] at hsrc
      obtain ⟨rfl, rfl⟩ := hsrc
      have hc : (c0 == '\\') = false := by simpa using hp.1
      rw [token_loop_last_plain _ _ _ hc]
      simp [value_of, Piece.value]
    | esc c =>
      simp only [source_of, Piece.source, List.append_nil, List.cons.injEq] at hsrc
      obtain ⟨rfl, rfl⟩ := hsrc
      rw [token_loop_last_esc]
      simp [value_of, escaped_eq_value]
  | cons q qs =>
    obtain ⟨c1, t1, h1, hcont⟩ := source_of_head q qs (hwf q (by simp)) []
    rw [List.append_nil] at h1
    have ih' := fun rv' => token_loop_pieces_eof qs q rv' eof hwf c1 t1 h1.symm
    cases p with
    | plain c =>
      have hsrc' : c0 :: tail = c :: source_of (q :: qs) := by
        rw [hsrc]; simp [source_of, Piece.source]
      rw [h1] at hsrc'
      simp only [List.cons.injEq] at hsrc'
      obtain ⟨rfl, rfl⟩ := hsrc'
      have hc : (c0 == '\\') = false := by simpa using hp.1
      rw [token_loop_plain _ _ _ _ _ hc]
      simp only [hcont, if_true]
      rw [ih']
      simp [value_of, Piece.value]
    | esc c =>
      have hsrc' : c0 :: tail = '\\' :: c :: source_of (q :: qs) := by
        rw [hsrc]; simp [source_of, Piece.source]
      rw [h1] at hsrc'
      simp only [List.cons.injEq] at hsrc'
      obtain ⟨rfl, rfl⟩ := hsrc'
      rw [token_loop_esc]
      simp only [hcont, if_true]
      rw [ih']
      simp [value_of, escaped_eq_value]

theorem replicate_cons_shape (n : Nat) (c : Char) (t : List Char) :
    ∃ c0 tail, c0 :: tail = List.replicate n ' ' ++ c :: t := by
  cases n with
  | zero => exact ⟨c, t, by simp⟩
  | succ m => exact ⟨' ', List.replicate m ' ' ++ c :: t, by simp [List.replicate]⟩

/-- C10 (amended): the lexical rules of `load_depfile`, from any state of the
lexer that has not met the end of the file. Spaces are skipped. A newline or a
tab met then is a token by itself. Otherwise the token takes its first piece as
it is, a plain character (a colon too) or a backslash with the character after
it, and goes on over plain characters and backslash pairs up to the next
unescaped space, colon or newline, which becomes the current character, or up
to the end of the file; a tab inside a token is part of it. A backslash
followed by a space or a colon yields that character, any other backslash pair
yields the backslash and the character. Consequently the file
`out.rlib: src/lib.rs src/mod\ with\ space.rs\n` loads as the one-entry map
from `out.rlib` to `src/lib.rs`, `src/mod with space.rs`, in file order. -/
theorem load_depfile_lexical_rules :
    (∀ (n : Nat) (p : Piece) (ps : List Piece) (stop : Char) (rest : List Char) (c0 : Char)
      (tail : List Char),
      p.starts_token → (∀ q ∈ ps, q.well_formed) → is_terminator stop →
      c0 :: tail = List.replicate n ' ' ++ (source_of (p :: ps) ++ stop :: rest) →
      Lexer.get_token ⟨tail, false, c0⟩ =
        (String.mk (value_of (p :: ps)), ⟨rest, false, stop⟩)) ∧
    (∀ (n : Nat) (p : Piece) (ps : List Piece) (c0 : Char) (tail : List Char),
      p.starts_token → (∀ q ∈ ps, q.well_formed) →
      c0 :: tail = List.replicate n ' ' ++ source_of (p :: ps) →
      Lexer.get_token ⟨tail, false, c0⟩ =
        (String.mk (value_of (p :: ps)), ⟨[], true, '\x00'⟩)) ∧
    (∀ (n : Nat) (rest : List Char) (c0 : Char) (tail : List Char),
      (c0 :: tail = List.replicate n ' ' ++ '\n' :: rest →
        (Lexer.get_token ⟨tail, false, c0⟩).1 = "\n") ∧
      (c0 :: tail = List.replicate n ' ' ++ '\t' :: rest →
        (Lexer.get_token ⟨tail, false, c0⟩).1 = "\t")) ∧
    (∀ c, (Piece.esc c).value = if c = ' ' ∨ c = ':' then [c] else ['\\', c]) ∧
    (∀ (sys : Sys) (path : String),
      sys.read_file path = some "out.rlib: src/lib.rs src/mod\\ with\\ space.rs\n".toList →
      load_depfile sys path =
        Except.ok [("out.rlib", ["src/lib.rs", "src/mod with space.rs"])]) := by
  refine ⟨?_, ?_, ?_, fun c => rfl, ?_⟩
  · intro n p ps stop rest c0 tail hp hwf hstop h0
    obtain ⟨c, t, hsrc, hc_space, hc_nl, hc_tab⟩ := piece_head p ps hp (stop :: rest)
    have hskip := skip_spaces_replicate n c t false hc_space c0 tail (by rw [h0, hsrc])
    have hloop := token_loop_first ps p [] stop rest false hp hwf hstop c t hsrc.symm
    simp only [Lexer.get_token, Bool.false_and, Bool.false_eq_true,
      if_false, hskip, hc_nl, hc_tab, hloop, List.nil_append]
  · intro n p ps c0 tail hp hwf h0
    obtain ⟨c, t, hsrc, hc_space, hc_nl, hc_tab⟩ := piece_head p ps hp []
    rw [List.append_nil] at hsrc
    have hskip := skip_spaces_replicate n c t false hc_space c0 tail (by rw [h0, hsrc])
    have hloop := token_loop_first_eof ps p [] false hp hwf c t hsrc.symm
    simp only [Lexer.get_token, Bool.false_and, Bool.false_eq_true,
      if_false, hskip, hc_nl, hc_tab, hloop, List.nil_append]
  · intro n rest c0 tail
    constructor
    · intro h0
      have hskip := skip_spaces_replicate n '\n' rest false (by decide) c0 tail h0
      simp only [Lexer.get_token, Bool.false_and, Bool.false_eq_true, if_false, hskip,
        beq_self_eq_true, if_true]
    · intro h0
      have hskip := skip_spaces_replicate n '\t' rest false (by decide) c0 tail h0
      have hnl : ('\t' == '\n') = false := by decide
      simp only [Lexer.get_token, Bool.false_and, Bool.false_eq_true, if_false, hskip, hnl,
        beq_self_eq_true, if_true]
  · intro sys path h
    unfold load_depfile
    rw [h]
    decide

/-- Witness of C10 (amended): the token `a\ b\:c\d` followed by a colon; and
the file `a:b c`, in which the lexer reads `a` up to the colon and then takes
the colon together with the `b` after it, so that no token `:` follows the
target. -/
theorem load_depfile_lexical_rules_witness :
    (Lexer.new "  a\\ b\\:c\\d: e".toList).get_token =
      ("a b:c\\d", ⟨" e".toList, false, ':'⟩) ∧
    (Lexer.new "a:b c".toList).get_token = ("a", ⟨"b c".toList, false, ':'⟩) ∧
    Lexer.get_token ⟨"b c".toList, false, ':'⟩ = (":b", ⟨"c".toList, false, ' '⟩) :=
  ⟨load_depfile_lexical_rules.1 2 (Piece.plain 'a')
      [Piece.esc ' ', Piece.plain 'b', Piece.esc ':', Piece.plain 'c', Piece.esc 'd']
      ':' " e".toList ' ' " a\\ b\\:c\\d: e".toList (by decide) (by decide) (by decide) rfl,
    load_depfile_lexical_rules.1 0 (Piece.plain 'a') [] ':' "b c".toList 'a' ":b c".toList
      (by decide) (by decide) (by decide) rfl,
    load_depfile_lexical_rules.1 0 (Piece.plain ':') [Piece.plain 'b'] ' ' "c".toList ':'
      "b c".toList (by decide) (by decide) (by decide) rfl⟩

/-- Counterexample to C10: a tab is whitespace, yet it does not end a token; the
line `a<TAB>b: c` loads with the target `a<TAB>b`. And a colon ends the token
before it but starts the next one, which takes it as its first character: the
line `a:b` is read as the tokens `a` and `:b` and fails as malformed, where
the rules of the claim give the target `a` with the path `b`. -/
theorem tab_does_not_end_token :
    '\t'.isWhitespace = true ∧
    (Lexer.new "a\tb: c\n".toList).get_token = ("a\tb", ⟨" c\n".toList, false, ':'⟩) ∧
    parse_depfile "a\tb: c\n".toList = Except.ok [("a\tb", ["c"])] ∧
    Lexer.get_token ⟨"b\n".toList, false, ':'⟩ = (":b", ⟨[], false, '\n'⟩) ∧
    parse_depfile "a:b\n".toList = Except.error BuildError.malformed_depfile := by
  refine ⟨by decide, by decide, by decide, by decide, by decide⟩
/-! ## Lemmas on the planner -/

theorem handle_dep_ok (st : ConvertState) (jd : List String) (ts : Timestamp) (k : String)
    (r : Bool) (jd' : List String) (h : st.handle_dep jd ts k = Except.ok (r, jd')) :
    (r = true ↔ k ∈ st.items_built ∨
      ∃ t, find_notbuilt st.items_notbuilt k = some t ∧ ts.lt t = true) ∧
    jd' = jd ++ (if st.items_built.contains k then [k] else []) := by
  unfold ConvertState.handle_dep at h
  split at h
  · rename_i hk
    simp only [Except.ok.injEq, Prod.mk.injEq] at h
    obtain ⟨rfl, rfl⟩ := h
    have hk' : k ∈ st.items_built := by simpa using hk
    simp [hk, hk']
  · rename_i hk
    have hk' : k ∉ st.items_built := by simpa using hk
    split at h
    · exact absurd h (by simp)
    · rename_i t ht
      simp only [Except.ok.injEq, Prod.mk.injEq] at h
      obtain ⟨rfl, rfl⟩ := h
      simp [hk, hk', ht]

theorem handle_deps_ok (rs : RunState) (w : World) (st : ConvertState) (ts : Timestamp)
    (is_host : Bool) : ∀ (deps : List PackageRef) (dirty : Bool) (jd : List String)
    (d' : Bool) (jd' : List String),
    handle_deps rs w st ts is_host deps dirty jd = Except.ok (d', jd') →
    (d' = true ↔ dirty = true ∨
      ∃ dep ∈ deps, dep.is_disabled = false ∧ dep_forces rs w st ts is_host dep) ∧
    jd' = jd ++ scheduled_deps rs w st is_host deps := by
  intro deps
  induction deps with
  | nil =>
    intro dirty jd d' jd' h
    simp only [handle_deps, Except.ok.injEq, Prod.mk.injEq] at h
    obtain ⟨rfl, rfl⟩ := h
    simp [scheduled_deps]
  | cons dep rest ih =>
    intro dirty jd d' jd' h
    simp only [handle_deps] at h
    by_cases hdis : dep.is_disabled = true
    · simp only [hdis, if_true] at h
      obtain ⟨h1, h2⟩ := ih _ _ _ _ h
      refine ⟨?_, ?_⟩
      · rw [h1]
        simp only [List.mem_cons, exists_eq_or_imp, hdis, Bool.true_eq_false, false_and,
          false_or]
      · rw [h2]; simp [scheduled_deps, List.filter_cons, hdis]
    · have hdis' : dep.is_disabled = false := by simpa using hdis
      simp only [hdis', Bool.false_eq_true, if_false] at h
      split at h
      · exact absurd h (by simp)
      · rename_i r jd1 hcall
        have hkey : rs.get_key (w dep.get_package) false is_host = dep_key rs w is_host dep :=
          rfl
        rw [hkey] at hcall
        obtain ⟨c1, c2⟩ := handle_dep_ok _ _ _ _ _ _ hcall
        obtain ⟨h1, h2⟩ := ih _ _ _ _ h
        refine ⟨?_, ?_⟩
        · rw [h1]
          simp only [Bool.or_eq_true, c1, List.mem_cons, exists_eq_or_imp, hdis', true_and,
            dep_forces, or_assoc]
        · rw [h2, c2]
          unfold scheduled_deps
          by_cases hk : st.items_built.contains (dep_key rs w is_host dep) = true
          · simp only [List.filter_cons, hdis', hk, Bool.not_false, Bool.and_self, if_true,
              List.map_cons, List.append_assoc, List.singleton_append]
          · simp only [List.filter_cons, hdis', hk, Bool.not_false, Bool.true_and,
              Bool.false_eq_true, if_false, List.append_nil]

theorem handle_deps_of_dirty (rs : RunState) (w : World) (st : ConvertState) (ts : Timestamp)
    (is_host : Bool) (deps : List PackageRef) (jd : List String) (d' : Bool)
    (jd' : List String)
    (h : handle_deps rs w st ts is_host deps true jd = Except.ok (d', jd')) : d' = true :=
  ((handle_deps_ok rs w st ts is_host deps true jd d' jd' h).1).mpr (Or.inl rfl)

theorem add_job_needed (st : ConvertState) (job : Job) (ts : Timestamp) :
    (st.add_job job ts true).joblist = st.joblist ++ [job] ∧
    (st.add_job job ts true).items_notbuilt = st.items_notbuilt ∧
    (st.add_job job ts true).loaded = st.loaded ∧
    (st.add_job job ts true).copied = st.copied ∧
    job.name ∈ (st.add_job job ts true).items_built ∧
    (∀ k, k ∈ st.items_built → k ∈ (st.add_job job ts true).items_built) := by
  refine ⟨rfl, rfl, rfl, rfl, ?_, ?_⟩
  · show job.name ∈ (if st.items_built.contains job.name then st.items_built
      else st.items_built ++ [job.name])
    split
    · rename_i h; simpa using h
    · simp
  · intro k hk
    show k ∈ (if st.items_built.contains job.name then st.items_built
      else st.items_built ++ [job.name])
    split
    · exact hk
    · exact List.mem_append_left _ hk

theorem find_notbuilt_append (l : List (String × Timestamp)) (k k' : String) (ts : Timestamp) :
    find_notbuilt (l ++ [(k', ts)]) k =
      match find_notbuilt l k with
      | some t => some t
      | none => if k' == k then some ts else none := by
  induction l with
  | nil => simp [find_notbuilt]
  | cons kv rest ih =>
    obtain ⟨k0, t0⟩ := kv
    simp only [List.cons_append, find_notbuilt]
    split
    · rfl
    · exact ih

theorem add_job_clean (st : ConvertState) (job : Job) (ts : Timestamp) :
    (st.add_job job ts false).joblist = st.joblist ∧
    (st.add_job job ts false).items_built = st.items_built ∧
    (st.add_job job ts false).loaded = st.loaded ∧
    (st.add_job job ts false).copied = st.copied ∧
    (∃ t, find_notbuilt (st.add_job job ts false).items_notbuilt job.name = some t) ∧
    (find_notbuilt st.items_notbuilt job.name = none →
      find_notbuilt (st.add_job job ts false).items_notbuilt job.name = some ts) := by
  have hnb : (st.add_job job ts false).items_notbuilt =
      (if (find_notbuilt st.items_notbuilt job.name).isSome then st.items_notbuilt
        else st.items_notbuilt ++ [(job.name, ts)]) := rfl
  refine ⟨rfl, rfl, rfl, rfl, ?_, ?_⟩
  · rw [hnb]
    cases hf : find_notbuilt st.items_notbuilt job.name with
    | some t => exact ⟨t, by simp [hf]⟩
    | none => exact ⟨ts, by simp [hf, find_notbuilt_append]⟩
  · intro hf
    rw [hnb]
    simp [hf, find_notbuilt_append]

theorem plan_script_build_inv (st : ConvertState) (rs : RunState) (sys : Sys) (w : World)
    (p : PkgId) (d : Bool) (st1 : ConvertState)
    (h : st.plan_script_build rs sys w p = Except.ok (d, st1)) :
    ∃ stale deps,
      rs.outfile_needs_rebuild sys (rs.get_build_script_exe (w p)) = Except.ok stale ∧
      handle_deps rs w st (sys.for_file (rs.get_build_script_exe (w p))) true
        (w p).build_dependencies stale [] = Except.ok (d, deps) ∧
      st1 = st.add_job { Job_BuildScript rs w p with m_dependencies := deps }
        (sys.for_file (rs.get_build_script_exe (w p))) d := by
  unfold ConvertState.plan_script_build at h
  dsimp only at h
  split at h
  · exact absurd h (by simp)
  · rename_i stale hstale
    split at h
    · exact absurd h (by simp)
    · rename_i d' deps hdeps
      simp only [Except.ok.injEq, Prod.mk.injEq] at h
      obtain ⟨rfl, rfl⟩ := h
      exact ⟨stale, deps, hstale, hdeps, rfl⟩

theorem plan_script_run_inv (st1 : ConvertState) (rs : RunState) (sys : Sys) (w : World)
    (p : PkgId) (is_host d : Bool) (r : ScriptResult)
    (h : st1.plan_script_run rs sys w p is_host d = Except.ok r) :
    ∃ d2 deps,
      (d2 = true ↔ run_needed rs sys w st1 d is_host p) ∧
      r.build_script = some (Job_RunScript.get_outfile rs (w p)) ∧
      r.job_name = (if d2 then (Job_RunScript rs w p).name else "") ∧
      r.state =
        (if d2 then
          st1.add_job { Job_RunScript rs w p with m_dependencies := deps }
            (sys.for_file (Job_RunScript.get_outfile rs (w p))) true
        else
          (st1.add_job { Job_RunScript rs w p with m_dependencies := deps }
            (sys.for_file (Job_RunScript.get_outfile rs (w p))) false).load_build_script p
              (Job_RunScript.get_outfile rs (w p))) := by
  unfold ConvertState.plan_script_run at h
  dsimp only at h
  split at h
  · exact absurd h (by simp)
  · rename_i x deps0 hdep0
    split at h
    · exact absurd h (by simp)
    · rename_i d2 deps hdeps
      simp only [Except.ok.injEq] at h
      subst h
      obtain ⟨hd2, _⟩ := handle_deps_ok _ _ _ _ _ _ _ _ _ _ hdeps
      refine ⟨d2 || (sys.for_file (Job_RunScript.get_outfile rs (w p))).lt
        (sys.for_file (rs.get_build_script_exe (w p))), deps, ?_, rfl, rfl, ?_⟩
      · rw [Bool.or_eq_true, hd2]
        unfold run_needed
        constructor
        · rintro ((h1 | h2) | h3)
          · exact Or.inl h1
          · exact Or.inr (Or.inr h2)
          · exact Or.inr (Or.inl h3)
        · rintro (h1 | h3 | h2)
          · exact Or.inl (Or.inl h1)
          · exact Or.inr h3
          · exact Or.inl (Or.inr h2)
      · dsimp only
        cases d2 || (sys.for_file (Job_RunScript.get_outfile rs (w p))).lt
          (sys.for_file (rs.get_build_script_exe (w p))) <;> rfl

theorem handle_build_script_inv (st : ConvertState) (rs : RunState) (sys : Sys) (w : World)
    (p : PkgId) (is_host : Bool) (r : ScriptResult)
    (hscript : (w p).build_script ≠ "")
    (hmmir : mmir_fallback rs sys (Job_RunScript.get_outfile rs (w p)) = none)
    (h : st.handle_build_script rs sys w p none is_host = Except.ok r) :
    ∃ d st1, st.plan_script_build rs sys w p = Except.ok (d, st1) ∧
      st1.plan_script_run rs sys w p is_host d = Except.ok r := by
  unfold ConvertState.handle_build_script at h
  rw [if_pos (by simpa using hscript)] at h
  dsimp only at h
  split at h
  · exact absurd h (by simp)
  · rename_i d st1 hbuild
    rw [hmmir] at h
    exact ⟨d, st1, hbuild, h⟩

/-- Outside the MMIR fallback, a name returned by `handle_build_script` is the
name of a scheduled job. -/
theorem handle_build_script_name (st : ConvertState) (rs : RunState) (sys : Sys) (w : World)
    (p : PkgId) (ov : Option String) (is_host : Bool) (r : ScriptResult)
    (hmmir : (w p).build_script ≠ "" → ov = none →
      mmir_fallback rs sys (Job_RunScript.get_outfile rs (w p)) = none)
    (h : st.handle_build_script rs sys w p ov is_host = Except.ok r)
    (hname : r.job_name ≠ "") : r.job_name ∈ r.state.items_built := by
  by_cases hscript : (w p).build_script = ""
  · unfold ConvertState.handle_build_script at h
    rw [if_neg (by simp [hscript])] at h
    simp only [Except.ok.injEq] at h
    subst h
    exact absurd rfl hname
  · cases ov with
    | some o =>
      unfold ConvertState.handle_build_script at h
      rw [if_pos (by simpa using hscript)] at h
      simp only [Except.ok.injEq] at h
      subst h
      exact absurd rfl hname
    | none =>
      obtain ⟨d, st1, _, hrun⟩ :=
        handle_build_script_inv st rs sys w p is_host r hscript (hmmir hscript rfl) h
      obtain ⟨d2, deps, _, _, hn, hs⟩ := plan_script_run_inv _ _ _ _ _ _ _ _ hrun
      cases d2 with
      | false => simp only [Bool.false_eq_true, if_false] at hn; exact absurd hn hname
      | true =>
        simp only [if_true] at hn hs
        rw [hn, hs]
        exact (add_job_needed st1 _ _).2.2.2.2.1

/-! ## The job planner -/

/-- C6 (amended): for a list entry processed by the loop of `build` for which
the MMIR fallback of `handle_build_script` is not taken, the `Job_BuildTarget` is added to the scheduler if and only if
(a) `outfile_needs_rebuild` holds for its output, or (b) `handle_build_script`
returned the name of a scheduled job, or (c) a non-disabled main dependency is
scheduled or is recorded clean with an output time strictly greater than this
unit's; the job added carries the script job's name and the names of the
scheduled dependencies as its dependencies. Otherwise no job is added and the
unit's name is a key of `items_notbuilt`, with this unit's output time when the
name had not been recorded before. -/
theorem build_entry_dirty_iff (rs : RunState) (sys : Sys) (w : World) (opts : BuildOptions)
    (st : ConvertState) (e : GraphEntry) (tr : EntryTrace) (st' : ConvertState)
    (hmmir : (w e.package).build_script ≠ "" → opts.build_script_overrides = none →
      mmir_fallback rs sys (Job_RunScript.get_outfile rs (w e.package)) = none)
    (h : build_entry rs sys w opts st e = Except.ok (tr, st')) :
    ∃ lib cp bs,
      (w e.package).get_library = Except.ok lib ∧
      rs.get_crate_path sys (w e.package) lib e.is_host = Except.ok cp ∧
      st.handle_build_script rs sys w e.package opts.build_script_overrides e.is_host =
        Except.ok bs ∧
      (unit_dirty rs sys w bs.state bs.job_name cp.outfile e.is_host e.package →
        ∃ job, st'.joblist = bs.state.joblist ++ [job] ∧
          job.kind = JobKind.BuildTarget lib e.is_host ∧ job.package = e.package ∧
          job.name = rs.get_key (w e.package) false e.is_host ∧
          job.m_dependencies = (if bs.job_name ≠ "" then [bs.job_name] else []) ++
            scheduled_deps rs w bs.state e.is_host (w e.package).main_dependencies ∧
          st'.items_notbuilt = bs.state.items_notbuilt) ∧
      (¬ unit_dirty rs sys w bs.state bs.job_name cp.outfile e.is_host e.package →
        st'.joblist = bs.state.joblist ∧
        (∃ t, find_notbuilt st'.items_notbuilt (rs.get_key (w e.package) false e.is_host) =
          some t) ∧
        (find_notbuilt bs.state.items_notbuilt (rs.get_key (w e.package) false e.is_host) =
            none →
          find_notbuilt st'.items_notbuilt (rs.get_key (w e.package) false e.is_host) =
            some (sys.for_file cp.outfile))) := by
  unfold build_entry at h
  split at h
  · exact absurd h (by simp)
  rename_i lib hlib
  dsimp only at h
  split at h
  · exact absurd h (by simp)
  rename_i cp hcp
  split at h
  · exact absurd h (by simp)
  rename_i stale hstale
  split at h
  · exact absurd h (by simp)
  rename_i bs hbs
  split at h
  · exact absurd h (by simp)
  rename_i is_dirty deps hdeps
  simp only [Except.ok.injEq, Prod.mk.injEq] at h
  obtain ⟨_, rfl⟩ := h
  obtain ⟨hd, hjd⟩ := handle_deps_ok _ _ _ _ _ _ _ _ _ _ hdeps
  have hname := handle_build_script_name st rs sys w e.package _ e.is_host bs hmmir hbs
  have hiff : is_dirty = true ↔
      unit_dirty rs sys w bs.state bs.job_name cp.outfile e.is_host e.package := by
    rw [hd]
    unfold unit_dirty
    rw [hstale]
    by_cases hn : bs.job_name = ""
    · simp [hn]
    · have hn' : (bs.job_name != "") = true := by simpa using hn
      simp [hn', hn, hname hn]
  refine ⟨lib, cp, bs, hlib, hcp, hbs, ?_, ?_⟩
  · intro hdirty
    have hd' : is_dirty = true := hiff.mpr hdirty
    subst hd'
    obtain ⟨a1, a2, _⟩ := add_job_needed bs.state
      { Job_BuildTarget rs w e.package lib e.is_host with
        m_dependencies := deps, m_build_script := bs.build_script.getD "" } (sys.for_file cp.outfile)
    refine ⟨_, a1, rfl, rfl, rfl, ?_, a2⟩
    show deps = _
    rw [hjd]
    by_cases hn : bs.job_name = ""
    · simp [hn]
    · have hn' : (bs.job_name != "") = true := by simpa using hn
      simp [hn', hn]
  · intro hclean
    have hd' : is_dirty = false := by
      cases is_dirty with
      | false => rfl
      | true => exact absurd (hiff.mp rfl) hclean
    subst hd'
    obtain ⟨a1, _, _, _, a5, a6⟩ := add_job_clean bs.state
      { Job_BuildTarget rs w e.package lib e.is_host with
        m_dependencies := deps, m_build_script := bs.build_script.getD "" } (sys.for_file cp.outfile)
    exact ⟨a1, a5, a6⟩

/-- C7: outside the override mode and the MMIR fallback, for a package with a
build script, the run of the script is scheduled exactly when the compile of
the script is dirty, or the run output is strictly older than the script
binary, or a non-disabled main dependency is scheduled or newer than the run
output; when the run is not scheduled, `handle_build_script` returns the empty
name and has the manifest load the run-output file. -/
theorem handle_build_script_run (st : ConvertState) (rs : RunState) (sys : Sys) (w : World)
    (p : PkgId) (is_host : Bool) (r : ScriptResult)
    (hscript : (w p).build_script ≠ "")
    (hmmir : mmir_fallback rs sys (Job_RunScript.get_outfile rs (w p)) = none)
    (h : st.handle_build_script rs sys w p none is_host = Except.ok r) :
    ∃ bs_is_dirty build_deps run_deps,
      st.plan_script_build rs sys w p = Except.ok (bs_is_dirty,
        st.add_job { Job_BuildScript rs w p with m_dependencies := build_deps }
          (sys.for_file (rs.get_build_script_exe (w p))) bs_is_dirty) ∧
      r.build_script = some (Job_RunScript.get_outfile rs (w p)) ∧
      (run_needed rs sys w
          (st.add_job { Job_BuildScript rs w p with m_dependencies := build_deps }
            (sys.for_file (rs.get_build_script_exe (w p))) bs_is_dirty)
          bs_is_dirty is_host p →
        r.job_name = (Job_RunScript rs w p).name ∧
        r.state.joblist =
          (st.add_job { Job_BuildScript rs w p with m_dependencies := build_deps }
            (sys.for_file (rs.get_build_script_exe (w p))) bs_is_dirty).joblist ++
            [{ Job_RunScript rs w p with m_dependencies := run_deps }] ∧
        r.state.loaded = st.loaded) ∧
      (¬ run_needed rs sys w
          (st.add_job { Job_BuildScript rs w p with m_dependencies := build_deps }
            (sys.for_file (rs.get_build_script_exe (w p))) bs_is_dirty)
          bs_is_dirty is_host p →
        r.job_name = "" ∧
        r.state.joblist =
          (st.add_job { Job_BuildScript rs w p with m_dependencies := build_deps }
            (sys.for_file (rs.get_build_script_exe (w p))) bs_is_dirty).joblist ∧
        r.state.loaded = st.loaded ++ [(p, Job_RunScript.get_outfile rs (w p))]) := by
  obtain ⟨d, st1, hbuild, hrun⟩ := handle_build_script_inv st rs sys w p is_host r hscript hmmir h
  obtain ⟨stale, bdeps, _, _, hst1⟩ := plan_script_build_inv _ _ _ _ _ _ _ hbuild
  obtain ⟨d2, rdeps, hd2, hbs, hn, hs⟩ := plan_script_run_inv _ _ _ _ _ _ _ _ hrun
  subst hst1
  have hloaded : (st.add_job { Job_BuildScript rs w p with m_dependencies := bdeps }
      (sys.for_file (rs.get_build_script_exe (w p))) d).loaded = st.loaded := by
    cases d
    · exact (add_job_clean st _ _).2.2.1
    · exact (add_job_needed st _ _).2.2.1
  refine ⟨d, bdeps, rdeps, hbuild, hbs, ?_, ?_⟩
  · intro hneeded
    have : d2 = true := hd2.mpr hneeded
    subst this
    simp only [if_true] at hn hs
    rw [hn, hs]
    obtain ⟨a1, _, a3, _⟩ := add_job_needed
      (st.add_job { Job_BuildScript rs w p with m_dependencies := bdeps }
        (sys.for_file (rs.get_build_script_exe (w p))) d)
      { Job_RunScript rs w p with m_dependencies := rdeps }
      (sys.for_file (Job_RunScript.get_outfile rs (w p)))
    exact ⟨rfl, a1, by rw [a3, hloaded]⟩
  · intro hclean
    have : d2 = false := by
      cases d2 with
      | false => rfl
      | true => exact absurd (hd2.mp rfl) hclean
    subst this
    simp only [Bool.false_eq_true, if_false] at hn hs
    rw [hn, hs]
    obtain ⟨a1, _, a3, _⟩ := add_job_clean
      (st.add_job { Job_BuildScript rs w p with m_dependencies := bdeps }
        (sys.for_file (rs.get_build_script_exe (w p))) d)
      { Job_RunScript rs w p with m_dependencies := rdeps }
      (sys.for_file (Job_RunScript.get_outfile rs (w p)))
    refine ⟨rfl, a1, ?_⟩
    show (_ : ConvertState).loaded ++ _ = _
    rw [a3, hloaded]

/-- Witness of C6: the library of `script_world` under `script_clean_sys` is
clean; no job is added and `p v0.1.0` is recorded with the output time 14. -/
theorem build_entry_dirty_iff_witness :
    ((script_world script_entry.package).build_script ≠ "" →
      host_opts.build_script_overrides = none →
      mmir_fallback host_rs script_clean_sys
        (Job_RunScript.get_outfile host_rs (script_world script_entry.package)) = none) ∧
    build_entry host_rs script_clean_sys script_world host_opts ConvertState.init script_entry =
      Except.ok (⟨Timestamp.time 14, false, "", false⟩, script_clean_plan) ∧
    ∃ lib cp bs,
      (script_world script_entry.package).get_library = Except.ok lib ∧
      host_rs.get_crate_path script_clean_sys (script_world script_entry.package) lib script_entry.is_host = Except.ok cp ∧
      ConvertState.init.handle_build_script host_rs script_clean_sys script_world script_entry.package host_opts.build_script_overrides script_entry.is_host =
        Except.ok bs ∧
      (unit_dirty host_rs script_clean_sys script_world bs.state bs.job_name cp.outfile script_entry.is_host script_entry.package →
        ∃ job, script_clean_plan.joblist = bs.state.joblist ++ [job] ∧
          job.kind = JobKind.BuildTarget lib script_entry.is_host ∧ job.package = script_entry.package ∧
          job.name = host_rs.get_key (script_world script_entry.package) false script_entry.is_host ∧
          job.m_dependencies = (if bs.job_name ≠ "" then [bs.job_name] else []) ++
            scheduled_deps host_rs script_world bs.state script_entry.is_host (script_world script_entry.package).main_dependencies ∧
          script_clean_plan.items_notbuilt = bs.state.items_notbuilt) ∧
      (¬ unit_dirty host_rs script_clean_sys script_world bs.state bs.job_name cp.outfile script_entry.is_host script_entry.package →
        script_clean_plan.joblist = bs.state.joblist ∧
        (∃ t, find_notbuilt script_clean_plan.items_notbuilt (host_rs.get_key (script_world script_entry.package) false script_entry.is_host) =
          some t) ∧
        (find_notbuilt bs.state.items_notbuilt (host_rs.get_key (script_world script_entry.package) false script_entry.is_host) =
            none →
          find_notbuilt script_clean_plan.items_notbuilt (host_rs.get_key (script_world script_entry.package) false script_entry.is_host) =
            some (script_clean_sys.for_file cp.outfile))) :=
  ⟨fun _ _ => by decide, by decide,
    build_entry_dirty_iff host_rs script_clean_sys script_world host_opts ConvertState.init
      script_entry ⟨Timestamp.time 14, false, "", false⟩ script_clean_plan
      (fun _ _ => by decide) (by decide)⟩

/-- Witness of C7: the build script of `script_world` under `script_clean_sys`
is compiled and its run output is newer than the binary; the run is not
scheduled, the empty name is returned and the output is loaded. -/
theorem handle_build_script_run_witness :
    (script_world 0).build_script ≠ "" ∧
    mmir_fallback host_rs script_clean_sys
      (Job_RunScript.get_outfile host_rs (script_world 0)) = none ∧
    ConvertState.init.handle_build_script host_rs script_clean_sys script_world 0 none true =
      Except.ok script_clean_result ∧
    ∃ bs_is_dirty build_deps run_deps,
      ConvertState.init.plan_script_build host_rs script_clean_sys script_world 0 = Except.ok (bs_is_dirty,
        ConvertState.init.add_job { Job_BuildScript host_rs script_world 0 with m_dependencies := build_deps }
          (script_clean_sys.for_file (host_rs.get_build_script_exe (script_world 0))) bs_is_dirty) ∧
      script_clean_result.build_script = some (Job_RunScript.get_outfile host_rs (script_world 0)) ∧
      (run_needed host_rs script_clean_sys script_world
          (ConvertState.init.add_job { Job_BuildScript host_rs script_world 0 with m_dependencies := build_deps }
            (script_clean_sys.for_file (host_rs.get_build_script_exe (script_world 0))) bs_is_dirty)
          bs_is_dirty true 0 →
        script_clean_result.job_name = (Job_RunScript host_rs script_world 0).name ∧
        script_clean_result.state.joblist =
          (ConvertState.init.add_job { Job_BuildScript host_rs script_world 0 with m_dependencies := build_deps }
            (script_clean_sys.for_file (host_rs.get_build_script_exe (script_world 0))) bs_is_dirty).joblist ++
            [{ Job_RunScript host_rs script_world 0 with m_dependencies := run_deps }] ∧
        script_clean_result.state.loaded = ConvertState.init.loaded) ∧
      (¬ run_needed host_rs script_clean_sys script_world
          (ConvertState.init.add_job { Job_BuildScript host_rs script_world 0 with m_dependencies := build_deps }
            (script_clean_sys.for_file (host_rs.get_build_script_exe (script_world 0))) bs_is_dirty)
          bs_is_dirty true 0 →
        script_clean_result.job_name = "" ∧
        script_clean_result.state.joblist =
          (ConvertState.init.add_job { Job_BuildScript host_rs script_world 0 with m_dependencies := build_deps }
            (script_clean_sys.for_file (host_rs.get_build_script_exe (script_world 0))) bs_is_dirty).joblist ∧
        script_clean_result.state.loaded = ConvertState.init.loaded ++ [(0, Job_RunScript.get_outfile host_rs (script_world 0))]) :=
  ⟨by decide, by decide, by decide,
    handle_build_script_run ConvertState.init host_rs script_clean_sys script_world 0 true
      script_clean_result (by decide) (by decide) (by decide)⟩

/-- Counterexample to C6. Under the MMIR fallback the library job of
`script_world` is added although (a) its output is not stale, (b) the name
returned by `handle_build_script` is not that of a scheduled job and (c) it has
no dependency. And in `two_x_world` the second library is clean with output
time 7, but the name it shares with the first stays recorded with time 5. -/
theorem build_entry_counterexample :
    (mmir_script_state.handle_build_script mmir_rs mmir_sys script_world 0 none true
        = Except.ok ⟨"p v0.1.0 (build)", some "out-mmir/build_p-0_1_0.txt",
          { mmir_script_state with
            loaded := mmir_script_state.loaded ++ [(0, "out-mmir/build_p-0_1_0.txt")]
            copied := mmir_script_state.copied ++
              [("out/build_p-0_1_0.txt", "out-mmir/build_p-0_1_0.txt")] }⟩ ∧
      ConvertState.init.handle_build_script mmir_rs mmir_sys script_world 0 none true =
        Except.ok ⟨"p v0.1.0 (build)", some "out-mmir/build_p-0_1_0.txt", mmir_script_state⟩ ∧
      build_entry mmir_rs mmir_sys script_world mmir_opts ConvertState.init ⟨0, true⟩ =
        Except.ok (⟨Timestamp.time 14, false, "p v0.1.0 (build)", true⟩,
          { mmir_script_state with joblist := [mmir_lib_job], items_built := ["p v0.1.0"] }) ∧
      mmir_rs.get_crate_path mmir_sys (script_world 0) (lib_target "p" false) true =
        Except.ok ⟨"out-mmir/libp-0_1_0.rlib", "rlib", "-0_1_0"⟩ ∧
      ¬ unit_dirty mmir_rs mmir_sys script_world mmir_script_state "p v0.1.0 (build)"
        "out-mmir/libp-0_1_0.rlib" true 0) ∧
    (build_entries host_rs two_x_sys two_x_world host_opts ConvertState.init
        [⟨1, true⟩, ⟨2, true⟩] =
        Except.ok ⟨[], [], [("x v0.1.0", Timestamp.time 5)], [], []⟩ ∧
      host_rs.get_key (two_x_world 2) false true = "x v0.1.0" ∧
      host_rs.get_crate_path two_x_sys (two_x_world 2) (lib_target "x2" false) true =
        Except.ok ⟨"out/libx2-0_1_0.rlib", "rlib", "-0_1_0"⟩ ∧
      two_x_sys.for_file "out/libx2-0_1_0.rlib" = Timestamp.time 7) := by
  refine ⟨⟨by decide, by decide, by decide, by decide, ?_⟩, by decide, by decide, by decide,
    by decide⟩
  rintro (h | h | h)
  · exact absurd h (by decide)
  · exact absurd h.2 (by decide)
  · obtain ⟨dep, hdep, _⟩ := h
    exact absurd hdep (by simp [script_world, simple_manifest])

/-! ## Compiler-time forcing -/

theorem stale_of_later (rs : RunState) (sys : Sys) (f : String) (hign : sys.igntools = false)
    (h : sys.for_file f ≠ Timestamp.infinite_past →
      (sys.for_file f).lt (sys.for_file rs.m_compiler_path) = true) :
    rs.outfile_needs_rebuild sys f = Except.ok true := by
  apply outfile_needs_rebuild_of_age
  by_cases hm : sys.for_file f = Timestamp.infinite_past
  · exact Or.inl hm
  · exact Or.inr ⟨hign, h hm⟩

/-- When the script binary is stale by age, `handle_build_script` records
nothing as clean, keeps the jobs planned so far and, unless overridden, plans
the compile of the script. -/
theorem handle_build_script_forced (st : ConvertState) (rs : RunState) (sys : Sys) (w : World)
    (p : PkgId) (ov : Option String) (is_host : Bool) (r : ScriptResult)
    (hstale : rs.outfile_needs_rebuild sys (rs.get_build_script_exe (w p)) = Except.ok true)
    (h : st.handle_build_script rs sys w p ov is_host = Except.ok r) :
    r.state.items_notbuilt = st.items_notbuilt ∧
    (∀ j ∈ st.joblist, j ∈ r.state.joblist) ∧
    (ov = none → (w p).build_script ≠ "" → has_job r.state p JobKind.BuildScript) := by
  unfold ConvertState.handle_build_script at h
  split at h
  · rename_i hscript
    split at h
    · simp only [Except.ok.injEq] at h
      subst h
      exact ⟨rfl, fun j hj => hj, fun hov => absurd hov (by simp)⟩
    · split at h
      · exact absurd h (by simp)
      · rename_i d st1 hbuild
        obtain ⟨stale, bdeps, hs, hd, hst1⟩ := plan_script_build_inv _ _ _ _ _ _ _ hbuild
        rw [hstale] at hs
        simp only [Except.ok.injEq] at hs
        subst hs
        have hd' := handle_deps_of_dirty _ _ _ _ _ _ _ _ _ hd
        subst hd'
        obtain ⟨a1, a2, _⟩ := add_job_needed st
          { Job_BuildScript rs w p with m_dependencies := bdeps }
          (sys.for_file (rs.get_build_script_exe (w p)))
        rw [← hst1] at a1 a2
        have hjob : has_job st1 p JobKind.BuildScript :=
          ⟨{ Job_BuildScript rs w p with m_dependencies := bdeps },
            by rw [a1]; exact List.mem_append_right _ (List.mem_singleton_self _), rfl, rfl⟩
        have hsub : ∀ j ∈ st.joblist, j ∈ st1.joblist := by
          intro j hj; rw [a1]; exact List.mem_append_left _ hj
        dsimp only at h
        split at h
        · simp only [Except.ok.injEq] at h
          subst h
          exact ⟨a2, hsub, fun _ _ => hjob⟩
        · obtain ⟨d2, rdeps, hd2, _, _, hstate⟩ := plan_script_run_inv _ _ _ _ _ _ _ _ h
          have : d2 = true := hd2.mpr (Or.inl rfl)
          subst this
          simp only [if_true] at hstate
          obtain ⟨b1, b2, _⟩ := add_job_needed st1
            { Job_RunScript rs w p with m_dependencies := rdeps }
            (sys.for_file (Job_RunScript.get_outfile rs (w p)))
          rw [← hstate] at b1 b2
          refine ⟨by rw [b2, a2], ?_, ?_⟩
          · intro j hj; rw [b1]; exact List.mem_append_left _ (hsub j hj)
          · intro _ _
            obtain ⟨j, hj, hj2⟩ := hjob
            exact ⟨j, by rw [b1]; exact List.mem_append_left _ hj, hj2⟩
  · rename_i hscript
    simp only [Except.ok.injEq] at h
    subst h
    refine ⟨rfl, fun j hj => hj, fun _ hne => ?_⟩
    exact absurd (by simpa using hne) hscript

/-- When the artifacts of a list entry are stale by age, the loop body of
`build` plans the library of the entry (and the compile of its script) and
records nothing as clean. -/
theorem build_entry_forced (rs : RunState) (sys : Sys) (w : World) (opts : BuildOptions)
    (st : ConvertState) (e : GraphEntry) (tr : EntryTrace) (st' : ConvertState)
    (hign : sys.igntools = false)
    (hlib : ∀ lib cp, (w e.package).get_library = Except.ok lib →
      rs.get_crate_path sys (w e.package) lib e.is_host = Except.ok cp →
      sys.for_file cp.outfile ≠ Timestamp.infinite_past →
      (sys.for_file cp.outfile).lt (sys.for_file rs.m_compiler_path) = true)
    (hexe : sys.for_file (rs.get_build_script_exe (w e.package)) ≠ Timestamp.infinite_past →
      (sys.for_file (rs.get_build_script_exe (w e.package))).lt
        (sys.for_file rs.m_compiler_path) = true)
    (h : build_entry rs sys w opts st e = Except.ok (tr, st')) :
    st'.items_notbuilt = st.items_notbuilt ∧
    (∀ j ∈ st.joblist, j ∈ st'.joblist) ∧
    (∃ lib, (w e.package).get_library = Except.ok lib ∧
      has_job st' e.package (JobKind.BuildTarget lib e.is_host)) ∧
    (opts.build_script_overrides = none → (w e.package).build_script ≠ "" →
      has_job st' e.package JobKind.BuildScript) := by
  unfold build_entry at h
  split at h
  · exact absurd h (by simp)
  rename_i lib hl
  dsimp only at h
  split at h
  · exact absurd h (by simp)
  rename_i cp hcp
  split at h
  · exact absurd h (by simp)
  rename_i stale hstale
  split at h
  · exact absurd h (by simp)
  rename_i bs hbs
  split at h
  · exact absurd h (by simp)
  rename_i is_dirty deps hdeps
  simp only [Except.ok.injEq, Prod.mk.injEq] at h
  obtain ⟨_, rfl⟩ := h
  rw [stale_of_later rs sys cp.outfile hign (hlib lib cp hl hcp)] at hstale
  simp only [Except.ok.injEq] at hstale
  subst hstale
  have hd0 : (if (bs.job_name != "") = true then true else true) = true := by split <;> rfl
  rw [hd0] at hdeps
  have hd := handle_deps_of_dirty _ _ _ _ _ _ _ _ _ hdeps
  subst hd
  obtain ⟨s1, s2, s3⟩ := handle_build_script_forced st rs sys w e.package _ e.is_host bs
    (stale_of_later rs sys _ hign hexe) hbs
  obtain ⟨a1, a2, _⟩ := add_job_needed bs.state
    { Job_BuildTarget rs w e.package lib e.is_host with
      m_dependencies := deps, m_build_script := bs.build_script.getD "" } (sys.for_file cp.outfile)
  refine ⟨by rw [a2, s1], ?_, ⟨lib, hl, ?_⟩, ?_⟩
  · intro j hj; rw [a1]; exact List.mem_append_left _ (s2 j hj)
  · exact ⟨{ Job_BuildTarget rs w e.package lib e.is_host with
      m_dependencies := deps, m_build_script := bs.build_script.getD "" },
      by rw [a1]; exact List.mem_append_right _ (List.mem_singleton_self _), rfl, rfl⟩
  · intro hov hne
    obtain ⟨j, hj, hj2⟩ := s3 hov hne
    exact ⟨j, by rw [a1]; exact List.mem_append_left _ hj, hj2⟩

theorem has_job_mono {st st' : ConvertState} {p : PkgId} {kind : JobKind}
    (hsub : ∀ j ∈ st.joblist, j ∈ st'.joblist) (h : has_job st p kind) : has_job st' p kind := by
  obtain ⟨j, hj, hj2⟩ := h
  exact ⟨j, hsub j hj, hj2⟩

theorem build_entries_forced (rs : RunState) (sys : Sys) (w : World) (opts : BuildOptions)
    (hign : sys.igntools = false) : ∀ (m_list : List GraphEntry) (st st' : ConvertState),
    (∀ e ∈ m_list, ∀ lib cp, (w e.package).get_library = Except.ok lib →
      rs.get_crate_path sys (w e.package) lib e.is_host = Except.ok cp →
      sys.for_file cp.outfile ≠ Timestamp.infinite_past →
      (sys.for_file cp.outfile).lt (sys.for_file rs.m_compiler_path) = true) →
    (∀ e ∈ m_list,
      sys.for_file (rs.get_build_script_exe (w e.package)) ≠ Timestamp.infinite_past →
      (sys.for_file (rs.get_build_script_exe (w e.package))).lt
        (sys.for_file rs.m_compiler_path) = true) →
    build_entries rs sys w opts st m_list = Except.ok st' →
    st'.items_notbuilt = st.items_notbuilt ∧
    (∀ j ∈ st.joblist, j ∈ st'.joblist) ∧
    (∀ e ∈ m_list, (∃ lib, (w e.package).get_library = Except.ok lib ∧
        has_job st' e.package (JobKind.BuildTarget lib e.is_host)) ∧
      (opts.build_script_overrides = none → (w e.package).build_script ≠ "" →
        has_job st' e.package JobKind.BuildScript)) := by
  intro m_list
  induction m_list with
  | nil =>
    intro st st' _ _ h
    simp only [build_entries, Except.ok.injEq] at h
    subst h
    exact ⟨rfl, fun j hj => hj, by simp⟩
  | cons e rest ih =>
    intro st st' hlib hexe h
    simp only [build_entries] at h
    split at h
    · exact absurd h (by simp)
    · rename_i tr st1 hentry
      obtain ⟨e1, e2, e3, e4⟩ := build_entry_forced rs sys w opts st e tr st1 hign
        (hlib e (List.mem_cons_self _ _)) (hexe e (List.mem_cons_self _ _)) hentry
      obtain ⟨r1, r2, r3⟩ := ih st1 st'
        (fun x hx => hlib x (List.mem_cons_of_mem _ hx))
        (fun x hx => hexe x (List.mem_cons_of_mem _ hx)) h
      refine ⟨by rw [r1, e1], fun j hj => r2 j (e2 j hj), ?_⟩
      intro x hx
      rcases List.mem_cons.mp hx with rfl | hx
      · obtain ⟨lib, hl, hj⟩ := e3
        exact ⟨⟨lib, hl, has_job_mono r2 hj⟩, fun hov hne => has_job_mono r2 (e4 hov hne)⟩
      · exact r3 x hx

theorem push_root_target_forced (rs : RunState) (sys : Sys) (w : World) (root : PkgId)
    (cross : Bool) (st st' : ConvertState) (t : PackageTarget)
    (hign : sys.igntools = false)
    (hlater : ∀ cp, rs.get_crate_path sys (w root) t (!cross) = Except.ok cp →
      sys.for_file cp.outfile ≠ Timestamp.infinite_past →
      (sys.for_file cp.outfile).lt (sys.for_file rs.m_compiler_path) = true)
    (h : push_root_target rs sys w root cross st t = Except.ok st') :
    st'.items_notbuilt = st.items_notbuilt ∧
    (∀ j ∈ st.joblist, j ∈ st'.joblist) ∧
    has_job st' root (JobKind.BuildTarget t (!cross)) := by
  unfold push_root_target at h
  dsimp only at h
  split at h
  · exact absurd h (by simp)
  rename_i cp hcp
  split at h
  · exact absurd h (by simp)
  rename_i stale hstale
  rw [stale_of_later rs sys cp.outfile hign (hlater cp hcp)] at hstale
  simp only [Except.ok.injEq] at hstale
  subst hstale
  split at h
  · exact absurd h (by simp)
  rename_i is_dirty deps hdeps
  have hd : is_dirty = true := by
    split at hdeps
    · split at hdeps
      · exact absurd hdeps (by simp)
      · simp only [Bool.true_or, Except.ok.injEq, Prod.mk.injEq] at hdeps
        exact hdeps.1.symm
    · exact handle_deps_of_dirty _ _ _ _ _ _ _ _ _ hdeps
  subst hd
  simp only [Except.ok.injEq] at h
  subst h
  obtain ⟨a1, a2, _⟩ := add_job_needed st
    { Job_BuildTarget rs w root t (!cross) with m_dependencies := deps } (sys.for_file cp.outfile)
  refine ⟨a2, ?_, ?_⟩
  · intro j hj; rw [a1]; exact List.mem_append_left _ hj
  · exact ⟨{ Job_BuildTarget rs w root t (!cross) with m_dependencies := deps },
      by rw [a1]; exact List.mem_append_right _ (List.mem_singleton_self _), rfl, rfl⟩

theorem push_root_targets_forced (rs : RunState) (sys : Sys) (w : World) (root : PkgId)
    (cross : Bool) (hign : sys.igntools = false) :
    ∀ (targets : List PackageTarget) (st st' : ConvertState),
    (∀ t ∈ targets, ∀ cp, rs.get_crate_path sys (w root) t (!cross) = Except.ok cp →
      sys.for_file cp.outfile ≠ Timestamp.infinite_past →
      (sys.for_file cp.outfile).lt (sys.for_file rs.m_compiler_path) = true) →
    push_root_targets rs sys w root cross st targets = Except.ok st' →
    st'.items_notbuilt = st.items_notbuilt ∧
    (∀ j ∈ st.joblist, j ∈ st'.joblist) ∧
    (∀ t ∈ targets, has_job st' root (JobKind.BuildTarget t (!cross))) := by
  intro targets
  induction targets with
  | nil =>
    intro st st' _ h
    simp only [push_root_targets, Except.ok.injEq] at h
    subst h
    exact ⟨rfl, fun j hj => hj, by simp⟩
  | cons t rest ih =>
    intro st st' hlater h
    simp only [push_root_targets] at h
    split at h
    · exact absurd h (by simp)
    · rename_i st1 hone
      obtain ⟨e1, e2, e3⟩ := push_root_target_forced rs sys w root cross st st1 t hign
        (hlater t (List.mem_cons_self _ _)) hone
      obtain ⟨r1, r2, r3⟩ := ih st1 st' (fun x hx => hlater x (List.mem_cons_of_mem _ hx)) h
      refine ⟨by rw [r1, e1], fun j hj => r2 j (e2 j hj), ?_⟩
      intro x hx
      rcases List.mem_cons.mp hx with rfl | hx
      · exact has_job_mono r2 e3
      · exact r3 x hx

/-- C8: if `MINICARGO_IGNTOOLS` is unset and the compiler binary is strictly
later than every existing output artifact of the plan, then a plan that `build`
completes holds a compile job for the library of every list entry, for the
build script of every list entry (and of a root without library) unless
overrides are configured, and for every root target of the selected mode; no
unit is recorded as clean. -/
theorem build_forced_by_compiler (sys : Sys) (w : World) (root : PkgId)
    (m_list : List GraphEntry) (opts : BuildOptions) (st : ConvertState)
    (hign : sys.igntools = false)
    (hlater : compiler_later (BuildList.run_state sys opts) sys w root m_list)
    (h : BuildList.build sys w root m_list opts = Except.ok st) :
    st.items_notbuilt = [] ∧
    (∀ e ∈ m_list, ∃ lib, (w e.package).get_library = Except.ok lib ∧
      has_job st e.package (JobKind.BuildTarget lib e.is_host)) ∧
    (opts.build_script_overrides = none → ∀ e ∈ m_list, (w e.package).build_script ≠ "" →
      has_job st e.package JobKind.BuildScript) ∧
    (opts.build_script_overrides = none → (w root).has_library = false →
      (w root).build_script ≠ "" → has_job st root JobKind.BuildScript) ∧
    (∀ t ∈ mode_targets opts.mode (w root),
      has_job st root
        (JobKind.BuildTarget t (!(BuildList.run_state sys opts).m_is_cross_compiling))) := by
  obtain ⟨hl1, hl2, hl3, hl4⟩ := hlater
  unfold BuildList.build at h
  dsimp only at h
  split at h
  · exact absurd h (by simp)
  rename_i st1 hentries
  obtain ⟨e1, e2, e3⟩ := build_entries_forced (BuildList.run_state sys opts) sys w opts hign
    m_list _ st1 hl1 hl2 hentries
  split at h
  · exact absurd h (by simp)
  rename_i st2 hroot
  -- the build script of a root without library
  have hst2 : st2.items_notbuilt = st1.items_notbuilt ∧
      (∀ j ∈ st1.joblist, j ∈ st2.joblist) ∧
      (opts.build_script_overrides = none → (w root).has_library = false →
        (w root).build_script ≠ "" → has_job st2 root JobKind.BuildScript) := by
    split at hroot
    · rename_i hnolib
      split at hroot
      · exact absurd hroot (by simp)
      · rename_i bs hbs
        simp only [Except.ok.injEq] at hroot
        subst hroot
        obtain ⟨s1, s2, s3⟩ := handle_build_script_forced st1 (BuildList.run_state sys opts)
          sys w root _ _ bs (stale_of_later _ sys _ hign hl3) hbs
        exact ⟨s1, s2, fun hov _ hne => s3 hov hne⟩
    · rename_i hlib
      simp only [Except.ok.injEq] at hroot
      subst hroot
      refine ⟨rfl, fun j hj => hj, fun _ hno => ?_⟩
      rw [hno] at hlib
      exact absurd rfl hlib
  obtain ⟨r1, r2, r3⟩ := hst2
  -- the root targets of the mode
  have hfinal : st.items_notbuilt = st2.items_notbuilt ∧
      (∀ j ∈ st2.joblist, j ∈ st.joblist) ∧
      (∀ t ∈ mode_targets opts.mode (w root),
        has_job st root
          (JobKind.BuildTarget t (!(BuildList.run_state sys opts).m_is_cross_compiling))) := by
    unfold mode_targets
    split at h
    · exact push_root_targets_forced (BuildList.run_state sys opts) sys w root _ hign _ st2 st
        (fun t ht => hl4 t (List.mem_of_mem_filter ht)) h
    · exact push_root_targets_forced (BuildList.run_state sys opts) sys w root _ hign _ st2 st
        (fun t ht => hl4 t (List.mem_of_mem_filter ht)) h
    · simp only [Except.ok.injEq] at h
      subst h
      exact ⟨rfl, fun j hj => hj, by simp⟩
  obtain ⟨f1, f2, f3⟩ := hfinal
  refine ⟨by rw [f1, r1, e1]; rfl, ?_, ?_, ?_, f3⟩
  · intro e he
    obtain ⟨lib, hl, hj⟩ := (e3 e he).1
    exact ⟨lib, hl, has_job_mono f2 (has_job_mono r2 hj)⟩
  · intro hov e he hne
    exact has_job_mono f2 (has_job_mono r2 ((e3 e he).2 hov hne))
  · intro hov hno hne
    exact has_job_mono f2 (r3 hov hno hne)

theorem touched_compiler_later :
    compiler_later (BuildList.run_state touched_sys host_opts) touched_sys script_world 0
      [⟨0, true⟩] := by
  have hlib : (script_world 0).get_library = Except.ok (lib_target "p" false) := by decide
  have hcp : ∀ b, (BuildList.run_state touched_sys host_opts).get_crate_path touched_sys
      (script_world 0) (lib_target "p" false) b =
      Except.ok ⟨"out/libp-0_1_0.rlib", "rlib", "-0_1_0"⟩ := by decide
  refine ⟨?_, ?_, by decide, ?_⟩
  · intro e he lib cp hl hc _
    rw [List.mem_singleton] at he
    subst he
    rw [hlib] at hl
    cases hl
    rw [hcp] at hc
    cases hc
    decide
  · intro e he _
    rw [List.mem_singleton] at he
    subst he
    decide
  · intro t ht cp hc _
    have ht' : t = lib_target "p" false := by
      simpa [script_world, simple_manifest] using ht
    subst ht'
    rw [hcp] at hc
    cases hc
    decide

/-- Witness of C8: once the compiler is newer than every artifact of
`script_world`, the plan compiles the script and the library and records
nothing as clean. -/
theorem build_forced_by_compiler_witness :
    touched_sys.igntools = false ∧
    BuildList.build touched_sys script_world 0 [⟨0, true⟩] host_opts = Except.ok touched_plan ∧
    touched_plan.items_notbuilt = [] ∧
    (∀ e ∈ [(⟨0, true⟩ : GraphEntry)], ∃ lib,
      (script_world e.package).get_library = Except.ok lib ∧
      has_job touched_plan e.package (JobKind.BuildTarget lib e.is_host)) ∧
    (host_opts.build_script_overrides = none → ∀ e ∈ [(⟨0, true⟩ : GraphEntry)],
      (script_world e.package).build_script ≠ "" →
      has_job touched_plan e.package JobKind.BuildScript) :=
  have h := build_forced_by_compiler touched_sys script_world 0 [⟨0, true⟩] host_opts
    touched_plan (by decide) touched_compiler_later (by decide)
  ⟨by decide, by decide, h.1, h.2.1, h.2.2.1⟩

/-! ## Clean units -/

/-- C9 (amended): for a list entry whose package has no build script and no
main dependency, whose library artifact exists and is not older than the
compiler binary (or `MINICARGO_IGNTOOLS` is set), and whose depfile loads and
lists, under the artifact's name, only files older than the artifact, the loop
body of `build` adds no job: the unit is recorded in `items_notbuilt`, with the
artifact's time when its name had not been recorded before. -/
theorem build_entry_clean (rs : RunState) (sys : Sys) (w : World) (opts : BuildOptions)
    (st : ConvertState) (e : GraphEntry) (lib : PackageTarget) (cp : CratePath) (m : DepMap)
    (hscript : (w e.package).build_script = "")
    (hdeps : (w e.package).main_dependencies = [])
    (hlib : (w e.package).get_library = Except.ok lib)
    (hcp : rs.get_crate_path sys (w e.package) lib e.is_host = Except.ok cp)
    (hexists : sys.for_file cp.outfile ≠ Timestamp.infinite_past)
    (hcompiler : sys.igntools = true ∨
      (sys.for_file cp.outfile).lt (sys.for_file rs.m_compiler_path) = false)
    (hload : load_depfile sys (cp.outfile ++ ".d") = Except.ok m)
    (hfiles : ∀ files, DepMap.find m cp.outfile = some files →
      ∀ f ∈ files, (sys.for_file f).lt (sys.for_file cp.outfile) = true) :
    ∃ tr st', build_entry rs sys w opts st e = Except.ok (tr, st') ∧
      st'.joblist = st.joblist ∧ st'.items_built = st.items_built ∧
      (∃ t, find_notbuilt st'.items_notbuilt (rs.get_key (w e.package) false e.is_host) =
        some t) ∧
      (find_notbuilt st.items_notbuilt (rs.get_key (w e.package) false e.is_host) = none →
        find_notbuilt st'.items_notbuilt (rs.get_key (w e.package) false e.is_host) =
          some (sys.for_file cp.outfile)) := by
  have hage : ¬ stale_by_age rs sys cp.outfile := by
    rintro (h | ⟨h1, h2⟩)
    · exact hexists h
    · rcases hcompiler with h | h
      · rw [h] at h1; exact absurd h1 (by simp)
      · rw [h] at h2; exact absurd h2 (by simp)
  have hstale : rs.outfile_needs_rebuild sys cp.outfile = Except.ok false := by
    rw [outfile_needs_rebuild_of_not_age rs sys cp.outfile hage, hload]
    dsimp only
    cases hfind : DepMap.find m cp.outfile with
    | none => rfl
    | some files =>
      dsimp only
      have : has_new_file sys (sys.for_file cp.outfile) files = false := by
        rw [← Bool.not_eq_true, has_new_file_iff]
        rintro ⟨f, hf, hlt⟩
        have := Timestamp.lt_asymm (hfiles files hfind f hf)
        rw [this] at hlt
        exact absurd hlt (by simp)
      rw [this]
  have hbs : st.handle_build_script rs sys w e.package opts.build_script_overrides e.is_host =
      Except.ok ⟨"", none, st⟩ := by
    unfold ConvertState.handle_build_script
    rw [if_neg (by simp [hscript])]
  have hentry : build_entry rs sys w opts st e = Except.ok
      (⟨sys.for_file cp.outfile, false, "", false⟩,
        st.add_job { Job_BuildTarget rs w e.package lib e.is_host with
          m_dependencies := [], m_build_script := "" } (sys.for_file cp.outfile) false) := by
    unfold build_entry
    rw [hlib]
    dsimp only
    rw [hcp]
    dsimp only
    rw [hstale]
    dsimp only
    rw [hbs]
    dsimp only
    rw [hdeps]
    rfl
  obtain ⟨a1, a2, _, _, a5, a6⟩ := add_job_clean st
    { Job_BuildTarget rs w e.package lib e.is_host with
      m_dependencies := [], m_build_script := "" } (sys.for_file cp.outfile)
  exact ⟨_, _, hentry, a1, a2, a5, a6⟩

/-- Witness of C9: the library of `leaf_world`, built at time 5 from a source of
time 1 with the compiler of time 3, is recorded as clean. -/
theorem build_entry_clean_witness :
    ∃ tr st', build_entry host_rs (leaf_sys 3) leaf_world host_opts ConvertState.init
        ⟨0, true⟩ = Except.ok (tr, st') ∧
      st'.joblist = [] ∧ st'.items_built = [] ∧
      (∃ t, find_notbuilt st'.items_notbuilt "c v0.1.0" = some t) ∧
      (find_notbuilt ConvertState.init.items_notbuilt "c v0.1.0" = none →
        find_notbuilt st'.items_notbuilt "c v0.1.0" = some (Timestamp.time 5)) :=
  build_entry_clean host_rs (leaf_sys 3) leaf_world host_opts ConvertState.init ⟨0, true⟩
    (lib_target "c" false) ⟨"out/libc-0_1_0.rlib", "rlib", "-0_1_0"⟩
    [("out/libc-0_1_0.rlib", ["src/lib.rs"])]
    (by decide) (by decide) (by decide) (by decide) (by decide) (Or.inr (by decide))
    (by decide) (by decide)

/-- Counterexample to C9: the library of `leaf_world` exists (time 5), its
depfile lists only `src/lib.rs` (time 1), which is older than the library and
older than the compiler (time 10); the package has no build script and no
dependency; yet its job is added, because the library is older than the
compiler. -/
theorem build_entry_old_library :
    (leaf_world 0).build_script = "" ∧ (leaf_world 0).main_dependencies = [] ∧
    host_rs.get_crate_path (leaf_sys 10) (leaf_world 0) (lib_target "c" false) true =
      Except.ok ⟨"out/libc-0_1_0.rlib", "rlib", "-0_1_0"⟩ ∧
    (leaf_sys 10).for_file "out/libc-0_1_0.rlib" = Timestamp.time 5 ∧
    load_depfile (leaf_sys 10) "out/libc-0_1_0.rlib.d" =
      Except.ok [("out/libc-0_1_0.rlib", ["src/lib.rs"])] ∧
    ((leaf_sys 10).for_file "src/lib.rs").lt ((leaf_sys 10).for_file "out/libc-0_1_0.rlib") =
      true ∧
    ((leaf_sys 10).for_file "src/lib.rs").lt ((leaf_sys 10).for_file "mrustc") = true ∧
    build_entry host_rs (leaf_sys 10) leaf_world host_opts ConvertState.init ⟨0, true⟩ =
      Except.ok (⟨Timestamp.time 5, true, "", true⟩,
        ⟨[leaf_lib_job], ["c v0.1.0"], [], [], []⟩) := by
  refine ⟨by decide, by decide, by decide, by decide, by decide, by decide, by decide,
    by decide⟩

/-! ## Derivation of job names -/

theorem add_job_names (rs : RunState) (w : World) (st : ConvertState) (job : Job)
    (ts : Timestamp) (b : Bool) (hst : names_derived rs w st)
    (hjob : job.name = job.derived_name rs w) : names_derived rs w (st.add_job job ts b) := by
  cases b with
  | false =>
    intro j hj
    rw [(add_job_clean st job ts).1] at hj
    exact hst j hj
  | true =>
    intro j hj
    rw [(add_job_needed st job ts).1] at hj
    rcases List.mem_append.mp hj with hj | hj
    · exact hst j hj
    · rw [List.mem_singleton] at hj
      subst hj
      exact hjob

theorem handle_build_script_names (st : ConvertState) (rs : RunState) (sys : Sys) (w : World)
    (p : PkgId) (ov : Option String) (is_host : Bool) (r : ScriptResult)
    (hst : names_derived rs w st)
    (h : st.handle_build_script rs sys w p ov is_host = Except.ok r) :
    names_derived rs w r.state := by
  unfold ConvertState.handle_build_script at h
  split at h
  · split at h
    · simp only [Except.ok.injEq] at h
      subst h
      exact hst
    · split at h
      · exact absurd h (by simp)
      · rename_i d st1 hbuild
        obtain ⟨stale, bdeps, _, _, hst1⟩ := plan_script_build_inv _ _ _ _ _ _ _ hbuild
        have h1 : names_derived rs w st1 := by
          rw [hst1]
          exact add_job_names rs w st _ _ _ hst rfl
        dsimp only at h
        split at h
        · simp only [Except.ok.injEq] at h
          subst h
          exact h1
        · obtain ⟨d2, rdeps, _, _, _, hstate⟩ := plan_script_run_inv _ _ _ _ _ _ _ _ h
          cases d2 with
          | true =>
            simp only [if_true] at hstate
            rw [hstate]
            exact add_job_names rs w st1 { Job_RunScript rs w p with m_dependencies := rdeps }
              _ true h1 rfl
          | false =>
            simp only [Bool.false_eq_true, if_false] at hstate
            rw [hstate]
            intro j hj
            exact add_job_names rs w st1 { Job_RunScript rs w p with m_dependencies := rdeps }
              (sys.for_file (Job_RunScript.get_outfile rs (w p))) false h1 rfl j hj
  · simp only [Except.ok.injEq] at h
    subst h
    exact hst

theorem build_entry_names (rs : RunState) (sys : Sys) (w : World) (opts : BuildOptions)
    (st : ConvertState) (e : GraphEntry) (tr : EntryTrace) (st' : ConvertState)
    (hst : names_derived rs w st)
    (h : build_entry rs sys w opts st e = Except.ok (tr, st')) : names_derived rs w st' := by
  unfold build_entry at h
  split at h
  · exact absurd h (by simp)
  dsimp only at h
  split at h
  · exact absurd h (by simp)
  split at h
  · exact absurd h (by simp)
  split at h
  · exact absurd h (by simp)
  rename_i bs hbs
  split at h
  · exact absurd h (by simp)
  simp only [Except.ok.injEq, Prod.mk.injEq] at h
  obtain ⟨_, rfl⟩ := h
  exact add_job_names rs w bs.state _ _ _ (handle_build_script_names st rs sys w _ _ _ bs hst hbs)
    rfl

theorem build_entries_names (rs : RunState) (sys : Sys) (w : World) (opts : BuildOptions) :
    ∀ (m_list : List GraphEntry) (st st' : ConvertState), names_derived rs w st →
      build_entries rs sys w opts st m_list = Except.ok st' → names_derived rs w st' := by
  intro m_list
  induction m_list with
  | nil =>
    intro st st' hst h
    simp only [build_entries, Except.ok.injEq] at h
    subst h
    exact hst
  | cons e rest ih =>
    intro st st' hst h
    simp only [build_entries] at h
    split at h
    · exact absurd h (by simp)
    · rename_i tr st1 hentry
      exact ih st1 st' (build_entry_names rs sys w opts st e tr st1 hst hentry) h

theorem push_root_target_names (rs : RunState) (sys : Sys) (w : World) (root : PkgId)
    (cross : Bool) (st st' : ConvertState) (t : PackageTarget) (hst : names_derived rs w st)
    (h : push_root_target rs sys w root cross st t = Except.ok st') :
    names_derived rs w st' := by
  unfold push_root_target at h
  dsimp only at h
  split at h
  · exact absurd h (by simp)
  split at h
  · exact absurd h (by simp)
  split at h
  · exact absurd h (by simp)
  simp only [Except.ok.injEq] at h
  subst h
  exact add_job_names rs w st _ _ _ hst rfl

theorem push_root_targets_names (rs : RunState) (sys : Sys) (w : World) (root : PkgId)
    (cross : Bool) : ∀ (targets : List PackageTarget) (st st' : ConvertState),
    names_derived rs w st →
    push_root_targets rs sys w root cross st targets = Except.ok st' →
    names_derived rs w st' := by
  intro targets
  induction targets with
  | nil =>
    intro st st' hst h
    simp only [push_root_targets, Except.ok.injEq] at h
    subst h
    exact hst
  | cons t rest ih =>
    intro st st' hst h
    simp only [push_root_targets] at h
    split at h
    · exact absurd h (by simp)
    · rename_i st1 hone
      exact ih st1 st' (push_root_target_names rs sys w root cross st st1 t hst hone) h

/-- C4 (amended): every job of a plan that `build` completes carries the name
derived from its class, the name and version of its package and its host flag:
`get_key(p, false, is_host)` for a target job (library, binary or test),
`get_key(p, true, false)` for the compile of a build script and
`get_key(p, false, false)` followed by ` (script run)` for its run. The name
does not depend on the target. -/
theorem build_names_derived (sys : Sys) (w : World) (root : PkgId) (m_list : List GraphEntry)
    (opts : BuildOptions) (st : ConvertState)
    (h : BuildList.build sys w root m_list opts = Except.ok st) :
    (∀ j ∈ st.joblist, j.name = j.derived_name (BuildList.run_state sys opts) w) ∧
    (∀ (p : PkgId) (t t' : PackageTarget) (is_host : Bool),
      (Job_BuildTarget (BuildList.run_state sys opts) w p t is_host).name =
        (Job_BuildTarget (BuildList.run_state sys opts) w p t' is_host).name) := by
  refine ⟨?_, fun _ _ _ _ => rfl⟩
  unfold BuildList.build at h
  dsimp only at h
  split at h
  · exact absurd h (by simp)
  rename_i st1 hentries
  have h1 : names_derived (BuildList.run_state sys opts) w st1 :=
    build_entries_names (BuildList.run_state sys opts) sys w opts m_list _ st1
      (by intro j hj; simp [ConvertState.init] at hj) hentries
  split at h
  · exact absurd h (by simp)
  rename_i st2 hroot
  have h2 : names_derived (BuildList.run_state sys opts) w st2 := by
    split at hroot
    · split at hroot
      · exact absurd hroot (by simp)
      · rename_i bs hbs
        simp only [Except.ok.injEq] at hroot
        subst hroot
        exact handle_build_script_names st1 (BuildList.run_state sys opts) sys w root _ _ bs h1
          hbs
    · simp only [Except.ok.injEq] at hroot
      subst hroot
      exact h1
  split at h
  · exact push_root_targets_names (BuildList.run_state sys opts) sys w root _ _ st2 st h2 h
  · exact push_root_targets_names (BuildList.run_state sys opts) sys w root _ _ st2 st h2 h
  · simp only [Except.ok.injEq] at h
    subst h
    exact h2

/-- Witness of C4: the two jobs of `lib_bin_world` carry their derived name. -/
theorem build_names_derived_witness :
    BuildList.build empty_sys lib_bin_world 0 [⟨0, true⟩] host_opts = Except.ok lib_bin_plan ∧
    ∀ j ∈ lib_bin_plan.joblist,
      j.name = j.derived_name (BuildList.run_state empty_sys host_opts) lib_bin_world :=
  ⟨by decide,
    (build_names_derived empty_sys lib_bin_world 0 [⟨0, true⟩] host_opts lib_bin_plan
      (by decide)).1⟩

/-! ## Keys and output directories -/

theorem append_ne_self (a b : String) (hb : b ≠ "") : a ++ b ≠ a := by
  intro h
  have hl := congrArg String.length h
  rw [String.length_append] at hl
  have h0 : b.length = 0 := by omega
  apply hb
  cases b with
  | mk l =>
    have : l = [] := List.length_eq_zero.mp h0
    subst this
    rfl

/-- C20: `get_key(p, build, is_host)` is `<name> v<version>` followed by
` (build)` when `build` is set, otherwise by ` (host)` when cross-compilation is
in effect and `is_host` is set or the library of `p` is a proc-macro, otherwise
by nothing; for a proc-macro library the key does not depend on `is_host`; and
the name of a `Job_RunScript` is `get_key(p, false, false)` followed by
` (script run)`. -/
theorem get_key_spec (rs : RunState) (w : World) (p : PackageManifest) (build is_host : Bool) :
    rs.get_key p build is_host =
      p.name ++ " v" ++ p.version.format ++
        (if build = true then " (build)"
         else if rs.m_is_cross_compiling = true ∧ (is_host = true ∨ p.is_proc_lib = true)
           then " (host)"
         else "") ∧
    (p.is_proc_lib = true → rs.get_key p build true = rs.get_key p build false) ∧
    (∀ q : PkgId, (Job_RunScript rs w q).name =
      rs.get_key (w q) false false ++ " (script run)") := by
  refine ⟨?_, ?_, fun _ => rfl⟩
  · unfold RunState.get_key
    cases build <;> cases is_host <;> cases rs.m_is_cross_compiling <;>
      cases p.is_proc_lib <;> simp
  · intro hp
    unfold RunState.get_key
    simp [hp]

/-- C17: `get_output_dir(is_for_host)` is `output_dir / "host"` if and only if
`is_for_host` is set, a target name is set and `emit_mmir` is off; in every
other case it is `output_dir` unchanged. -/
theorem get_output_dir_spec (rs : RunState) (is_for_host : Bool) :
    (rs.get_output_dir is_for_host = path_join rs.m_opts.output_dir "host" ↔
      is_for_host = true ∧ rs.m_opts.target_name.isSome = true ∧ rs.m_opts.emit_mmir = false) ∧
    (¬ (is_for_host = true ∧ rs.m_opts.target_name.isSome = true ∧
        rs.m_opts.emit_mmir = false) →
      rs.get_output_dir is_for_host = rs.m_opts.output_dir) := by
  have hne : rs.m_opts.output_dir ≠ path_join rs.m_opts.output_dir "host" := by
    intro h
    unfold path_join at h
    rw [String.append_assoc] at h
    exact append_ne_self _ _ (by decide) h.symm
  unfold RunState.get_output_dir
  cases is_for_host <;> cases rs.m_opts.target_name.isSome <;> cases rs.m_opts.emit_mmir <;>
    simp [hne]

/-! ## Crate output paths -/

theorem version_beq_zero (manifest : PackageManifest) :
    (manifest.version == PackageVersion.zero) = decide (manifest.version = PackageVersion.zero) :=
  rfl

/-- C18: `get_crate_path` returns `get_output_dir(is_host)` joined with a file
name. For a library target the name is chosen by the first crate type (or,
without crate types, proc-macro for a proc-macro target and rlib otherwise):
`lib<name><suffix>-plugin<EXE>` for proc-macro, `lib<name><suffix><DLL>` for
dylib when `MINICARGO_DYLIB` is set, and `lib<name><suffix>.rlib` for rlib and
for dylib without `MINICARGO_DYLIB`. For binary and test targets the name is
`<name><EXE>`. The suffix is the crate suffix, empty for the zero version. -/
theorem get_crate_path_spec (rs : RunState) (sys : Sys) (manifest : PackageManifest)
    (target : PackageTarget) (is_host : Bool) :
    (target.m_type = TargetType.Lib → selected_crate_type target = CrateType.proc_macro →
      (rs.get_crate_path sys manifest target is_host).map CratePath.outfile =
        Except.ok (path_join (rs.get_output_dir is_host)
          ("lib" ++ target.m_name ++ file_suffix rs manifest ++ "-plugin" ++ EXESUF))) ∧
    (target.m_type = TargetType.Lib → selected_crate_type target = CrateType.dylib →
      sys.dylib = true →
      (rs.get_crate_path sys manifest target is_host).map CratePath.outfile =
        Except.ok (path_join (rs.get_output_dir is_host)
          ("lib" ++ target.m_name ++ file_suffix rs manifest ++ DLLSUF))) ∧
    (target.m_type = TargetType.Lib →
      selected_crate_type target = CrateType.rlib ∨
        (selected_crate_type target = CrateType.dylib ∧ sys.dylib = false) →
      (rs.get_crate_path sys manifest target is_host).map CratePath.outfile =
        Except.ok (path_join (rs.get_output_dir is_host)
          ("lib" ++ target.m_name ++ file_suffix rs manifest ++ ".rlib"))) ∧
    (target.m_type = TargetType.Bin ∨ target.m_type = TargetType.Test →
      (rs.get_crate_path sys manifest target is_host).map CratePath.outfile =
        Except.ok (path_join (rs.get_output_dir is_host) (target.m_name ++ EXESUF))) := by
  unfold RunState.get_crate_path selected_crate_type file_suffix
  rw [version_beq_zero]
  refine ⟨?_, ?_, ?_, ?_⟩
  · intro ht hc
    simp only [ht, hc, decide_eq_true_eq]
    rfl
  · intro ht hc hd
    simp only [ht, hc, hd, decide_eq_true_eq, if_true]
    rfl
  · intro ht hc
    rcases hc with hc | ⟨hc, hd⟩
    · simp only [ht, hc, decide_eq_true_eq]
      rfl
    · simp only [ht, hc, hd, decide_eq_true_eq, Bool.false_eq_true, if_false]
      rfl
  · intro ht
    rcases ht with ht | ht
    · simp only [ht]; rfl
    · simp only [ht]; rfl

/-- Witness of C18: the library of version 0.1.0 of `leaf_world` in a host
build. -/
theorem get_crate_path_spec_witness :
    (host_rs.get_crate_path empty_sys (leaf_world 0) (lib_target "c" false) true).map
      CratePath.outfile = Except.ok "out/libc-0_1_0.rlib" :=
  (get_crate_path_spec host_rs empty_sys (leaf_world 0) (lib_target "c" false) true).2.2.1
    (by decide) (Or.inl (by decide))

/-- C19 (amended): `get_crate_path` fails with the unknown-target error for
every target whose type is neither library, binary nor test; for a library
target whose selected crate type is none of proc-macro, dylib, rlib it fails
too, with the other exception of the function (an empty string literal); for
every other target it returns a path. -/
theorem get_crate_path_failure (rs : RunState) (sys : Sys) (manifest : PackageManifest)
    (target : PackageTarget) (is_host : Bool) :
    (target.m_type = TargetType.Example →
      rs.get_crate_path sys manifest target is_host = Except.error BuildError.unknown_target) ∧
    (target.m_type = TargetType.Lib → selected_crate_type target = CrateType.other →
      rs.get_crate_path sys manifest target is_host =
        Except.error BuildError.unknown_crate_type) ∧
    (target.m_type ≠ TargetType.Example →
      (target.m_type = TargetType.Lib → selected_crate_type target ≠ CrateType.other) →
      ∃ cp, rs.get_crate_path sys manifest target is_host = Except.ok cp) := by
  unfold RunState.get_crate_path selected_crate_type
  refine ⟨?_, ?_, ?_⟩
  · intro ht
    simp only [ht]
  · intro ht hc
    simp only [ht, hc]
  · intro ht hc
    cases hty : target.m_type with
    | Example => exact absurd hty ht
    | Bin => exact ⟨_, rfl⟩
    | Test => exact ⟨_, rfl⟩
    | Lib =>
      have hc' := hc hty
      dsimp only
      cases hsel : (match target.m_crate_types with
        | t :: _ => t
        | [] => if target.m_is_proc_macro = true then CrateType.proc_macro
          else CrateType.rlib) with
      | other => exact absurd hsel hc'
      | proc_macro => exact ⟨_, rfl⟩
      | rlib => exact ⟨_, rfl⟩
      | dylib =>
        dsimp only
        cases sys.dylib
        · exact ⟨_, rfl⟩
        · exact ⟨_, rfl⟩

/-- Witness of C19: an example target is refused, a library target with an
unnamed crate type is refused, a binary is given a path. -/
theorem get_crate_path_failure_witness :
    host_rs.get_crate_path empty_sys (leaf_world 0) example_target true =
      Except.error BuildError.unknown_target ∧
    host_rs.get_crate_path empty_sys (leaf_world 0) odd_lib_target true =
      Except.error BuildError.unknown_crate_type ∧
    ∃ cp, host_rs.get_crate_path empty_sys (leaf_world 0) (bin_target "c") true =
      Except.ok cp :=
  have h := get_crate_path_failure host_rs empty_sys (leaf_world 0)
  ⟨(h example_target true).1 (by decide), (h odd_lib_target true).2.1 (by decide) (by decide),
    (h (bin_target "c") true).2.2 (by decide) (fun hl => absurd hl (by decide))⟩

/-- Counterexample to C19: a library target whose crate type is none of the
three named ones is refused, but not with the unknown-target error. -/
theorem odd_crate_type_error :
    odd_lib_target.m_type = TargetType.Lib ∧
    selected_crate_type odd_lib_target = CrateType.other ∧
    host_rs.get_crate_path empty_sys (leaf_world 0) odd_lib_target true ≠
      Except.error BuildError.unknown_target := by
  refine ⟨by decide, by decide, by decide⟩

/-! ## Crate suffix -/

theorem digitChar_ne_dot (d : Nat) (hd : d < 10) : Nat.digitChar d ≠ '.' := by
  interval_cases d <;> decide

theorem toDigitsCore_no_dot : ∀ (fuel n : Nat) (ds : List Char), (∀ c ∈ ds, c ≠ '.') →
    ∀ c ∈ Nat.toDigitsCore 10 fuel n ds, c ≠ '.' := by
  intro fuel
  induction fuel with
  | zero => intro n ds h c hc; exact h c (by simpa [Nat.toDigitsCore] using hc)
  | succ fuel ih =>
    intro n ds h c hc
    have hds : ∀ x ∈ Nat.digitChar (n % 10) :: ds, x ≠ '.' := by
      intro x hx
      rcases List.mem_cons.mp hx with rfl | hx
      · exact digitChar_ne_dot _ (Nat.mod_lt _ (by decide))
      · exact h x hx
    simp only [Nat.toDigitsCore] at hc
    split at hc
    · exact hds c hc
    · exact ih _ _ hds c hc

theorem toString_no_dot (n : Nat) : ∀ c ∈ (toString n).data, c ≠ '.' := by
  intro c hc
  have : (toString n).data = Nat.toDigits 10 n := rfl
  rw [this] at hc
  exact toDigitsCore_no_dot _ _ [] (by simp) c hc

theorem map_dots_digits (n : Nat) :
    (toString n).data.map (fun v => if v == '.' then '_' else v) = (toString n).data := by
  conv => rhs; rw [← List.map_id (toString n).data]
  apply List.map_congr_left
  intro c hc
  have := toString_no_dot n c hc
  simp [this]

/-- The text `get_crate_suffix` builds from the version is the version tag. -/
theorem version_tag_eq (v : PackageVersion) :
    String.mk (("-" ++ v.format).toList.map (fun c => if c == '.' then '_' else c)) =
      version_tag v := by
  apply String.ext
  unfold version_tag PackageVersion.format
  simp only [String.toList, String.data_append, List.map_append, map_dots_digits]
  rfl

/-- The crate suffix in closed form. -/
theorem get_crate_suffix_eq (rs : RunState) (manifest : PackageManifest) :
    rs.get_crate_suffix manifest =
      if manifest.active_features = [] then version_tag manifest.version
      else version_tag manifest.version ++ "_H" ++
        hex (feature_mask manifest.active_features manifest.all_features 0 0) := by
  unfold RunState.get_crate_suffix
  dsimp only
  rw [version_tag_eq]
  cases h : manifest.active_features with
  | nil => simp
  | cons a t => simp [hex]

theorem feature_mask_testBit (active : List String) : ∀ (all : List String) (i0 mask0 : Nat),
    i0 ≤ 63 → ∀ j, (feature_mask active all i0 mask0).testBit j = true ↔
      mask0.testBit j = true ∨
        (i0 ≤ j ∧ j ≤ 63 ∧ ∃ f, all[j - i0]? = some f ∧ f ∈ active) := by
  intro all
  induction all with
  | nil =>
    intro i0 mask0 _ j
    simp [feature_mask]
  | cons f rest ih =>
    intro i0 mask0 hi j
    have hm1 : ∀ k, (if (active.count f != 0) = true then mask0 ||| 1 <<< i0 else mask0).testBit k
        = true ↔ mask0.testBit k = true ∨ (k = i0 ∧ f ∈ active) := by
      intro k
      by_cases hf : f ∈ active
      · have hc : (active.count f != 0) = true := by
          have hpos : 0 < active.count f := List.count_pos_iff.mpr hf
          rw [bne_iff_ne]
          omega
        simp only [hc, if_true, Nat.testBit_or, Bool.or_eq_true, Nat.one_shiftLeft,
          Nat.testBit_two_pow, decide_eq_true_eq, hf, and_true]
        constructor
        · rintro (h | h)
          · exact Or.inl h
          · exact Or.inr h.symm
        · rintro (h | h)
          · exact Or.inl h
          · exact Or.inr h.symm
      · have hc : (active.count f != 0) = false := by
          have hz : active.count f = 0 := List.count_eq_zero.mpr hf
          rw [hz]
          rfl
        simp [hc, hf]
    simp only [feature_mask]
    by_cases h63 : i0 = 63
    · subst h63
      simp only [beq_self_eq_true, if_true]
      rw [hm1]
      constructor
      · rintro (h | ⟨rfl, hf⟩)
        · exact Or.inl h
        · exact Or.inr ⟨Nat.le_refl _, Nat.le_refl _, f, by simp, hf⟩
      · rintro (h | ⟨h1, h2, g, hg, hga⟩)
        · exact Or.inl h
        · have hj : j = 63 := by omega
          subst hj
          simp only [Nat.sub_self, List.getElem?_cons_zero, Option.some.injEq] at hg
          subst hg
          exact Or.inr ⟨rfl, hga⟩
    · have hne : (i0 == 63) = false := by simpa using h63
      simp only [hne, Bool.false_eq_true, if_false]
      rw [ih (i0 + 1) _ (by omega) j, hm1]
      constructor
      · rintro ((h | ⟨rfl, hf⟩) | ⟨h1, h2, g, hg, hga⟩)
        · exact Or.inl h
        · exact Or.inr ⟨Nat.le_refl _, by omega, f, by simp, hf⟩
        · refine Or.inr ⟨by omega, h2, g, ?_, hga⟩
          have : j - i0 = (j - (i0 + 1)) + 1 := by omega
          rw [this, List.getElem?_cons_succ]
          exact hg
      · rintro (h | ⟨h1, h2, g, hg, hga⟩)
        · exact Or.inl (Or.inl h)
        · by_cases hj : j = i0
          · subst hj
            simp only [Nat.sub_self, List.getElem?_cons_zero, Option.some.injEq] at hg
            subst hg
            exact Or.inl (Or.inr ⟨rfl, hga⟩)
          · refine Or.inr ⟨by omega, h2, g, ?_, hga⟩
            have : j - i0 = (j - (i0 + 1)) + 1 := by omega
            rw [this, List.getElem?_cons_succ] at hg
            exact hg

/-- Bit `i` of the feature mask is set exactly when `i < 64` and the `i`-th
declared feature is active. -/
theorem feature_mask_bits (active all : List String) (i : Nat) :
    (feature_mask active all 0 0).testBit i = true ↔
      i < 64 ∧ ∃ f, all[i]? = some f ∧ f ∈ active := by
  rw [feature_mask_testBit active all 0 0 (by omega) i]
  simp only [Nat.zero_testBit, Bool.false_eq_true, false_or, Nat.zero_le, true_and, Nat.sub_zero]
  constructor
  · rintro ⟨h, r⟩; exact ⟨by omega, r⟩
  · rintro ⟨h, r⟩; exact ⟨by omega, r⟩

/-- C14: for a manifest of version MAJOR.MINOR.PATCH, `get_crate_suffix` returns
`-MAJOR_MINOR_PATCH` when there is no active feature, and otherwise
`-MAJOR_MINOR_PATCH_H` followed by the lowercase hexadecimal rendering of the
mask whose bit `i`, for `i < 64`, is set iff the `i`-th entry of `all_features`
is active (no other bit is set); version 1.2.3 with the features `alpha`, `beta`,
`gamma`, of which `alpha` and `gamma` are active, gives `-1_2_3_H5`. -/
theorem get_crate_suffix_spec (rs : RunState) (manifest : PackageManifest) :
    (manifest.active_features = [] →
      rs.get_crate_suffix manifest = version_tag manifest.version) ∧
    (manifest.active_features ≠ [] →
      ∃ mask, rs.get_crate_suffix manifest = version_tag manifest.version ++ "_H" ++ hex mask ∧
        ∀ i, mask.testBit i = true ↔
          i < 64 ∧ ∃ f, manifest.all_features[i]? = some f ∧ f ∈ manifest.active_features) ∧
    rs.get_crate_suffix (feature_manifest ["alpha", "gamma"]) = "-1_2_3_H5" ∧
    hex 2748 = "abc" := by
  refine ⟨?_, ?_, by rw [get_crate_suffix_eq]; decide, by decide⟩
  · intro h
    rw [get_crate_suffix_eq, if_pos h]
  · intro h
    refine ⟨feature_mask manifest.active_features manifest.all_features 0 0, ?_, ?_⟩
    · rw [get_crate_suffix_eq, if_neg h]
    · exact feature_mask_bits _ _

/-- Witness of C14: with the single active feature `beta` the mask is 2. -/
theorem get_crate_suffix_spec_witness :
    ∃ mask, host_rs.get_crate_suffix (feature_manifest ["beta"]) =
        version_tag ⟨1, 2, 3⟩ ++ "_H" ++ hex mask ∧
      ∀ i, mask.testBit i = true ↔
        i < 64 ∧ ∃ f, (feature_manifest ["beta"]).all_features[i]? = some f ∧
          f ∈ (feature_manifest ["beta"]).active_features :=
  (get_crate_suffix_spec host_rs (feature_manifest ["beta"])).2.1 (by decide)

/-- The crate suffix depends on the version, on whether a feature is active at
all, and on which of the first 64 declared features are active. -/
theorem get_crate_suffix_congr (rs1 rs2 : RunState) (m1 m2 : PackageManifest)
    (hv : m1.version = m2.version)
    (hall : m1.all_features.take 64 = m2.all_features.take 64)
    (hempty : m1.active_features = [] ↔ m2.active_features = [])
    (hact : ∀ f ∈ m1.all_features.take 64,
      f ∈ m1.active_features ↔ f ∈ m2.active_features) :
    rs1.get_crate_suffix m1 = rs2.get_crate_suffix m2 := by
  rw [get_crate_suffix_eq, get_crate_suffix_eq, hv]
  have hmask : feature_mask m1.active_features m1.all_features 0 0 =
      feature_mask m2.active_features m2.all_features 0 0 := by
    apply Nat.eq_of_testBit_eq
    intro i
    rw [Bool.eq_iff_iff, feature_mask_bits, feature_mask_bits]
    constructor
    · rintro ⟨hi, f, hf, hfa⟩
      have h1 : (m1.all_features.take 64)[i]? = some f := by
        rw [List.getElem?_take_of_lt hi]; exact hf
      refine ⟨hi, f, ?_, (hact f (List.getElem?_mem h1)).mp hfa⟩
      rw [hall, List.getElem?_take_of_lt hi] at h1
      exact h1
    · rintro ⟨hi, f, hf, hfa⟩
      have h2 : (m1.all_features.take 64)[i]? = some f := by
        rw [hall, List.getElem?_take_of_lt hi]; exact hf
      refine ⟨hi, f, ?_, (hact f (List.getElem?_mem h2)).mpr hfa⟩
      rw [List.getElem?_take_of_lt hi] at h2
      exact h2
  by_cases h1 : m1.active_features = []
  · rw [if_pos h1, if_pos (hempty.mp h1)]
  · rw [if_neg h1, if_neg (fun h => h1 (hempty.mpr h)), hmask]

/-- C16: two manifests with the same version and the same `all_features` have
the same crate suffix whenever the same features are active, in whatever order
and whatever their other fields; and activating or deactivating a feature that
is not among the first 64 entries of `all_features` leaves the suffix unchanged
as long as some feature stays active. -/
theorem get_crate_suffix_deterministic :
    (∀ (rs1 rs2 : RunState) (m1 m2 : PackageManifest), m1.version = m2.version →
      m1.all_features = m2.all_features →
      (∀ f, f ∈ m1.active_features ↔ f ∈ m2.active_features) →
      rs1.get_crate_suffix m1 = rs2.get_crate_suffix m2) ∧
    (∀ (rs : RunState) (m : PackageManifest) (g : String), g ∉ m.all_features.take 64 →
      m.active_features ≠ [] →
      rs.get_crate_suffix { m with active_features := g :: m.active_features } =
        rs.get_crate_suffix m) ∧
    (∀ (rs : RunState) (m : PackageManifest) (g : String), g ∉ m.all_features.take 64 →
      m.active_features.filter (fun f => f != g) ≠ [] →
      rs.get_crate_suffix
          { m with active_features := m.active_features.filter (fun f => f != g) } =
        rs.get_crate_suffix m) := by
  refine ⟨?_, ?_, ?_⟩
  · intro rs1 rs2 m1 m2 hv hall hact
    apply get_crate_suffix_congr rs1 rs2 m1 m2 hv (by rw [hall])
    · constructor
      · intro h
        apply List.eq_nil_iff_forall_not_mem.mpr
        intro f hf
        have := (hact f).mpr hf
        rw [h] at this
        exact absurd this (List.not_mem_nil f)
      · intro h
        apply List.eq_nil_iff_forall_not_mem.mpr
        intro f hf
        have := (hact f).mp hf
        rw [h] at this
        exact absurd this (List.not_mem_nil f)
    · intro f _
      exact hact f
  · intro rs m g hg hne
    apply get_crate_suffix_congr rs rs { m with active_features := g :: m.active_features } m
      rfl rfl
    · constructor
      · intro h; exact absurd h (List.cons_ne_nil _ _)
      · intro h; exact absurd h hne
    · intro f hf
      show f ∈ g :: m.active_features ↔ f ∈ m.active_features
      constructor
      · intro h
        rcases List.mem_cons.mp h with rfl | h
        · exact absurd hf hg
        · exact h
      · intro h; exact List.mem_cons_of_mem _ h
  · intro rs m g hg hne
    apply get_crate_suffix_congr rs rs
      { m with active_features := m.active_features.filter (fun f => f != g) } m rfl rfl
    · constructor
      · intro h; exact absurd h hne
      · intro h
        show m.active_features.filter (fun f => f != g) = []
        rw [h]; rfl
    · intro f hf
      show f ∈ m.active_features.filter (fun f => f != g) ↔ f ∈ m.active_features
      rw [List.mem_filter]
      constructor
      · intro h; exact h.1
      · intro h
        refine ⟨h, ?_⟩
        rw [bne_iff_ne]
        intro hfg
        rw [hfg] at hf
        exact hg hf

/-- Witness of C16: the order of the active features does not matter, and
neither do the name and the targets of the manifest. -/
theorem get_crate_suffix_deterministic_witness :
    host_rs.get_crate_suffix (feature_manifest ["gamma", "alpha"]) =
      mmir_rs.get_crate_suffix
        { feature_manifest ["alpha", "gamma"] with name := "other", targets := [] } :=
  get_crate_suffix_deterministic.1 host_rs mmir_rs _ _ rfl rfl
    (by intro f; simp [feature_manifest, or_comm])

theorem version_tag_ne_empty (v : PackageVersion) (tail : String) : version_tag v ++ tail ≠ "" := by
  intro h
  have hl := congrArg String.length h
  unfold version_tag at hl
  simp only [String.length_append] at hl
  have h1 : ("-" : String).length = 1 := by decide
  have h0 : ("" : String).length = 0 := by decide
  omega

theorem get_crate_suffix_ne_empty (rs : RunState) (manifest : PackageManifest) :
    rs.get_crate_suffix manifest ≠ "" := by
  rw [get_crate_suffix_eq]
  split
  · have := version_tag_ne_empty manifest.version ""
    simpa using this
  · rw [String.append_assoc]
    exact version_tag_ne_empty _ _

theorem get_crate_path_out_suffix (rs : RunState) (sys : Sys) (manifest : PackageManifest)
    (target : PackageTarget) (is_host : Bool) (cp : CratePath)
    (h : rs.get_crate_path sys manifest target is_host = Except.ok cp) :
    cp.out_crate_suffix = rs.get_crate_suffix manifest := by
  unfold RunState.get_crate_path at h
  dsimp only at h
  split at h
  · split at h
    · simp only [Except.ok.injEq] at h; rw [← h]
    · split at h
      · simp only [Except.ok.injEq] at h; rw [← h]
      · simp only [Except.ok.injEq] at h; rw [← h]
    · simp only [Except.ok.injEq] at h; rw [← h]
    · exact absurd h (by simp)
  · simp only [Except.ok.injEq] at h; rw [← h]
  · simp only [Except.ok.injEq] at h; rw [← h]
  · exact absurd h (by simp)

theorem crate_tag_args_ne_nil (rs : RunState) (crate_suffix outfile : String)
    (h : crate_suffix ≠ "") : crate_tag_args rs crate_suffix outfile ≠ [] := by
  unfold crate_tag_args
  have : (crate_suffix == "") = false := by simpa using h
  rw [this]
  simp only [Bool.not_false, if_true]
  split
  · exact List.cons_ne_nil _ _
  · exact List.cons_ne_nil _ _

/-- C15 (amended): for a manifest of the zero version, the suffix that goes
into file names is empty (the crate file of `get_crate_path`, the stem of
`get_build_script_out`), but `get_crate_suffix` itself returns the non-empty
`-0_0_0` (followed by the feature tag), `get_crate_path` reports that string
through `out_crate_suffix`, and the block of `Job_BuildTarget::start` that is
guarded by a non-empty crate suffix passes the metadata tag. -/
theorem zero_version_suffix (rs : RunState) (sys : Sys) (manifest : PackageManifest)
    (target : PackageTarget) (is_host : Bool) (cp : CratePath)
    (hv : manifest.version = PackageVersion.zero)
    (hcp : rs.get_crate_path sys manifest target is_host = Except.ok cp) :
    file_suffix rs manifest = "" ∧
    rs.get_build_script_out manifest = "build_" ++ manifest.name ∧
    (manifest.active_features = [] → rs.get_crate_suffix manifest = "-0_0_0") ∧
    rs.get_crate_suffix manifest ≠ "" ∧
    cp.out_crate_suffix = rs.get_crate_suffix manifest ∧
    crate_tag_args rs cp.out_crate_suffix cp.outfile ≠ [] := by
  have hout := get_crate_path_out_suffix rs sys manifest target is_host cp hcp
  have hne := get_crate_suffix_ne_empty rs manifest
  refine ⟨?_, ?_, ?_, hne, hout, ?_⟩
  · unfold file_suffix
    rw [if_pos hv]
  · unfold RunState.get_build_script_out
    rw [version_beq_zero, hv]
    simp
  · intro ha
    rw [get_crate_suffix_eq, if_pos ha, hv]
    decide
  · rw [hout]
    exact crate_tag_args_ne_nil rs _ _ hne

/-- Witness of C15 on the library of `zero_manifest`. -/
theorem zero_version_suffix_witness :
    host_rs.get_crate_path empty_sys zero_manifest (lib_target "z" false) true =
      Except.ok ⟨"out/libz.rlib", "rlib", "-0_0_0"⟩ ∧
    file_suffix host_rs zero_manifest = "" ∧
    host_rs.get_build_script_out zero_manifest = "build_" ++ zero_manifest.name ∧
    (zero_manifest.active_features = [] → host_rs.get_crate_suffix zero_manifest = "-0_0_0") ∧
    host_rs.get_crate_suffix zero_manifest ≠ "" ∧
    (⟨"out/libz.rlib", "rlib", "-0_0_0"⟩ : CratePath).out_crate_suffix =
      host_rs.get_crate_suffix zero_manifest ∧
    crate_tag_args host_rs (⟨"out/libz.rlib", "rlib", "-0_0_0"⟩ : CratePath).out_crate_suffix
      (⟨"out/libz.rlib", "rlib", "-0_0_0"⟩ : CratePath).outfile ≠ [] :=
  ⟨by decide,
    zero_version_suffix host_rs empty_sys zero_manifest (lib_target "z" false) true
      ⟨"out/libz.rlib", "rlib", "-0_0_0"⟩ (by decide) (by decide)⟩

/-- Counterexample to C15: for the zero version the crate suffix is `-0_0_0`,
not the empty string; `get_crate_path` reports it and the metadata tag `0_0_0`
is passed. -/
theorem zero_version_has_tag :
    zero_manifest.version = PackageVersion.zero ∧
    host_rs.get_crate_suffix zero_manifest = "-0_0_0" ∧
    (host_rs.get_crate_path empty_sys zero_manifest (lib_target "z" false) true).map
      CratePath.out_crate_suffix = Except.ok "-0_0_0" ∧
    crate_tag_args host_rs "-0_0_0" "out/libz.rlib" = ["--crate-tag", "0_0_0"] := by
  refine ⟨by decide, by decide, by decide, by decide⟩

/-! ## Depfile errors in the staleness oracle -/

/-- C13 (amended): the staleness oracle returns a boolean without reading the
depfile when the output is missing or older than the compiler; otherwise an
error of `load_depfile` on `<output>.d` is the result of
`outfile_needs_rebuild`, and `build` fails with it when the output is the
library of the first list entry. -/
theorem depfile_error_surfaces (sys : Sys) (w : World) (root : PkgId) (entry : GraphEntry)
    (rest : List GraphEntry) (opts : BuildOptions) (lib : PackageTarget) (cp : CratePath)
    (e : BuildError)
    (hlib : (w entry.package).get_library = Except.ok lib)
    (hcp : (BuildList.run_state sys opts).get_crate_path sys (w entry.package) lib
      entry.is_host = Except.ok cp)
    (hload : load_depfile sys (cp.outfile ++ ".d") = Except.error e) :
    (stale_by_age (BuildList.run_state sys opts) sys cp.outfile →
      (BuildList.run_state sys opts).outfile_needs_rebuild sys cp.outfile = Except.ok true) ∧
    (¬ stale_by_age (BuildList.run_state sys opts) sys cp.outfile →
      (BuildList.run_state sys opts).outfile_needs_rebuild sys cp.outfile = Except.error e ∧
      BuildList.build sys w root (entry :: rest) opts = Except.error e) := by
  refine ⟨outfile_needs_rebuild_of_age _ sys cp.outfile, ?_⟩
  intro hage
  have hstale : (BuildList.run_state sys opts).outfile_needs_rebuild sys cp.outfile =
      Except.error e := by
    rw [outfile_needs_rebuild_of_not_age _ sys cp.outfile hage, hload]
  refine ⟨hstale, ?_⟩
  have hentry : build_entry (BuildList.run_state sys opts) sys w opts ConvertState.init entry =
      Except.error e := by
    unfold build_entry
    rw [hlib]
    dsimp only
    rw [hcp]
    dsimp only
    rw [hstale]
  unfold BuildList.build
  dsimp only
  have hentries : build_entries (BuildList.run_state sys opts) sys w opts ConvertState.init
      (entry :: rest) = Except.error e := by
    simp only [build_entries]
    rw [hentry]
  unfold BuildList.run_state at hentries
  rw [hentries]

/-- Witness of C13 on the library of `leaf_world` with a depfile that lacks the
colon. -/
theorem depfile_error_surfaces_witness :
    (BuildList.run_state leaf_malformed_sys host_opts).outfile_needs_rebuild leaf_malformed_sys
      "out/libc-0_1_0.rlib" = Except.error BuildError.malformed_depfile ∧
    BuildList.build leaf_malformed_sys leaf_world 0 [⟨0, true⟩] host_opts =
      Except.error BuildError.malformed_depfile :=
  (depfile_error_surfaces leaf_malformed_sys leaf_world 0 ⟨0, true⟩ [] host_opts
    (lib_target "c" false) ⟨"out/libc-0_1_0.rlib", "rlib", "-0_1_0"⟩
    BuildError.malformed_depfile (by decide) (by decide) (by decide)).2
    (by
      rintro (h | ⟨_, h⟩)
      · exact absurd h (by decide)
      · exact absurd h (by decide))

/-- Counterexample to C13: the library of `leaf_world` exists and is newer than
the compiler, its depfile is malformed; `outfile_needs_rebuild` returns no
boolean and `build` fails with the malformed-depfile error. -/
theorem malformed_depfile_aborts_build :
    leaf_malformed_sys.read_file "out/libc-0_1_0.rlib.d" =
      some "out/libc-0_1_0.rlib src/lib.rs\n".toList ∧
    host_rs.outfile_needs_rebuild leaf_malformed_sys "out/libc-0_1_0.rlib" ≠ Except.ok true ∧
    host_rs.outfile_needs_rebuild leaf_malformed_sys "out/libc-0_1_0.rlib" ≠ Except.ok false ∧
    BuildList.build leaf_malformed_sys leaf_world 0 [⟨0, true⟩] host_opts =
      Except.error BuildError.malformed_depfile := by
  refine ⟨by decide, by decide, by decide, by decide⟩

/-! ## When the depfile reader fails -/

theorem tokens_fuel_stable : ∀ (f1 f2 : Nat) (lx : Lexer), lx.measure < f1 → lx.measure < f2 →
    tokens_fuel f1 lx = tokens_fuel f2 lx := by
  intro f1
  induction f1 with
  | zero => intro f2 lx h; exact absurd h (Nat.not_lt_zero _)
  | succ f1 ih =>
    intro f2 lx h1 h2
    cases f2 with
    | zero => exact absurd h2 (Nat.not_lt_zero _)
    | succ f2 =>
      simp only [tokens_fuel]
      split
      · rfl
      · rename_i hne
        have hlt := (get_token_measure lx).2 (by simpa using hne)
        rw [ih f2 lx.get_token.2 (by omega) (by omega)]

theorem tokens_unfold (lx : Lexer) :
    lx.tokens = if lx.get_token.1 == "" then [] else lx.get_token.1 :: lx.get_token.2.tokens := by
  have h1 : lx.tokens = tokens_fuel (lx.measure + 1) lx := rfl
  have h2 : lx.get_token.2.tokens =
      tokens_fuel (lx.get_token.2.measure + 1) lx.get_token.2 := rfl
  rw [h1, h2, tokens_fuel]
  split
  · rfl
  · rename_i hne
    have hlt := (get_token_measure lx).2 (by simpa using hne)
    rw [tokens_fuel_stable lx.measure (lx.get_token.2.measure + 1) lx.get_token.2 hlt
      (Nat.lt_succ_self _)]

theorem token_loop_length : ∀ (n : Nat) (ifp : List Char), ifp.length ≤ n →
    ∀ (eof : Bool) (c : Char) (rv : List Char),
      rv.length < (token_loop ifp eof c rv).1.length := by
  have hesc : ∀ c, 0 < (escaped c).length := by
    intro c; unfold escaped; split
    · simp
    · split <;> simp
  intro n
  induction n with
  | zero =>
    intro ifp hlen eof c rv
    have : ifp = [] := List.length_eq_zero.mp (Nat.le_zero.mp hlen)
    subst this
    rw [token_loop.eq_1]
    split
    · simp only [List.length_append]; have := hesc '\x00'; omega
    · simp
  | succ n ih =>
    intro ifp hlen eof c rv
    match ifp, hlen with
    | [], _ =>
      rw [token_loop.eq_1]
      split
      · simp only [List.length_append]; have := hesc '\x00'; omega
      · simp
    | [c1], _ =>
      rw [token_loop.eq_2]
      split
      · simp only [List.length_append]; have := hesc c1; omega
      · split
        · have := ih [] (Nat.zero_le _) eof c1 (rv ++ [c])
          simp only [List.length_append, List.length_singleton] at this
          omega
        · simp
    | c1 :: c2 :: rest2, hlen =>
      rw [token_loop.eq_3]
      simp only [List.length_cons] at hlen
      split
      · split
        · have := ih rest2 (by omega) eof c2 (rv ++ escaped c1)
          simp only [List.length_append] at this
          omega
        · simp only [List.length_append]; have := hesc c1; omega
      · split
        · have := ih (c2 :: rest2) (by simp only [List.length_cons]; omega) eof c1 (rv ++ [c])
          simp only [List.length_append, List.length_singleton] at this
          omega
        · simp

/-- After an empty token every further token is empty. -/
theorem get_token_empty_again (lx : Lexer) (h : lx.get_token.1 = "") :
    lx.get_token.2.get_token.1 = "" := by
  unfold Lexer.get_token at h
  split at h
  · rename_i hfirst
    have : lx.get_token = ("", lx) := by
      unfold Lexer.get_token
      rw [if_pos hfirst]
    rw [this]
    dsimp only
    rw [this]
  · rename_i hfirst
    obtain ⟨hs1, _⟩ := skip_spaces_measure lx.ifp lx.eof lx.m_c
    have hget : lx.get_token = (match skip_spaces lx.ifp lx.eof lx.m_c with
        | (false, lx1) => ("", lx1)
        | (true, lx1) =>
          if lx1.m_c == '\n' then ("\n", lx1.nextc.2)
          else if lx1.m_c == '\t' then ("\t", lx1.nextc.2)
          else
            let r := token_loop lx1.ifp lx1.eof lx1.m_c []
            (String.mk r.1, r.2)) := by
      unfold Lexer.get_token
      rw [if_neg hfirst]
    split at h
    · rename_i lx1 hskip
      rw [hskip] at hs1
      have h1 := hs1 rfl
      dsimp only at h1
      rw [hget, hskip]
      dsimp only
      rw [h1]
      rfl
    · rename_i lx1 hskip
      exfalso
      split at h
      · exact absurd h (show ("\n" : String) ≠ "" by decide)
      · split at h
        · exact absurd h (show ("\t" : String) ≠ "" by decide)
        · dsimp only at h
          have hlen := token_loop_length _ lx1.ifp (Nat.le_refl _) lx1.eof lx1.m_c []
          have h2 := congrArg String.data h
          dsimp only at h2
          rw [h2] at hlen
          exact absurd hlen (by decide)

theorem tokens_of_empty (lx : Lexer) (h : lx.get_token.1 = "") : lx.tokens = [] := by
  rw [tokens_unfold, h]
  rfl

/-- The inner loop of `load_depfile` leaves the lexer at the start of the next
line. -/
theorem read_paths_tokens : ∀ (fuel : Nat) (lx : Lexer) (rv : DepMap) (target : String),
    lx.measure < fuel →
    ∃ lx' rv', read_paths fuel lx rv target = some (lx', rv') ∧ lx'.measure ≤ lx.measure ∧
      colon_missing LinePos.in_paths lx.tokens = colon_missing LinePos.line_start lx'.tokens := by
  intro fuel
  induction fuel with
  | zero => intro lx rv target h; exact absurd h (Nat.not_lt_zero _)
  | succ fuel ih =>
    intro lx rv target h
    obtain ⟨g1, g2⟩ := get_token_measure lx
    simp only [read_paths]
    by_cases hnl : lx.get_token.1 = "\n"
    · have hif : (lx.get_token.1 == "\n" || lx.get_token.1 == "") = true := by simp [hnl]
      rw [if_pos hif]
      refine ⟨_, _, rfl, g1, ?_⟩
      rw [tokens_unfold lx, hnl]
      rfl
    · by_cases hem : lx.get_token.1 = ""
      · have hif : (lx.get_token.1 == "\n" || lx.get_token.1 == "") = true := by simp [hem]
        rw [if_pos hif]
        refine ⟨_, _, rfl, g1, ?_⟩
        rw [tokens_of_empty lx hem, tokens_of_empty _ (get_token_empty_again lx hem)]
        rfl
      · have hif : ¬ (lx.get_token.1 == "\n" || lx.get_token.1 == "") = true := by
          simp [hnl, hem]
        rw [if_neg hif]
        have hlt := g2 hem
        obtain ⟨lx', rv', h1, h2, h3⟩ := ih lx.get_token.2
          (DepMap.push_back rv target lx.get_token.1) target (by omega)
        refine ⟨lx', rv', h1, by omega, ?_⟩
        rw [tokens_unfold lx]
        have hne' : (lx.get_token.1 == "") = false := by simpa using hem
        have hnl' : (lx.get_token.1 == "\n") = false := by simpa using hnl
        rw [hne']
        simp only [Bool.false_eq_true, if_false, colon_missing, hnl']
        exact h3

/-- The outer loop of `load_depfile` fails exactly when a colon is missing, and
returns a map otherwise. -/
theorem read_lines_tokens : ∀ (fuel : Nat) (lx : Lexer) (rv : DepMap), lx.measure < fuel →
    ∃ m, read_lines fuel lx rv =
      some (if colon_missing LinePos.line_start lx.tokens = true
        then Except.error BuildError.malformed_depfile else Except.ok m) := by
  intro fuel
  induction fuel with
  | zero => intro lx rv h; exact absurd h (Nat.not_lt_zero _)
  | succ fuel ih =>
    intro lx rv h
    obtain ⟨g1, g2⟩ := get_token_measure lx
    simp only [read_lines]
    by_cases hem : lx.get_token.1 = ""
    · have hb : (lx.get_token.1 == "") = true := by simp [hem]
      simp only [hb, if_true]
      refine ⟨rv, ?_⟩
      rw [tokens_of_empty lx hem]
      rfl
    · have hne' : (lx.get_token.1 == "") = false := by simpa using hem
      have hlt := g2 hem
      rw [tokens_unfold lx]
      simp only [hne', Bool.false_eq_true, if_false, colon_missing]
      by_cases hnl : lx.get_token.1 = "\n"
      · have hb : (lx.get_token.1 == "\n") = true := by simp [hnl]
        simp only [hb, if_true]
        exact ih _ _ (by omega)
      · have hb : (lx.get_token.1 == "\n") = false := by simpa using hnl
        simp only [hb, Bool.false_eq_true, if_false]
        obtain ⟨t1, t2⟩ := get_token_measure lx.get_token.2
        by_cases hcolon : lx.get_token.2.get_token.1 = ":"
        · have hcb : (lx.get_token.2.get_token.1 != ":") = false := by simp [hcolon]
          simp only [hcb, Bool.false_eq_true, if_false]
          obtain ⟨lx', rv', h1, h2, h3⟩ := read_paths_tokens fuel lx.get_token.2.get_token.2
            (DepMap.insert_empty rv lx.get_token.1) lx.get_token.1 (by omega)
          rw [h1]
          dsimp only
          have hafter : colon_missing LinePos.after_target lx.get_token.2.tokens =
              colon_missing LinePos.line_start lx'.tokens := by
            rw [tokens_unfold lx.get_token.2]
            have hc : (lx.get_token.2.get_token.1 == "") = false := by
              rw [hcolon]; decide
            have hc2 : (lx.get_token.2.get_token.1 == ":") = true := by simp [hcolon]
            simp only [hc, Bool.false_eq_true, if_false, colon_missing, hc2, if_true]
            exact h3
          rw [hafter]
          exact ih lx' rv' (by omega)
        · have hcb : (lx.get_token.2.get_token.1 != ":") = true := by simpa using hcolon
          simp only [hcb, if_true]
          refine ⟨rv, ?_⟩
          have : colon_missing LinePos.after_target lx.get_token.2.tokens = true := by
            rw [tokens_unfold lx.get_token.2]
            split
            · rfl
            · have hc2 : (lx.get_token.2.get_token.1 == ":") = false := by simpa using hcolon
              simp only [colon_missing, hc2, Bool.false_eq_true, if_false]
          rw [this]
          rfl

/-- C12: `load_depfile` fails with the malformed-depfile error exactly when, on
some line, the token that follows the target token is not the token `:` (as
for the content `a b\n`); on every other content it returns a mapping; and for
a file that cannot be opened it returns the empty mapping. -/
theorem load_depfile_failure :
    (∀ (sys : Sys) (path : String) (content : List Char), sys.read_file path = some content →
      (load_depfile sys path = Except.error BuildError.malformed_depfile ↔
        colon_missing LinePos.line_start (Lexer.new content).tokens = true) ∧
      (colon_missing LinePos.line_start (Lexer.new content).tokens = false →
        ∃ m, load_depfile sys path = Except.ok m)) ∧
    (∀ (sys : Sys) (path : String), sys.read_file path = none →
      load_depfile sys path = Except.ok []) ∧
    (Lexer.new "a b\n".toList).tokens = ["a", "b", "\n"] ∧
    parse_depfile "a b\n".toList = Except.error BuildError.malformed_depfile := by
  refine ⟨?_, ?_, by decide, by decide⟩
  · intro sys path content hread
    have hm : (Lexer.new content).measure < content.length + 2 := by
      unfold Lexer.new
      have := nextc_measure ⟨content, false, '\x00'⟩
      dsimp only at this
      omega
    obtain ⟨m, hm'⟩ := read_lines_tokens _ _ [] hm
    have hparse : load_depfile sys path =
        (if colon_missing LinePos.line_start (Lexer.new content).tokens = true
          then Except.error BuildError.malformed_depfile else Except.ok m) := by
      unfold load_depfile
      rw [hread]
      show parse_depfile content = _
      unfold parse_depfile
      rw [hm']
    rw [hparse]
    constructor
    · constructor
      · intro h
        by_contra hc
        rw [if_neg hc] at h
        exact absurd h (by simp)
      · intro h
        rw [if_pos h]
    · intro h
      exact ⟨m, by rw [h]; rfl⟩
  · intro sys path h
    unfold load_depfile
    rw [h]

/-- Witness of C12: a file without any colon after its target is refused, a
file that cannot be opened loads as the empty map. -/
theorem load_depfile_failure_witness :
    load_depfile leaf_malformed_sys "out/libc-0_1_0.rlib.d" =
      Except.error BuildError.malformed_depfile ∧
    load_depfile leaf_malformed_sys "missing.d" = Except.ok [] :=
  ⟨((load_depfile_failure.1 leaf_malformed_sys "out/libc-0_1_0.rlib.d"
      "out/libc-0_1_0.rlib src/lib.rs\n".toList (by decide)).1).mpr (by decide),
    load_depfile_failure.2.1 leaf_malformed_sys "missing.d" (by decide)⟩


/-! ## Round trip of a depfile line -/

theorem to_pieces_source : ∀ (s : List Char) (b : Bool), backslashes_paired b s = true →
    source_of (to_pieces b s) = (if b then ['\\'] else []) ++ esc s := by
  intro s
  induction s with
  | nil =>
    intro b h
    cases b
    · rfl
    · exact absurd h (by decide)
  | cons c cs ih =>
    intro b h
    cases b
    · by_cases hb : c = '\\'
      · subst hb
        have h' : backslashes_paired true cs = true := by
          simpa [backslashes_paired] using h
        have e : to_pieces false ('\\' :: cs) = to_pieces true cs := by
          simp [to_pieces]
        rw [e, ih true h']
        simp [esc]
      · have hb' : (c == '\\') = false := by simpa using hb
        have h' : backslashes_paired false cs = true := by
          simpa [backslashes_paired, hb'] using h
        by_cases hs : c = ' ' ∨ c = ':'
        · have e : to_pieces false (c :: cs) = Piece.esc c :: to_pieces false cs := by
            rcases hs with rfl | rfl <;> simp [to_pieces]
          rw [e]
          simp [source_of, Piece.source, ih false h', esc, hs]
        · have hs' : (c == ' ' || c == ':') = false := by simpa using hs
          have e : to_pieces false (c :: cs) = Piece.plain c :: to_pieces false cs := by
            simp only [to_pieces, Bool.false_eq_true, if_false, hb', hs']
          rw [e]
          simp [source_of, Piece.source, ih false h', esc, hs]
    · have h1 : c ≠ ' ' ∧ c ≠ ':' ∧ backslashes_paired false cs = true := by
        simpa [backslashes_paired, and_assoc] using h
      have e : to_pieces true (c :: cs) = Piece.esc c :: to_pieces false cs := by
        simp [to_pieces]
      rw [e]
      simp [source_of, Piece.source, ih false h1.2.2, esc, h1.1, h1.2.1]

theorem to_pieces_value : ∀ (s : List Char) (b : Bool), backslashes_paired b s = true →
    value_of (to_pieces b s) = (if b then ['\\'] else []) ++ s := by
  intro s
  induction s with
  | nil =>
    intro b h
    cases b
    · rfl
    · exact absurd h (by decide)
  | cons c cs ih =>
    intro b h
    cases b
    · by_cases hb : c = '\\'
      · subst hb
        have h' : backslashes_paired true cs = true := by
          simpa [backslashes_paired] using h
        have e : to_pieces false ('\\' :: cs) = to_pieces true cs := by
          simp [to_pieces]
        rw [e, ih true h']
        simp
      · have hb' : (c == '\\') = false := by simpa using hb
        have h' : backslashes_paired false cs = true := by
          simpa [backslashes_paired, hb'] using h
        by_cases hs : c = ' ' ∨ c = ':'
        · have e : to_pieces false (c :: cs) = Piece.esc c :: to_pieces false cs := by
            rcases hs with rfl | rfl <;> simp [to_pieces]
          rw [e]
          simp [value_of, Piece.value, ih false h', hs]
        · have hs' : (c == ' ' || c == ':') = false := by simpa using hs
          have e : to_pieces false (c :: cs) = Piece.plain c :: to_pieces false cs := by
            simp only [to_pieces, Bool.false_eq_true, if_false, hb', hs']
          rw [e]
          simp [value_of, Piece.value, ih false h']
    · have h1 : c ≠ ' ' ∧ c ≠ ':' ∧ backslashes_paired false cs = true := by
        simpa [backslashes_paired, and_assoc] using h
      have e : to_pieces true (c :: cs) = Piece.esc c :: to_pieces false cs := by
        simp [to_pieces]
      rw [e]
      simp [value_of, Piece.value, ih false h1.2.2, h1.1, h1.2.1]

theorem to_pieces_well_formed : ∀ (s : List Char) (b : Bool), '\n' ∉ s →
    ∀ q ∈ to_pieces b s, q.well_formed := by
  intro s
  induction s with
  | nil =>
    intro b _ q hq
    simp [to_pieces] at hq
  | cons c cs ih =>
    intro b hnl q hq
    have hc : c ≠ '\n' := fun h => hnl (by simp [h])
    have hcs : '\n' ∉ cs := fun h => hnl (List.mem_cons_of_mem _ h)
    cases b
    · by_cases hb : c = '\\'
      · subst hb
        have e : to_pieces false ('\\' :: cs) = to_pieces true cs := by
          simp [to_pieces]
        rw [e] at hq
        exact ih true hcs q hq
      · have hb' : (c == '\\') = false := by simpa using hb
        by_cases hs : c = ' ' ∨ c = ':'
        · have e : to_pieces false (c :: cs) = Piece.esc c :: to_pieces false cs := by
            rcases hs with rfl | rfl <;> simp [to_pieces]
          rw [e] at hq
          rcases List.mem_cons.mp hq with rfl | hq'
          · trivial
          · exact ih false hcs q hq'
        · have hs' : (c == ' ' || c == ':') = false := by simpa using hs
          have e : to_pieces false (c :: cs) = Piece.plain c :: to_pieces false cs := by
            simp only [to_pieces, Bool.false_eq_true, if_false, hb', hs']
          rw [e] at hq
          rcases List.mem_cons.mp hq with rfl | hq'
          · exact ⟨hb, fun h => hs (Or.inl h), fun h => hs (Or.inr h), hc⟩
          · exact ih false hcs q hq'
    · have e : to_pieces true (c :: cs) = Piece.esc c :: to_pieces false cs := by
        simp [to_pieces]
      rw [e] at hq
      rcases List.mem_cons.mp hq with rfl | hq'
      · trivial
      · exact ih false hcs q hq'

theorem to_pieces_head (s : List Char) (hne : s ≠ []) (htab : s.head? ≠ some '\t')
    (h : backslashes_paired false s = true) :
    ∃ p ps, to_pieces false s = p :: ps ∧ p ≠ Piece.plain '\t' := by
  cases s with
  | nil => exact absurd rfl hne
  | cons c cs =>
    by_cases hb : c = '\\'
    · subst hb
      have h' : backslashes_paired true cs = true := by
        simpa [backslashes_paired] using h
      cases cs with
      | nil => exact absurd h' (by decide)
      | cons d ds =>
        exact ⟨Piece.esc d, to_pieces false ds, by simp [to_pieces], by simp⟩
    · have hb' : (c == '\\') = false := by simpa using hb
      by_cases hs : c = ' ' ∨ c = ':'
      · exact ⟨Piece.esc c, to_pieces false cs,
          by rcases hs with rfl | rfl <;> simp [to_pieces], by simp⟩
      · have hs' : (c == ' ' || c == ':') = false := by simpa using hs
        refine ⟨Piece.plain c, to_pieces false cs,
          by simp only [to_pieces, Bool.false_eq_true, if_false, hb', hs'], ?_⟩
        intro hp
        injection hp with hp
        exact htab (by simp [hp])

/-- One token read from any state of the lexer that has not met the end of the
file: spaces are skipped, a sequence of well-formed pieces is read up to the
terminator after it. -/
theorem get_token_pieces (n : Nat) (p : Piece) (ps : List Piece) (stop : Char)
    (rest : List Char) (c0 : Char) (tail : List Char)
    (hwf : ∀ q ∈ p :: ps, q.well_formed) (htab : p ≠ Piece.plain '\t')
    (hstop : is_terminator stop)
    (h0 : c0 :: tail = List.replicate n ' ' ++ (source_of (p :: ps) ++ stop :: rest)) :
    Lexer.get_token ⟨tail, false, c0⟩ =
      (String.mk (value_of (p :: ps)), ⟨rest, false, stop⟩) := by
  obtain ⟨c, t, hsrc, hcont⟩ := source_of_head p ps (hwf p (by simp)) (stop :: rest)
  have hc_space : c ≠ ' ' := by
    intro h; rw [h] at hcont; exact absurd hcont (by decide)
  have hc_nl : (c == '\n') = false := by
    rw [beq_eq_false_iff_ne]
    intro h; rw [h] at hcont; exact absurd hcont (by decide)
  have hc_tab : (c == '\t') = false := by
    rw [beq_eq_false_iff_ne]
    intro h
    cases p with
    | plain c' =>
      simp only [source_of, Piece.source, List.singleton_append, List.cons_append,
        List.cons.injEq] at hsrc
      rw [hsrc.1, h] at htab
      exact htab rfl
    | esc c' =>
      simp only [source_of, Piece.source, List.cons_append, List.cons.injEq] at hsrc
      rw [← hsrc.1] at h
      exact absurd h (by decide)
  have hskip := skip_spaces_replicate n c t false hc_space c0 tail (by rw [h0, hsrc])
  have hloop := token_loop_pieces ps p [] stop rest false hwf hstop c t hsrc.symm
  simp only [Lexer.get_token, Bool.false_and, Bool.false_eq_true,
    if_false, hskip, hc_nl, hc_tab, hloop, List.nil_append]

theorem reads_back_parts (s : String) (h : reads_back s = true) :
    s.toList ≠ [] ∧ '\n' ∉ s.toList ∧ s.toList.head? ≠ some '\t' ∧
      backslashes_paired false s.toList = true := by
  unfold reads_back at h
  simp only [Bool.and_eq_true, Bool.not_eq_true', bne_iff_ne, ne_eq] at h
  obtain ⟨⟨⟨h1, h2⟩, h3⟩, h4⟩ := h
  refine ⟨?_, ?_, h3, h4⟩
  · intro he
    rw [he] at h1
    exact absurd h1 (by decide)
  · intro hm
    have : s.toList.contains '\n' = true := by simpa using hm
    rw [this] at h2
    exact absurd h2 (by decide)

/-- The reader gives a string that reads back from its escaped form, whatever
number of spaces stands before it and whichever terminator follows it. -/
theorem get_token_escaped (s : String) (h : reads_back s = true) (n : Nat) (stop : Char)
    (rest : List Char) (c0 : Char) (tail : List Char) (hstop : is_terminator stop)
    (h0 : c0 :: tail = List.replicate n ' ' ++ (esc s.toList ++ stop :: rest)) :
    Lexer.get_token ⟨tail, false, c0⟩ = (s, ⟨rest, false, stop⟩) := by
  obtain ⟨hne, hnl, htab, hpair⟩ := reads_back_parts s h
  obtain ⟨p, ps, hps, hp⟩ := to_pieces_head s.toList hne htab hpair
  have hsrc := to_pieces_source s.toList false hpair
  have hval := to_pieces_value s.toList false hpair
  have hwf := to_pieces_well_formed s.toList false hnl
  rw [hps] at hsrc hval hwf
  simp only [Bool.false_eq_true, if_false, List.nil_append] at hsrc hval
  rw [← hsrc] at h0
  rw [get_token_pieces n p ps stop rest c0 tail hwf hp hstop h0, hval]
  rfl

theorem get_token_colon (c : Char) (rest : List Char) (h : is_terminator c) :
    Lexer.get_token ⟨c :: rest, false, ':'⟩ = (":", ⟨rest, false, c⟩) := by
  have hc := continues_token_of_terminator h
  have hloop : token_loop (c :: rest) false ':' [] = ([':'], ⟨rest, false, c⟩) := by
    rw [token_loop_plain _ _ _ _ _ (by decide)]
    simp [hc]
  have hskip : skip_spaces (c :: rest) false ':' = (true, ⟨c :: rest, false, ':'⟩) := by
    simp [skip_spaces]
  simp only [Lexer.get_token, Bool.false_and, Bool.false_eq_true, if_false, hskip, hloop]
  rfl

theorem paths_line_head (paths : List String) :
    ∃ c rest, paths.flatMap (fun p => ' ' :: esc p.toList) ++ ['\n'] = c :: rest ∧
      is_terminator c := by
  cases paths with
  | nil => exact ⟨'\n', [], rfl, Or.inr (Or.inr rfl)⟩
  | cons p ps =>
    exact ⟨' ', esc p.toList ++ (ps.flatMap (fun p => ' ' :: esc p.toList) ++ ['\n']),
      by simp [List.flatMap_cons], Or.inl rfl⟩

theorem reads_back_ne (s : String) (h : reads_back s = true) :
    (s == "\n" || s == "") = false ∧ (s == "") = false ∧ (s == "\n") = false := by
  obtain ⟨hne, hnl, _, _⟩ := reads_back_parts s h
  have h1 : s ≠ "" := by
    intro he; rw [he] at hne; exact hne rfl
  have h2 : s ≠ "\n" := by
    intro he; rw [he] at hnl; exact hnl (by decide)
  simp [h1, h2]

/-- The inner loop of the reader on the paths of a written line: it reaches the
end of the file and has appended the paths, in order, to the list of the
target. -/
theorem read_paths_line : ∀ (paths : List String) (fuel : Nat) (rv : DepMap)
    (target : String) (c0 : Char) (tail : List Char),
    (∀ p ∈ paths, reads_back p = true) → paths.length < fuel →
    c0 :: tail = paths.flatMap (fun p => ' ' :: esc p.toList) ++ ['\n'] →
    read_paths fuel ⟨tail, false, c0⟩ rv target =
      some (⟨[], true, '\x00'⟩, paths.foldl (fun m p => DepMap.push_back m target p) rv) := by
  intro paths
  induction paths with
  | nil =>
    intro fuel rv target c0 tail _ hfuel h0
    simp only [List.flatMap_nil, List.nil_append, List.cons.injEq] at h0
    obtain ⟨rfl, rfl⟩ := h0
    obtain ⟨f, rfl⟩ : ∃ f, fuel = f + 1 := ⟨fuel - 1, by simp at hfuel; omega⟩
    have ht : Lexer.get_token ⟨[], false, '\n'⟩ = ("\n", ⟨[], true, '\x00'⟩) := by decide
    simp only [read_paths, ht]
    rfl
  | cons p ps ih =>
    intro fuel rv target c0 tail hall hfuel h0
    obtain ⟨f, rfl⟩ : ∃ f, fuel = f + 1 := ⟨fuel - 1, by simp at hfuel; omega⟩
    obtain ⟨stop, rest, hrest, hstop⟩ := paths_line_head ps
    have h0' : c0 :: tail = List.replicate 1 ' ' ++ (esc p.toList ++ stop :: rest) := by
      rw [h0, ← hrest]
      simp [List.flatMap_cons]
    have hp := hall p (List.mem_cons_self _ _)
    have ht := get_token_escaped p hp 1 stop rest c0 tail hstop h0'
    have hne := (reads_back_ne p hp).1
    simp only [read_paths, ht, hne, Bool.false_eq_true, if_false]
    rw [ih f (DepMap.push_back rv target p) target stop rest
      (fun q hq => hall q (List.mem_cons_of_mem _ hq))
      (by simp at hfuel; omega) hrest.symm]
    rfl

theorem push_back_fold (target : String) : ∀ (paths : List String) (l : List String),
    paths.foldl (fun m p => DepMap.push_back m target p) [(target, l)] =
      [(target, l ++ paths)] := by
  intro paths
  induction paths with
  | nil => intro l; simp
  | cons p ps ih =>
    intro l
    simp only [List.foldl_cons]
    have : DepMap.push_back [(target, l)] target p = [(target, l ++ [p])] := by
      simp [DepMap.push_back]
    rw [this, ih]
    simp

theorem depfile_line_length (target : String) (paths : List String) :
    paths.length < (depfile_line target paths).length := by
  have : ∀ ps : List String,
      ps.length ≤ (ps.flatMap (fun p => ' ' :: esc p.toList)).length := by
    intro ps
    induction ps with
    | nil => simp
    | cons p ps ih =>
      simp only [List.flatMap_cons, List.length_append, List.length_cons]
      omega
  have h := this paths
  simp only [depfile_line, List.length_append, List.length_cons, List.length_nil]
  omega

theorem parse_depfile_line (target : String) (paths : List String)
    (ht : reads_back target = true) (hp : ∀ p ∈ paths, reads_back p = true) :
    parse_depfile (depfile_line target paths) = Except.ok [(target, paths)] := by
  obtain ⟨stop, rest, hrest, hstop⟩ := paths_line_head paths
  obtain ⟨hne, _, _, _⟩ := reads_back_parts target ht
  obtain ⟨c0, tail, h0⟩ : ∃ c0 tail, c0 :: tail = depfile_line target paths := by
    unfold depfile_line
    cases h : esc target.toList ++ ':' ::
        (paths.flatMap (fun p => ' ' :: esc p.toList) ++ ['\n']) with
    | nil => simp at h
    | cons a b => exact ⟨a, b, rfl⟩
  have hlen := depfile_line_length target paths
  have h0' : c0 :: tail = List.replicate 0 ' ' ++
      (esc target.toList ++ ':' :: (stop :: rest)) := by
    rw [h0, ← hrest]
    simp [depfile_line]
  have ht1 := get_token_escaped target ht 0 ':' (stop :: rest) c0 tail
    (Or.inr (Or.inl rfl)) h0'
  have ht2 := get_token_colon stop rest hstop
  have hnew : Lexer.new (depfile_line target paths) = ⟨tail, false, c0⟩ := by
    rw [← h0]; rfl
  obtain ⟨hne1, hne2, hne3⟩ := reads_back_ne target ht
  have hpaths := read_paths_line paths ((depfile_line target paths).length + 1)
    (DepMap.insert_empty [] target) target stop rest hp (by omega) hrest.symm
  have hend : Lexer.get_token ⟨[], true, '\x00'⟩ = ("", ⟨[], true, '\x00'⟩) := by decide
  have hins : DepMap.insert_empty [] target = [(target, [])] := by
    simp [DepMap.insert_empty, DepMap.find]
  unfold parse_depfile
  rw [hnew]
  obtain ⟨f, hf⟩ : ∃ f, (depfile_line target paths).length = f + 1 :=
    ⟨(depfile_line target paths).length - 1, by omega⟩
  rw [hf] at hpaths ⊢
  simp only [read_lines, ht1, hne2, hne3, Bool.false_eq_true, if_false, ht2, bne_self_eq_false,
    hpaths, hend, beq_self_eq_true, if_true]
  rw [hins, push_back_fold]
  rfl

/-- C11 (amended): round trip of a depfile line. For a target and paths that
are non-empty, contain no newline, do not start with a tab, and in which every
backslash, taken from the left together with the character after it, is
followed by a character that is neither a space nor a colon, the line
`<esc(target)>: <esc(p1)> ... <esc(pn)>` with its newline loads as the map
that sends the target to exactly the paths, in order. -/
theorem depfile_round_trip (sys : Sys) (path : String) (target : String)
    (paths : List String)
    (hread : sys.read_file path = some (depfile_line target paths))
    (ht : reads_back target = true) (hp : ∀ p ∈ paths, reads_back p = true) :
    load_depfile sys path = Except.ok [(target, paths)] ∧
      DepMap.find [(target, paths)] target = some paths := by
  constructor
  · unfold load_depfile
    rw [hread]
    exact parse_depfile_line target paths ht hp
  · simp [DepMap.find]

/-- Witness of C11: a target with a space, a path with a space and a path with
a colon and backslashes before ordinary characters. -/
theorem depfile_round_trip_witness :
    load_depfile round_trip_sys "good.d" =
        Except.ok [("out dir/libc.rlib", ["src/a b.rs", "C:\\src\\x.rs"])] ∧
      DepMap.find [("out dir/libc.rlib", ["src/a b.rs", "C:\\src\\x.rs"])]
        "out dir/libc.rlib" = some ["src/a b.rs", "C:\\src\\x.rs"] :=
  depfile_round_trip round_trip_sys "good.d" "out dir/libc.rlib"
    ["src/a b.rs", "C:\\src\\x.rs"] (by decide) (by decide) (by decide)

/-- Counterexample to C11: the path `a\ b` is written as `a\\ b`, which the
reader takes for the two paths `a\\` and `b`; and the line of the empty target
starts with the colon, which the reader takes for the target, so that the load
fails. -/
theorem odd_backslash_run_not_recovered :
    depfile_line "out" ["a\\ b"] = "out: a\\\\ b\n".toList ∧
    load_depfile round_trip_sys "odd.d" = Except.ok [("out", ["a\\\\", "b"])] ∧
    depfile_line "" ["p"] = ": p\n".toList ∧
    load_depfile round_trip_sys "empty.d" = Except.error BuildError.malformed_depfile := by
  refine ⟨by decide, by decide, by decide, by decide⟩

/-! ## Which packages the graph builder lists -/

theorem add_each_reach (R : PkgId → PkgId → Prop)
    (addp : PkgId → Nat → Bool → Bool → List Ent → Option (List Ent))
    (haddp : ∀ p level ib nat l l', addp p level ib nat l = some l' →
      ∀ e ∈ l', e ∈ l ∨ Relation.ReflTransGen R p e.package)
    (src : PkgId) (level : Nat) (ib nat : Bool) (deps : List PackageRef)
    (hdeps : ∀ dep ∈ deps, dep.is_disabled = false → R src dep.get_package) :
    ∀ l l', add_each addp level ib nat deps l = some l' →
      ∀ e ∈ l', e ∈ l ∨ Relation.TransGen R src e.package := by
  induction deps with
  | nil =>
    intro l l' h e he
    simp only [add_each, Option.some.injEq] at h
    subst h
    exact Or.inl he
  | cons dep rest ih =>
    intro l l' h e he
    have ih' := ih (fun d hd => hdeps d (List.mem_cons_of_mem _ hd))
    simp only [add_each] at h
    by_cases hdis : dep.is_disabled = true
    · simp only [hdis, if_true] at h
      exact ih' l l' h e he
    · simp only [hdis] at h
      have hdis' : dep.is_disabled = false := by simpa using hdis
      cases hcall : addp dep.get_package (level + 1) ib nat l with
      | none => simp [hcall] at h
      | some l1 =>
        simp only [hcall] at h
        rcases ih' l1 l' h e he with he1 | hr
        · rcases haddp _ _ _ _ _ _ hcall e he1 with he0 | hr
          · exact Or.inl he0
          · exact Or.inr (Relation.TransGen.head' (hdeps dep (List.mem_cons_self _ _) hdis') hr)
        · exact Or.inr hr

theorem add_dependencies_with_reach (w : World)
    (addp : PkgId → Nat → Bool → Bool → List Ent → Option (List Ent))
    (haddp : ∀ p level ib nat l l', addp p level ib nat l = some l' →
      ∀ e ∈ l', e ∈ l ∨ Relation.ReflTransGen (WalkEdge w) p e.package)
    (src : PkgId) (level : Nat) (ib nat : Bool) (l l' : List Ent)
    (h : add_dependencies_with addp (w src) level ib nat l = some l') :
    ∀ e ∈ l', e ∈ l ∨ Relation.TransGen (WalkEdge w) src e.package := by
  unfold add_dependencies_with at h
  have hmain_edges : ∀ dep ∈ (w src).main_dependencies, dep.is_disabled = false →
      WalkEdge w src dep.get_package :=
    fun dep hd hdis => Or.inl ⟨dep, hd, hdis, rfl⟩
  have hbuild_edges : ∀ dep ∈ (w src).build_dependencies, dep.is_disabled = false →
      WalkEdge w src dep.get_package :=
    fun dep hd hdis => Or.inr ⟨dep, hd, hdis, rfl⟩
  cases hmain : add_each addp level ib nat (w src).main_dependencies l with
  | none => simp [hmain] at h
  | some l1 =>
    simp only [hmain] at h
    have hm := add_each_reach (WalkEdge w) addp haddp src level ib nat _ hmain_edges _ _ hmain
    split at h
    · intro e he
      rcases add_each_reach (WalkEdge w) addp haddp src level true true _ hbuild_edges _ _ h
          e he with he1 | hr
      · exact hm e he1
      · exact Or.inr hr
    · simp only [Option.some.injEq] at h
      subst h
      exact hm

/-- Every entry that a call of `add_package` adds is the package itself or is
reached from it through non-disabled main- and build-dependency edges. -/
theorem add_package_reach (w : World) :
    ∀ fuel p level ib nat l l', add_package w fuel p level ib nat l = some l' →
      ∀ e ∈ l', e ∈ l ∨ Relation.ReflTransGen (WalkEdge w) p e.package := by
  intro fuel
  induction fuel with
  | zero => intro p level ib nat l l' h; simp [add_package] at h
  | succ fuel ih =>
    intro p level ib nat l l' h e he
    simp only [add_package] at h
    generalize (if (w p).is_proc_lib = true then true else nat) = nat' at h
    split at h
    · simp only [Option.some.injEq] at h
      subst h
      exact Or.inl he
    · rcases add_dependencies_with_reach w _ ih p _ _ _ _ _ h e he with he1 | hr
      · rcases List.mem_append.mp he1 with he0 | he0
        · exact Or.inl he0
        · simp only [List.mem_singleton] at he0
          subst he0
          exact Or.inr Relation.ReflTransGen.refl
      · exact Or.inr hr.to_reflTransGen

theorem walk_le_any (w : World) : ∀ a b, WalkEdge w a b → AnyEdge w a b :=
  fun _ _ h => Or.inl h

/-- Where the entries of the collected list come from: the root's own entry,
the walk over main and build dependencies, or, outside normal mode, the walk
that starts with a dev-dependency of the root. -/
theorem collect_reach (w : World) (fuel : Nat) (root : PkgId) (opts : BuildOptions)
    (pre : List Ent) (h : BuildList.collect w fuel root opts = some pre) :
    ∀ e ∈ pre, (e.package = root ∧ (w root).has_library = true) ∨
      Relation.TransGen (WalkEdge w) root e.package ∨
      (opts.mode ≠ Mode.Normal ∧ Relation.TransGen (AnyEdge w) root e.package) := by
  unfold BuildList.collect at h
  dsimp only at h
  cases hroot : add_dependencies w fuel root 0 (!opts.build_script_overrides.isSome)
      (!opts.target_name.isSome) [] with
  | none => rw [hroot] at h; exact absurd h (by simp)
  | some l1 =>
    rw [hroot] at h
    dsimp only at h
    have h1 : ∀ e ∈ l1, Relation.TransGen (WalkEdge w) root e.package := by
      intro e he
      rcases add_dependencies_with_reach w _ (add_package_reach w fuel) root _ _ _ _ _ hroot
          e he with he0 | hr
      · simp at he0
      · exact hr
    have h2 : ∀ e ∈ (if (w root).has_library then
        l1 ++ [(⟨root, !opts.target_name.isSome, 0⟩ : Ent)] else l1),
        (e.package = root ∧ (w root).has_library = true) ∨
          Relation.TransGen (WalkEdge w) root e.package := by
      intro e he
      split at he
      · rename_i hlib
        rcases List.mem_append.mp he with he | he
        · exact Or.inr (h1 e he)
        · simp only [List.mem_singleton] at he
          subst he
          exact Or.inl ⟨rfl, hlib⟩
      · exact Or.inr (h1 e he)
    split at h
    · rename_i hmode
      have hmode' : opts.mode ≠ Mode.Normal := by simpa using hmode
      have haddp : ∀ p level ib nat l l', add_package w fuel p level ib nat l = some l' →
          ∀ e ∈ l', e ∈ l ∨ Relation.ReflTransGen (AnyEdge w) p e.package := by
        intro p level ib nat l l' hc e he
        rcases add_package_reach w fuel p level ib nat l l' hc e he with h0 | hr
        · exact Or.inl h0
        · exact Or.inr (hr.mono (walk_le_any w))
      intro e he
      rcases add_each_reach (AnyEdge w) _ haddp root 0 _ _ (w root).dev_dependencies
          (fun dep hd hdis => Or.inr ⟨dep, hd, hdis, rfl⟩) _ _ h e he with he2 | hr
      · rcases h2 e he2 with hl | hr
        · exact Or.inl hl
        · exact Or.inr (Or.inl hr)
      · exact Or.inr (Or.inr ⟨hmode', hr⟩)
    · simp only [Option.some.injEq] at h
      subst h
      intro e he
      rcases h2 e he with hl | hr
      · exact Or.inl hl
      · exact Or.inr (Or.inl hr)

/-- What the constructor is sure to have collected: the non-disabled main
dependencies of the root, the root when it has a library, and outside normal
mode the non-disabled dev-dependencies of the root. -/
theorem collect_root_deps (w : World) (fuel : Nat) (root : PkgId) (opts : BuildOptions)
    (pre : List Ent) (h : BuildList.collect w fuel root opts = some pre) :
    (∀ dep ∈ (w root).main_dependencies, dep.is_disabled = false →
      ∃ e ∈ pre, e.package = dep.get_package) ∧
    ((w root).has_library = true → (⟨root, !opts.target_name.isSome, 0⟩ : Ent) ∈ pre) ∧
    (opts.mode ≠ Mode.Normal → ∀ dep ∈ (w root).dev_dependencies, dep.is_disabled = false →
      ∃ e ∈ pre, e.package = dep.get_package) := by
  unfold BuildList.collect at h
  dsimp only at h
  cases hroot : add_dependencies w fuel root 0 (!opts.build_script_overrides.isSome)
      (!opts.target_name.isSome) [] with
  | none => rw [hroot] at h; exact absurd h (by simp)
  | some l1 =>
    rw [hroot] at h
    dsimp only at h
    obtain ⟨_, _, _, _, e4⟩ := add_dependencies_ok w _ _ _ _ _ _ _ hroot
    have hsub : ∀ e ∈ l1, e ∈ (if (w root).has_library then
        l1 ++ [(⟨root, !opts.target_name.isSome, 0⟩ : Ent)] else l1) := by
      intro e he
      split
      · exact List.mem_append_left _ he
      · exact he
    have hrootmem : (w root).has_library = true →
        (⟨root, !opts.target_name.isSome, 0⟩ : Ent) ∈ (if (w root).has_library then
          l1 ++ [(⟨root, !opts.target_name.isSome, 0⟩ : Ent)] else l1) := by
      intro hlib
      rw [if_pos hlib]
      simp
    split at h
    · rename_i hmode
      obtain ⟨ext, x1, _, _, x4⟩ := add_each_ok w _ (add_package_ok w fuel) _ _ _ _ _ _ h
      refine ⟨?_, ?_, ?_⟩
      · intro dep hd hdis
        obtain ⟨e, he, hp, _⟩ := e4 dep hd hdis
        exact ⟨e, by rw [x1]; exact List.mem_append_left _ (hsub e he), hp⟩
      · intro hlib
        rw [x1]
        exact List.mem_append_left _ (hrootmem hlib)
      · intro _ dep hd hdis
        obtain ⟨e, he, hp, _⟩ := x4 dep hd hdis
        exact ⟨e, he, hp⟩
    · rename_i hmode
      simp only [Option.some.injEq] at h
      subst h
      refine ⟨?_, hrootmem, ?_⟩
      · intro dep hd hdis
        obtain ⟨e, he, hp, _⟩ := e4 dep hd hdis
        exact ⟨e, hsub e he, hp⟩
      · intro hm
        exact absurd (by simpa using hmode) hm

/-- The entries of a final list are the pairs of the collected list. -/
theorem final_mem_iff (pre sorted : List Ent) (hsort : std_sort_post pre sorted)
    (g : GraphEntry) :
    g ∈ to_graph (dedup_loop [] sorted) ↔ ∃ e ∈ pre, e.key = g := by
  constructor
  · intro hg
    have := dedup_loop_mem sorted [] g hg
    simp only [List.nil_append, to_graph_eq_map_key, List.mem_map] at this
    obtain ⟨e, he, hk⟩ := this
    exact ⟨e, hsort.1.mem_iff.mp he, hk⟩
  · rintro ⟨e, he, rfl⟩
    exact dedup_loop_keeps sorted [] e (by simpa using hsort.1.mem_iff.mpr he)

/-- The collected list holds every package reached from one of its entries
through non-disabled main-dependency edges. -/
theorem collect_main_closed (w : World) (fuel : Nat) (root : PkgId) (opts : BuildOptions)
    (pre : List Ent) (h : BuildList.collect w fuel root opts = some pre) (p q : PkgId)
    (hp : ∃ e ∈ pre, e.package = p) (hpq : Relation.ReflTransGen (MainEdge w) p q) :
    ∃ e ∈ pre, e.package = q := by
  induction hpq with
  | refl => exact hp
  | tail _ hbc ih =>
    obtain ⟨e, he, hpe⟩ := ih
    obtain ⟨dep, hd, hdis, hq⟩ := hbc
    rw [← hpe] at hd
    obtain ⟨e', he', hp', _⟩ := collect_closed w fuel root opts pre h e he dep hd hdis
    exact ⟨e', he', by rw [hp', hq]⟩

theorem collect_main_reachable (w : World) (fuel : Nat) (root : PkgId) (opts : BuildOptions)
    (pre : List Ent) (h : BuildList.collect w fuel root opts = some pre) (q : PkgId)
    (hq : Relation.TransGen (MainEdge w) root q) : ∃ e ∈ pre, e.package = q := by
  obtain ⟨b, ⟨dep, hd, hdis, hb⟩, hbq⟩ := Relation.TransGen.head'_iff.mp hq
  obtain ⟨e, he, hp⟩ := (collect_root_deps w fuel root opts pre h).1 dep hd hdis
  exact collect_main_closed w fuel root opts pre h b q ⟨e, he, by rw [hp, hb]⟩ hbq

theorem new_exists (w : World) (root : PkgId) (opts : BuildOptions) (rank : PkgId → Nat)
    (hacyc : Acyclic w rank) :
    ∃ fuel final, BuildList.new w fuel root opts = some final ∧
      BuildList.produces w root opts final := by
  have hs := collect_isSome w rank hacyc root opts
  cases hc : BuildList.collect w (BuildList.fuel_for w rank root) root opts with
  | none => rw [hc] at hs; exact absurd hs (by simp)
  | some pre =>
    have hn : BuildList.new w (BuildList.fuel_for w rank root) root opts =
        some (to_graph (sort_list pre)) := by
      unfold BuildList.new; rw [hc]; rfl
    exact ⟨_, _, hn, new_produces _ _ _ _ _ hn⟩

theorem reach_world_acyclic : Acyclic reach_world reach_rank := by
  intro p dep hd hdis
  match p with
  | 0 =>
    simp only [reach_world, simple_manifest, dep_on, List.append_nil, List.mem_cons,
      List.mem_singleton, List.not_mem_nil, or_false] at hd
    rcases hd with rfl | rfl
    · simp [reach_rank]
    · simp at hdis
  | 1 =>
    simp only [reach_world, simple_manifest, dep_on, List.append_nil, List.mem_cons,
      List.mem_singleton, List.not_mem_nil, or_false] at hd
    subst hd
    simp [reach_rank]
  | 2 => simp [reach_world, simple_manifest] at hd
  | 3 => simp [reach_world, simple_manifest] at hd
  | 4 =>
    simp only [reach_world, simple_manifest, dep_on, List.append_nil, List.mem_cons,
      List.mem_singleton, List.not_mem_nil, or_false] at hd
    subst hd
    simp [reach_rank]
  | n + 5 => simp [reach_world, simple_manifest] at hd

/-- C29: when the dependency relation is acyclic the constructor returns a
list, and every list it can return holds each package reached from the root
through non-disabled main-dependency edges (under some host flag), holds the
root when the root has a library, and holds nothing else than the root (with a
library) and packages reached from the root through non-disabled dependency
edges: a package that only a disabled edge leads to is not listed. -/
theorem build_list_reachable (w : World) (root : PkgId) (opts : BuildOptions)
    (rank : PkgId → Nat) (hacyc : Acyclic w rank) :
    (∃ fuel final, BuildList.new w fuel root opts = some final ∧
      BuildList.produces w root opts final) ∧
    ∀ final, BuildList.produces w root opts final →
      (∀ p, Relation.TransGen (MainEdge w) root p → appears final p) ∧
      ((w root).has_library = true →
        (⟨root, !opts.target_name.isSome⟩ : GraphEntry) ∈ final) ∧
      (∀ e ∈ final, (e.package = root ∧ (w root).has_library = true) ∨
        Relation.TransGen (AnyEdge w) root e.package) := by
  refine ⟨new_exists w root opts rank hacyc, ?_⟩
  rintro final ⟨fuel, pre, sorted, hpre, hsort, rfl⟩
  refine ⟨?_, ?_, ?_⟩
  · intro p hp
    obtain ⟨e, he, hpe⟩ := collect_main_reachable w fuel root opts pre hpre p hp
    exact ⟨e.native, (final_mem_iff pre sorted hsort _).mpr ⟨e, he, by simp [Ent.key, hpe]⟩⟩
  · intro hlib
    exact (final_mem_iff pre sorted hsort _).mpr
      ⟨_, (collect_root_deps w fuel root opts pre hpre).2.1 hlib, rfl⟩
  · intro g hg
    obtain ⟨e, he, rfl⟩ := (final_mem_iff pre sorted hsort g).mp hg
    rcases collect_reach w fuel root opts pre hpre e he with h1 | h2 | ⟨_, h3⟩
    · exact Or.inl h1
    · exact Or.inr (h2.mono (walk_le_any w))
    · exact Or.inr h3

/-- Witness of C29 on `reach_world`: `a` and `b` are listed before the root,
the package `off` behind the disabled edge is not. -/
theorem build_list_reachable_witness :
    BuildList.new reach_world 3 0 host_opts = some [⟨2, true⟩, ⟨1, true⟩, ⟨0, true⟩] ∧
    appears [⟨2, true⟩, ⟨1, true⟩, ⟨0, true⟩] 2 ∧
    (⟨0, true⟩ : GraphEntry) ∈ [(⟨2, true⟩ : GraphEntry), ⟨1, true⟩, ⟨0, true⟩] :=
  have h := (build_list_reachable reach_world 0 host_opts reach_rank reach_world_acyclic).2 _
    (new_produces reach_world 3 0 host_opts _ (by decide))
  ⟨by decide,
    h.1 2 (Relation.TransGen.tail (Relation.TransGen.single
      (show MainEdge reach_world 0 1 from ⟨dep_on "a" 1, by decide, rfl, rfl⟩))
      (show MainEdge reach_world 1 2 from ⟨dep_on "b" 2, by decide, rfl, rfl⟩)),
    h.2.1 (by decide)⟩

/-- C30: when the dependency relation is acyclic the constructor returns a
list. In normal mode every entry of a list it can return is the root or is
reached from the root through non-disabled main- and build-dependency edges
only; in the two other modes every non-disabled dev-dependency of the root is
listed, together with every package reached from it through non-disabled
main-dependency edges. -/
theorem dev_dependencies_by_mode (w : World) (root : PkgId) (opts : BuildOptions)
    (rank : PkgId → Nat) (hacyc : Acyclic w rank) :
    (∃ fuel final, BuildList.new w fuel root opts = some final ∧
      BuildList.produces w root opts final) ∧
    ∀ final, BuildList.produces w root opts final →
      (opts.mode = Mode.Normal → ∀ e ∈ final,
        e.package = root ∨ Relation.TransGen (WalkEdge w) root e.package) ∧
      (opts.mode ≠ Mode.Normal → ∀ dep ∈ (w root).dev_dependencies, dep.is_disabled = false →
        appears final dep.get_package ∧
        ∀ q, Relation.TransGen (MainEdge w) dep.get_package q → appears final q) := by
  refine ⟨new_exists w root opts rank hacyc, ?_⟩
  rintro final ⟨fuel, pre, sorted, hpre, hsort, rfl⟩
  refine ⟨?_, ?_⟩
  · intro hmode g hg
    obtain ⟨e, he, rfl⟩ := (final_mem_iff pre sorted hsort g).mp hg
    rcases collect_reach w fuel root opts pre hpre e he with h1 | h2 | ⟨h3, _⟩
    · exact Or.inl h1.1
    · exact Or.inr h2
    · exact absurd hmode h3
  · intro hmode dep hd hdis
    obtain ⟨e, he, hpe⟩ := (collect_root_deps w fuel root opts pre hpre).2.2 hmode dep hd hdis
    refine ⟨⟨e.native, (final_mem_iff pre sorted hsort _).mpr ⟨e, he, by simp [Ent.key, hpe]⟩⟩,
      ?_⟩
    intro q hq
    obtain ⟨e', he', hpe'⟩ := collect_main_closed w fuel root opts pre hpre dep.get_package q
      ⟨e, he, hpe⟩ hq.to_reflTransGen
    exact ⟨e'.native, (final_mem_iff pre sorted hsort _).mpr ⟨e', he', by simp [Ent.key, hpe']⟩⟩

/-- Witness of C30 on `reach_world`: in test mode the dev-dependency `d` and its
dependency `e` are listed, in normal mode they are not. -/
theorem dev_dependencies_by_mode_witness :
    BuildList.new reach_world 3 0 test_opts =
      some [⟨2, true⟩, ⟨5, true⟩, ⟨1, true⟩, ⟨4, true⟩, ⟨0, true⟩] ∧
    appears [⟨2, true⟩, ⟨5, true⟩, ⟨1, true⟩, ⟨4, true⟩, ⟨0, true⟩] 4 ∧
    appears [⟨2, true⟩, ⟨5, true⟩, ⟨1, true⟩, ⟨4, true⟩, ⟨0, true⟩] 5 ∧
    BuildList.new reach_world 3 0 host_opts = some [⟨2, true⟩, ⟨1, true⟩, ⟨0, true⟩] :=
  have h := ((dev_dependencies_by_mode reach_world 0 test_opts reach_rank
    reach_world_acyclic).2 _ (new_produces reach_world 3 0 test_opts _ (by decide))).2
    (by decide) (dep_on "d" 4) (by decide) rfl
  ⟨by decide, h.1,
    h.2 5 (Relation.TransGen.single
      (show MainEdge reach_world 4 5 from ⟨dep_on "e" 5, by decide, rfl, rfl⟩)),
    by decide⟩

/-! ## More fuel does not change the collected list -/

theorem add_each_mono
    (addp addq : PkgId → Nat → Bool → Bool → List Ent → Option (List Ent))
    (h : ∀ p level ib nat l l', addp p level ib nat l = some l' →
      addq p level ib nat l = some l')
    (level : Nat) (ib nat : Bool) (deps : List PackageRef) :
    ∀ l l', add_each addp level ib nat deps l = some l' →
      add_each addq level ib nat deps l = some l' := by
  induction deps with
  | nil => intro l l' hl; simpa [add_each] using hl
  | cons dep rest ih =>
    intro l l' hl
    simp only [add_each] at hl ⊢
    by_cases hdis : dep.is_disabled = true
    · simp only [hdis, if_true] at hl ⊢
      exact ih l l' hl
    · simp only [hdis] at hl ⊢
      cases hcall : addp dep.get_package (level + 1) ib nat l with
      | none => simp [hcall] at hl
      | some l1 =>
        simp only [hcall] at hl
        rw [h _ _ _ _ _ _ hcall]
        exact ih l1 l' hl

theorem add_dependencies_with_mono
    (addp addq : PkgId → Nat → Bool → Bool → List Ent → Option (List Ent))
    (h : ∀ p level ib nat l l', addp p level ib nat l = some l' →
      addq p level ib nat l = some l')
    (p : PackageManifest) (level : Nat) (ib nat : Bool) (l l' : List Ent)
    (hl : add_dependencies_with addp p level ib nat l = some l') :
    add_dependencies_with addq p level ib nat l = some l' := by
  unfold add_dependencies_with at hl ⊢
  cases hmain : add_each addp level ib nat p.main_dependencies l with
  | none => simp [hmain] at hl
  | some l1 =>
    simp only [hmain] at hl
    rw [add_each_mono addp addq h _ _ _ _ _ _ hmain]
    dsimp only
    split at hl
    · rename_i hc
      rw [if_pos hc]
      exact add_each_mono addp addq h _ _ _ _ _ _ hl
    · rename_i hc
      rw [if_neg hc]
      exact hl

theorem add_package_succ (w : World) :
    ∀ fuel p level ib nat l l', add_package w fuel p level ib nat l = some l' →
      add_package w (fuel + 1) p level ib nat l = some l' := by
  intro fuel
  induction fuel with
  | zero => intro p level ib nat l l' h; simp [add_package] at h
  | succ fuel ih =>
    intro p level ib nat l l' h
    simp only [add_package] at h ⊢
    generalize (if (w p).is_proc_lib = true then true else nat) = nat' at h ⊢
    split at h
    · rename_i hc
      rw [if_pos hc]
      exact h
    · rename_i hc
      rw [if_neg hc]
      exact add_dependencies_with_mono _ _ ih _ _ _ _ _ _ h

theorem add_package_mono (w : World) (fuel : Nat) :
    ∀ k p level ib nat l l', add_package w fuel p level ib nat l = some l' →
      add_package w (fuel + k) p level ib nat l = some l' := by
  intro k
  induction k with
  | zero => intro p level ib nat l l' h; exact h
  | succ k ih =>
    intro p level ib nat l l' h
    exact add_package_succ w (fuel + k) p level ib nat l l' (ih p level ib nat l l' h)

/-- A run of the constructor that returns with some fuel returns the same list
with more fuel. -/
theorem collect_mono (w : World) (fuel k : Nat) (root : PkgId) (opts : BuildOptions)
    (pre : List Ent) (h : BuildList.collect w fuel root opts = some pre) :
    BuildList.collect w (fuel + k) root opts = some pre := by
  unfold BuildList.collect at h ⊢
  dsimp only at h ⊢
  have hmono := add_package_mono w fuel k
  cases hroot : add_dependencies w fuel root 0 (!opts.build_script_overrides.isSome)
      (!opts.target_name.isSome) [] with
  | none => rw [hroot] at h; exact absurd h (by simp)
  | some l1 =>
    rw [hroot] at h
    dsimp only at h
    have hroot' : add_dependencies w (fuel + k) root 0 (!opts.build_script_overrides.isSome)
        (!opts.target_name.isSome) [] = some l1 :=
      add_dependencies_with_mono _ _ hmono _ _ _ _ _ _ hroot
    rw [hroot']
    dsimp only
    split at h
    · rename_i hc
      rw [if_pos hc]
      exact add_each_mono _ _ hmono _ _ _ _ _ _ h
    · rename_i hc
      rw [if_neg hc]
      exact h

/-- The collected list does not depend on the fuel. -/
theorem collect_unique (w : World) (fuel1 fuel2 : Nat) (root : PkgId) (opts : BuildOptions)
    (pre1 pre2 : List Ent) (h1 : BuildList.collect w fuel1 root opts = some pre1)
    (h2 : BuildList.collect w fuel2 root opts = some pre2) : pre1 = pre2 := by
  have a := collect_mono w fuel1 fuel2 root opts pre1 h1
  have b := collect_mono w fuel2 fuel1 root opts pre2 h2
  rw [Nat.add_comm] at b
  rw [a] at b
  exact Option.some.inj b

/-! ## Scenario 1 -/

/-- The outcomes of `std::sort` on two entries of level 1 followed by one of
level 0. -/
theorem sort_two_then_one (b c a : Ent) (hb : b.level = 1) (hc : c.level = 1)
    (ha : a.level = 0) (sorted : List Ent) (h : std_sort_post [b, c, a] sorted) :
    sorted = [b, c, a] ∨ sorted = [c, b, a] := by
  obtain ⟨hperm, hsorted⟩ := h
  have hlen := hperm.length_eq
  match sorted, hlen, hperm, hsorted with
  | [x, y, z], _, hperm, hsorted =>
    have hx : x ∈ [b, c, a] := hperm.mem_iff.mp (by simp)
    have hy : y ∈ [b, c, a] := hperm.mem_iff.mp (by simp)
    have hz : z ∈ [b, c, a] := hperm.mem_iff.mp (by simp)
    have hbm : b ∈ [x, y, z] := hperm.mem_iff.mpr (by simp)
    have hcm : c ∈ [x, y, z] := hperm.mem_iff.mpr (by simp)
    have ham : a ∈ [x, y, z] := hperm.mem_iff.mpr (by simp)
    simp only [List.pairwise_cons, List.mem_cons, List.mem_singleton, List.not_mem_nil,
      or_false, forall_eq_or_imp, forall_eq, IsEmpty.forall_iff, implies_true,
      List.Pairwise.nil, and_true] at hsorted
    obtain ⟨⟨hyx, hzx⟩, hzy⟩ := hsorted
    have hab : a ≠ b := fun e => by rw [e] at ha; omega
    have hac : a ≠ c := fun e => by rw [e] at ha; omega
    -- the entry of level 0 is the last one
    have hza : z = a := by
      simp only [List.mem_cons, List.mem_singleton, List.not_mem_nil, or_false] at ham hz
      rcases ham with e | e | e
      · -- a = x: then y and z have level 0, so both are a, and b is missing
        exfalso
        have hyl : y.level = 0 := by rw [← e, ha] at hyx; omega
        have hzl : z.level = 0 := by rw [← e, ha] at hzx; omega
        simp only [List.mem_cons, List.mem_singleton, List.not_mem_nil, or_false] at hbm
        rcases hbm with e' | e' | e'
        · exact hab (e.trans e'.symm)
        · rw [← e', hb] at hyl; omega
        · rw [← e', hb] at hzl; omega
      · exfalso
        have hzl : z.level = 0 := by rw [← e, ha] at hzy; omega
        simp only [List.mem_cons, List.mem_singleton, List.not_mem_nil, or_false] at hbm hcm
        have hzb : z ≠ b := fun e' => by rw [e', hb] at hzl; omega
        have hzc : z ≠ c := fun e' => by rw [e', hc] at hzl; omega
        have hza' : z = a := by
          rcases hz with e' | e' | e'
          · exact absurd e' hzb
          · exact absurd e' hzc
          · exact e'
        -- x must be both b and c
        have hxb : b = x := by
          rcases hbm with e' | e' | e'
          · exact e'
          · exact absurd (e.trans e'.symm) hab
          · exact absurd e'.symm hzb
        have hxc : c = x := by
          rcases hcm with e' | e' | e'
          · exact e'
          · exact absurd (e.trans e'.symm) hac
          · exact absurd e'.symm hzc
        have hbc : b = c := hxb.trans hxc.symm
        have hcnt := hperm.count_eq b
        rw [← hxb, ← e, ← hbc, hza'] at hcnt
        simp [List.count_cons, hab, Ne.symm hab] at hcnt
      · exact e.symm
    subst hza
    have hp2 : [x, y].Perm [b, c] := by
      have h1 : ([x, y] ++ [z]).Perm ([b, c] ++ [z]) := by simpa using hperm
      exact (List.perm_append_right_iff [z]).mp h1
    have hxm : x ∈ [b, c] := hp2.mem_iff.mp (by simp)
    have hbm2 : b ∈ [x, y] := hp2.mem_iff.mpr (by simp)
    have hcm2 : c ∈ [x, y] := hp2.mem_iff.mpr (by simp)
    have hym : y ∈ [b, c] := hp2.mem_iff.mp (by simp)
    simp only [List.mem_cons, List.mem_singleton, List.not_mem_nil, or_false] at hxm hym hbm2 hcm2
    rcases hxm with ex | ex
    · rcases hym with ey | ey
      · -- x = y = b: then c = b
        rcases hcm2 with e' | e'
        · left; rw [ex, ey, e', ex]
        · left; rw [ex, ey, e', ey]
      · left; rw [ex, ey]
    · rcases hym with ey | ey
      · right; rw [ex, ey]
      · rcases hbm2 with e' | e'
        · right; rw [ex, ey, e', ex]
        · right; rw [ex, ey, e', ey]

theorem scenario_collect (fuel : Nat) (pre : List Ent)
    (h : BuildList.collect scenario_world fuel 0 cross_opts = some pre) :
    pre = [⟨1, false, 1⟩, ⟨2, true, 1⟩, ⟨0, false, 0⟩] :=
  collect_unique scenario_world fuel 1 0 cross_opts _ _ h (by decide)

/-- C21 (amended): in the scenario (root `A` with a library and a build script,
main dependency `B`, build-dependency `C`, cross-compiling, nothing built, no
overrides) every list the constructor can return is `B, C, A` or `C, B, A`
(the two dependencies have the same level, so `std::sort` decides), the plan
for it starts with the compiles of `B` for the target and of `C` for the host in
that same order, and continues with the compile of the build script of `A`, the
run of the script and the compile of `A` for the target. -/
theorem scenario_plan_order (final : List GraphEntry)
    (h : BuildList.produces scenario_world 0 cross_opts final) :
    (final = [⟨1, false⟩, ⟨2, true⟩, ⟨0, false⟩] ∧
      (BuildList.build empty_sys scenario_world 0 final cross_opts).map ConvertState.joblist =
        Except.ok ([scenario_job_b, scenario_job_c] ++ scenario_jobs_a)) ∨
    (final = [⟨2, true⟩, ⟨1, false⟩, ⟨0, false⟩] ∧
      (BuildList.build empty_sys scenario_world 0 final cross_opts).map ConvertState.joblist =
        Except.ok ([scenario_job_c, scenario_job_b] ++ scenario_jobs_a)) := by
  obtain ⟨fuel, pre, sorted, hpre, hsort, rfl⟩ := h
  have hp := scenario_collect fuel pre hpre
  subst hp
  rcases sort_two_then_one _ _ _ rfl rfl rfl sorted hsort with rfl | rfl
  · exact Or.inl ⟨by decide, by decide⟩
  · exact Or.inr ⟨by decide, by decide⟩

/-- Witness of C21: the list that the constructor returns when the sort keeps
the order of insertion. -/
theorem scenario_plan_order_witness :
    BuildList.new scenario_world 1 0 cross_opts = some [⟨1, false⟩, ⟨2, true⟩, ⟨0, false⟩] ∧
    (([⟨1, false⟩, ⟨2, true⟩, ⟨0, false⟩] = [(⟨1, false⟩ : GraphEntry), ⟨2, true⟩, ⟨0, false⟩] ∧
      (BuildList.build empty_sys scenario_world 0 [⟨1, false⟩, ⟨2, true⟩, ⟨0, false⟩]
        cross_opts).map ConvertState.joblist =
        Except.ok ([scenario_job_b, scenario_job_c] ++ scenario_jobs_a)) ∨
    ([⟨1, false⟩, ⟨2, true⟩, ⟨0, false⟩] = [(⟨2, true⟩ : GraphEntry), ⟨1, false⟩, ⟨0, false⟩] ∧
      (BuildList.build empty_sys scenario_world 0 [⟨1, false⟩, ⟨2, true⟩, ⟨0, false⟩]
        cross_opts).map ConvertState.joblist =
        Except.ok ([scenario_job_c, scenario_job_b] ++ scenario_jobs_a))) :=
  ⟨by decide, scenario_plan_order _ (new_produces scenario_world 1 0 cross_opts _ (by decide))⟩

/-- Counterexample to C21: the constructor collects `B` before `C` (main
dependencies are walked before build-dependencies), a sort that keeps entries
of equal level in place leaves them so, and the plan compiles `B` for the
target before `C` for the host. -/
theorem scenario_b_before_c :
    BuildList.collect scenario_world 1 0 cross_opts =
      some [⟨1, false, 1⟩, ⟨2, true, 1⟩, ⟨0, false, 0⟩] ∧
    BuildList.new scenario_world 1 0 cross_opts = some [⟨1, false⟩, ⟨2, true⟩, ⟨0, false⟩] ∧
    (planned_jobs (BuildList.build empty_sys scenario_world 0
      [⟨1, false⟩, ⟨2, true⟩, ⟨0, false⟩] cross_opts)).map Job.name =
      ["B v0.1.0", "C v0.1.0 (host)", "A v0.1.0 (build)", "A v0.1.0 (script run)", "A v0.1.0"] ∧
    planned_jobs (BuildList.build empty_sys scenario_world 0
      [⟨1, false⟩, ⟨2, true⟩, ⟨0, false⟩] cross_opts) ≠
      [scenario_job_c, scenario_job_b] ++ scenario_jobs_a := by
  refine ⟨by decide, by decide, by decide, by decide⟩

/-! ## Override mode of `handle_build_script` -/

/-- C22: for a package with a build script, when `build_script_overrides` is
valid, `handle_build_script` hands no job to the scheduler (and records none),
returns the empty job name, sets the build-script output path to
`<overrides>/build_<name>.txt` and has the manifest load that file; with the
empty name the loop of `build` leaves the dirtiness of the library as the
staleness oracle gave it. With the overrides in `/ov`, the package `foo` loads
`/ov/build_foo.txt`, and the plan holds no script job. -/
theorem handle_build_script_override (st : ConvertState) (rs : RunState) (sys : Sys)
    (w : World) (p : PkgId) (overrides : String) (is_host : Bool)
    (hscript : (w p).build_script ≠ "") :
    (∃ bs, st.handle_build_script rs sys w p (some overrides) is_host = Except.ok bs ∧
      bs.job_name = "" ∧
      bs.build_script = some (overrides ++ "/build_" ++ (w p).name ++ ".txt") ∧
      bs.state.joblist = st.joblist ∧ bs.state.items_built = st.items_built ∧
      bs.state.items_notbuilt = st.items_notbuilt ∧
      bs.state.loaded = st.loaded ++ [(p, overrides ++ "/build_" ++ (w p).name ++ ".txt")] ∧
      ∀ stale : Bool, (if bs.job_name != "" then true else stale) = stale) ∧
    BuildList.build foo_built_sys foo_world 0 [⟨0, false⟩] override_opts =
      Except.ok ⟨[], [], [("foo v0.1.0", Timestamp.time 5)], [(0, "/ov/build_foo.txt")], []⟩ ∧
    (planned_jobs (BuildList.build empty_sys foo_world 0 [⟨0, false⟩] override_opts)).map
      Job.kind = [JobKind.BuildTarget (lib_target "foo" false) false] := by
  refine ⟨?_, by decide, by decide⟩
  have hfile : path_join overrides "build_" ++ (w p).name ++ ".txt" =
      overrides ++ "/build_" ++ (w p).name ++ ".txt" := by
    unfold path_join
    rw [String.append_assoc overrides "/" "build_"]
    rfl
  unfold ConvertState.handle_build_script
  rw [if_pos (by simpa using hscript)]
  dsimp only
  rw [hfile]
  exact ⟨_, rfl, rfl, rfl, rfl, rfl, rfl, rfl, fun _ => rfl⟩

/-- Witness of C22 on the package `foo` with the overrides in `/ov`. -/
theorem handle_build_script_override_witness :
    ∃ bs, ConvertState.init.handle_build_script host_rs empty_sys foo_world 0 (some "/ov")
        false = Except.ok bs ∧
      bs.job_name = "" ∧
      bs.build_script = some ("/ov" ++ "/build_" ++ (foo_world 0).name ++ ".txt") ∧
      bs.state.joblist = ConvertState.init.joblist ∧
      bs.state.items_built = ConvertState.init.items_built ∧
      bs.state.items_notbuilt = ConvertState.init.items_notbuilt ∧
      bs.state.loaded = ConvertState.init.loaded ++
        [(0, "/ov" ++ "/build_" ++ (foo_world 0).name ++ ".txt")] ∧
      ∀ stale : Bool, (if bs.job_name != "" then true else stale) = stale :=
  (handle_build_script_override ConvertState.init host_rs empty_sys foo_world 0 "/ov" false
    (by decide)).1

/-! ## How often the output of a build script is loaded -/

theorem run_requests_count (rs : RunState) (w : World) (q : PkgId) : ∀ (l : List Job),
    ((l.filter (fun j => j.kind == JobKind.RunScript)).flatMap
      (fun j => Job_RunScript.complete rs w j.package true)).countP (fun r => r.1 == q) =
    l.countP (fun j => j.kind == JobKind.RunScript && j.package == q) := by
  intro l
  induction l with
  | nil => rfl
  | cons j rest ih =>
    by_cases hk : (j.kind == JobKind.RunScript) = true
    · simp only [List.filter_cons, hk, if_true, List.flatMap_cons, List.countP_append, ih]
      simp only [List.countP_cons, hk, Bool.true_and, Job_RunScript.complete, if_true,
        List.countP_nil]
      omega
    · have hk' : (j.kind == JobKind.RunScript) = false := by simpa using hk
      simp only [List.filter_cons, hk', Bool.false_eq_true, if_false, ih, List.countP_cons,
        Bool.false_and, Nat.add_zero]

theorem requests_for_eq (rs : RunState) (w : World) (st : ConvertState) (q : PkgId) :
    requests_for rs w st q = st.loaded.countP (fun r => r.1 == q) +
      st.joblist.countP (fun j => j.kind == JobKind.RunScript && j.package == q) := by
  unfold requests_for load_requests run_jobs
  rw [List.countP_append, run_requests_count]

theorem requests_add_job (rs : RunState) (w : World) (st : ConvertState) (job : Job)
    (ts : Timestamp) (needed : Bool) (q : PkgId) :
    requests_for rs w (st.add_job job ts needed) q = requests_for rs w st q +
      (if needed && (job.kind == JobKind.RunScript && job.package == q) then 1 else 0) := by
  rw [requests_for_eq, requests_for_eq]
  cases needed with
  | true =>
    rw [(add_job_needed st job ts).1, (add_job_needed st job ts).2.2.1, List.countP_append,
      List.countP_cons, List.countP_nil]
    simp only [Bool.true_and]
    omega
  | false =>
    rw [(add_job_clean st job ts).1, (add_job_clean st job ts).2.2.1]
    simp

theorem requests_load (rs : RunState) (w : World) (st : ConvertState) (p : PkgId)
    (file : String) (q : PkgId) :
    requests_for rs w (st.load_build_script p file) q = requests_for rs w st q +
      (if p == q then 1 else 0) := by
  rw [requests_for_eq, requests_for_eq]
  show (st.loaded ++ [(p, file)]).countP _ + st.joblist.countP _ = _
  rw [List.countP_append, List.countP_cons, List.countP_nil]
  simp only
  omega

/-- One call of `handle_build_script` for a package with a build script makes
one call of `load_build_script`, now or when the run job completes. -/
theorem handle_build_script_requests (st : ConvertState) (rs : RunState) (sys : Sys)
    (w : World) (p : PkgId) (ov : Option String) (is_host : Bool) (r : ScriptResult)
    (h : st.handle_build_script rs sys w p ov is_host = Except.ok r) (q : PkgId) :
    requests_for rs w r.state q = requests_for rs w st q +
      (if (w p).build_script != "" && p == q then 1 else 0) := by
  unfold ConvertState.handle_build_script at h
  split at h
  · rename_i hscript
    rw [hscript, Bool.true_and]
    split at h
    · simp only [Except.ok.injEq] at h
      subst h
      exact requests_load rs w st p _ q
    · split at h
      · exact absurd h (by simp)
      · rename_i d st1 hbuild
        obtain ⟨stale, bdeps, _, _, hst1⟩ := plan_script_build_inv _ _ _ _ _ _ _ hbuild
        have h1 : requests_for rs w st1 q = requests_for rs w st q := by
          rw [hst1, requests_add_job]
          simp [Job_BuildScript]
        dsimp only at h
        split at h
        · simp only [Except.ok.injEq] at h
          subst h
          have := requests_load rs w { st1 with copied := st1.copied ++
            [(‹String›, Job_RunScript.get_outfile rs (w p))] } p
            (Job_RunScript.get_outfile rs (w p)) q
          rw [this, ← h1]
          rfl
        · obtain ⟨d2, rdeps, _, _, _, hstate⟩ := plan_script_run_inv _ _ _ _ _ _ _ _ h
          cases d2 with
          | true =>
            simp only [if_true] at hstate
            rw [hstate, requests_add_job, h1]
            simp [Job_RunScript]
          | false =>
            simp only [Bool.false_eq_true, if_false] at hstate
            rw [hstate, requests_load, requests_add_job, h1]
            simp
  · rename_i hscript
    simp only [Except.ok.injEq] at h
    subst h
    have : ((w p).build_script != "") = false := by simpa using hscript
    rw [this]
    simp

theorem build_entry_requests (rs : RunState) (sys : Sys) (w : World) (opts : BuildOptions)
    (st : ConvertState) (e : GraphEntry) (tr : EntryTrace) (st' : ConvertState)
    (h : build_entry rs sys w opts st e = Except.ok (tr, st')) (q : PkgId) :
    requests_for rs w st' q = requests_for rs w st q +
      (if (w e.package).build_script != "" && e.package == q then 1 else 0) := by
  unfold build_entry at h
  split at h
  · exact absurd h (by simp)
  dsimp only at h
  split at h
  · exact absurd h (by simp)
  split at h
  · exact absurd h (by simp)
  split at h
  · exact absurd h (by simp)
  rename_i bs hbs
  split at h
  · exact absurd h (by simp)
  simp only [Except.ok.injEq, Prod.mk.injEq] at h
  obtain ⟨_, rfl⟩ := h
  rw [requests_add_job, handle_build_script_requests st rs sys w _ _ _ bs hbs q]
  simp [Job_BuildTarget]

theorem build_entries_requests (rs : RunState) (sys : Sys) (w : World) (opts : BuildOptions)
    (q : PkgId) : ∀ (m_list : List GraphEntry) (st st' : ConvertState),
    build_entries rs sys w opts st m_list = Except.ok st' →
    requests_for rs w st' q = requests_for rs w st q +
      m_list.countP (fun e => (w e.package).build_script != "" && e.package == q) := by
  intro m_list
  induction m_list with
  | nil =>
    intro st st' h
    simp only [build_entries, Except.ok.injEq] at h
    subst h
    simp
  | cons e rest ih =>
    intro st st' h
    simp only [build_entries] at h
    split at h
    · exact absurd h (by simp)
    · rename_i tr st1 hentry
      rw [ih st1 st' h, build_entry_requests rs sys w opts st e tr st1 hentry q,
        List.countP_cons]
      omega

theorem push_root_target_requests (rs : RunState) (sys : Sys) (w : World) (root : PkgId)
    (cross : Bool) (st st' : ConvertState) (t : PackageTarget)
    (h : push_root_target rs sys w root cross st t = Except.ok st') (q : PkgId) :
    requests_for rs w st' q = requests_for rs w st q := by
  unfold push_root_target at h
  dsimp only at h
  split at h
  · exact absurd h (by simp)
  split at h
  · exact absurd h (by simp)
  split at h
  · exact absurd h (by simp)
  simp only [Except.ok.injEq] at h
  subst h
  rw [requests_add_job]
  simp [Job_BuildTarget]

theorem push_root_targets_requests (rs : RunState) (sys : Sys) (w : World) (root : PkgId)
    (cross : Bool) (q : PkgId) : ∀ (targets : List PackageTarget) (st st' : ConvertState),
    push_root_targets rs sys w root cross st targets = Except.ok st' →
    requests_for rs w st' q = requests_for rs w st q := by
  intro targets
  induction targets with
  | nil =>
    intro st st' h
    simp only [push_root_targets, Except.ok.injEq] at h
    subst h
    rfl
  | cons t rest ih =>
    intro st st' h
    simp only [push_root_targets] at h
    split at h
    · exact absurd h (by simp)
    · rename_i st1 hone
      rw [ih st1 st' h, push_root_target_requests rs sys w root cross st st1 t hone q]

theorem script_entries_count (w : World) (q : PkgId) (m_list : List GraphEntry) :
    m_list.countP (fun e => (w e.package).build_script != "" && e.package == q) =
      if (w q).build_script != "" then m_list.countP (fun e => e.package == q) else 0 := by
  induction m_list with
  | nil => simp
  | cons e rest ih =>
    rw [List.countP_cons, List.countP_cons, ih]
    by_cases he : e.package = q
    · subst he
      cases hs : ((w e.package).build_script != "") <;> simp
    · have : (e.package == q) = false := by simpa using he
      simp [this]

/-- The calls of `load_build_script` of a whole plan, per package. -/
theorem build_requests (sys : Sys) (w : World) (root : PkgId) (m_list : List GraphEntry)
    (opts : BuildOptions) (st : ConvertState)
    (h : BuildList.build sys w root m_list opts = Except.ok st) (q : PkgId) :
    requests_for (BuildList.run_state sys opts) w st q =
      if (w q).build_script != "" then script_calls w root m_list q else 0 := by
  unfold BuildList.build at h
  dsimp only at h
  split at h
  · exact absurd h (by simp)
  rename_i st1 hentries
  have h1 := build_entries_requests (BuildList.run_state sys opts) sys w opts q m_list _ st1
    hentries
  have h0 : requests_for (BuildList.run_state sys opts) w ConvertState.init q = 0 := rfl
  rw [h0, Nat.zero_add, script_entries_count] at h1
  split at h
  · exact absurd h (by simp)
  rename_i st2 hroot
  have h2 : requests_for (BuildList.run_state sys opts) w st2 q =
      if (w q).build_script != "" then script_calls w root m_list q else 0 := by
    unfold script_calls
    split at hroot
    · rename_i hlib
      split at hroot
      · exact absurd hroot (by simp)
      · rename_i bs hbs
        simp only [Except.ok.injEq] at hroot
        subst hroot
        rw [handle_build_script_requests st1 (BuildList.run_state sys opts) sys w root _ _ bs
          hbs q, h1, hlib]
        by_cases hq : root = q
        · subst hq
          cases hs : ((w root).build_script != "") <;> simp
        · have : (root == q) = false := by simpa using hq
          simp [this]
    · rename_i hlib
      simp only [Except.ok.injEq] at hroot
      subst hroot
      have hl : (!(w root).has_library) = false := by simpa using hlib
      rw [h1, hl]
      simp
  split at h
  · rw [push_root_targets_requests (BuildList.run_state sys opts) sys w root _ q _ st2 st h]
    exact h2
  · rw [push_root_targets_requests (BuildList.run_state sys opts) sys w root _ q _ st2 st h]
    exact h2
  · simp only [Except.ok.injEq] at h
    subst h
    exact h2

theorem run_jobs_add_job (st : ConvertState) (job : Job) (ts : Timestamp) (needed : Bool) :
    run_jobs (st.add_job job ts needed) = run_jobs st ++
      (if needed && job.kind == JobKind.RunScript then [job] else []) := by
  unfold run_jobs
  cases needed with
  | true =>
    rw [(add_job_needed st job ts).1, List.filter_append]
    cases hk : (job.kind == JobKind.RunScript) <;> simp [List.filter_cons, hk]
  | false =>
    rw [(add_job_clean st job ts).1]
    simp

/-- One call of `handle_build_script` for a package with a build script either
loads the output file at once and schedules no run of the script, or schedules
exactly one run, whose name it returns and whose completion loads the file. -/
theorem handle_build_script_once (st : ConvertState) (rs : RunState) (sys : Sys)
    (w : World) (p : PkgId) (ov : Option String) (is_host : Bool) (r : ScriptResult)
    (hscript : (w p).build_script ≠ "")
    (h : st.handle_build_script rs sys w p ov is_host = Except.ok r) :
    ∃ file, r.build_script = some file ∧
      ((r.state.loaded = st.loaded ++ [(p, file)] ∧ run_jobs r.state = run_jobs st) ∨
        (r.state.loaded = st.loaded ∧
          ∃ j, run_jobs r.state = run_jobs st ++ [j] ∧ j.kind = JobKind.RunScript ∧
            j.package = p ∧ j.name = r.job_name ∧ r.job_name ≠ "" ∧
            Job_RunScript.complete rs w p true = [(p, file)])) := by
  unfold ConvertState.handle_build_script at h
  rw [if_pos (by simpa using hscript)] at h
  split at h
  · simp only [Except.ok.injEq] at h
    subst h
    exact ⟨_, rfl, Or.inl ⟨rfl, rfl⟩⟩
  · split at h
    · exact absurd h (by simp)
    · rename_i d st1 hbuild
      obtain ⟨stale, bdeps, _, _, hst1⟩ := plan_script_build_inv _ _ _ _ _ _ _ hbuild
      have hl1 : st1.loaded = st.loaded := by
        rw [hst1]
        cases d
        · exact (add_job_clean st _ _).2.2.1
        · exact (add_job_needed st _ _).2.2.1
      have hr1 : run_jobs st1 = run_jobs st := by
        rw [hst1, run_jobs_add_job]
        simp [Job_BuildScript]
      dsimp only at h
      split at h
      · simp only [Except.ok.injEq] at h
        subst h
        refine ⟨_, rfl, Or.inl ⟨?_, hr1⟩⟩
        show st1.loaded ++ _ = _
        rw [hl1]
      · obtain ⟨d2, rdeps, _, hfile, hname, hstate⟩ := plan_script_run_inv _ _ _ _ _ _ _ _ h
        refine ⟨_, hfile, ?_⟩
        cases d2 with
        | true =>
          simp only [if_true] at hstate hname
          right
          refine ⟨by rw [hstate, (add_job_needed st1 _ _).2.2.1, hl1],
            { Job_RunScript rs w p with m_dependencies := rdeps }, ?_, rfl, rfl, hname.symm, ?_,
            rfl⟩
          · rw [hstate, run_jobs_add_job, hr1]
            simp [Job_RunScript]
          · rw [hname]
            show rs.get_key (w p) false false ++ " (script run)" ≠ ""
            intro he
            have hl := congrArg String.length he
            rw [String.length_append] at hl
            have : " (script run)".length = 13 := by decide
            rw [this] at hl
            simp at hl
        | false =>
          simp only [Bool.false_eq_true, if_false] at hstate
          left
          have hload : ∀ (X : ConvertState) (f : String),
              (X.load_build_script p f).loaded = X.loaded ++ [(p, f)] := fun _ _ => rfl
          have hrun : ∀ (X : ConvertState) (f : String),
              run_jobs (X.load_build_script p f) = run_jobs X := fun _ _ => rfl
          constructor
          · rw [hstate, hload, (add_job_clean st1 _ _).2.2.1, hl1]
          · rw [hstate, hrun, run_jobs_add_job, hr1]
            simp

/-- When `handle_build_script` returns a name, the library job of the entry is
handed to the scheduler with that name among its dependencies. -/
theorem build_entry_waits (rs : RunState) (sys : Sys) (w : World) (opts : BuildOptions)
    (st : ConvertState) (e : GraphEntry) (tr : EntryTrace) (st' : ConvertState)
    (h : build_entry rs sys w opts st e = Except.ok (tr, st')) (hname : tr.bs_job_name ≠ "") :
    ∃ bs jobs job,
      st.handle_build_script rs sys w e.package opts.build_script_overrides e.is_host =
        Except.ok bs ∧
      bs.job_name = tr.bs_job_name ∧ st'.joblist = jobs ++ [job] ∧ job.package = e.package ∧
      (∃ lib, job.kind = JobKind.BuildTarget lib e.is_host) ∧
      tr.bs_job_name ∈ job.m_dependencies := by
  unfold build_entry at h
  split at h
  · exact absurd h (by simp)
  rename_i lib hlib
  dsimp only at h
  split at h
  · exact absurd h (by simp)
  split at h
  · exact absurd h (by simp)
  split at h
  · exact absurd h (by simp)
  rename_i bs hbs
  split at h
  · exact absurd h (by simp)
  rename_i is_dirty deps hdeps
  simp only [Except.ok.injEq, Prod.mk.injEq] at h
  obtain ⟨rfl, rfl⟩ := h
  have hne : (bs.job_name != "") = true := by simpa using hname
  rw [hne] at hdeps
  simp only [if_true] at hdeps
  have hd := handle_deps_of_dirty _ _ _ _ _ _ _ _ _ hdeps
  have hj := (handle_deps_ok _ _ _ _ _ _ _ _ _ _ hdeps).2
  subst hd
  refine ⟨bs, bs.state.joblist, _, hbs, rfl, (add_job_needed bs.state _ _).1, rfl,
    ⟨lib, rfl⟩, ?_⟩
  show bs.job_name ∈ deps
  rw [hj]
  simp

/-- C23 (amended): `load_build_script` is requested once per call of
`handle_build_script` for a package with a build script, that is once per list
entry of the package (and once for a root without library), counting the
requests made while planning and those made by the completion of the scheduled
run-script jobs. A call either makes the request at once and schedules no run,
or schedules exactly one run, whose completion makes the request and whose
name it returns; the library job of the entry is then handed to the scheduler
with that name among its dependencies. -/
theorem load_once_per_unit :
    (∀ (sys : Sys) (w : World) (root : PkgId) (m_list : List GraphEntry) (opts : BuildOptions)
      (q : PkgId),
      (BuildList.build sys w root m_list opts).map
          (fun st => requests_for (BuildList.run_state sys opts) w st q) =
        (BuildList.build sys w root m_list opts).map
          (fun _ => if (w q).build_script != "" then script_calls w root m_list q else 0)) ∧
    (∀ (st : ConvertState) (rs : RunState) (sys : Sys) (w : World) (p : PkgId)
      (ov : Option String) (is_host : Bool) (r : ScriptResult),
      (w p).build_script ≠ "" →
      st.handle_build_script rs sys w p ov is_host = Except.ok r →
      ∃ file, r.build_script = some file ∧
        ((r.state.loaded = st.loaded ++ [(p, file)] ∧ run_jobs r.state = run_jobs st) ∨
          (r.state.loaded = st.loaded ∧
            ∃ j, run_jobs r.state = run_jobs st ++ [j] ∧ j.kind = JobKind.RunScript ∧
              j.package = p ∧ j.name = r.job_name ∧ r.job_name ≠ "" ∧
              Job_RunScript.complete rs w p true = [(p, file)]))) ∧
    (∀ (rs : RunState) (sys : Sys) (w : World) (opts : BuildOptions) (st : ConvertState)
      (e : GraphEntry) (tr : EntryTrace) (st' : ConvertState),
      build_entry rs sys w opts st e = Except.ok (tr, st') → tr.bs_job_name ≠ "" →
      ∃ bs jobs job,
        st.handle_build_script rs sys w e.package opts.build_script_overrides e.is_host =
          Except.ok bs ∧
        bs.job_name = tr.bs_job_name ∧ st'.joblist = jobs ++ [job] ∧
        job.package = e.package ∧ (∃ lib, job.kind = JobKind.BuildTarget lib e.is_host) ∧
        tr.bs_job_name ∈ job.m_dependencies) := by
  refine ⟨?_, handle_build_script_once, build_entry_waits⟩
  intro sys w root m_list opts q
  cases h : BuildList.build sys w root m_list opts with
  | error e => rfl
  | ok st =>
    show Except.ok _ = Except.ok _
    dsimp only
    rw [build_requests sys w root m_list opts st h q]

/-- Witness of C23 on `script_world` with nothing built: the run of the script
is scheduled and nothing is loaded while planning. -/
theorem load_once_per_unit_witness :
    ∃ file, (some "out/build_p-0_1_0.txt" : Option String) = some file ∧
      ((touched_plan.loaded = ConvertState.init.loaded ++ [(0, file)] ∧
          run_jobs touched_plan = run_jobs ConvertState.init) ∨
        (touched_plan.loaded = ConvertState.init.loaded ∧
          ∃ j, run_jobs touched_plan = run_jobs ConvertState.init ++ [j] ∧
            j.kind = JobKind.RunScript ∧ j.package = 0 ∧ j.name = "p v0.1.0 (script run)" ∧
            "p v0.1.0 (script run)" ≠ "" ∧
            Job_RunScript.complete host_rs script_world 0 true = [(0, file)])) :=
  load_once_per_unit.2.1 ConvertState.init host_rs empty_sys script_world 0 none true
    ⟨"p v0.1.0 (script run)", some "out/build_p-0_1_0.txt",
      ⟨touched_plan.joblist.take 2, ["p v0.1.0 (build)", "p v0.1.0 (script run)"], [], [], []⟩⟩
    (by decide) (by decide)

/-- Counterexample to C23: the package `x` is listed for the host (below the
proc-macro `pm`) and for the target (below the root); in override mode its
output file is loaded once for each entry. Without overrides, when `x` is both
a main dependency and a build-dependency of the root and nothing of it needs a
rebuild, the output of its script is loaded twice as well. -/
theorem script_output_loaded_twice :
    BuildList.new shared_world 3 0 override_opts =
      some [⟨2, true⟩, ⟨1, true⟩, ⟨2, false⟩, ⟨0, false⟩] ∧
    (BuildList.build empty_sys shared_world 0 [⟨2, true⟩, ⟨1, true⟩, ⟨2, false⟩, ⟨0, false⟩]
      override_opts).map ConvertState.loaded =
      Except.ok [(2, "/ov/build_x.txt"), (2, "/ov/build_x.txt")] ∧
    BuildList.new both_world 2 0 cross_opts = some [⟨1, false⟩, ⟨1, true⟩, ⟨0, false⟩] ∧
    (BuildList.build both_built_sys both_world 0 [⟨1, false⟩, ⟨1, true⟩, ⟨0, false⟩]
      cross_opts).map ConvertState.loaded =
      Except.ok [(1, "out/host/build_x-0_1_0.txt"), (1, "out/host/build_x-0_1_0.txt")] := by
  refine ⟨by decide, by decide, by decide, by decide⟩

/-! ## The common arguments and the common environment -/

theorem search_dir_eq (rs : RunState) (is_for_host : Bool) (d : String) (args : List String) :
    (match rs.m_opts.target_name with
      | some target_name =>
        if is_for_host && !rs.m_opts.emit_mmir then
          args ++ [erase_target ("-" ++ target_name) d]
        else args ++ [d]
      | none => args ++ [d]) = args ++ [search_dir rs is_for_host d] := by
  unfold search_dir
  cases rs.m_opts.target_name with
  | none => rfl
  | some t =>
    cases is_for_host <;> cases rs.m_opts.emit_mmir <;> simp

theorem push_lib_search_dirs_eq (rs : RunState) (is_for_host : Bool) :
    ∀ (dirs : List String) (args : List String),
    push_lib_search_dirs rs is_for_host dirs args =
      args ++ dirs.flatMap (fun d => ["-L", search_dir rs is_for_host d]) := by
  intro dirs
  induction dirs with
  | nil => intro args; simp [push_lib_search_dirs]
  | cons d rest ih =>
    intro args
    simp only [push_lib_search_dirs]
    rw [search_dir_eq, ih]
    simp [List.flatMap_cons]

theorem push_features_eq : ∀ (feats : List String) (args : List String),
    push_features feats args =
      args ++ feats.flatMap (fun f => ["--cfg", "feature=\"" ++ f ++ "\""]) := by
  intro feats
  induction feats with
  | nil => intro args; simp [push_features]
  | cons f rest ih =>
    intro args
    simp only [push_features]
    rw [ih]
    simp [List.flatMap_cons]

/-- The common arguments in closed form. -/
theorem push_args_common_eq (rs : RunState) (manifest : PackageManifest) (args : List String)
    (outfile : String) (is_for_host : Bool) :
    push_args_common rs manifest args outfile is_for_host =
      args ++ common_args rs manifest outfile is_for_host := by
  unfold push_args_common common_args
  simp only [push_lib_search_dirs_eq, push_features_eq]
  cases rs.is_rustc <;> cases rs.m_opts.enable_debug <;> cases rs.m_opts.emit_mmir <;>
    cases is_for_host <;> cases rs.m_opts.target_name.isSome <;> simp

/-- What `rfind` finds: the last position at which the needle occurs. -/
theorem rfind_last (s pat : List Char) :
    (∀ i, rfind s pat = some i →
      pat.isPrefixOf (s.drop i) = true ∧
        ∀ j, i < j → j ≤ s.length → pat.isPrefixOf (s.drop j) = false) ∧
    (rfind s pat = none → ∀ j, j ≤ s.length → pat.isPrefixOf (s.drop j) = false) := by
  unfold rfind
  constructor
  · intro i h
    obtain ⟨hp, as, bs, hl, has⟩ := List.find?_eq_some.mp h
    refine ⟨hp, ?_⟩
    intro j hij hj
    have hjmem : j ∈ (List.range (s.length + 1)).reverse := by simp; omega
    rw [hl] at hjmem
    have hsorted : ((List.range (s.length + 1)).reverse).Pairwise (fun a b => b < a) := by
      rw [List.pairwise_reverse]
      exact List.pairwise_lt_range _
    rw [hl, List.pairwise_append] at hsorted
    rcases List.mem_append.mp hjmem with hj1 | hj2
    · have := has j hj1
      simp only [Bool.not_eq_true'] at this
      exact this
    · rcases List.mem_cons.mp hj2 with rfl | hj3
      · omega
      · have := (List.pairwise_cons.mp hsorted.2.1).1 j hj3
        omega
  · intro h j hj
    have := List.find?_eq_none.mp h j (by simp; omega)
    simp only [Bool.not_eq_true] at this
    exact this

/-- The value pushed for a search directory of a host unit of a cross build is
the directory without the last occurrence of the needle, or the directory
itself when the needle does not occur in it. -/
theorem erase_target_spec (tp d : String) :
    (∃ pre post, d.toList = pre ++ tp.toList ++ post ∧
      (∀ j, pre.length < j → j ≤ d.toList.length →
        tp.toList.isPrefixOf (d.toList.drop j) = false) ∧
      erase_target tp d = String.mk (pre ++ post)) ∨
    ((∀ j, j ≤ d.toList.length → tp.toList.isPrefixOf (d.toList.drop j) = false) ∧
      erase_target tp d = d) := by
  unfold erase_target
  cases h : rfind d.toList tp.toList with
  | none =>
    right
    exact ⟨(rfind_last d.toList tp.toList).2 h, rfl⟩
  | some i =>
    left
    obtain ⟨hp, hlast⟩ := (rfind_last d.toList tp.toList).1 i h
    obtain ⟨t, ht⟩ := List.isPrefixOf_iff_prefix.mp hp
    have hi : i ≤ d.toList.length := by
      by_contra hc
      have hnil : d.toList.drop i = [] := List.drop_eq_nil_of_le (by omega)
      rw [hnil] at ht
      have htp : tp.toList = [] := (List.append_eq_nil.mp ht).1
      have := hlast (i + 1) (by omega)
      -- the empty needle occurs everywhere, also at the end
      have hz := (rfind_last d.toList tp.toList).1 i h
      have hfound : i ∈ (List.range (d.toList.length + 1)).reverse := by
        unfold rfind at h
        exact List.mem_of_find?_eq_some h
      rw [List.mem_reverse, List.mem_range] at hfound
      omega
    have hlen : (d.toList.take i).length = i := by
      rw [List.length_take]
      exact Nat.min_eq_left hi
    refine ⟨d.toList.take i, t, ?_, ?_, ?_⟩
    · rw [List.append_assoc, ht, List.take_append_drop]
    · intro j hj hjl
      rw [hlen] at hj
      exact hlast j hj hjl
    · have ht' : d.toList.drop (i + tp.length) = t := by
        have : d.toList.drop (i + tp.length) = (d.toList.drop i).drop tp.length := by
          rw [List.drop_drop, Nat.add_comm]
        rw [this, ← ht]
        exact List.drop_left' rfl
      dsimp only
      rw [ht']

/-- C26: `push_args_common` appends, in this order, `-o <outfile>`; the depfile
directive (`-C emit-depfile=<outfile>.d`, or `--emit link,dep-info` for a
compiler named rustc); `-g` iff `enable_debug`; `--cfg debug_assertions` and
`-O`; `-C codegen-type=monomir` iff `emit_mmir`; `-L <dir>` for every entry of
`lib_search_dirs` in order, where for a host unit of a cross build the last
occurrence of `-<target_name>` is removed from the directory;
`-L <output dir of the unit>`; `-L <host output dir>` iff the unit is for the
target, a target is set and `emit_mmir` is off; and `--cfg feature="F"` for
every active feature in order. -/
theorem push_args_common_spec (rs : RunState) (manifest : PackageManifest)
    (args : List String) (outfile : String) (is_for_host : Bool) :
    push_args_common rs manifest args outfile is_for_host =
      args ++ (["-o", outfile] ++
        (if rs.is_rustc = true then ["--emit", "link,dep-info"]
          else ["-C", "emit-depfile=" ++ outfile ++ ".d"]) ++
        (if rs.m_opts.enable_debug = true then ["-g"] else []) ++
        ["--cfg", "debug_assertions", "-O"] ++
        (if rs.m_opts.emit_mmir = true then ["-C", "codegen-type=monomir"] else []) ++
        rs.m_opts.lib_search_dirs.flatMap (fun d => ["-L", search_dir rs is_for_host d]) ++
        ["-L", rs.get_output_dir is_for_host] ++
        (if is_for_host = false ∧ rs.m_opts.target_name.isSome = true ∧
            rs.m_opts.emit_mmir = false
          then ["-L", rs.get_output_dir true] else []) ++
        manifest.active_features.flatMap (fun f => ["--cfg", "feature=\"" ++ f ++ "\""])) ∧
    (∀ d, search_dir rs is_for_host d =
      match rs.m_opts.target_name with
      | some target_name =>
        if is_for_host = true ∧ rs.m_opts.emit_mmir = false then
          erase_target ("-" ++ target_name) d
        else d
      | none => d) ∧
    (∀ tp d : String,
      (∃ pre post, d.toList = pre ++ tp.toList ++ post ∧
        (∀ j, pre.length < j → j ≤ d.toList.length →
          tp.toList.isPrefixOf (d.toList.drop j) = false) ∧
        erase_target tp d = String.mk (pre ++ post)) ∨
      ((∀ j, j ≤ d.toList.length → tp.toList.isPrefixOf (d.toList.drop j) = false) ∧
        erase_target tp d = d)) :=
  ⟨push_args_common_eq rs manifest args outfile is_for_host, fun _ => rfl, erase_target_spec⟩

/-- Witness of C26: the common arguments of a host unit of a cross build with
the search directory `lib-1.54-t` and the active feature `alpha`. -/
theorem push_args_common_spec_witness :
    push_args_common ⟨{ cross_opts with lib_search_dirs := ["lib-1.54-t"] }, "mrustc", true⟩
        (feature_manifest ["alpha"]) [] "out/host/libf-1_2_3_H1.rlib" true =
      ["-o", "out/host/libf-1_2_3_H1.rlib", "-C", "emit-depfile=out/host/libf-1_2_3_H1.rlib.d",
        "--cfg", "debug_assertions", "-O", "-L", "lib-1.54", "-L", "out/host",
        "--cfg", "feature=\"alpha\""] :=
  ((push_args_common_spec ⟨{ cross_opts with lib_search_dirs := ["lib-1.54-t"] }, "mrustc", true⟩
    (feature_manifest ["alpha"]) [] "out/host/libf-1_2_3_H1.rlib" true).1).trans (by decide)

/-! ## The environment of the jobs -/

theorem push_downstream_env_eq (sr : Surroundings) :
    ∀ (deps : List PackageRef) (env : List (String × String)),
    push_downstream_env sr deps env =
      env ++ (deps.filter (fun dep => !dep.is_disabled)).flatMap
        (fun dep => (sr.build_script_output dep.get_package).downstream_env) := by
  intro deps
  induction deps with
  | nil => intro env; simp [push_downstream_env]
  | cons dep rest ih =>
    intro env
    simp only [push_downstream_env]
    cases hdis : dep.is_disabled with
    | true => simp [ih, List.filter_cons, hdis]
    | false => simp [ih, List.filter_cons, hdis, List.flatMap_cons]

/-- The common environment in closed form. -/
theorem push_env_common_eq (sr : Surroundings) (env : List (String × String))
    (manifest : PackageManifest) :
    push_env_common sr env manifest = env ++ common_env sr manifest := by
  unfold push_env_common common_env
  simp only [push_downstream_env_eq]
  simp

/-- What a returning call of `Job_BuildTarget::start` has computed. -/
theorem build_target_start_inv (rs : RunState) (sys : Sys) (sr : Surroundings) (w : World)
    (p : PkgId) (target : PackageTarget) (is_host : Bool) (job : RunnableJob)
    (h : Job_BuildTarget.start rs sys sr w p target is_host = Except.ok job) :
    ∃ cp args1 args2 args3,
      rs.get_crate_path sys (w p) target is_host = Except.ok cp ∧
      push_self_extern rs sys (w p) target is_host
        (target_args_head rs sr w p target is_host cp) = Except.ok args1 ∧
      push_main_externs rs sys w is_host (w p).main_dependencies
        (if target.m_type == TargetType.Test then
          push_args_edition args1 target.m_edition ++ ["--test"]
        else push_args_edition args1 target.m_edition) = Except.ok args2 ∧
      (if target.m_type == TargetType.Test then
        push_dev_externs rs sys w is_host (w p).dev_dependencies args2
      else Except.ok args2) = Except.ok args3 ∧
      job = ⟨rs.m_compiler_path, args3, target_env rs sr w p is_host,
        cp.outfile ++ "_dbg.txt", ""⟩ := by
  unfold Job_BuildTarget.start at h
  dsimp only at h
  split at h
  · exact absurd h (by simp)
  rename_i cp hcp
  split at h
  · exact absurd h (by simp)
  rename_i args1 h1
  split at h
  · exact absurd h (by simp)
  rename_i args2 h2
  split at h
  · exact absurd h (by simp)
  rename_i args3 h3
  simp only [Except.ok.injEq] at h
  exact ⟨cp, args1, args2, args3, hcp, h1, h2, h3, h.symm⟩

theorem build_script_start_inv (rs : RunState) (sys : Sys) (sr : Surroundings) (w : World)
    (p : PkgId) (job : RunnableJob)
    (h : Job_BuildScript.start rs sys sr w p = Except.ok job) :
    ∃ args,
      push_build_externs rs sys w (w p).build_dependencies
        (push_args_edition
          (push_args_common rs (w p)
            [path_join (parent_dir (w p).manifest_path) (w p).build_script]
            (rs.get_build_script_exe (w p)) true ++
            ["--crate-name"] ++ ["build"] ++ ["--crate-type"] ++ ["bin"])
          (w p).edition) = Except.ok args ∧
      job = ⟨rs.m_compiler_path, args, push_env_common sr [] (w p),
        rs.get_build_script_exe (w p) ++ "_dbg.txt", ""⟩ := by
  unfold Job_BuildScript.start at h
  dsimp only at h
  split at h
  · exact absurd h (by simp)
  rename_i args hargs
  simp only [Except.ok.injEq] at h
  exact ⟨args, hargs, h.symm⟩

/-- C28: `push_env_common` pushes, in order, `CARGO_MANIFEST_DIR` (the absolute
directory of the manifest), `CARGO_PKG_NAME`, `CARGO_PKG_VERSION`,
`CARGO_PKG_VERSION_MAJOR`, `CARGO_PKG_VERSION_MINOR`, `CARGO_PKG_VERSION_PATCH` and
then every pair of `downstream_env` of each non-disabled main dependency, in
the order of the dependencies; and the environment of each of the three kinds
of jobs holds this block: after `OUT_DIR` and `rustc_env` for a target job, as
the whole environment for the compile of a build script, and after the feature
variables and `OUT_DIR` for the run of a build script. -/
theorem push_env_common_spec (rs : RunState) (sys : Sys) (sr : Surroundings) (w : World)
    (p : PkgId) :
    (∀ env, push_env_common sr env (w p) = env ++
      ([("CARGO_MANIFEST_DIR", to_absolute sr.cwd (w p).directory),
        ("CARGO_PKG_NAME", (w p).name),
        ("CARGO_PKG_VERSION", (w p).version.format),
        ("CARGO_PKG_VERSION_MAJOR", toString (w p).version.major),
        ("CARGO_PKG_VERSION_MINOR", toString (w p).version.minor),
        ("CARGO_PKG_VERSION_PATCH", toString (w p).version.patch)] ++
      ((w p).main_dependencies.filter (fun dep => !dep.is_disabled)).flatMap
        (fun dep => (sr.build_script_output dep.get_package).downstream_env))) ∧
    (∀ target is_host job,
      Job_BuildTarget.start rs sys sr w p target is_host = Except.ok job →
      ∃ out_dir, job.env = [("OUT_DIR", out_dir)] ++ (sr.build_script_output p).rustc_env ++
        common_env sr (w p)) ∧
    (∀ job, Job_BuildScript.start rs sys sr w p = Except.ok job →
      job.env = common_env sr (w p)) ∧
    (∃ out_dir rest, (Job_RunScript.start rs sr w p).env =
      push_feature_env (w p).active_features [] ++ [("OUT_DIR", out_dir)] ++
        common_env sr (w p) ++ rest) := by
  refine ⟨fun env => push_env_common_eq sr env (w p), ?_, ?_, ?_⟩
  · intro target is_host job h
    obtain ⟨cp, a1, a2, a3, _, _, _, _, rfl⟩ := build_target_start_inv rs sys sr w p target
      is_host job h
    exact ⟨path_join (to_absolute sr.cwd (rs.get_output_dir is_host))
      (rs.get_build_script_out (w p)), by simp only [target_env, push_env_common_eq]⟩
  · intro job h
    obtain ⟨args, _, rfl⟩ := build_script_start_inv rs sys sr w p job h
    simp only [push_env_common_eq, List.nil_append]
  · have henv : (Job_RunScript.start rs sr w p).env = script_env rs sr w p := by
      unfold Job_RunScript.start
      dsimp only
      split <;> rfl
    rw [henv]
    unfold script_env
    simp only [push_env_common_eq]
    refine ⟨to_absolute sr.cwd (path_join (rs.get_output_dir true)
      (rs.get_build_script_out (w p))), ?_⟩
    cases rs.m_opts.lib_search_dirs with
    | nil => exact ⟨_, by simp only [List.append_assoc]; rfl⟩
    | cons front tail => exact ⟨_, by simp only [List.append_assoc]; rfl⟩

/-- Witness of C28: the environment of the compile of the build script of
`script_world` and the variables of its library job. -/
theorem push_env_common_spec_witness :
    (Job_BuildScript.start host_rs empty_sys plain_surroundings script_world 0).map
        (fun job => job.env) =
      Except.ok [("CARGO_MANIFEST_DIR", "/w/p"), ("CARGO_PKG_NAME", "p"),
        ("CARGO_PKG_VERSION", "0.1.0"), ("CARGO_PKG_VERSION_MAJOR", "0"),
        ("CARGO_PKG_VERSION_MINOR", "1"), ("CARGO_PKG_VERSION_PATCH", "0")] ∧
    ∃ out_dir, (⟨"mrustc", [], target_env host_rs plain_surroundings script_world 0 true,
        "", ""⟩ : RunnableJob).env =
      [("OUT_DIR", out_dir)] ++ (plain_surroundings.build_script_output 0).rustc_env ++
        common_env plain_surroundings (script_world 0) :=
  ⟨by decide,
    ⟨_, ((push_env_common_spec host_rs empty_sys plain_surroundings script_world 0).1
      ([("OUT_DIR", _)] ++ (plain_surroundings.build_script_output 0).rustc_env))⟩⟩

/-! ## The `--extern` arguments of a target job -/

theorem push_args_edition_eq (args : List String) (edition : Edition) :
    push_args_edition args edition = args ++ push_args_edition [] edition := by
  cases edition <;> simp [push_args_edition]

theorem dep_library_some (rs : RunState) (sys : Sys) (w : World) (is_host : Bool)
    (dep : PackageRef) (lib : PackageTarget) (path : CratePath)
    (hlib : (w dep.get_package).get_library = Except.ok lib)
    (hpath : rs.get_crate_path sys (w dep.get_package) lib is_host = Except.ok path) :
    dep_library rs sys w is_host dep = some (lib, path.outfile) := by
  unfold dep_library
  rw [hlib]
  dsimp only
  rw [hpath]

theorem dep_library_inv (rs : RunState) (sys : Sys) (w : World) (is_host : Bool)
    (dep : PackageRef) (h : (dep_library rs sys w is_host dep).isSome = true) :
    ∃ lib path, (w dep.get_package).get_library = Except.ok lib ∧
      rs.get_crate_path sys (w dep.get_package) lib is_host = Except.ok path := by
  unfold dep_library at h
  cases hlib : (w dep.get_package).get_library with
  | error e => rw [hlib] at h; exact absurd h (by simp)
  | ok lib =>
    rw [hlib] at h
    dsimp only at h
    cases hpath : rs.get_crate_path sys (w dep.get_package) lib is_host with
    | error e => rw [hpath] at h; exact absurd h (by simp)
    | ok path => exact ⟨lib, path, rfl, hpath⟩

theorem main_extern_args_cons (rs : RunState) (sys : Sys) (w : World) (is_host : Bool)
    (dep : PackageRef) (rest : List PackageRef) :
    main_extern_args rs sys w is_host (dep :: rest) =
      (if dep.is_disabled then []
        else match dep_library rs sys w (is_host || (w dep.get_package).is_proc_lib) dep with
          | some (lib, path) => ["--extern", main_alias w dep lib ++ "=" ++ path]
          | none => []) ++ main_extern_args rs sys w is_host rest := by
  unfold main_extern_args
  cases hdis : dep.is_disabled <;> simp [List.filter_cons, hdis, List.flatMap_cons]

theorem dev_extern_args_cons (rs : RunState) (sys : Sys) (w : World) (is_host : Bool)
    (dep : PackageRef) (rest : List PackageRef) :
    dev_extern_args rs sys w is_host (dep :: rest) =
      (if dep.is_disabled then []
        else match dep_library rs sys w is_host dep with
          | some (_, path) => ["--extern", escape_dashes dep.key ++ "=" ++ path]
          | none => []) ++ dev_extern_args rs sys w is_host rest := by
  unfold dev_extern_args
  cases hdis : dep.is_disabled <;> simp [List.filter_cons, hdis, List.flatMap_cons]

/-- The loop over the main dependencies appends the `--extern` pairs of the
non-disabled ones, in order. -/
theorem push_main_externs_ok (rs : RunState) (sys : Sys) (w : World) (is_host : Bool) :
    ∀ (deps : List PackageRef) (args args' : List String),
    push_main_externs rs sys w is_host deps args = Except.ok args' →
    args' = args ++ main_extern_args rs sys w is_host deps := by
  intro deps
  induction deps with
  | nil =>
    intro args args' h
    simp only [push_main_externs, Except.ok.injEq] at h
    simp [main_extern_args, h]
  | cons dep rest ih =>
    intro args args' h
    rw [main_extern_args_cons]
    simp only [push_main_externs] at h
    cases hdis : dep.is_disabled with
    | true =>
      simp only [hdis, Bool.not_true, Bool.false_eq_true, if_false] at h
      rw [ih _ _ h]
      simp
    | false =>
      simp only [hdis, Bool.not_false, if_true] at h
      split at h
      · exact absurd h (by simp)
      rename_i lib hlib
      split at h
      · exact absurd h (by simp)
      rename_i path hpath
      rw [ih _ _ h, dep_library_some rs sys w _ dep lib path hlib hpath]
      simp only [Bool.false_eq_true, if_false, main_alias]
      by_cases hk : dep.key = (w dep.get_package).name
      · simp [hk]
      · have hk' : (dep.key != (w dep.get_package).name) = true := by simpa using hk
        simp [hk, hk']

theorem push_main_externs_some (rs : RunState) (sys : Sys) (w : World) (is_host : Bool) :
    ∀ (deps : List PackageRef) (args : List String),
    (∀ dep ∈ deps, dep.is_disabled = false →
      (dep_library rs sys w (is_host || (w dep.get_package).is_proc_lib) dep).isSome = true) →
    ∃ args', push_main_externs rs sys w is_host deps args = Except.ok args' := by
  intro deps
  induction deps with
  | nil => intro args _; exact ⟨args, rfl⟩
  | cons dep rest ih =>
    intro args hall
    have hrest := fun a => ih a (fun d hd => hall d (List.mem_cons_of_mem _ hd))
    simp only [push_main_externs]
    cases hdis : dep.is_disabled with
    | true =>
      simp only [Bool.not_true, Bool.false_eq_true, if_false]
      exact hrest args
    | false =>
      simp only [Bool.not_false, if_true]
      obtain ⟨lib, path, hlib, hpath⟩ := dep_library_inv rs sys w _ dep
        (hall dep (List.mem_cons_self _ _) hdis)
      rw [hlib]
      dsimp only
      rw [hpath]
      exact hrest _

/-- The loop over the dev-dependencies appends the `--extern` pairs of the
non-disabled ones, in order. -/
theorem push_dev_externs_ok (rs : RunState) (sys : Sys) (w : World) (is_host : Bool) :
    ∀ (deps : List PackageRef) (args args' : List String),
    push_dev_externs rs sys w is_host deps args = Except.ok args' →
    args' = args ++ dev_extern_args rs sys w is_host deps := by
  intro deps
  induction deps with
  | nil =>
    intro args args' h
    simp only [push_dev_externs, Except.ok.injEq] at h
    simp [dev_extern_args, h]
  | cons dep rest ih =>
    intro args args' h
    rw [dev_extern_args_cons]
    simp only [push_dev_externs] at h
    cases hdis : dep.is_disabled with
    | true =>
      simp only [hdis, Bool.not_true, Bool.false_eq_true, if_false] at h
      rw [ih _ _ h]
      simp
    | false =>
      simp only [hdis, Bool.not_false, if_true] at h
      split at h
      · exact absurd h (by simp)
      rename_i lib hlib
      split at h
      · exact absurd h (by simp)
      rename_i path hpath
      rw [ih _ _ h, dep_library_some rs sys w _ dep lib path hlib hpath]
      simp

theorem push_dev_externs_some (rs : RunState) (sys : Sys) (w : World) (is_host : Bool) :
    ∀ (deps : List PackageRef) (args : List String),
    (∀ dep ∈ deps, dep.is_disabled = false →
      (dep_library rs sys w is_host dep).isSome = true) →
    ∃ args', push_dev_externs rs sys w is_host deps args = Except.ok args' := by
  intro deps
  induction deps with
  | nil => intro args _; exact ⟨args, rfl⟩
  | cons dep rest ih =>
    intro args hall
    have hrest := fun a => ih a (fun d hd => hall d (List.mem_cons_of_mem _ hd))
    simp only [push_dev_externs]
    cases hdis : dep.is_disabled with
    | true =>
      simp only [Bool.not_true, Bool.false_eq_true, if_false]
      exact hrest args
    | false =>
      simp only [Bool.not_false, if_true]
      obtain ⟨lib, path, hlib, hpath⟩ := dep_library_inv rs sys w _ dep
        (hall dep (List.mem_cons_self _ _) hdis)
      rw [hlib]
      dsimp only
      rw [hpath]
      exact hrest _

theorem push_self_extern_ok (rs : RunState) (sys : Sys) (w : World) (p : PkgId)
    (target : PackageTarget) (is_host : Bool) (args args' : List String)
    (h : push_self_extern rs sys (w p) target is_host args = Except.ok args') :
    args' = args ++ self_extern_args rs sys w p target is_host := by
  unfold push_self_extern at h
  unfold self_extern_args
  split at h
  · rename_i hc
    simp only [Bool.and_eq_true, bne_iff_ne, ne_eq] at hc
    rw [if_pos hc]
    split at h
    · exact absurd h (by simp)
    rename_i lib hlib
    split at h
    · exact absurd h (by simp)
    rename_i path hpath
    simp only [Except.ok.injEq] at h
    rw [dep_library_some rs sys w is_host ⟨"", false, p⟩ lib path hlib hpath, ← h]
    simp
  · rename_i hc
    simp only [Bool.and_eq_true, bne_iff_ne, ne_eq] at hc
    rw [if_neg hc]
    simp only [Except.ok.injEq] at h
    simp [h]

theorem push_self_extern_some (rs : RunState) (sys : Sys) (w : World) (p : PkgId)
    (target : PackageTarget) (is_host : Bool) (args : List String)
    (hself : target.m_type ≠ TargetType.Lib → (w p).has_library = true →
      (dep_library rs sys w is_host ⟨"", false, p⟩).isSome = true) :
    ∃ args', push_self_extern rs sys (w p) target is_host args = Except.ok args' := by
  unfold push_self_extern
  split
  · rename_i hc
    simp only [Bool.and_eq_true, bne_iff_ne, ne_eq] at hc
    obtain ⟨lib, path, hlib, hpath⟩ := dep_library_inv rs sys w is_host ⟨"", false, p⟩
      (hself hc.1 hc.2)
    dsimp only at hlib hpath
    rw [hlib]
    dsimp only
    rw [hpath]
    exact ⟨_, rfl⟩
  · exact ⟨_, rfl⟩

/-- The arguments of a started target job, from the `--extern` of the package's
own library on. -/
theorem build_target_start_args (rs : RunState) (sys : Sys) (sr : Surroundings) (w : World)
    (p : PkgId) (target : PackageTarget) (is_host : Bool) (job : RunnableJob)
    (h : Job_BuildTarget.start rs sys sr w p target is_host = Except.ok job) :
    ∃ cp, rs.get_crate_path sys (w p) target is_host = Except.ok cp ∧
      job.args = target_args_head rs sr w p target is_host cp ++
        self_extern_args rs sys w p target is_host ++
        push_args_edition [] target.m_edition ++
        (if target.m_type = TargetType.Test then ["--test"] else []) ++
        main_extern_args rs sys w is_host (w p).main_dependencies ++
        (if target.m_type = TargetType.Test then
          dev_extern_args rs sys w is_host (w p).dev_dependencies else []) := by
  obtain ⟨cp, a1, a2, a3, hcp, h1, h2, h3, rfl⟩ := build_target_start_inv rs sys sr w p target
    is_host job h
  refine ⟨cp, hcp, ?_⟩
  have e1 := push_self_extern_ok rs sys w p target is_host _ _ h1
  have e2 := push_main_externs_ok rs sys w is_host _ _ _ h2
  show a3 = _
  by_cases ht : target.m_type = TargetType.Test
  · have ht' : (target.m_type == TargetType.Test) = true := by simp [ht]
    rw [ht'] at h3 e2
    simp only [if_true] at h3 e2
    have e3 := push_dev_externs_ok rs sys w is_host _ _ _ h3
    rw [e3, e2, push_args_edition_eq, e1, if_pos ht, if_pos ht]
  · have ht' : (target.m_type == TargetType.Test) = false := by simpa using ht
    rw [ht'] at h3 e2
    simp only [Bool.false_eq_true, if_false, Except.ok.injEq] at h3 e2
    rw [← h3, e2, push_args_edition_eq, e1, if_neg ht, if_neg ht]
    simp only [List.append_assoc, List.append_nil]

theorem extern_pairs_length {α : Type} (l : List α) (f : α → List String)
    (hf : ∀ a ∈ l, (f a).length = 2) : (l.flatMap f).length = 2 * l.length := by
  induction l with
  | nil => rfl
  | cons a rest ih =>
    rw [List.flatMap_cons, List.length_append, hf a (List.mem_cons_self _ _),
      ih (fun b hb => hf b (List.mem_cons_of_mem _ hb)), List.length_cons]
    omega

/-- C25: the arguments of a target job end with, in order: the `--extern` of
the package's own library iff the target is no library and the package has a
library; the edition and `--test` arguments; one `--extern <alias>=<path>` for
each non-disabled main dependency in the order of the dependencies, the alias
being the key with dashes replaced by underscores when the key differs from
the name of the package and the name of its library target otherwise; and, iff
the target is a test, one `--extern <key with underscores>=<path>` for each
non-disabled dev-dependency. The job starts whenever the libraries and crate
paths involved can be determined. -/
theorem start_extern_args (rs : RunState) (sys : Sys) (sr : Surroundings) (w : World)
    (p : PkgId) (target : PackageTarget) (is_host : Bool) (cp : CratePath)
    (hcp : rs.get_crate_path sys (w p) target is_host = Except.ok cp)
    (hself : target.m_type ≠ TargetType.Lib → (w p).has_library = true →
      (dep_library rs sys w is_host ⟨"", false, p⟩).isSome = true)
    (hmain : ∀ dep ∈ (w p).main_dependencies, dep.is_disabled = false →
      (dep_library rs sys w (is_host || (w dep.get_package).is_proc_lib) dep).isSome = true)
    (hdev : target.m_type = TargetType.Test → ∀ dep ∈ (w p).dev_dependencies,
      dep.is_disabled = false → (dep_library rs sys w is_host dep).isSome = true) :
    (∃ job, Job_BuildTarget.start rs sys sr w p target is_host = Except.ok job ∧
      job.args = target_args_head rs sr w p target is_host cp ++
        self_extern_args rs sys w p target is_host ++
        push_args_edition [] target.m_edition ++
        (if target.m_type = TargetType.Test then ["--test"] else []) ++
        main_extern_args rs sys w is_host (w p).main_dependencies ++
        (if target.m_type = TargetType.Test then
          dev_extern_args rs sys w is_host (w p).dev_dependencies else [])) ∧
    (self_extern_args rs sys w p target is_host).length =
      (if target.m_type ≠ TargetType.Lib ∧ (w p).has_library = true then 2 else 0) ∧
    (main_extern_args rs sys w is_host (w p).main_dependencies).length =
      2 * ((w p).main_dependencies.filter (fun dep => !dep.is_disabled)).length ∧
    (target.m_type = TargetType.Test →
      (dev_extern_args rs sys w is_host (w p).dev_dependencies).length =
        2 * ((w p).dev_dependencies.filter (fun dep => !dep.is_disabled)).length) := by
  refine ⟨?_, ?_, ?_, ?_⟩
  · obtain ⟨a1, h1⟩ := push_self_extern_some rs sys w p target is_host
      (target_args_head rs sr w p target is_host cp) hself
    obtain ⟨a2, h2⟩ := push_main_externs_some rs sys w is_host (w p).main_dependencies
      (if target.m_type == TargetType.Test then
        push_args_edition a1 target.m_edition ++ ["--test"]
      else push_args_edition a1 target.m_edition) hmain
    have h3 : ∃ a3, (if target.m_type == TargetType.Test then
        push_dev_externs rs sys w is_host (w p).dev_dependencies a2
        else Except.ok a2) = Except.ok a3 := by
      by_cases ht : target.m_type = TargetType.Test
      · have ht' : (target.m_type == TargetType.Test) = true := by simp [ht]
        rw [ht']
        simp only [if_true]
        exact push_dev_externs_some rs sys w is_host _ a2 (hdev ht)
      · have ht' : (target.m_type == TargetType.Test) = false := by simpa using ht
        rw [ht']
        exact ⟨a2, rfl⟩
    obtain ⟨a3, h3⟩ := h3
    have hstart : Job_BuildTarget.start rs sys sr w p target is_host =
        Except.ok ⟨rs.m_compiler_path, a3, target_env rs sr w p is_host,
          cp.outfile ++ "_dbg.txt", ""⟩ := by
      unfold Job_BuildTarget.start
      dsimp only
      rw [hcp]
      dsimp only
      rw [h1]
      dsimp only
      rw [h2]
      dsimp only
      rw [h3]
    obtain ⟨cp', hcp', hargs⟩ := build_target_start_args rs sys sr w p target is_host _ hstart
    rw [hcp] at hcp'
    simp only [Except.ok.injEq] at hcp'
    subst hcp'
    exact ⟨_, hstart, hargs⟩
  · unfold self_extern_args
    split
    · rename_i hc
      obtain ⟨lib, path, hlib, hpath⟩ := dep_library_inv rs sys w is_host ⟨"", false, p⟩
        (hself hc.1 hc.2)
      rw [dep_library_some rs sys w is_host ⟨"", false, p⟩ lib path hlib hpath]
      rfl
    · rfl
  · unfold main_extern_args
    apply extern_pairs_length
    intro dep hdep
    obtain ⟨hd, hdis⟩ := List.mem_filter.mp hdep
    obtain ⟨lib, path, hlib, hpath⟩ := dep_library_inv rs sys w _ dep
      (hmain dep hd (by simpa using hdis))
    rw [dep_library_some rs sys w _ dep lib path hlib hpath]
    rfl
  · intro ht
    unfold dev_extern_args
    apply extern_pairs_length
    intro dep hdep
    obtain ⟨hd, hdis⟩ := List.mem_filter.mp hdep
    obtain ⟨lib, path, hlib, hpath⟩ := dep_library_inv rs sys w _ dep
      (hdev ht dep hd (by simpa using hdis))
    rw [dep_library_some rs sys w _ dep lib path hlib hpath]
    rfl

/-- Witness of C25 on the test target of `app`: the library of the package
itself, the dependency under the key `my-dep`, none for the disabled one, the
dependency `plain` under the name of its library, and the dev-dependency. -/
theorem start_extern_args_witness :
    (Job_BuildTarget.start host_rs empty_sys plain_surroundings extern_world 0
        (test_target "t1") true).map (fun job => job.args) =
      Except.ok ["app/tests/t1.rs", "-o", "out/t1", "-C", "emit-depfile=out/t1.d", "--cfg",
        "debug_assertions", "-O", "-L", "out", "--crate-name", "t1", "--crate-type", "bin",
        "--crate-tag", "0_1_0", "--extern", "app_lib=out/libapp_lib-0_1_0.rlib", "--edition",
        "2018", "--test", "--extern", "my_dep=out/libdep_lib-0_1_0.rlib", "--extern",
        "plain_lib=out/libplain_lib-0_1_0.rlib", "--extern",
        "dev_pkg=out/libdev_lib-0_1_0.rlib"] ∧
    (main_extern_args host_rs empty_sys extern_world true
        (extern_world 0).main_dependencies).length =
      2 * ((extern_world 0).main_dependencies.filter (fun dep => !dep.is_disabled)).length :=
  ⟨by decide,
    (start_extern_args host_rs empty_sys plain_surroundings extern_world 0 (test_target "t1")
      true ⟨"out/t1", "bin", "-0_1_0"⟩ (by decide) (by intro _ _; decide) (by decide)
      (by intro _; decide)).2.2.1⟩

/-! ## The output directory of build scripts -/

/-- C24 (violated): in a cross build the library job of a target unit is given
the `OUT_DIR` below the output directory of the target, while the run of the
build script of the same package is given, and writes to, the `OUT_DIR` below
the output directory of the host; only for a host unit do the two agree. -/
theorem target_unit_out_dir :
    (Job_BuildTarget.start cross_rs empty_sys plain_surroundings script_world 0
        (lib_target "p" false) false).map (fun job => env_value job.env "OUT_DIR") =
      Except.ok (some "/w/out/build_p-0_1_0") ∧
    env_value (Job_RunScript.start cross_rs plain_surroundings script_world 0).env "OUT_DIR" =
      some "/w/out/host/build_p-0_1_0" ∧
    to_absolute "/w" (path_join (cross_rs.get_output_dir true)
        (cross_rs.get_build_script_out (script_world 0))) = "/w/out/host/build_p-0_1_0" ∧
    (Job_BuildTarget.start cross_rs empty_sys plain_surroundings script_world 0
        (lib_target "p" false) true).map (fun job => env_value job.env "OUT_DIR") =
      Except.ok (some "/w/out/host/build_p-0_1_0") := by
  refine ⟨by decide, by decide, by decide, by decide⟩

/-! ## The `--target` option -/

theorem ne_of_char (c : Char) (s t : String) (hs : c ∈ s.toList) (ht : c ∉ t.toList) :
    s ≠ t := by
  intro e
  rw [e] at hs
  exact ht hs

theorem mem_toList_append_left (c : Char) (a b : String) (h : c ∈ a.toList) :
    c ∈ (a ++ b).toList := by
  simp only [String.toList, String.data_append, List.mem_append]
  exact Or.inl h

theorem mem_toList_append_right (c : Char) (a b : String) (h : c ∈ b.toList) :
    c ∈ (a ++ b).toList := by
  simp only [String.toList, String.data_append, List.mem_append]
  exact Or.inr h

theorem slash_mem_path_join (a b : String) : '/' ∈ (path_join a b).toList := by
  unfold path_join
  exact mem_toList_append_left _ _ _ (mem_toList_append_right _ _ _ (by decide))

theorem path_join_ne_target (a b : String) : path_join a b ≠ "--target" :=
  ne_of_char '/' _ _ (slash_mem_path_join a b) (by decide)

/-- A text that holds an equals sign is not the option `--target`. -/
theorem assignment_ne_target (a b : String) : a ++ "=" ++ b ≠ "--target" :=
  ne_of_char '=' _ _ (mem_toList_append_left _ _ _ (mem_toList_append_right _ _ _ (by decide)))
    (by decide)

theorem get_crate_path_outfile (rs : RunState) (sys : Sys) (manifest : PackageManifest)
    (target : PackageTarget) (is_host : Bool) (cp : CratePath)
    (h : rs.get_crate_path sys manifest target is_host = Except.ok cp) :
    (∃ name, cp.outfile = path_join (rs.get_output_dir is_host) name) ∧
    cp.crate_type ∈ ["rlib", "bin", "proc-macro", "dylib"] := by
  unfold RunState.get_crate_path at h
  dsimp only at h
  split at h
  · split at h
    · simp only [Except.ok.injEq] at h; rw [← h]; exact ⟨⟨_, rfl⟩, by simp⟩
    · split at h
      · simp only [Except.ok.injEq] at h; rw [← h]; exact ⟨⟨_, rfl⟩, by simp⟩
      · simp only [Except.ok.injEq] at h; rw [← h]; exact ⟨⟨_, rfl⟩, by simp⟩
    · simp only [Except.ok.injEq] at h; rw [← h]; exact ⟨⟨_, rfl⟩, by simp⟩
    · exact absurd h (by simp)
  · simp only [Except.ok.injEq] at h; rw [← h]; exact ⟨⟨_, rfl⟩, by simp⟩
  · simp only [Except.ok.injEq] at h; rw [← h]; exact ⟨⟨_, rfl⟩, by simp⟩
  · exact absurd h (by simp)

theorem get_crate_path_ne_target (rs : RunState) (sys : Sys) (manifest : PackageManifest)
    (target : PackageTarget) (is_host : Bool) (cp : CratePath)
    (h : rs.get_crate_path sys manifest target is_host = Except.ok cp) :
    cp.outfile ≠ "--target" ∧ cp.crate_type ≠ "--target" := by
  obtain ⟨⟨name, hn⟩, ht⟩ := get_crate_path_outfile rs sys manifest target is_host cp h
  refine ⟨by rw [hn]; exact path_join_ne_target _ _, ?_⟩
  simp only [List.mem_cons, List.mem_singleton, List.not_mem_nil, or_false] at ht
  rcases ht with e | e | e | e <;> rw [e] <;> decide

theorem version_tag_tail (v : PackageVersion) (x : String) :
    '_' ∈ (String.mk ((version_tag v ++ x).toList.drop 1)).toList := by
  have : (version_tag v ++ x).toList =
      '-' :: ((toString v.major).toList ++ ('_' :: ((toString v.minor).toList ++
        ('_' :: ((toString v.patch).toList ++ x.toList))))) := by
    unfold version_tag
    simp only [String.toList, String.data_append, List.append_assoc]
    rfl
  rw [this]
  simp

theorem crate_suffix_tail (rs : RunState) (manifest : PackageManifest) :
    '_' ∈ (String.mk ((rs.get_crate_suffix manifest).toList.drop 1)).toList := by
  rw [get_crate_suffix_eq]
  split
  · have := version_tag_tail manifest.version ""
    simpa using this
  · rw [String.append_assoc]
    exact version_tag_tail _ _

theorem crate_tag_args_free (rs : RunState) (manifest : PackageManifest) (outfile : String) :
    "--target" ∉ crate_tag_args rs (rs.get_crate_suffix manifest) outfile := by
  have htag : String.mk ((rs.get_crate_suffix manifest).toList.drop 1) ≠ "--target" :=
    ne_of_char '_' _ _ (crate_suffix_tail rs manifest) (by decide)
  have hmeta : "metadata=" ++ String.mk ((rs.get_crate_suffix manifest).toList.drop 1) ≠
      "--target" := by
    have := assignment_ne_target "metadata"
      (String.mk ((rs.get_crate_suffix manifest).toList.drop 1))
    exact this
  have hfile : "extra-filename=" ++ rs.get_crate_suffix manifest ≠ "--target" := by
    have := assignment_ne_target "extra-filename" (rs.get_crate_suffix manifest)
    exact this
  unfold crate_tag_args
  intro hmem
  split at hmem
  · split at hmem
    · simp only [List.mem_cons, List.mem_singleton, List.not_mem_nil, or_false] at hmem
      rcases hmem with e | e
      · exact absurd e (by decide)
      · exact htag e.symm
    · split at hmem
      · simp only [List.cons_append, List.nil_append, List.mem_cons, List.mem_singleton,
          List.not_mem_nil, or_false] at hmem
        rcases hmem with e | e | e | e
        · exact absurd e (by decide)
        · exact hmeta e.symm
        · exact absurd e (by decide)
        · exact hfile e.symm
      · simp only [List.append_nil, List.mem_cons, List.mem_singleton, List.not_mem_nil,
          or_false] at hmem
        rcases hmem with e | e
        · exact absurd e (by decide)
        · exact hmeta e.symm
  · simp at hmem

theorem common_args_free (rs : RunState) (manifest : PackageManifest) (outfile : String)
    (is_for_host : Bool) (hout : outfile ≠ "--target")
    (hdirs : "--target" ∉ rs.m_opts.lib_search_dirs.map (search_dir rs is_for_host))
    (hod : rs.m_opts.output_dir ≠ "--target") :
    "--target" ∉ common_args rs manifest outfile is_for_host := by
  have hdep : "emit-depfile=" ++ outfile ++ ".d" ≠ "--target" := by
    have := assignment_ne_target "emit-depfile" (outfile ++ ".d")
    rw [← String.append_assoc] at this
    exact this
  have hdir : ∀ h, rs.get_output_dir h ≠ "--target" := by
    intro h
    unfold RunState.get_output_dir
    split
    · exact path_join_ne_target _ _
    · exact hod
  have hfeat : ∀ f : String, "feature=\"" ++ f ++ "\"" ≠ "--target" := by
    intro f
    have := assignment_ne_target "feature" ("\"" ++ f ++ "\"")
    have e : "feature" ++ "=" ++ ("\"" ++ f ++ "\"") = "feature=\"" ++ f ++ "\"" := by
      simp only [String.append_assoc]
      rfl
    rw [e] at this
    exact this
  unfold common_args
  intro hmem
  simp only [List.mem_append, List.mem_cons, List.mem_singleton, List.not_mem_nil, or_false,
    List.mem_flatMap] at hmem
  rcases hmem with ((((((((h | h) | h) | h) | h) | h) | h) | h) | h) | h
  · exact absurd h (by decide)
  · exact hout h.symm
  · split at h
    · simp only [List.mem_cons, List.mem_singleton, List.not_mem_nil, or_false] at h
      rcases h with e | e <;> exact absurd e (by decide)
    · simp only [List.mem_cons, List.mem_singleton, List.not_mem_nil, or_false] at h
      rcases h with e | e
      · exact absurd e (by decide)
      · exact hdep e.symm
  · split at h
    · simp only [List.mem_singleton] at h
      exact absurd h (by decide)
    · simp at h
  · rcases h with e | e | e <;> exact absurd e (by decide)
  · split at h
    · simp only [List.mem_cons, List.mem_singleton, List.not_mem_nil, or_false] at h
      rcases h with e | e <;> exact absurd e (by decide)
    · simp at h
  · obtain ⟨d, hd, e | e⟩ := h
    · exact absurd e (by decide)
    · exact hdirs (List.mem_map.mpr ⟨d, hd, e.symm⟩)
  · rcases h with e | e
    · exact absurd e (by decide)
    · exact hdir _ e.symm
  · split at h
    · simp only [List.mem_cons, List.mem_singleton, List.not_mem_nil, or_false] at h
      rcases h with e | e
      · exact absurd e (by decide)
      · exact hdir _ e.symm
    · simp at h
  · obtain ⟨f, _, e | e⟩ := h
    · exact absurd e (by decide)
    · exact hfeat f e.symm

theorem push_target_args_eq (rs : RunState) (args : List String) (outfile : String)
    (is_host : Bool) :
    push_target_args rs args outfile is_host = args ++ target_option rs outfile is_host := by
  unfold push_target_args target_option
  cases rs.m_opts.target_name with
  | none => simp
  | some t => cases is_host <;> simp

theorem push_link_search_eq : ∀ (dirs : List (String × String)) (args : List String),
    push_link_search dirs args = args ++ dirs.flatMap (fun d => ["-L", d.2]) := by
  intro dirs
  induction dirs with
  | nil => intro args; simp [push_link_search]
  | cons d rest ih => intro args; simp [push_link_search, ih, List.flatMap_cons]

theorem push_link_lib_eq : ∀ (libs : List (String × String)) (args : List String),
    push_link_lib libs args = args ++ libs.flatMap (fun l =>
      ["-l", if l.1 == "framework" then "framework=" ++ l.2 else l.2]) := by
  intro libs
  induction libs with
  | nil => intro args; simp [push_link_lib]
  | cons l rest ih =>
    intro args
    simp only [push_link_lib]
    split
    · rename_i hl
      have hl' : l.1 = "framework" := by simpa using hl
      simp [ih, List.flatMap_cons, hl']
    · rename_i hl
      have hl' : ¬ l.1 = "framework" := by simpa using hl
      simp [ih, List.flatMap_cons, hl']

theorem push_cfg_eq : ∀ (cfgs : List String) (args : List String),
    push_cfg cfgs args = args ++ cfgs.flatMap (fun c => ["--cfg", c]) := by
  intro cfgs
  induction cfgs with
  | nil => intro args; simp [push_cfg]
  | cons c rest ih => intro args; simp [push_cfg, ih, List.flatMap_cons]

theorem push_flags_eq : ∀ (flags : List String) (args : List String),
    push_flags flags args = args ++ flags := by
  intro flags
  induction flags with
  | nil => intro args; simp [push_flags]
  | cons f rest ih => intro args; simp [push_flags, ih]

/-- The first part of the arguments of a target job in closed form. -/
theorem target_args_head_eq (rs : RunState) (sr : Surroundings) (w : World) (p : PkgId)
    (target : PackageTarget) (is_host : Bool) (cp : CratePath) :
    target_args_head rs sr w p target is_host cp =
      ([path_join (parent_dir (w p).manifest_path) target.m_path] ++
        common_args rs (w p) cp.outfile is_host ++
        ["--crate-name", target.m_name, "--crate-type", cp.crate_type] ++
        crate_tag_args rs cp.out_crate_suffix cp.outfile) ++
      target_option rs cp.outfile is_host ++
      ((sr.build_script_output p).rustc_link_search.flatMap (fun d => ["-L", d.2]) ++
        (sr.build_script_output p).rustc_link_lib.flatMap (fun l =>
          ["-l", if l.1 == "framework" then "framework=" ++ l.2 else l.2]) ++
        (sr.build_script_output p).rustc_cfg.flatMap (fun c => ["--cfg", c]) ++
        (sr.build_script_output p).rustc_flags) := by
  unfold target_args_head
  simp only [push_args_common_eq, push_target_args_eq, push_link_search_eq, push_link_lib_eq,
    push_cfg_eq, push_flags_eq, List.append_assoc, List.cons_append, List.nil_append]

theorem edition_args_free (edition : Edition) : "--target" ∉ push_args_edition [] edition := by
  cases edition <;> decide

theorem main_extern_args_free (rs : RunState) (sys : Sys) (w : World) (is_host : Bool)
    (deps : List PackageRef) : "--target" ∉ main_extern_args rs sys w is_host deps := by
  unfold main_extern_args
  intro hmem
  obtain ⟨dep, _, hd⟩ := List.mem_flatMap.mp hmem
  split at hd
  · simp only [List.mem_cons, List.mem_singleton, List.not_mem_nil, or_false] at hd
    rcases hd with e | e
    · exact absurd e (by decide)
    · exact assignment_ne_target _ _ e.symm
  · simp at hd

theorem dev_extern_args_free (rs : RunState) (sys : Sys) (w : World) (is_host : Bool)
    (deps : List PackageRef) : "--target" ∉ dev_extern_args rs sys w is_host deps := by
  unfold dev_extern_args
  intro hmem
  obtain ⟨dep, _, hd⟩ := List.mem_flatMap.mp hmem
  split at hd
  · simp only [List.mem_cons, List.mem_singleton, List.not_mem_nil, or_false] at hd
    rcases hd with e | e
    · exact absurd e (by decide)
    · exact assignment_ne_target _ _ e.symm
  · simp at hd

theorem self_extern_args_free (rs : RunState) (sys : Sys) (w : World) (p : PkgId)
    (target : PackageTarget) (is_host : Bool) :
    "--target" ∉ self_extern_args rs sys w p target is_host := by
  unfold self_extern_args
  intro hmem
  split at hmem
  · split at hmem
    · simp only [List.mem_cons, List.mem_singleton, List.not_mem_nil, or_false] at hmem
      rcases hmem with e | e
      · exact absurd e (by decide)
      · exact assignment_ne_target _ _ e.symm
    · simp at hmem
  · simp at hmem

theorem push_build_externs_free (rs : RunState) (sys : Sys) (w : World) :
    ∀ (deps : List PackageRef) (args args' : List String), "--target" ∉ args →
    push_build_externs rs sys w deps args = Except.ok args' → "--target" ∉ args' := by
  intro deps
  induction deps with
  | nil =>
    intro args args' hfree h
    simp only [push_build_externs, Except.ok.injEq] at h
    rw [← h]
    exact hfree
  | cons dep rest ih =>
    intro args args' hfree h
    simp only [push_build_externs] at h
    split at h
    · split at h
      · exact absurd h (by simp)
      split at h
      · exact absurd h (by simp)
      refine ih _ _ ?_ h
      intro hmem
      simp only [List.mem_append, List.mem_singleton] at hmem
      rcases hmem with (hm | e) | e
      · exact hfree hm
      · exact absurd e (by decide)
      · exact assignment_ne_target _ _ e.symm
    · exact ih _ _ hfree h

theorem target_option_mem (rs : RunState) (outfile : String) (is_host : Bool) :
    "--target" ∈ target_option rs outfile is_host ↔
      rs.m_opts.target_name.isSome = true ∧ is_host = false := by
  unfold target_option
  cases rs.m_opts.target_name with
  | none => simp
  | some t => cases is_host <;> simp

/-- C27 (amended): the arguments of a started target job are the source file,
the common arguments, the crate name, type and tag, then the target block,
then what the build script asked for and the `--extern` arguments; the target
block is `--target <target_name>` followed by
`-C emit-build-command=<outfile>.sh` if and only if a target name is set and
the unit is no host unit, and is empty otherwise. Outside that block the job
passes `--target` only as one of the values it hands on as they are (search
directories, output directory, name of the target, and the link search
directories, link libraries, cfgs and flags of the build script): when none of
them is the text `--target`, the job has `--target` among its arguments if and
only if a target name is set and the unit is no host unit. The compile of a
build script does not pass `--target` unless a search directory or the output
directory is that text. -/
theorem target_option_spec (rs : RunState) (sys : Sys) (sr : Surroundings) (w : World)
    (p : PkgId) (target : PackageTarget) (is_host : Bool) (job : RunnableJob)
    (h : Job_BuildTarget.start rs sys sr w p target is_host = Except.ok job) :
    (∃ cp, rs.get_crate_path sys (w p) target is_host = Except.ok cp ∧
      job.args = ([path_join (parent_dir (w p).manifest_path) target.m_path] ++
        common_args rs (w p) cp.outfile is_host ++
        ["--crate-name", target.m_name, "--crate-type", cp.crate_type] ++
        crate_tag_args rs cp.out_crate_suffix cp.outfile) ++
      target_option rs cp.outfile is_host ++
      (((sr.build_script_output p).rustc_link_search.flatMap (fun d => ["-L", d.2]) ++
        (sr.build_script_output p).rustc_link_lib.flatMap (fun l =>
          ["-l", if l.1 == "framework" then "framework=" ++ l.2 else l.2]) ++
        (sr.build_script_output p).rustc_cfg.flatMap (fun c => ["--cfg", c]) ++
        (sr.build_script_output p).rustc_flags) ++
      (self_extern_args rs sys w p target is_host ++
        push_args_edition [] target.m_edition ++
        (if target.m_type = TargetType.Test then ["--test"] else []) ++
        main_extern_args rs sys w is_host (w p).main_dependencies ++
        (if target.m_type = TargetType.Test then
          dev_extern_args rs sys w is_host (w p).dev_dependencies else []))) ∧
      ("--target" ∉ verbatim_values rs sr p target is_host →
        "--target" ∉ ([path_join (parent_dir (w p).manifest_path) target.m_path] ++
        common_args rs (w p) cp.outfile is_host ++
        ["--crate-name", target.m_name, "--crate-type", cp.crate_type] ++
        crate_tag_args rs cp.out_crate_suffix cp.outfile) ∧
        "--target" ∉ (((sr.build_script_output p).rustc_link_search.flatMap (fun d => ["-L", d.2]) ++
        (sr.build_script_output p).rustc_link_lib.flatMap (fun l =>
          ["-l", if l.1 == "framework" then "framework=" ++ l.2 else l.2]) ++
        (sr.build_script_output p).rustc_cfg.flatMap (fun c => ["--cfg", c]) ++
        (sr.build_script_output p).rustc_flags) ++
      (self_extern_args rs sys w p target is_host ++
        push_args_edition [] target.m_edition ++
        (if target.m_type = TargetType.Test then ["--test"] else []) ++
        main_extern_args rs sys w is_host (w p).main_dependencies ++
        (if target.m_type = TargetType.Test then
          dev_extern_args rs sys w is_host (w p).dev_dependencies else []))))) ∧
    (∀ outfile, target_option rs outfile is_host =
      if rs.m_opts.target_name.isSome = true ∧ is_host = false then
        ["--target", rs.m_opts.target_name.getD "", "-C",
          "emit-build-command=" ++ outfile ++ ".sh"]
      else []) ∧
    ("--target" ∉ verbatim_values rs sr p target is_host →
      ("--target" ∈ job.args ↔ rs.m_opts.target_name.isSome = true ∧ is_host = false)) ∧
    (∀ sjob, "--target" ∉ rs.m_opts.lib_search_dirs.map (search_dir rs true) →
      rs.m_opts.output_dir ≠ "--target" →
      Job_BuildScript.start rs sys sr w p = Except.ok sjob → "--target" ∉ sjob.args) := by
  obtain ⟨cp, hcp, hargs⟩ := build_target_start_args rs sys sr w p target is_host job h
  obtain ⟨hout, hty⟩ := get_crate_path_ne_target rs sys (w p) target is_host cp hcp
  have hsuffix := get_crate_path_out_suffix rs sys (w p) target is_host cp hcp
  have hsplit : job.args =
      ([path_join (parent_dir (w p).manifest_path) target.m_path] ++
        common_args rs (w p) cp.outfile is_host ++
        ["--crate-name", target.m_name, "--crate-type", cp.crate_type] ++
        crate_tag_args rs cp.out_crate_suffix cp.outfile) ++
      target_option rs cp.outfile is_host ++
      (((sr.build_script_output p).rustc_link_search.flatMap (fun d => ["-L", d.2]) ++
        (sr.build_script_output p).rustc_link_lib.flatMap (fun l =>
          ["-l", if l.1 == "framework" then "framework=" ++ l.2 else l.2]) ++
        (sr.build_script_output p).rustc_cfg.flatMap (fun c => ["--cfg", c]) ++
        (sr.build_script_output p).rustc_flags) ++
      (self_extern_args rs sys w p target is_host ++
        push_args_edition [] target.m_edition ++
        (if target.m_type = TargetType.Test then ["--test"] else []) ++
        main_extern_args rs sys w is_host (w p).main_dependencies ++
        (if target.m_type = TargetType.Test then
          dev_extern_args rs sys w is_host (w p).dev_dependencies else []))) := by
    rw [hargs, target_args_head_eq]
    simp only [List.append_assoc]
  have hfree_parts : "--target" ∉ verbatim_values rs sr p target is_host →
      "--target" ∉ ([path_join (parent_dir (w p).manifest_path) target.m_path] ++
        common_args rs (w p) cp.outfile is_host ++
        ["--crate-name", target.m_name, "--crate-type", cp.crate_type] ++
        crate_tag_args rs cp.out_crate_suffix cp.outfile) ∧
      "--target" ∉ (((sr.build_script_output p).rustc_link_search.flatMap (fun d => ["-L", d.2]) ++
        (sr.build_script_output p).rustc_link_lib.flatMap (fun l =>
          ["-l", if l.1 == "framework" then "framework=" ++ l.2 else l.2]) ++
        (sr.build_script_output p).rustc_cfg.flatMap (fun c => ["--cfg", c]) ++
        (sr.build_script_output p).rustc_flags) ++
      (self_extern_args rs sys w p target is_host ++
        push_args_edition [] target.m_edition ++
        (if target.m_type = TargetType.Test then ["--test"] else []) ++
        main_extern_args rs sys w is_host (w p).main_dependencies ++
        (if target.m_type = TargetType.Test then
          dev_extern_args rs sys w is_host (w p).dev_dependencies else []))) := by
    intro hfree
    unfold verbatim_values at hfree
    simp only [List.mem_append, List.mem_singleton, not_or] at hfree
    obtain ⟨⟨⟨⟨⟨⟨hdirs, hod⟩, hname⟩, hsearch⟩, hlib⟩, hcfg⟩, hflags⟩ := hfree
    have hod' : rs.m_opts.output_dir ≠ "--target" := fun e => hod e.symm
    constructor
    · intro hmem
      simp only [List.mem_append, List.mem_cons, List.mem_singleton, List.not_mem_nil,
        or_false] at hmem
      rcases hmem with ((e | hm) | e | e | e | e) | hm
      · exact path_join_ne_target _ _ e.symm
      · exact common_args_free rs (w p) cp.outfile is_host hout hdirs hod' hm
      · exact absurd e (by decide)
      · exact hname e
      · exact absurd e (by decide)
      · exact hty e.symm
      · rw [hsuffix] at hm
        exact crate_tag_args_free rs (w p) cp.outfile hm
    · intro hmem
      simp only [List.mem_append, List.mem_flatMap, List.mem_cons, List.mem_singleton,
        List.not_mem_nil, or_false] at hmem
      rcases hmem with (((hm | hm) | hm) | hm) | ((((hm | hm) | hm) | hm) | hm)
      · obtain ⟨d, hd, e | e⟩ := hm
        · exact absurd e (by decide)
        · exact hsearch (List.mem_map.mpr ⟨d, hd, e.symm⟩)
      · obtain ⟨l, hl, e | e⟩ := hm
        · exact absurd e (by decide)
        · split at e
          · exact assignment_ne_target "framework" l.2 e.symm
          · exact hlib (List.mem_map.mpr ⟨l, hl, e.symm⟩)
      · obtain ⟨c, hc, e | e⟩ := hm
        · exact absurd e (by decide)
        · rw [← e] at hc
          exact hcfg hc
      · exact hflags hm
      · exact self_extern_args_free rs sys w p target is_host hm
      · exact edition_args_free _ hm
      · split at hm
        · simp only [List.mem_singleton] at hm
          exact absurd hm (by decide)
        · simp at hm
      · exact main_extern_args_free rs sys w is_host _ hm
      · split at hm
        · exact dev_extern_args_free rs sys w is_host _ hm
        · simp at hm
  refine ⟨⟨cp, hcp, hsplit, hfree_parts⟩, ?_, ?_, ?_⟩
  · intro outfile
    unfold target_option
    cases rs.m_opts.target_name with
    | none => simp
    | some t => cases is_host <;> simp
  · intro hfree
    obtain ⟨hbefore, hafter⟩ := hfree_parts hfree
    rw [hsplit]
    constructor
    · intro hmem
      rcases List.mem_append.mp hmem with hm | hm
      · rcases List.mem_append.mp hm with hm | hm
        · exact absurd hm hbefore
        · exact (target_option_mem rs cp.outfile is_host).mp hm
      · exact absurd hm hafter
    · intro hc
      exact List.mem_append_left _ (List.mem_append_right _
        ((target_option_mem rs cp.outfile is_host).mpr hc))
  · intro sjob hsdirs hod' hs
    obtain ⟨args, hargs', rfl⟩ := build_script_start_inv rs sys sr w p sjob hs
    refine push_build_externs_free rs sys w _ _ _ ?_ hargs'
    rw [push_args_edition_eq, push_args_common_eq]
    intro hmem
    simp only [List.mem_append, List.mem_cons, List.mem_singleton, List.not_mem_nil,
      or_false] at hmem
    rcases hmem with (((((e | hm) | e) | e) | e) | e) | hm
    · exact path_join_ne_target _ _ e.symm
    · refine common_args_free rs (w p) _ true ?_ hsdirs hod' hm
      unfold RunState.get_build_script_exe
      exact ne_of_char '/' _ _
        (mem_toList_append_left _ _ _ (mem_toList_append_left _ _ _ (slash_mem_path_join _ _)))
        (by decide)
    · exact absurd e (by decide)
    · exact absurd e (by decide)
    · exact absurd e (by decide)
    · exact absurd e (by decide)
    · exact edition_args_free _ hm

/-- Witness of C27 (amended): the library job of `A` in the cross build of the scenario
passes `--target t`; its arguments are those before the option, the option and
the `--extern` of `B`. -/
theorem target_option_spec_witness :
    "--target" ∈ ["A/src/lib.rs", "-o", "out/libA-0_1_0.rlib", "-C",
      "emit-depfile=out/libA-0_1_0.rlib.d", "--cfg", "debug_assertions", "-O", "-L", "out",
      "-L", "out/host", "--crate-name", "A", "--crate-type", "rlib", "--crate-tag", "0_1_0",
      "--target", "t", "-C", "emit-build-command=out/libA-0_1_0.rlib.sh", "--extern",
      "B=out/libB-0_1_0.rlib"] ↔
    cross_rs.m_opts.target_name.isSome = true ∧ false = false :=
  (target_option_spec cross_rs empty_sys plain_surroundings scenario_world 0
    (lib_target "A" false) false
    ⟨"mrustc", ["A/src/lib.rs", "-o", "out/libA-0_1_0.rlib", "-C",
      "emit-depfile=out/libA-0_1_0.rlib.d", "--cfg", "debug_assertions", "-O", "-L", "out",
      "-L", "out/host", "--crate-name", "A", "--crate-type", "rlib", "--crate-tag", "0_1_0",
      "--target", "t", "-C", "emit-build-command=out/libA-0_1_0.rlib.sh", "--extern",
      "B=out/libB-0_1_0.rlib"],
      [("OUT_DIR", "/w/out/build_A-0_1_0"), ("CARGO_MANIFEST_DIR", "/w/A"),
        ("CARGO_PKG_NAME", "A"), ("CARGO_PKG_VERSION", "0.1.0"),
        ("CARGO_PKG_VERSION_MAJOR", "0"), ("CARGO_PKG_VERSION_MINOR", "1"),
        ("CARGO_PKG_VERSION_PATCH", "0")], "out/libA-0_1_0.rlib_dbg.txt", ""⟩
    (by decide)).2.2.1 (by decide)

/-- Counterexample to C27: the package `p` is compiled as a host unit in a
build for the target `t`, and its build script has asked for the flags
`--target` and `x`, which the job passes on as they are: the host unit
receives `--target`. -/
theorem host_unit_receives_target_flag :
    cross_rs.m_opts.target_name = some "t" ∧
    (flag_surroundings.build_script_output 0).rustc_flags = ["--target", "x"] ∧
    (Job_BuildTarget.start cross_rs empty_sys flag_surroundings script_world 0
        (lib_target "p" false) true).map (fun job => job.args) =
      Except.ok ["p/src/lib.rs", "-o", "out/host/libp-0_1_0.rlib", "-C",
        "emit-depfile=out/host/libp-0_1_0.rlib.d", "--cfg", "debug_assertions", "-O", "-L",
        "out/host", "--crate-name", "p", "--crate-type", "rlib", "--crate-tag", "0_1_0",
        "--target", "x"] ∧
    "--target" ∈ ["p/src/lib.rs", "-o", "out/host/libp-0_1_0.rlib", "-C",
      "emit-depfile=out/host/libp-0_1_0.rlib.d", "--cfg", "debug_assertions", "-O", "-L",
      "out/host", "--crate-name", "p", "--crate-type", "rlib", "--crate-tag", "0_1_0",
      "--target", "x"] := by
  refine ⟨?_, ?_, ?_, ?_⟩ <;> decide
/-! ## The working directory around `spawn_process` -/

/-- When `posix_spawn` succeeds, `spawn_process` returns in the directory it
was entered in, whatever the status of the child, provided that directory
could be opened. -/
theorem spawn_process_restores (os : Posix) (exe_name working_directory : String)
    (hopen : os.is_dir os.cwd = true)
    (hrun : (if working_directory != "" then os.chdir working_directory else os).run
      (if working_directory != "" then os.chdir working_directory else os).cwd exe_name
        ≠ none) :
    (spawn_process os exe_name working_directory).2.cwd = os.cwd := by
  unfold spawn_process
  dsimp only
  cases hr : (if working_directory != "" then os.chdir working_directory else os).run
      (if working_directory != "" then os.chdir working_directory else os).cwd exe_name with
  | none => exact absurd hr hrun
  | some status =>
    have hfd : os.open_directory "." = some os.cwd := by
      simp [Posix.open_directory, Posix.resolve, hopen]
    have hcwd : (if working_directory != "" then
        (if working_directory != "" then os.chdir working_directory else os).fchdir
          (os.open_directory ".")
        else (if working_directory != "" then os.chdir working_directory else os)).cwd =
        os.cwd := by
      by_cases hw : working_directory = ""
      · simp [hw]
      · simp [hw, hfd, Posix.fchdir]
    dsimp only
    split <;> exact hcwd

/-- C33: `spawn_process` is called in `/w` with the working directory `pkg`.
For an executable that `posix_spawn` cannot start it returns false and leaves
the process in `/w/pkg`; for one that is started and exits with status zero it
returns true and the process is back in `/w`. -/
theorem spawn_failure_keeps_working_directory :
    spawn_os.cwd = "/w" ∧
    (spawn_process spawn_os "/w/out/missing" "pkg").1 = false ∧
    (spawn_process spawn_os "/w/out/missing" "pkg").2.cwd = "/w/pkg" ∧
    (spawn_process spawn_os "/w/out/build_p_run" "pkg").1 = true ∧
    (spawn_process spawn_os "/w/out/build_p_run" "pkg").2.cwd = "/w" := by
  refine ⟨rfl, ?_, ?_, ?_, ?_⟩ <;> decide
/-! ## Extern wiring of dev-dependencies -/

/-- C38: tests of `app` are built for the target `t`; the dev-dependency `pm`
of `app` is a proc-macro library. The list holds `pm` as a host unit, whose
job writes `out/host/libpm_lib-0_1_0-plugin`; the job of the test `t1` is
planned as a target unit and is started with
`--extern pm=out/libpm_lib-0_1_0-plugin`. -/
theorem dev_proc_macro_extern_path :
    BuildList.new dev_proc_world 2 0 cross_test_opts = some [⟨1, true⟩, ⟨0, false⟩] ∧
    (entry_job (BuildList.run_state empty_sys cross_test_opts) dev_proc_world ⟨1, true⟩).bind
        (Job.get_outfile (BuildList.run_state empty_sys cross_test_opts) empty_sys
          dev_proc_world) =
      Except.ok "out/host/libpm_lib-0_1_0-plugin" ∧
    (⟨JobKind.BuildTarget (test_target "t1") false, 0, "app v0.1.0", ["app v0.1.0"], ""⟩ : Job) ∈
      planned_jobs (BuildList.build empty_sys dev_proc_world 0 [⟨1, true⟩, ⟨0, false⟩]
        cross_test_opts) ∧
    (Job_BuildTarget.start (BuildList.run_state empty_sys cross_test_opts) empty_sys
        plain_surroundings dev_proc_world 0 (test_target "t1") false).map (fun job => job.args) =
      Except.ok ["app/tests/t1.rs", "-o", "out/t1", "-C", "emit-depfile=out/t1.d", "--cfg",
        "debug_assertions", "-O", "-L", "out", "-L", "out/host", "--crate-name", "t1",
        "--crate-type", "bin", "--crate-tag", "0_1_0", "--target", "t", "-C",
        "emit-build-command=out/t1.sh", "--extern", "app_lib=out/libapp_lib-0_1_0.rlib",
        "--edition", "2018", "--test", "--extern", "pm=out/libpm_lib-0_1_0-plugin"] := by
  refine ⟨?_, ?_, ?_, ?_⟩ <;> decide
/-! ## Dependencies of planned jobs under the MMIR fallback -/

/-- C35: with `emit_mmir` set, the build script of `p` compiled and up to date
in `out-mmir`, and the output of an earlier run of the script lying in `out`,
the plan of `build` consists of the library job of `p` alone, and that job
lists the dependency `p v0.1.0 (build)`, which is the name of no job of the
plan. -/
theorem mmir_dependency_not_scheduled :
    BuildList.new script_world 1 0 mmir_opts = some [⟨0, true⟩] ∧
    planned_jobs (BuildList.build mmir_sys script_world 0 [⟨0, true⟩] mmir_opts) =
      [mmir_lib_job] ∧
    mmir_lib_job.m_dependencies = ["p v0.1.0 (build)"] ∧
    "p v0.1.0 (build)" ∉
      (planned_jobs (BuildList.build mmir_sys script_world 0 [⟨0, true⟩] mmir_opts)).map
        (fun job => job.name) := by
  refine ⟨?_, ?_, ?_, ?_⟩ <;> decide
/-! ## Termination of the constructor -/

theorem walked_step (w : World) (opts : BuildOptions) (root p q : PkgId)
    (hp : Walked w opts root p) (hpq : WalkEdge w p q) : Walked w opts root q := by
  rcases hp with hp | ⟨hm, d, hd, hp⟩
  · exact Or.inl (hp.tail hpq)
  · exact Or.inr ⟨hm, d, hd, hp.tail hpq⟩

theorem walk_edge_of_mem (w : World) (p : PkgId) (dep : PackageRef)
    (hd : dep ∈ (w p).main_dependencies ++ (w p).build_dependencies)
    (hdis : dep.is_disabled = false) : WalkEdge w p dep.get_package := by
  rcases List.mem_append.mp hd with h | h
  · exact Or.inl ⟨dep, h, hdis, rfl⟩
  · exact Or.inr ⟨dep, h, hdis, rfl⟩

/-- A relation without cycles on a finite set that it does not leave has a
rank: a number, bounded by the size of the set, that decreases along it. -/
theorem rank_of_finite_acyclic (R : PkgId → PkgId → Prop) (S : PkgId → Prop)
    (s : Finset PkgId) (hs : ∀ p, S p → p ∈ s) (hclosed : ∀ p q, S p → R p q → S q)
    (hacyc : ∀ p, S p → ¬ Relation.TransGen R p p) :
    ∃ rank : PkgId → Nat, (∀ p, rank p ≤ s.card) ∧ ∀ p q, S p → R p q → rank q < rank p := by
  classical
  refine ⟨fun p => (s.filter (fun x => Relation.TransGen R p x)).card,
    fun p => Finset.card_filter_le _ _, ?_⟩
  intro p q hp hpq
  apply Finset.card_lt_card
  rw [Finset.ssubset_iff_of_subset]
  · refine ⟨q, ?_, ?_⟩
    · exact Finset.mem_filter.mpr ⟨hs q (hclosed p q hp hpq), Relation.TransGen.single hpq⟩
    · intro hq
      exact hacyc q (hclosed p q hp hpq) (Finset.mem_filter.mp hq).2
  · intro x hx
    obtain ⟨hx1, hx2⟩ := Finset.mem_filter.mp hx
    exact Finset.mem_filter.mpr ⟨hx1, Relation.TransGen.head hpq hx2⟩

/-- With fuel above the rank of the package, `add_package` returns, when the
rank decreases along the edges below the package. -/
theorem add_package_isSome_on (w : World) (rank : PkgId → Nat) (S : PkgId → Prop)
    (hS : ∀ p, S p → ∀ dep ∈ (w p).main_dependencies ++ (w p).build_dependencies,
      dep.is_disabled = false → S dep.get_package ∧ rank dep.get_package < rank p) :
    ∀ fuel p, S p → rank p < fuel → ∀ level ib nat l,
      (add_package w fuel p level ib nat l).isSome = true := by
  intro fuel
  induction fuel with
  | zero => intro p _ hp; exact absurd hp (Nat.not_lt_zero _)
  | succ fuel ih =>
    intro p hSp hp level ib nat l
    simp only [add_package]
    generalize (if (w p).is_proc_lib = true then true else nat) = nat'
    split
    · rfl
    · apply add_dependencies_with_isSome
      intro dep hd hdis
      obtain ⟨h1, h2⟩ := hS p hSp dep hd hdis
      exact ih dep.get_package h1 (by omega)

theorem collect_isSome_on (w : World) (rank : PkgId → Nat) (S : PkgId → Prop)
    (hS : ∀ p, S p → ∀ dep ∈ (w p).main_dependencies ++ (w p).build_dependencies,
      dep.is_disabled = false → S dep.get_package ∧ rank dep.get_package < rank p)
    (root : PkgId) (opts : BuildOptions) (hroot : S root)
    (hdev : opts.mode ≠ Mode.Normal → ∀ dep ∈ (w root).dev_dependencies,
      dep.is_disabled = false → S dep.get_package)
    (fuel : Nat) (hfuel : ∀ p, S p → rank p < fuel) :
    (BuildList.collect w fuel root opts).isSome = true := by
  unfold BuildList.collect add_dependencies
  dsimp only
  have hr0 := add_dependencies_with_isSome (add_package w fuel) (w root) 0
    (!opts.build_script_overrides.isSome) (!opts.target_name.isSome)
    (fun dep hd hdis => add_package_isSome_on w rank S hS fuel dep.get_package
      (hS root hroot dep hd hdis).1 (hfuel _ (hS root hroot dep hd hdis).1)) []
  cases hr : add_dependencies_with (add_package w fuel) (w root) 0
      (!opts.build_script_overrides.isSome) (!opts.target_name.isSome) [] with
  | none => rw [hr] at hr0; exact absurd hr0 (by simp)
  | some l1 =>
    dsimp only
    split
    · rename_i hmode
      apply add_each_isSome
      intro dep hd hdis
      have hSd := hdev (by simpa using hmode) dep hd hdis
      exact add_package_isSome_on w rank S hS fuel dep.get_package hSd (hfuel _ hSd)
    · rfl

/-- C36 (amended): when the packages that the constructor can come to from the
root (through non-disabled main- and build-dependency edges and, in the test
and example modes, in the same way from the non-disabled dev-dependencies of
the root) are finitely many and no chain of non-disabled main- and
build-dependency edges leads from one of them back to itself, then
`BuildList::BuildList` returns: some depth of the recursion `add_package` /
`add_dependencies` suffices, and with every greater bound the constructor
returns the same list. -/
theorem constructor_terminates (w : World) (root : PkgId) (opts : BuildOptions)
    (s : Finset PkgId) (hfin : ∀ p, Walked w opts root p → p ∈ s)
    (hacyc : ∀ p, Walked w opts root p → ¬ Relation.TransGen (WalkEdge w) p p) :
    ∃ fuel final, ∀ k, BuildList.new w (fuel + k) root opts = some final := by
  obtain ⟨rank, hle, hlt⟩ := rank_of_finite_acyclic (WalkEdge w) (Walked w opts root) s hfin
    (fun p q hp hpq => walked_step w opts root p q hp hpq) hacyc
  have hS : ∀ p, Walked w opts root p →
      ∀ dep ∈ (w p).main_dependencies ++ (w p).build_dependencies,
      dep.is_disabled = false →
        Walked w opts root dep.get_package ∧ rank dep.get_package < rank p := by
    intro p hp dep hd hdis
    have he := walk_edge_of_mem w p dep hd hdis
    exact ⟨walked_step w opts root p _ hp he, hlt p _ hp he⟩
  have hs := collect_isSome_on w rank (Walked w opts root) hS root opts
    (Or.inl Relation.ReflTransGen.refl)
    (fun hm dep hd hdis => Or.inr ⟨hm, dep.get_package, ⟨dep, hd, hdis, rfl⟩,
      Relation.ReflTransGen.refl⟩)
    (s.card + 1) (fun p _ => Nat.lt_succ_of_le (hle p))
  cases hc : BuildList.collect w (s.card + 1) root opts with
  | none => rw [hc] at hs; exact absurd hs (by simp)
  | some pre =>
    refine ⟨s.card + 1, to_graph (sort_list pre), fun k => ?_⟩
    unfold BuildList.new
    rw [collect_mono w (s.card + 1) k root opts pre hc]
    rfl

theorem walked_in (w : World) (opts : BuildOptions) (root : PkgId) (s : Finset PkgId)
    (hroot : root ∈ s) (hdev : ∀ d, DevEdge w root d → d ∈ s)
    (hstep : ∀ p q, p ∈ s → WalkEdge w p q → q ∈ s) :
    ∀ p, Walked w opts root p → p ∈ s := by
  have hreach : ∀ a, a ∈ s → ∀ p, Relation.ReflTransGen (WalkEdge w) a p → p ∈ s := by
    intro a ha p hp
    induction hp with
    | refl => exact ha
    | tail _ hbc ih => exact hstep _ _ ih hbc
  rintro p (hp | ⟨_, d, hd, hp⟩)
  · exact hreach root hroot p hp
  · exact hreach d (hdev d hd) p hp

theorem no_cycle_of_rank (w : World) (rank : PkgId → Nat) (hacyc : Acyclic w rank) :
    ∀ p, ¬ Relation.TransGen (WalkEdge w) p p := by
  have hlt : ∀ p q, Relation.TransGen (WalkEdge w) p q → rank q < rank p := by
    intro p q hpq
    induction hpq with
    | single h =>
      rcases h with ⟨dep, hd, hdis, rfl⟩ | ⟨dep, hd, hdis, rfl⟩
      · exact hacyc p dep (List.mem_append_left _ hd) hdis
      · exact hacyc p dep (List.mem_append_right _ hd) hdis
    | @tail b c _ h ih =>
      have : rank c < rank b := by
        rcases h with ⟨dep, hd, hdis, rfl⟩ | ⟨dep, hd, hdis, rfl⟩
        · exact hacyc b dep (List.mem_append_left _ hd) hdis
        · exact hacyc b dep (List.mem_append_right _ hd) hdis
      omega
  intro p hp
  exact Nat.lt_irrefl _ (hlt p p hp)

theorem reach_world_edges (p : PkgId) (dep : PackageRef)
    (hd : dep ∈ (reach_world p).main_dependencies ++ (reach_world p).build_dependencies ++
      (reach_world p).dev_dependencies) : dep.get_package ∈ Finset.range 6 := by
  match p with
  | 0 =>
    simp only [reach_world, simple_manifest, dep_on, List.append_nil, List.mem_append,
      List.mem_cons, List.mem_singleton, List.not_mem_nil, or_false] at hd
    rcases hd with (rfl | rfl) | rfl <;> decide
  | 1 =>
    simp only [reach_world, simple_manifest, dep_on, List.append_nil, List.mem_cons,
      List.mem_singleton, List.not_mem_nil, or_false] at hd
    subst hd
    decide
  | 2 => simp [reach_world, simple_manifest] at hd
  | 3 => simp [reach_world, simple_manifest] at hd
  | 4 =>
    simp only [reach_world, simple_manifest, dep_on, List.append_nil, List.mem_cons,
      List.mem_singleton, List.not_mem_nil, or_false] at hd
    subst hd
    decide
  | n + 5 => simp [reach_world, simple_manifest] at hd

/-- Witness of C36 (amended) on `reach_world` in test mode: the six packages hold
everything the constructor comes to, the rank `reach_rank` excludes cycles,
and the constructor returns the list of the five packages walked. -/
theorem constructor_terminates_witness :
    (∃ fuel final, ∀ k, BuildList.new reach_world (fuel + k) 0 test_opts = some final) ∧
    BuildList.new reach_world 3 0 test_opts =
      some [⟨2, true⟩, ⟨5, true⟩, ⟨1, true⟩, ⟨4, true⟩, ⟨0, true⟩] :=
  ⟨constructor_terminates reach_world 0 test_opts (Finset.range 6)
    (walked_in reach_world test_opts 0 (Finset.range 6) (by decide)
      (fun d ⟨dep, hd, _, hq⟩ => hq ▸ reach_world_edges 0 dep (List.mem_append_right _ hd))
      (fun p q _ hpq => by
        rcases hpq with ⟨dep, hd, _, rfl⟩ | ⟨dep, hd, _, rfl⟩
        · exact reach_world_edges p dep
            (List.mem_append_left _ (List.mem_append_left _ hd))
        · exact reach_world_edges p dep
            (List.mem_append_left _ (List.mem_append_right _ hd))))
    (fun p _ => no_cycle_of_rank reach_world reach_rank reach_world_acyclic p),
   by decide⟩

theorem dev_cycle_add_package : ∀ (fuel level : Nat) (ib nat : Bool) (l : List Ent),
    (∀ e ∈ l, e.package = 1 → e.level < level) →
    add_package dev_cycle_world fuel 1 level ib nat l = none := by
  intro fuel
  induction fuel with
  | zero => intro level ib nat l _; rfl
  | succ fuel ih =>
    intro level ib nat l hl
    simp only [add_package]
    generalize (if (dev_cycle_world 1).is_proc_lib = true then true else nat) = nat'
    have hnot : l.any (fun ent => ent.covers 1 nat' level) = false := by
      rw [List.any_eq_false]
      intro e he hc
      simp only [Ent.covers, Bool.and_eq_true, beq_iff_eq, decide_eq_true_eq] at hc
      have := hl e he hc.1.1
      omega
    rw [hnot]
    simp only [Bool.false_eq_true, if_false]
    unfold add_dependencies_with
    have hmain : (dev_cycle_world 1).main_dependencies = [dep_on "d" 1] := rfl
    rw [hmain]
    simp only [add_each, dep_on, Bool.false_eq_true, if_false]
    rw [ih (level + 1) ib nat' _ (by
      intro e he hp
      rcases List.mem_append.mp he with he | he
      · have := hl e he hp
        omega
      · simp only [List.mem_singleton] at he
        subst he
        exact Nat.lt_succ_self _)]

theorem no_walk_edge_from_root (q : PkgId) : ¬ WalkEdge dev_cycle_world 0 q := by
  rintro (⟨dep, hd, _⟩ | ⟨dep, hd, _⟩)
  · simp [dev_cycle_world, simple_manifest] at hd
  · simp [dev_cycle_world, simple_manifest] at hd

/-- Counterexample to C36: the root `r` has no main or build dependency, so
nothing but `r` is reached from it through such edges and no chain of them
leads back to `r`; in normal mode the constructor returns. In test mode it
walks the dev-dependency `d`, which lists itself as a main dependency, and
returns for no bound on the depth of the recursion. -/
theorem dev_dependency_cycle_diverges :
    (∀ p, Relation.ReflTransGen (WalkEdge dev_cycle_world) 0 p → p = 0) ∧
    (∀ p, Relation.ReflTransGen (WalkEdge dev_cycle_world) 0 p →
      ¬ Relation.TransGen (WalkEdge dev_cycle_world) p p) ∧
    BuildList.new dev_cycle_world 1 0 host_opts = some [⟨0, true⟩] ∧
    (∀ fuel, BuildList.new dev_cycle_world fuel 0 test_opts = none) := by
  have hreach : ∀ p, Relation.ReflTransGen (WalkEdge dev_cycle_world) 0 p → p = 0 := by
    intro p hp
    induction hp with
    | refl => rfl
    | tail _ hbc ih =>
      subst ih
      exact absurd hbc (no_walk_edge_from_root _)
  refine ⟨hreach, ?_, by decide, ?_⟩
  · intro p hp hcyc
    have h0 := hreach p hp
    subst h0
    obtain ⟨b, hb, _⟩ := Relation.TransGen.head'_iff.mp hcyc
    exact no_walk_edge_from_root b hb
  · intro fuel
    have hc : BuildList.collect dev_cycle_world fuel 0 test_opts = none := by
      unfold BuildList.collect add_dependencies add_dependencies_with
      have h1 : (dev_cycle_world 0).main_dependencies = [] := rfl
      have h2 : (dev_cycle_world 0).build_script = "" := rfl
      have h3 : (dev_cycle_world 0).has_library = true := rfl
      have h4 : (dev_cycle_world 0).dev_dependencies = [dep_on "d" 1] := rfl
      have h5 : test_opts.mode = Mode.Test := rfl
      simp only [h1, h2, h3, h4, h5, add_each, dep_on]
      simp only [bne_self_eq_false, Bool.false_and, Bool.false_eq_true, if_false, if_true,
        List.nil_append]
      rw [dev_cycle_add_package fuel 1 _ _ _ (by
        intro e he hp
        simp only [List.mem_singleton] at he
        subst he
        exact absurd hp (by decide))]
      rfl
    unfold BuildList.new
    rw [hc]
    rfl
/-! ## Lemmas on build-dependencies in the graph builder -/

theorem build_deps_in_mono {w : World} {ib0 : Bool} {e : Ent} {l : List Ent}
    (h : BuildDepsIn w ib0 e l) (ext : List Ent) : BuildDepsIn w ib0 e (l ++ ext) := by
  intro hs hib dep hd hdis
  obtain ⟨e', he', h1, h2, h3⟩ := h hs hib dep hd hdis
  exact ⟨e', List.mem_append_left _ he', h1, h2, h3⟩

theorem add_each_bclosed (w : World) (ib0 : Bool)
    (addp : PkgId → Nat → Bool → Bool → List Ent → Option (List Ent))
    (haddp : ∀ p level ib nat l l', (ib0 = true → ib = true) →
      addp p level ib nat l = some l' →
      BuildClosedAbove w ib0 level l → BuildClosedAbove w ib0 level l')
    (level : Nat) (ib nat : Bool) (hib : ib0 = true → ib = true) (deps : List PackageRef) :
    ∀ l l', add_each addp level ib nat deps l = some l' →
      BuildClosedAbove w ib0 (level + 1) l → BuildClosedAbove w ib0 (level + 1) l' := by
  induction deps with
  | nil =>
    intro l l' h hc
    simp only [add_each, Option.some.injEq] at h
    subst h
    exact hc
  | cons dep rest ih =>
    intro l l' h hc
    simp only [add_each] at h
    by_cases hdis : dep.is_disabled = true
    · simp only [hdis, if_true] at h
      exact ih l l' h hc
    · simp only [hdis] at h
      cases hcall : addp dep.get_package (level + 1) ib nat l with
      | none => simp [hcall] at h
      | some l1 =>
        simp only [hcall] at h
        exact ih l1 l' h (haddp _ _ _ _ _ _ hib hcall hc)

theorem add_dependencies_with_bclosed (w : World) (ib0 : Bool)
    (addp : PkgId → Nat → Bool → Bool → List Ent → Option (List Ent))
    (hok : ∀ p level ib nat l l', addp p level ib nat l = some l' → AddOk w p level nat l l')
    (haddp : ∀ p level ib nat l l', (ib0 = true → ib = true) →
      addp p level ib nat l = some l' →
      BuildClosedAbove w ib0 level l → BuildClosedAbove w ib0 level l')
    (p : PackageManifest) (level : Nat) (ib nat : Bool) (hib : ib0 = true → ib = true)
    (l l' : List Ent) (h : add_dependencies_with addp p level ib nat l = some l') :
    (BuildClosedAbove w ib0 (level + 1) l → BuildClosedAbove w ib0 (level + 1) l') ∧
    (p.build_script ≠ "" → ib0 = true → ∀ dep ∈ p.build_dependencies,
      dep.is_disabled = false →
        ∃ e' ∈ l', e'.package = dep.get_package ∧ e'.native = true ∧ level + 1 ≤ e'.level) := by
  unfold add_dependencies_with at h
  cases hmain : add_each addp level ib nat p.main_dependencies l with
  | none => simp [hmain] at h
  | some l1 =>
    simp only [hmain] at h
    have hm := add_each_bclosed w ib0 addp haddp level ib nat hib _ _ _ hmain
    split at h
    · have hb := add_each_bclosed w ib0 addp haddp level true true (fun _ => rfl) _ _ _ h
      obtain ⟨_, _, _, _, h4⟩ := add_each_ok w addp hok level true true _ _ _ h
      refine ⟨fun hc => hb (hm hc), ?_⟩
      intro _ _ dep hd hdis
      obtain ⟨e', he', r1, r2, r3⟩ := h4 dep hd hdis
      exact ⟨e', he', r1, by simpa using r2, r3⟩
    · rename_i hcond
      simp only [Option.some.injEq] at h
      subst h
      refine ⟨hm, ?_⟩
      intro hs hib0
      exfalso
      apply hcond
      simp [hs, hib hib0]

theorem add_package_bclosed (w : World) (ib0 : Bool) :
    ∀ fuel p level ib nat l l', (ib0 = true → ib = true) →
      add_package w fuel p level ib nat l = some l' →
      BuildClosedAbove w ib0 level l → BuildClosedAbove w ib0 level l' := by
  intro fuel
  induction fuel with
  | zero => intro p level ib nat l l' _ h; simp [add_package] at h
  | succ fuel ih =>
    intro p level ib nat l l' hib h hc
    simp only [add_package] at h
    generalize (if (w p).is_proc_lib = true then true else nat) = nat' at h
    split at h
    · simp only [Option.some.injEq] at h
      subst h
      exact hc
    · obtain ⟨ext, h1, h2, _, _⟩ :=
        add_dependencies_with_ok w _ (add_package_ok w fuel) _ _ _ _ _ _ h
      obtain ⟨b1, b2⟩ := add_dependencies_with_bclosed w ib0 _ (add_package_ok w fuel) ih
        (w p) level ib nat' hib _ _ h
      have hc1 : BuildClosedAbove w ib0 (level + 1) (l ++ [⟨p, nat', level⟩]) := by
        intro e he hle
        rcases List.mem_append.mp he with he | he
        · exact build_deps_in_mono (hc e he (Nat.le_of_succ_le hle)) _
        · simp only [List.mem_singleton] at he
          subst he
          simp at hle
      have hc2 := b1 hc1
      intro e he hle
      rw [h1] at he
      rcases List.mem_append.mp he with he | he
      · rcases List.mem_append.mp he with he | he
        · have := build_deps_in_mono (build_deps_in_mono (hc e he hle) [⟨p, nat', level⟩]) ext
          rw [h1]; exact this
        · simp only [List.mem_singleton] at he
          subst he
          intro hs hib0 dep hd hdis
          obtain ⟨e', he', r1, r2, r3⟩ := b2 hs hib0 dep hd hdis
          exact ⟨e', he', r1, r2, r3⟩
      · exact hc2 e (by rw [h1]; exact List.mem_append_right _ he) (h2 e he)

/-- After the constructor has collected the list, every entry whose package
has a build script has all its non-disabled build-dependencies in the list as
host entries of strictly greater level, unless overrides are configured; so
has the root. -/
theorem collect_bclosed (w : World) (fuel : Nat) (root : PkgId) (opts : BuildOptions)
    (pre : List Ent) (h : BuildList.collect w fuel root opts = some pre) :
    (∀ e ∈ pre, BuildDepsIn w (!opts.build_script_overrides.isSome) e pre) ∧
    ((w root).build_script ≠ "" → opts.build_script_overrides.isSome = false →
      ∀ dep ∈ (w root).build_dependencies, dep.is_disabled = false →
        ∃ e' ∈ pre, e'.package = dep.get_package ∧ e'.native = true) := by
  unfold BuildList.collect at h
  dsimp only at h
  cases hroot : add_dependencies w fuel root 0 (!opts.build_script_overrides.isSome)
      (!opts.target_name.isSome) [] with
  | none => rw [hroot] at h; exact absurd h (by simp)
  | some l1 =>
    rw [hroot] at h
    dsimp only at h
    obtain ⟨ext1, e1, e2, _, _⟩ := add_dependencies_ok w _ _ _ _ _ _ _ hroot
    simp only [List.nil_append] at e1
    subst e1
    obtain ⟨b1, b2⟩ := add_dependencies_with_bclosed w (!opts.build_script_overrides.isSome) _
      (add_package_ok w fuel) (add_package_bclosed w _ fuel) (w root) 0 _ _ (fun h => h)
      _ _ hroot
    have hc1 : BuildClosedAbove w (!opts.build_script_overrides.isSome) 1 l1 :=
      b1 (by intro e he; simp at he)
    have hroot_deps : ∀ l2 : List Ent, (∀ e ∈ l1, e ∈ l2) →
        BuildDepsIn w (!opts.build_script_overrides.isSome)
          ⟨root, !opts.target_name.isSome, 0⟩ l2 := by
      intro l2 hsub hs hib dep hd hdis
      obtain ⟨e', he', r1, r2, r3⟩ := b2 hs hib dep hd hdis
      exact ⟨e', hsub e' he', r1, r2, r3⟩
    have hc2 : ∀ l2, l2 = (if (w root).has_library then
        l1 ++ [(⟨root, !opts.target_name.isSome, 0⟩ : Ent)] else l1) →
        BuildClosedAbove w (!opts.build_script_overrides.isSome) 0 l2 ∧
        ∀ e ∈ l1, e ∈ l2 := by
      intro l2 hl2
      split at hl2
      · subst hl2
        refine ⟨?_, fun e he => List.mem_append_left _ he⟩
        intro e he _
        rcases List.mem_append.mp he with he | he
        · exact build_deps_in_mono (hc1 e he (e2 e he)) _
        · simp only [List.mem_singleton] at he
          subst he
          exact hroot_deps _ (fun e he => List.mem_append_left _ he)
      · subst hl2
        exact ⟨fun e he _ => hc1 e he (e2 e he), fun e he => he⟩
    have hfinal : (∀ e ∈ pre, BuildDepsIn w (!opts.build_script_overrides.isSome) e pre) ∧
        ∀ e ∈ l1, e ∈ pre := by
      split at h
      · obtain ⟨ext, h1, h2, _, _⟩ := add_each_ok w _ (add_package_ok w fuel) _ _ _ _ _ _ h
        obtain ⟨hc0, hsub⟩ := hc2 _ rfl
        have hc3 := add_each_bclosed w _ _ (add_package_bclosed w _ fuel) 0 _ _ (fun h => h)
          _ _ _ h (fun e he _ => hc0 e he (Nat.zero_le _))
        refine ⟨?_, fun e he => by rw [h1]; exact List.mem_append_left _ (hsub e he)⟩
        intro e he
        rw [h1] at he
        rcases List.mem_append.mp he with he | he
        · rw [h1]; exact build_deps_in_mono (hc0 e he (Nat.zero_le _)) _
        · exact hc3 e (by rw [h1]; exact List.mem_append_right _ he) (h2 e he)
      · simp only [Option.some.injEq] at h
        obtain ⟨hc0, hsub⟩ := hc2 _ h.symm
        exact ⟨fun e he => hc0 e he (Nat.zero_le _), hsub⟩
    refine ⟨hfinal.1, ?_⟩
    intro hs hov dep hd hdis
    obtain ⟨e', he', r1, r2, _⟩ := b2 hs (by simp [hov]) dep hd hdis
    exact ⟨e', hfinal.2 e' he', r1, r2⟩
/-! ## Build-dependency edges in the graph builder -/

theorem without_build_deps_fields (w : World) (ib0 : Bool) (p : PkgId) :
    (without_build_deps w ib0 p).main_dependencies = (w p).main_dependencies ∧
    (without_build_deps w ib0 p).dev_dependencies = (w p).dev_dependencies ∧
    (without_build_deps w ib0 p).build_script = (w p).build_script ∧
    (without_build_deps w ib0 p).is_proc_lib = (w p).is_proc_lib ∧
    (without_build_deps w ib0 p).has_library = (w p).has_library ∧
    (((w p).build_script != "" && ib0) = true →
      (without_build_deps w ib0 p).build_dependencies = (w p).build_dependencies) := by
  unfold without_build_deps
  split
  · exact ⟨rfl, rfl, rfl, rfl, rfl, fun _ => rfl⟩
  · rename_i hc
    exact ⟨rfl, rfl, rfl, rfl, rfl, fun h => absurd h hc⟩

theorem add_each_congr
    (addp addq : PkgId → Nat → Bool → Bool → List Ent → Option (List Ent))
    (level : Nat) (ib nat : Bool)
    (h : ∀ p l, addp p (level + 1) ib nat l = addq p (level + 1) ib nat l)
    (deps : List PackageRef) :
    ∀ l, add_each addp level ib nat deps l = add_each addq level ib nat deps l := by
  induction deps with
  | nil => intro l; rfl
  | cons dep rest ih =>
    intro l
    simp only [add_each]
    split
    · exact ih l
    · rw [h]
      cases addq dep.get_package (level + 1) ib nat l with
      | none => rfl
      | some l1 => exact ih l1

/-- The build-dependencies of a package without a build script, and all
build-dependencies when they are not included, have no part in `add_package`. -/
theorem add_package_without (w : World) (ib0 : Bool) :
    ∀ fuel p level ib nat l, (ib = true → ib0 = true) →
      add_package (without_build_deps w ib0) fuel p level ib nat l =
        add_package w fuel p level ib nat l := by
  intro fuel
  induction fuel with
  | zero => intro p level ib nat l _; rfl
  | succ fuel ih =>
    intro p level ib nat l hib
    obtain ⟨f1, _, f3, f4, _, f6⟩ := without_build_deps_fields w ib0 p
    simp only [add_package, f4]
    generalize (if (w p).is_proc_lib = true then true else nat) = nat'
    split
    · rfl
    · unfold add_dependencies_with
      rw [f1, f3, add_each_congr _ _ level ib nat' (fun q l => ih q _ ib nat' l hib)]
      cases add_each (add_package w fuel) level ib nat' (w p).main_dependencies
          (l ++ [⟨p, nat', level⟩]) with
      | none => rfl
      | some l1 =>
        dsimp only
        split
        · rename_i hc
          have hc0 : ((w p).build_script != "") = true ∧ ib = true := by
            simpa only [Bool.and_eq_true] using hc
          have hc' : ((w p).build_script != "" && ib0) = true := by
            simp only [Bool.and_eq_true]
            exact ⟨hc0.1, hib hc0.2⟩
          rw [f6 hc', add_each_congr _ _ level true true
            (fun q l => ih q _ true true l (fun _ => hib hc0.2))]
        · rfl

theorem collect_without (w : World) (fuel : Nat) (root : PkgId) (opts : BuildOptions) :
    BuildList.collect (without_build_deps w (!opts.build_script_overrides.isSome)) fuel root
      opts = BuildList.collect w fuel root opts := by
  obtain ⟨f1, f2, f3, _, f5, f6⟩ :=
    without_build_deps_fields w (!opts.build_script_overrides.isSome) root
  have hadd : ∀ level nat q l,
      add_package (without_build_deps w (!opts.build_script_overrides.isSome)) fuel q level
        (!opts.build_script_overrides.isSome) nat l =
      add_package w fuel q level (!opts.build_script_overrides.isSome) nat l :=
    fun level nat q l => add_package_without w _ fuel q level _ nat l (fun h => h)
  have hroot : add_dependencies (without_build_deps w (!opts.build_script_overrides.isSome))
      fuel root 0 (!opts.build_script_overrides.isSome) (!opts.target_name.isSome) [] =
      add_dependencies w fuel root 0 (!opts.build_script_overrides.isSome)
        (!opts.target_name.isSome) [] := by
    unfold add_dependencies add_dependencies_with
    rw [f1, f3, add_each_congr _ _ 0 _ _ (fun q l => hadd 1 _ q l)]
    cases add_each (add_package w fuel) 0 (!opts.build_script_overrides.isSome)
        (!opts.target_name.isSome) (w root).main_dependencies [] with
    | none => rfl
    | some l1 =>
      dsimp only
      split
      · rename_i hc
        have hc0 : ((w root).build_script != "") = true ∧
            (!opts.build_script_overrides.isSome) = true := by
          simpa only [Bool.and_eq_true] using hc
        rw [f6 hc, add_each_congr _ _ 0 true true
          (fun q l => add_package_without w _ fuel q _ true true l (fun _ => hc0.2))]
      · rfl
  unfold BuildList.collect
  dsimp only
  rw [hroot, f5, f2]
  cases add_dependencies w fuel root 0 (!opts.build_script_overrides.isSome)
      (!opts.target_name.isSome) [] with
  | none => rfl
  | some l1 =>
    dsimp only
    split
    · exact add_each_congr _ _ 0 _ _ (fun q l => hadd 1 _ q l) _ _
    · rfl

theorem add_each_native
    (addp : PkgId → Nat → Bool → Bool → List Ent → Option (List Ent))
    (haddp : ∀ p level ib l l', addp p level ib true l = some l' →
      ∀ e ∈ l', e ∈ l ∨ e.native = true)
    (level : Nat) (ib : Bool) (deps : List PackageRef) :
    ∀ l l', add_each addp level ib true deps l = some l' →
      ∀ e ∈ l', e ∈ l ∨ e.native = true := by
  induction deps with
  | nil =>
    intro l l' h e he
    simp only [add_each, Option.some.injEq] at h
    subst h
    exact Or.inl he
  | cons dep rest ih =>
    intro l l' h e he
    simp only [add_each] at h
    by_cases hdis : dep.is_disabled = true
    · simp only [hdis, if_true] at h
      exact ih l l' h e he
    · simp only [hdis] at h
      cases hcall : addp dep.get_package (level + 1) ib true l with
      | none => simp [hcall] at h
      | some l1 =>
        simp only [hcall] at h
        rcases ih l1 l' h e he with he1 | hn
        · exact haddp _ _ _ _ _ hcall e he1
        · exact Or.inr hn

/-- A call of `add_package` for a host unit appends host entries only. -/
theorem add_package_native (w : World) :
    ∀ fuel p level ib l l', add_package w fuel p level ib true l = some l' →
      ∀ e ∈ l', e ∈ l ∨ e.native = true := by
  intro fuel
  induction fuel with
  | zero => intro p level ib l l' h; simp [add_package] at h
  | succ fuel ih =>
    intro p level ib l l' h e he
    simp only [add_package, ite_self] at h
    split at h
    · simp only [Option.some.injEq] at h
      subst h
      exact Or.inl he
    · unfold add_dependencies_with at h
      cases hmain : add_each (add_package w fuel) level ib true (w p).main_dependencies
          (l ++ [⟨p, true, level⟩]) with
      | none => simp [hmain] at h
      | some l1 =>
        simp only [hmain] at h
        have hm := add_each_native _ ih level ib _ _ _ hmain
        have hl1 : ∀ e ∈ l1, e ∈ l ∨ e.native = true := by
          intro e he
          rcases hm e he with h0 | hn
          · rcases List.mem_append.mp h0 with h0 | h0
            · exact Or.inl h0
            · simp only [List.mem_singleton] at h0
              subst h0
              exact Or.inr rfl
          · exact Or.inr hn
        split at h
        · rcases add_each_native _ ih level true _ _ _ h e he with h1 | hn
          · exact hl1 e h1
          · exact Or.inr hn
        · simp only [Option.some.injEq] at h
          subst h
          exact hl1 e he

/-- The collected list holds, as a host entry, every package reached along
followed edges from a host entry. -/
theorem collect_followed_closed (w : World) (fuel : Nat) (root : PkgId) (opts : BuildOptions)
    (pre : List Ent) (h : BuildList.collect w fuel root opts = some pre) (p q : PkgId)
    (hp : ∃ e ∈ pre, e.package = p ∧ e.native = true)
    (hpq : Relation.ReflTransGen (FollowedEdge w (!opts.build_script_overrides.isSome)) p q) :
    ∃ e ∈ pre, e.package = q ∧ e.native = true := by
  induction hpq with
  | refl => exact hp
  | tail _ hbc ih =>
    obtain ⟨e, he, hpe, hne⟩ := ih
    rcases hbc with ⟨dep, hd, hdis, hq⟩ | ⟨hs, hib, dep, hd, hdis, hq⟩
    · rw [← hpe] at hd
      obtain ⟨e', he', hp', hn', _⟩ := collect_closed w fuel root opts pre h e he dep hd hdis
      exact ⟨e', he', by rw [hp', hq], by rw [hn', hne]; rfl⟩
    · rw [← hpe] at hd hs
      obtain ⟨e', he', hp', hn', _⟩ :=
        (collect_bclosed w fuel root opts pre h).1 e he hs hib dep hd hdis
      exact ⟨e', he', by rw [hp', hq], hn'⟩

/-- C32: the graph builder follows build-dependency edges only of packages
with a build script and only when build-script overrides are not configured:
the list it collects is the one it collects when all other build-dependencies
are removed from the manifests. The pass of `add_dependencies` over the
build-dependencies of a package appends host entries only, whatever it comes
to. And when no overrides are configured, for every package with a build
script that is the root or is listed, every package reached from one of its
non-disabled build-dependencies along followed edges is listed as a host
unit. -/
theorem build_dependencies_host (w : World) (root : PkgId) (opts : BuildOptions) :
    (∀ fuel, BuildList.collect w fuel root opts =
      BuildList.collect (without_build_deps w (!opts.build_script_overrides.isSome)) fuel
        root opts) ∧
    (∀ fuel p level l l',
      add_each (add_package w fuel) level true true (w p).build_dependencies l = some l' →
        ∀ e ∈ l', e ∈ l ∨ e.native = true) ∧
    (∀ final, BuildList.produces w root opts final →
      opts.build_script_overrides = none →
      ∀ p, p = root ∨ appears final p → (w p).build_script ≠ "" →
      ∀ d, BuildEdge w p d → ∀ r, Relation.ReflTransGen (FollowedEdge w true) d r →
        (⟨r, true⟩ : GraphEntry) ∈ final) := by
  refine ⟨fun fuel => (collect_without w fuel root opts).symm, ?_, ?_⟩
  · intro fuel p level l l' h
    exact add_each_native _ (add_package_native w fuel) level true _ l l' h
  · rintro final ⟨fuel, pre, sorted, hpre, hsort, rfl⟩ hov p hp hs d ⟨dep, hd, hdis, hq⟩ r hr
    have hib : (!opts.build_script_overrides.isSome) = true := by simp [hov]
    have hd' : ∃ e ∈ pre, e.package = d ∧ e.native = true := by
      rcases hp with rfl | ⟨is_host, hmem⟩
      · obtain ⟨e', he', r1, r2⟩ := (collect_bclosed w fuel p opts pre hpre).2 hs
          (by simp [hov]) dep hd hdis
        exact ⟨e', he', by rw [r1, hq], r2⟩
      · obtain ⟨e, he, hk⟩ := (final_mem_iff pre sorted hsort _).mp hmem
        have hpk : e.package = p := congrArg GraphEntry.package hk
        rw [← hpk] at hs hd
        obtain ⟨e', he', r1, r2, _⟩ :=
          (collect_bclosed w fuel root opts pre hpre).1 e he hs hib dep hd hdis
        exact ⟨e', he', by rw [r1, hq], r2⟩
    rw [← hib] at hr
    obtain ⟨e, he, h1, h2⟩ := collect_followed_closed w fuel root opts pre hpre d r hd' hr
    exact (final_mem_iff pre sorted hsort _).mpr ⟨e, he, by simp [Ent.key, h1, h2]⟩

/-- Witness of C32 on the scenario `A` (build script, main dependency `B`,
build-dependency `C`) built for the target `t`: `C` is listed as a host unit,
`B` and `A` as target units, and the pass over the build-dependencies of `A`
appends the host entry of `C` only. -/
theorem build_dependencies_host_witness :
    BuildList.new scenario_world 2 0 cross_opts =
      some [⟨1, false⟩, ⟨2, true⟩, ⟨0, false⟩] ∧
    (⟨2, true⟩ : GraphEntry) ∈ [(⟨1, false⟩ : GraphEntry), ⟨2, true⟩, ⟨0, false⟩] ∧
    (∀ e ∈ [(⟨2, true, 1⟩ : Ent)], e ∈ ([] : List Ent) ∨ e.native = true) :=
  ⟨by decide,
    (build_dependencies_host scenario_world 0 cross_opts).2.2 _
      (new_produces scenario_world 2 0 cross_opts _ (by decide)) rfl 0 (Or.inl rfl)
      (by decide) 2 ⟨dep_on "C" 2, by decide, rfl, rfl⟩ 2 Relation.ReflTransGen.refl,
    (build_dependencies_host scenario_world 0 cross_opts).2.1 1 0 0 [] [⟨2, true, 1⟩]
      (by decide)⟩
/-! ## Lemmas on the order of the final list -/

theorem precedes_snoc {req : GraphEntry → GraphEntry → Prop} {l : List GraphEntry}
    (hl : Precedes req l) (x : GraphEntry) (hx : ∀ g, req x g → g ∈ l) :
    Precedes req (l ++ [x]) := by
  intro A y B hAB g hg
  rcases List.eq_nil_or_concat B with rfl | ⟨B', z, rfl⟩
  · have h1 : l ++ [x] = A ++ [y] := hAB
    obtain ⟨h2, h3⟩ := List.append_inj' h1 rfl
    simp only [List.cons.injEq, and_true] at h3
    subst h2 h3
    exact hx g hg
  · have h1 : l ++ [x] = (A ++ y :: B') ++ [z] := by
      rw [hAB]; simp [List.concat_eq_append]
    obtain ⟨h2, _⟩ := List.append_inj' h1 rfl
    exact hl A y B' h2 g hg

/-- The deduplication of a list sorted by descending level, in which every
entry has what it requires at a greater level, leaves every entry behind what
it requires. -/
theorem dedup_loop_precedes (req : GraphEntry → GraphEntry → Prop) : ∀ rest kept done,
    (∀ x ∈ done, x.key ∈ to_graph kept) → Precedes req (to_graph kept) →
    (done ++ rest).Pairwise (fun a b => b.level ≤ a.level) →
    (∀ e ∈ rest, ∀ g, req e.key g → ∃ e' ∈ done ++ rest, e'.key = g ∧ e.level < e'.level) →
    Precedes req (to_graph (dedup_loop kept rest)) := by
  intro rest
  induction rest with
  | nil => intro kept done _ h _ _; exact h
  | cons e r ih =>
    intro kept done hdone hprec hsorted hdeps
    have hassoc : done ++ e :: r = (done ++ [e]) ++ r := by simp
    simp only [dedup_loop]
    split
    · rename_i hany
      apply ih kept (done ++ [e])
      · intro x hx
        rcases List.mem_append.mp hx with hx | hx
        · exact hdone x hx
        · simp only [List.mem_singleton] at hx
          subst hx
          exact (any_key_iff kept x).mp hany
      · exact hprec
      · rw [← hassoc]; exact hsorted
      · intro e' he'
        rw [← hassoc]
        exact hdeps e' (List.mem_cons_of_mem _ he')
    · apply ih (kept ++ [e]) (done ++ [e])
      · intro x hx
        rw [to_graph_eq_map_key, List.map_append]
        rcases List.mem_append.mp hx with hx | hx
        · exact List.mem_append_left _ (hdone x hx)
        · simp only [List.mem_singleton] at hx
          subst hx
          exact List.mem_append_right _ (by simp)
      · rw [to_graph_eq_map_key, List.map_append]
        apply precedes_snoc hprec
        intro g hg
        obtain ⟨e', he', r1, r3⟩ := hdeps e (List.mem_cons_self _ _) g hg
        have hin : e' ∈ done := by
          rcases List.mem_append.mp he' with h | h
          · exact h
          · rw [List.pairwise_append, List.pairwise_cons] at hsorted
            rcases List.mem_cons.mp h with rfl | h
            · omega
            · have := hsorted.2.1.1 e' h
              omega
        have := hdone e' hin
        rw [r1] at this
        exact this
      · rw [← hassoc]; exact hsorted
      · intro e' he'
        rw [← hassoc]
        exact hdeps e' (List.mem_cons_of_mem _ he')

/-- Every list of the constructor is in topological order of the main
dependencies. -/
theorem produces_topological (w : World) (root : PkgId) (opts : BuildOptions)
    (final : List GraphEntry) (h : BuildList.produces w root opts final) :
    Topological w final := by
  obtain ⟨fuel, pre, sorted, hpre, ⟨hperm, hsorted⟩, rfl⟩ := h
  apply dedup_loop_topological w sorted [] []
  · intro x hx; simp at hx
  · intro A x B h; simp [to_graph] at h
  · simpa using hsorted
  · intro e he
    have he' : e ∈ pre := hperm.mem_iff.mp he
    intro dep hd hdis
    obtain ⟨e', h1, h2⟩ := collect_closed w fuel root opts pre hpre e he' dep hd hdis
    exact ⟨e', by simpa using hperm.mem_iff.mpr h1, h2⟩

/-- When no overrides are configured, every entry of a list of the constructor
whose package has a build script is preceded by the host entries of its
non-disabled build-dependencies. -/
theorem produces_build_order (w : World) (root : PkgId) (opts : BuildOptions)
    (final : List GraphEntry) (h : BuildList.produces w root opts final)
    (hov : opts.build_script_overrides = none) : Precedes (build_requires w) final := by
  obtain ⟨fuel, pre, sorted, hpre, ⟨hperm, hsorted⟩, rfl⟩ := h
  apply dedup_loop_precedes (build_requires w) sorted [] []
  · intro x hx; simp at hx
  · intro A x B h; simp [to_graph] at h
  · simpa using hsorted
  · rintro e he g ⟨hs, dep, hd, hdis, rfl⟩
    have he' : e ∈ pre := hperm.mem_iff.mp he
    obtain ⟨e', h1, h2, h3, h4⟩ := (collect_bclosed w fuel root opts pre hpre).1 e he' hs
      (by simp [hov]) dep hd hdis
    exact ⟨e', by simpa using hperm.mem_iff.mpr h1, by simp [Ent.key, h2, h3], h4⟩
/-! ## Extern wiring of main dependencies -/

/-- When the loop over the main dependencies returns, the library and the
crate path of every non-disabled dependency have been found, and the pair
`--extern <alias>=<path>` of the dependency is among the arguments. -/
theorem push_main_externs_infix (rs : RunState) (sys : Sys) (w : World) (is_host : Bool) :
    ∀ (deps : List PackageRef) (args args' : List String),
    push_main_externs rs sys w is_host deps args = Except.ok args' →
    ∀ dep ∈ deps, dep.is_disabled = false →
      ∃ lib cp, (w dep.get_package).get_library = Except.ok lib ∧
        rs.get_crate_path sys (w dep.get_package) lib
          (is_host || (w dep.get_package).is_proc_lib) = Except.ok cp ∧
        ["--extern", main_alias w dep lib ++ "=" ++ cp.outfile] <:+: args' := by
  intro deps
  induction deps with
  | nil => intro args args' _ dep hd; simp at hd
  | cons d rest ih =>
    intro args args' h dep hd hdis
    rw [push_main_externs] at h
    by_cases hdd : d.is_disabled = true
    · simp only [hdd, Bool.not_true, Bool.false_eq_true, if_false] at h
      rcases List.mem_cons.mp hd with rfl | hd
      · rw [hdd] at hdis; exact absurd hdis (by simp)
      · exact ih _ _ h dep hd hdis
    · have hdd' : d.is_disabled = false := by simpa using hdd
      simp only [hdd', Bool.not_false, if_true] at h
      split at h
      · exact absurd h (by simp)
      · rename_i lib hlib
        split at h
        · exact absurd h (by simp)
        · rename_i cp hcp
          rcases List.mem_cons.mp hd with rfl | hd
          · refine ⟨lib, cp, hlib, hcp, ?_⟩
            have hrest := push_main_externs_ok rs sys w is_host rest _ _ h
            rw [hrest]
            unfold main_alias
            by_cases hk : dep.key = (w dep.get_package).name
            · refine ⟨args, main_extern_args rs sys w is_host rest, ?_⟩
              simp [hk]
            · refine ⟨args, main_extern_args rs sys w is_host rest, ?_⟩
              simp [hk]
          · exact ih _ _ h dep hd hdis

/-- C37: in every list of the constructor, for every entry `(P, is_host)`,
whose job is the `Job_BuildTarget` of the library of `P`, and every
non-disabled main dependency `D` of `P`: when `Job_BuildTarget::start` of the
job of `P` returns, the entry `(D, is_host || D is a proc-macro library)`
precedes the entry of `P`, the job that `build` constructs for that entry has
an output path (`get_outfile`), and the arguments of the started job hold
`--extern <alias>=<that output path>`. -/
theorem main_extern_wiring (w : World) (root : PkgId) (opts : BuildOptions)
    (final : List GraphEntry) (hprod : BuildList.produces w root opts final)
    (rs : RunState) (sys : Sys) (sr : Surroundings) (A B : List GraphEntry) (x : GraphEntry)
    (hsplit : final = A ++ x :: B) (lib : PackageTarget)
    (hlib : (w x.package).get_library = Except.ok lib) (job : RunnableJob)
    (hstart : Job_BuildTarget.start rs sys sr w x.package lib x.is_host = Except.ok job) :
    entry_job rs w x = Except.ok (Job_BuildTarget rs w x.package lib x.is_host) ∧
    ∀ dep ∈ (w x.package).main_dependencies, dep.is_disabled = false →
      ∃ g ∈ A, g = ⟨dep.get_package, x.is_host || (w dep.get_package).is_proc_lib⟩ ∧
        ∃ dlib djob out, (w dep.get_package).get_library = Except.ok dlib ∧
          entry_job rs w g = Except.ok djob ∧
          djob = Job_BuildTarget rs w dep.get_package dlib g.is_host ∧
          Job.get_outfile rs sys w djob = Except.ok out ∧
          ["--extern", main_alias w dep dlib ++ "=" ++ out] <:+: job.args := by
  refine ⟨by unfold entry_job; rw [hlib], ?_⟩
  intro dep hd hdis
  have htopo := produces_topological w root opts final hprod A x B hsplit dep hd hdis
  refine ⟨_, htopo, rfl, ?_⟩
  obtain ⟨cp, a1, a2, a3, _, _, h2, h3, rfl⟩ :=
    build_target_start_inv rs sys sr w x.package lib x.is_host job hstart
  obtain ⟨dlib, dcp, hdlib, hdcp, hinfix⟩ :=
    push_main_externs_infix rs sys w x.is_host _ _ _ h2 dep hd hdis
  refine ⟨dlib, Job_BuildTarget rs w dep.get_package dlib
    (x.is_host || (w dep.get_package).is_proc_lib), dcp.outfile, hdlib, ?_, rfl, ?_, ?_⟩
  · unfold entry_job
    dsimp only
    rw [hdlib]
  · unfold Job.get_outfile Job_BuildTarget
    dsimp only
    rw [hdcp]
  · show _ <:+: a3
    by_cases ht : (lib.m_type == TargetType.Test) = true
    · rw [ht] at h3
      simp only [if_true] at h3
      rw [push_dev_externs_ok rs sys w x.is_host _ _ _ h3]
      exact hinfix.trans (List.prefix_append _ _).isInfix
    · simp only [ht, Bool.false_eq_true, if_false, Except.ok.injEq] at h3
      rw [← h3]
      exact hinfix

/-- Witness of C37 on `plugin_dep_world` built for the target `t`: the library
of `app` is a target unit, its proc-macro dependency `pm` is listed before it
as a host unit and `plain` as a target unit; the started job names the plugin
below `out/host` and the library of `plain` below `out`. -/
theorem main_extern_wiring_witness :
    BuildList.new plugin_dep_world 2 0 cross_opts =
      some [⟨1, true⟩, ⟨2, false⟩, ⟨0, false⟩] ∧
    ["--extern", "pm_lib=out/host/libpm_lib-0_1_0-plugin"] <:+: plugin_dep_job.args ∧
    (entry_job cross_rs plugin_dep_world ⟨0, false⟩ =
        Except.ok (Job_BuildTarget cross_rs plugin_dep_world 0 (lib_target "app_lib" false)
          false) ∧
      ∀ dep ∈ (plugin_dep_world 0).main_dependencies, dep.is_disabled = false →
        ∃ g ∈ [(⟨1, true⟩ : GraphEntry), ⟨2, false⟩],
          g = ⟨dep.get_package, false || (plugin_dep_world dep.get_package).is_proc_lib⟩ ∧
          ∃ dlib djob out, (plugin_dep_world dep.get_package).get_library = Except.ok dlib ∧
            entry_job cross_rs plugin_dep_world g = Except.ok djob ∧
            djob = Job_BuildTarget cross_rs plugin_dep_world dep.get_package dlib g.is_host ∧
            Job.get_outfile cross_rs empty_sys plugin_dep_world djob = Except.ok out ∧
            ["--extern", main_alias plugin_dep_world dep dlib ++ "=" ++ out] <:+:
              plugin_dep_job.args) :=
  ⟨by decide, by decide,
    main_extern_wiring plugin_dep_world 0 cross_opts _
      (new_produces plugin_dep_world 2 0 cross_opts _ (by decide)) cross_rs empty_sys
      plain_surroundings [⟨1, true⟩, ⟨2, false⟩] [] ⟨0, false⟩ rfl (lib_target "app_lib" false)
      (by decide) plugin_dep_job (by decide)⟩
/-! ## The planner finds every key it looks up -/

theorem Safe.ne {α : Type} {P : α → Prop} {r : Except BuildError α} (h : Safe P r) :
    r ≠ Except.error BuildError.assertion_failed := by
  intro hr
  rw [hr] at h
  exact h rfl

theorem read_lines_safe : ∀ (fuel : Nat) (lx : Lexer) (rv : DepMap) (r : Except BuildError DepMap),
    read_lines fuel lx rv = some r → Safe (fun _ => True) r := by
  intro fuel
  induction fuel with
  | zero => intro lx rv r h; simp [read_lines] at h
  | succ fuel ih =>
    intro lx rv r h
    simp only [read_lines] at h
    split at h
    · simp only [Option.some.injEq] at h
      subst h
      trivial
    · split at h
      · exact ih _ _ _ h
      · split at h
        · simp only [Option.some.injEq] at h
          subst h
          exact fun h => BuildError.noConfusion h
        · split at h
          · exact absurd h (by simp)
          · exact ih _ _ _ h

theorem load_depfile_safe (sys : Sys) (f : String) : Safe (fun _ => True) (load_depfile sys f) := by
  unfold load_depfile
  split
  · trivial
  · unfold parse_depfile
    split
    · rename_i r hr
      exact read_lines_safe _ _ _ r hr
    · exact fun h => BuildError.noConfusion h

theorem outfile_needs_rebuild_safe (rs : RunState) (sys : Sys) (f : String) :
    Safe (fun _ => True) (rs.outfile_needs_rebuild sys f) := by
  unfold RunState.outfile_needs_rebuild
  dsimp only
  split
  · trivial
  · split
    · trivial
    · split
      · rename_i e he
        have := load_depfile_safe sys (f ++ ".d")
        rw [he] at this
        exact this
      · split <;> trivial

theorem get_crate_path_safe (rs : RunState) (sys : Sys) (m : PackageManifest)
    (t : PackageTarget) (h : Bool) : Safe (fun _ => True) (rs.get_crate_path sys m t h) := by
  unfold RunState.get_crate_path
  dsimp only
  split
  · split
    · trivial
    · split <;> trivial
    · trivial
    · exact fun h => BuildError.noConfusion h
  · trivial
  · trivial
  · exact fun h => BuildError.noConfusion h

theorem get_library_safe (m : PackageManifest) : Safe (fun _ => True) m.get_library := by
  unfold PackageManifest.get_library
  split
  · trivial
  · exact fun h => BuildError.noConfusion h

theorem handle_dep_safe (st : ConvertState) (jd : List String) (ts : Timestamp) (k : String)
    (hk : st.registered k) : ∃ r, st.handle_dep jd ts k = Except.ok r := by
  unfold ConvertState.handle_dep
  split
  · exact ⟨_, rfl⟩
  · rename_i hc
    rcases hk with hk | hk
    · exact absurd (by simpa using hk) hc
    · cases hf : find_notbuilt st.items_notbuilt k with
      | none => rw [hf] at hk; exact absurd hk (by simp)
      | some t => exact ⟨_, rfl⟩

theorem handle_deps_safe (rs : RunState) (w : World) (st : ConvertState) (ts : Timestamp)
    (is_host : Bool) : ∀ (deps : List PackageRef) (dirty : Bool) (jd : List String),
    (∀ dep ∈ deps, dep.is_disabled = false →
      st.registered (rs.get_key (w dep.get_package) false is_host)) →
    ∃ r, handle_deps rs w st ts is_host deps dirty jd = Except.ok r := by
  intro deps
  induction deps with
  | nil => intro dirty jd _; exact ⟨_, rfl⟩
  | cons dep rest ih =>
    intro dirty jd hreg
    simp only [handle_deps]
    have hrest := fun d hd => hreg d (List.mem_cons_of_mem _ hd)
    by_cases hdis : dep.is_disabled = true
    · simp only [hdis, if_true]
      exact ih _ _ hrest
    · have hdis' : dep.is_disabled = false := by simpa using hdis
      simp only [hdis', Bool.false_eq_true, if_false]
      obtain ⟨r, hr⟩ := handle_dep_safe st jd ts _ (hreg dep (List.mem_cons_self _ _) hdis')
      rw [hr]
      exact ih _ _ hrest

theorem add_job_registered (st : ConvertState) (job : Job) (ts : Timestamp) (b : Bool) :
    (st.add_job job ts b).registered job.name ∧
    ∀ k, st.registered k → (st.add_job job ts b).registered k := by
  cases b with
  | true =>
    obtain ⟨_, h2, _, _, h5, h6⟩ := add_job_needed st job ts
    refine ⟨Or.inl h5, ?_⟩
    rintro k (hk | hk)
    · exact Or.inl (h6 k hk)
    · exact Or.inr (by rw [h2]; exact hk)
  | false =>
    obtain ⟨_, h2, _, _, ⟨t, h5⟩, _⟩ := add_job_clean st job ts
    refine ⟨Or.inr (by rw [h5]; rfl), ?_⟩
    rintro k (hk | hk)
    · exact Or.inl (by rw [h2]; exact hk)
    · right
      have hnb : (st.add_job job ts false).items_notbuilt =
          (if (find_notbuilt st.items_notbuilt job.name).isSome then st.items_notbuilt
            else st.items_notbuilt ++ [(job.name, ts)]) := rfl
      rw [hnb]
      split
      · exact hk
      · rw [find_notbuilt_append]
        cases hf : find_notbuilt st.items_notbuilt k with
        | none => rw [hf] at hk; exact absurd hk (by simp)
        | some t => rfl

theorem plan_script_build_safe (st : ConvertState) (rs : RunState) (sys : Sys) (w : World)
    (p : PkgId)
    (hbuild : ∀ dep ∈ (w p).build_dependencies, dep.is_disabled = false →
      st.registered (rs.get_key (w dep.get_package) false true)) :
    Safe (fun r => r.2.registered (Job_BuildScript rs w p).name ∧
      ∀ k, st.registered k → r.2.registered k) (st.plan_script_build rs sys w p) := by
  unfold ConvertState.plan_script_build
  dsimp only
  split
  · rename_i e he
    have := outfile_needs_rebuild_safe rs sys (rs.get_build_script_exe (w p))
    rw [he] at this
    exact this
  · rename_i d0 _
    obtain ⟨r, hr⟩ := handle_deps_safe rs w st (sys.for_file (rs.get_build_script_exe (w p)))
      true (w p).build_dependencies d0 [] hbuild
    rw [hr]
    exact add_job_registered st _ _ _

theorem load_build_script_registered (st : ConvertState) (p : PkgId) (f k : String) :
    (st.load_build_script p f).registered k ↔ st.registered k := Iff.rfl

theorem plan_script_run_safe (st1 : ConvertState) (rs : RunState) (sys : Sys) (w : World)
    (p : PkgId) (is_host d : Bool) (hname : st1.registered (Job_BuildScript rs w p).name)
    (hmain : ∀ dep ∈ (w p).main_dependencies, dep.is_disabled = false →
      st1.registered (rs.get_key (w dep.get_package) false is_host)) :
    Safe (fun r => ∀ k, st1.registered k → r.state.registered k)
      (st1.plan_script_run rs sys w p is_host d) := by
  unfold ConvertState.plan_script_run
  dsimp only
  obtain ⟨r0, hr0⟩ := handle_dep_safe st1 [] (sys.for_file (Job_RunScript.get_outfile rs (w p)))
    _ hname
  rw [hr0]
  dsimp only
  obtain ⟨r1, hr1⟩ := handle_deps_safe rs w st1
    (sys.for_file (Job_RunScript.get_outfile rs (w p))) is_host (w p).main_dependencies d r0.2
    hmain
  rw [hr1]
  dsimp only
  intro k hk
  generalize (r1.1 || (sys.for_file (Job_RunScript.get_outfile rs (w p))).lt
    (sys.for_file (rs.get_build_script_exe (w p)))) = b
  cases b
  · exact (add_job_registered st1 _ _ _).2 k hk
  · exact (add_job_registered st1 { Job_RunScript rs w p with m_dependencies := r1.2 }
      (sys.for_file (Job_RunScript.get_outfile rs (w p))) true).2 k hk

theorem handle_build_script_safe (st : ConvertState) (rs : RunState) (sys : Sys) (w : World)
    (p : PkgId) (ov : Option String) (is_host : Bool)
    (hbuild : (w p).build_script ≠ "" → ov = none →
      ∀ dep ∈ (w p).build_dependencies, dep.is_disabled = false →
        st.registered (rs.get_key (w dep.get_package) false true))
    (hmain : ∀ dep ∈ (w p).main_dependencies, dep.is_disabled = false →
      st.registered (rs.get_key (w dep.get_package) false is_host)) :
    Safe (fun r => ∀ k, st.registered k → r.state.registered k)
      (st.handle_build_script rs sys w p ov is_host) := by
  unfold ConvertState.handle_build_script
  split
  · rename_i hs
    have hs' : (w p).build_script ≠ "" := by simpa using hs
    split
    · exact fun k hk => hk
    · have hb := plan_script_build_safe st rs sys w p (hbuild hs' rfl)
      split
      · rename_i e he
        rw [he] at hb
        exact hb
      · rename_i d st1 hst1
        rw [hst1] at hb
        obtain ⟨hb1, hb2⟩ := hb
        dsimp only
        split
        · exact fun k hk => hb2 k hk
        · have hr := plan_script_run_safe st1 rs sys w p is_host d hb1
            (fun dep hd hdis => hb2 _ (hmain dep hd hdis))
          cases hrun : st1.plan_script_run rs sys w p is_host d with
          | error e => rw [hrun] at hr; exact hr
          | ok r => rw [hrun] at hr; exact fun k hk => hr k (hb2 k hk)
  · exact fun k hk => hk
/-! ## The assertion of `handle_dep` -/

theorem get_key_forced (rs : RunState) (m : PackageManifest) (h : Bool) :
    rs.get_key m false (h || m.is_proc_lib) = rs.get_key m false h := by
  unfold RunState.get_key
  cases h <;> cases m.is_proc_lib <;> rfl

/-- The key of the root side of `build` is the key of the constructor's side:
both sides agree on the host flag unless `emit_mmir` is set, and then no key
carries the host mark. -/
theorem get_key_cross (opts : BuildOptions) (compiler : String) (m : PackageManifest) :
    (⟨opts, compiler, opts.target_name.isSome && !opts.emit_mmir⟩ : RunState).get_key m false
        (!(opts.target_name.isSome && !opts.emit_mmir)) =
      (⟨opts, compiler, opts.target_name.isSome && !opts.emit_mmir⟩ : RunState).get_key m false
        (!opts.target_name.isSome) := by
  unfold RunState.get_key
  cases opts.target_name.isSome <;> cases opts.emit_mmir <;> cases m.is_proc_lib <;> rfl

theorem build_entry_safe (rs : RunState) (sys : Sys) (w : World) (opts : BuildOptions)
    (st : ConvertState) (e : GraphEntry)
    (hreq : ∀ g, entry_requires w opts.build_script_overrides e g →
      st.registered (entry_key rs w g)) :
    Safe (fun r => r.2.registered (entry_key rs w e) ∧ ∀ k, st.registered k → r.2.registered k)
      (build_entry rs sys w opts st e) := by
  have hmain : ∀ dep ∈ (w e.package).main_dependencies, dep.is_disabled = false →
      st.registered (rs.get_key (w dep.get_package) false e.is_host) := by
    intro dep hd hdis
    have := hreq _ (Or.inl ⟨dep, hd, hdis, rfl⟩)
    unfold entry_key at this
    rw [get_key_forced] at this
    exact this
  have hbuild : (w e.package).build_script ≠ "" → opts.build_script_overrides = none →
      ∀ dep ∈ (w e.package).build_dependencies, dep.is_disabled = false →
        st.registered (rs.get_key (w dep.get_package) false true) :=
    fun hs hov dep hd hdis => hreq _ (Or.inr ⟨hov, hs, dep, hd, hdis, rfl⟩)
  unfold build_entry
  split
  · rename_i err herr
    have := get_library_safe (w e.package)
    rw [herr] at this
    exact this
  rename_i lib hlib
  dsimp only
  split
  · rename_i err herr
    have := get_crate_path_safe rs sys (w e.package) lib e.is_host
    rw [herr] at this
    exact this
  rename_i cp hcp
  split
  · rename_i err herr
    have := outfile_needs_rebuild_safe rs sys cp.outfile
    rw [herr] at this
    exact this
  rename_i stale hstale
  have hbs := handle_build_script_safe st rs sys w e.package opts.build_script_overrides
    e.is_host hbuild hmain
  split
  · rename_i err herr
    rw [herr] at hbs
    exact hbs
  rename_i bs hbseq
  rw [hbseq] at hbs
  obtain ⟨r, hr⟩ := handle_deps_safe rs w bs.state (sys.for_file cp.outfile) e.is_host
    (w e.package).main_dependencies (if bs.job_name != "" then true else stale)
    (if bs.job_name != "" then [bs.job_name] else [])
    (fun dep hd hdis => hbs _ (hmain dep hd hdis))
  rw [hr]
  exact ⟨(add_job_registered bs.state _ _ _).1,
    fun k hk => (add_job_registered bs.state _ _ _).2 k (hbs k hk)⟩

theorem build_entries_safe (rs : RunState) (sys : Sys) (w : World) (opts : BuildOptions) :
    ∀ (l : List GraphEntry) (st : ConvertState),
    (∀ A x B, l = A ++ x :: B → ∀ g, entry_requires w opts.build_script_overrides x g →
      g ∈ A ∨ st.registered (entry_key rs w g)) →
    Safe (fun st' => (∀ x ∈ l, st'.registered (entry_key rs w x)) ∧
      ∀ k, st.registered k → st'.registered k) (build_entries rs sys w opts st l) := by
  intro l
  induction l with
  | nil => intro st _; exact ⟨by simp, fun k hk => hk⟩
  | cons e rest ih =>
    intro st hreq
    simp only [build_entries]
    have he := build_entry_safe rs sys w opts st e (fun g hg => by
      rcases hreq [] e rest rfl g hg with h | h
      · simp at h
      · exact h)
    split
    · rename_i err herr
      rw [herr] at he
      exact he
    · rename_i tr st1 hst1
      rw [hst1] at he
      obtain ⟨he1, he2⟩ := he
      have hrest := ih st1 (fun A x B hsplit g hg => by
        rcases hreq (e :: A) x B (by rw [hsplit]; rfl) g hg with h | h
        · rcases List.mem_cons.mp h with rfl | h
          · exact Or.inr he1
          · exact Or.inl h
        · exact Or.inr (he2 _ h))
      cases hb : build_entries rs sys w opts st1 rest with
      | error err => rw [hb] at hrest; exact hrest
      | ok st' =>
        rw [hb] at hrest
        obtain ⟨h1, h2⟩ := hrest
        refine ⟨?_, fun k hk => h2 k (he2 k hk)⟩
        intro x hx
        rcases List.mem_cons.mp hx with rfl | hx
        · exact h2 _ he1
        · exact h1 x hx

theorem push_root_target_safe (rs : RunState) (sys : Sys) (w : World) (root : PkgId)
    (cross : Bool) (st : ConvertState) (target : PackageTarget)
    (hlib : (w root).has_library = true → st.registered (rs.get_key (w root) false (!cross)))
    (hmain : (w root).has_library = false →
      ∀ dep ∈ (w root).main_dependencies, dep.is_disabled = false →
        st.registered (rs.get_key (w dep.get_package) false (!cross))) :
    Safe (fun st' => ∀ k, st.registered k → st'.registered k)
      (push_root_target rs sys w root cross st target) := by
  unfold push_root_target
  dsimp only
  split
  · rename_i err herr
    have := get_crate_path_safe rs sys (w root) target (!cross)
    rw [herr] at this
    exact this
  rename_i cp _
  split
  · rename_i err herr
    have := outfile_needs_rebuild_safe rs sys cp.outfile
    rw [herr] at this
    exact this
  rename_i stale hstale
  split
  · rename_i err herr
    exfalso
    by_cases hl : (w root).has_library = true
    · rw [if_pos hl] at herr
      obtain ⟨r, hr⟩ := handle_dep_safe st [] (sys.for_file cp.outfile) _ (hlib hl)
      rw [hr] at herr
      exact absurd herr (by simp)
    · rw [if_neg hl] at herr
      obtain ⟨r, hr⟩ := handle_deps_safe rs w st (sys.for_file cp.outfile) (!cross)
        (w root).main_dependencies stale [] (hmain (by simpa using hl))
      rw [hr] at herr
      exact absurd herr (by simp)
  · exact fun k hk => (add_job_registered st _ _ _).2 k hk

theorem push_root_targets_safe (rs : RunState) (sys : Sys) (w : World) (root : PkgId)
    (cross : Bool) : ∀ (targets : List PackageTarget) (st : ConvertState),
    ((w root).has_library = true → st.registered (rs.get_key (w root) false (!cross))) →
    ((w root).has_library = false →
      ∀ dep ∈ (w root).main_dependencies, dep.is_disabled = false →
        st.registered (rs.get_key (w dep.get_package) false (!cross))) →
    Safe (fun _ => True) (push_root_targets rs sys w root cross st targets) := by
  intro targets
  induction targets with
  | nil => intro st _ _; trivial
  | cons t rest ih =>
    intro st hlib hmain
    simp only [push_root_targets]
    have h1 := push_root_target_safe rs sys w root cross st t hlib hmain
    split
    · rename_i err herr
      rw [herr] at h1
      exact h1
    · rename_i st1 hst1
      rw [hst1] at h1
      exact ih st1 (fun hl => h1 _ (hlib hl))
        (fun hl dep hd hdis => h1 _ (hmain hl dep hd hdis))

/-- What the constructor has collected for the root: the entry of each
non-disabled main dependency under the host flag of the build (forced for a
proc-macro library). -/
theorem collect_root_main (w : World) (fuel : Nat) (root : PkgId) (opts : BuildOptions)
    (pre : List Ent) (h : BuildList.collect w fuel root opts = some pre) :
    ∀ dep ∈ (w root).main_dependencies, dep.is_disabled = false →
      ∃ e ∈ pre, e.package = dep.get_package ∧
        e.native = (!opts.target_name.isSome || (w dep.get_package).is_proc_lib) := by
  unfold BuildList.collect at h
  dsimp only at h
  cases hroot : add_dependencies w fuel root 0 (!opts.build_script_overrides.isSome)
      (!opts.target_name.isSome) [] with
  | none => rw [hroot] at h; exact absurd h (by simp)
  | some l1 =>
    rw [hroot] at h
    dsimp only at h
    obtain ⟨_, _, _, _, e4⟩ := add_dependencies_ok w _ _ _ _ _ _ _ hroot
    have hsub : ∀ e ∈ l1, e ∈ pre := by
      intro e he
      have h2 : e ∈ (if (w root).has_library then
          l1 ++ [(⟨root, !opts.target_name.isSome, 0⟩ : Ent)] else l1) := by
        split
        · exact List.mem_append_left _ he
        · exact he
      split at h
      · obtain ⟨ext, x1, _, _, _⟩ := add_each_ok w _ (add_package_ok w fuel) _ _ _ _ _ _ h
        rw [x1]
        exact List.mem_append_left _ h2
      · simp only [Option.some.injEq] at h
        rw [← h]
        exact h2
    intro dep hd hdis
    obtain ⟨e, he, r1, r2, _⟩ := e4 dep hd hdis
    exact ⟨e, hsub e he, r1, r2⟩

/-- For every list of the constructor, `build` with the same options does not
reach the `abort()` of `handle_dep`. -/
theorem build_safe (sys : Sys) (w : World) (root : PkgId) (opts : BuildOptions)
    (final : List GraphEntry) (hprod : BuildList.produces w root opts final) :
    Safe (fun _ => True) (BuildList.build sys w root final opts) := by
  have htopo := produces_topological w root opts final hprod
  have hborder : opts.build_script_overrides = none → Precedes (build_requires w) final :=
    produces_build_order w root opts final hprod
  obtain ⟨fuel, pre, sorted, hpre, hsort, hfinal⟩ := hprod
  have hmem : ∀ g, g ∈ final ↔ ∃ e ∈ pre, e.key = g := by
    intro g; rw [hfinal]; exact final_mem_iff pre sorted hsort g
  unfold BuildList.build
  dsimp only
  have hentries := build_entries_safe
    ⟨opts, sys.mrustc_path, opts.target_name.isSome && !opts.emit_mmir⟩ sys w opts final
    ConvertState.init (fun A x B hsplit g hg => by
      rcases hg with ⟨dep, hd, hdis, rfl⟩ | ⟨hov, hb⟩
      · exact Or.inl (htopo A x B hsplit dep hd hdis)
      · exact Or.inl (hborder hov A x B hsplit g hb))
  split
  · rename_i err herr
    rw [herr] at hentries
    exact hentries
  rename_i st1 hst1
  rw [hst1] at hentries
  obtain ⟨hreg, _⟩ := hentries
  -- the keys that the root side of `build` looks up
  have hroot_main : ∀ dep ∈ (w root).main_dependencies, dep.is_disabled = false →
      st1.registered ((⟨opts, sys.mrustc_path,
        opts.target_name.isSome && !opts.emit_mmir⟩ : RunState).get_key (w dep.get_package)
        false (!(opts.target_name.isSome && !opts.emit_mmir))) := by
    intro dep hd hdis
    obtain ⟨e, he, r1, r2⟩ := collect_root_main w fuel root opts pre hpre dep hd hdis
    have := hreg _ ((hmem e.key).mpr ⟨e, he, rfl⟩)
    unfold entry_key at this
    simp only [Ent.key, r1, r2] at this
    rw [get_key_forced] at this
    rw [get_key_cross]
    exact this
  have hroot_lib : (w root).has_library = true →
      st1.registered ((⟨opts, sys.mrustc_path,
        opts.target_name.isSome && !opts.emit_mmir⟩ : RunState).get_key (w root)
        false (!(opts.target_name.isSome && !opts.emit_mmir))) := by
    intro hl
    have he := (collect_root_deps w fuel root opts pre hpre).2.1 hl
    have := hreg _ ((hmem _).mpr ⟨_, he, rfl⟩)
    rw [get_key_cross]
    exact this
  have hroot_build : (w root).build_script ≠ "" → opts.build_script_overrides = none →
      ∀ dep ∈ (w root).build_dependencies, dep.is_disabled = false →
        st1.registered ((⟨opts, sys.mrustc_path,
          opts.target_name.isSome && !opts.emit_mmir⟩ : RunState).get_key (w dep.get_package)
          false true) := by
    intro hs hov dep hd hdis
    obtain ⟨e, he, r1, r2⟩ := (collect_bclosed w fuel root opts pre hpre).2 hs
      (by simp [hov]) dep hd hdis
    have := hreg _ ((hmem e.key).mpr ⟨e, he, rfl⟩)
    unfold entry_key at this
    simp only [Ent.key, r1, r2] at this
    exact this
  have hbs := handle_build_script_safe st1
    ⟨opts, sys.mrustc_path, opts.target_name.isSome && !opts.emit_mmir⟩ sys w root
    opts.build_script_overrides (!(opts.target_name.isSome && !opts.emit_mmir))
    hroot_build hroot_main
  split
  · rename_i err herr
    split at herr
    · split at herr
      · rename_i e he
        rw [he] at hbs
        simp only [Except.error.injEq] at herr
        subst herr
        exact hbs
      · exact absurd herr (by simp)
    · exact absurd herr (by simp)
  rename_i st2 hst2
  have hmono : ∀ k, st1.registered k → st2.registered k := by
    split at hst2
    · split at hst2
      · exact absurd hst2 (by simp)
      · rename_i bs hbseq
        rw [hbseq] at hbs
        simp only [Except.ok.injEq] at hst2
        subst hst2
        exact hbs
    · simp only [Except.ok.injEq] at hst2
      subst hst2
      exact fun k hk => hk
  split
  · exact push_root_targets_safe _ sys w root _ _ st2 (fun hl => hmono _ (hroot_lib hl))
      (fun _ dep hd hdis => hmono _ (hroot_main dep hd hdis))
  · exact push_root_targets_safe _ sys w root _ _ st2 (fun hl => hmono _ (hroot_lib hl))
      (fun _ dep hd hdis => hmono _ (hroot_main dep hd hdis))
  · trivial

theorem scenario_world_acyclic : Acyclic scenario_world scenario_rank := by
  intro p dep hd hdis
  match p with
  | 0 =>
    simp only [scenario_world, simple_manifest, dep_on, List.mem_append, List.mem_singleton] at hd
    rcases hd with rfl | rfl <;> simp [scenario_rank]
  | 1 => simp [scenario_world, simple_manifest] at hd
  | n + 2 => simp [scenario_world, simple_manifest] at hd

/-- C34: when the dependency relation is acyclic the constructor returns a
list, and for every list it can return `build`, called with the same options,
does not reach the `abort()` of `handle_dep`: every key that is looked up (for
the main dependencies of the list entries, the build-dependencies of the build
scripts, the main dependencies of the script runs, and the root library or the
main dependencies of the root for the root targets) is a key of `items_built`
or of `items_notbuilt` at that point. -/
theorem handle_dep_assertion_unreachable (sys : Sys) (w : World) (root : PkgId)
    (opts : BuildOptions) (rank : PkgId → Nat) (hacyc : Acyclic w rank) :
    (∃ fuel final, BuildList.new w fuel root opts = some final ∧
      BuildList.produces w root opts final) ∧
    ∀ final, BuildList.produces w root opts final →
      BuildList.build sys w root final opts ≠ Except.error BuildError.assertion_failed :=
  ⟨new_exists w root opts rank hacyc,
    fun final hprod => (build_safe sys w root opts final hprod).ne⟩

/-- Witness of C34 on the scenario `A` (build script, main dependency `B`,
build-dependency `C`) built for the target `t` with nothing built yet. -/
theorem handle_dep_assertion_unreachable_witness :
    Acyclic scenario_world scenario_rank ∧
    BuildList.new scenario_world 2 0 cross_opts =
      some [⟨1, false⟩, ⟨2, true⟩, ⟨0, false⟩] ∧
    BuildList.build empty_sys scenario_world 0 [⟨1, false⟩, ⟨2, true⟩, ⟨0, false⟩] cross_opts ≠
      Except.error BuildError.assertion_failed :=
  ⟨scenario_world_acyclic, by decide,
    (handle_dep_assertion_unreachable empty_sys scenario_world 0 cross_opts scenario_rank
      scenario_world_acyclic).2 _ (new_produces scenario_world 2 0 cross_opts _ (by decide))⟩
/-! ## Order of execution -/

end Minicargo
